import Mathlib

/-!
# FX30 multi-camera web controller: fleet supervision core

A shallow embedding of `src/simpleCli/app/fx30MultiRecord.cpp`.

* The Sony Camera Remote SDK and the file system are the outside world.  They are
  modelled as one abstract state machine `Env σ`: every call the program makes is a
  function of the current outside state `σ` that returns the reply and the next state.
* Every such call is appended, with its arguments and its reply, to `World.log`, so that
  statements such as "issues exactly one write" or "makes no driver call" are statements
  about the log.
* A `std::string` is a Lean `String`; the scanning functions work on its list of characters.
  The build modelled is the one where `CrString` is `std::string` (not Windows); the
  `__APPLE__` branches are selected by a Boolean `apple`.
* Console output (`std::cout`) is not modelled.
* Counters are natural numbers: the C++ `int`/`uint32_t` counters count loop iterations
  and stay far below `2^31` on any input the program can hold.
* A wait on a `std::future` is modelled by the list of callbacks the driver delivers while
  the caller waits; a wait without timeout on a list that never resolves the promise does
  not return (`none`).
-/

namespace FX30

/-! ## Strings -/

/-- Search `needle` in `s`, whose first character has index `i`; the index of the first match. -/
def findSubAt (needle : List Char) : List Char → Nat → Option Nat
  | [], i => if needle.isPrefixOf [] then some i else none
  | c :: t, i => if needle.isPrefixOf (c :: t) then some i else findSubAt needle t (i + 1)

/-- `std::string::find(needle, pos)`; `none` is `npos`. -/
def strFind (s needle : List Char) (pos : Nat) : Option Nat :=
  if s.length < pos then none else findSubAt needle (s.drop pos) pos

/-- `std::string::find(ch, pos)`; `none` is `npos`. -/
def strFindChar (s : List Char) (ch : Char) (pos : Nat) : Option Nat :=
  strFind s [ch] pos

/-! ## SDK data -/

/-- `SCRSDK::ICrCameraObjectInfo`: the accessors the program reads. -/
structure ObjInfo where
  Model : String
  ConnectionTypeName : String
  MACAddressChar : String
  Id : String
  deriving DecidableEq, Repr

/-- `isFX30Camera`: the model name contains "FX30". -/
def isFX30Camera (objInfo : ObjInfo) : Bool :=
  (strFind objInfo.Model.toList "FX30".toList 0).isSome

/-- `getModelId`: model name followed by the MAC address (IP) or the id, in parentheses. -/
def getModelId (objInfo : ObjInfo) : String :=
  let id := if objInfo.ConnectionTypeName = "IP" then objInfo.MACAddressChar else objInfo.Id
  objInfo.Model ++ " (" ++ id ++ ")"

/-- `SCRSDK::CrSdkControlMode`: the two modes the program opens a connection in. -/
inductive SdkControlMode
  | Remote
  | ContentsTransfer
  deriving DecidableEq, Repr

/-- Warning codes the callback `OnWarning` tells apart; `other` is any other code. -/
inductive Warning
  | Connect_Reconnecting
  | ContentsTransferMode_DeviceBusy
  | ContentsTransferMode_StatusError
  | ContentsTransferMode_CanceledFromCamera
  | other (code : Nat)
  deriving DecidableEq, Repr

/-- Notification codes `OnNotifyContentsTransfer` tells apart. -/
inductive Notify
  | ContentsTransfer_Start
  | ContentsTransfer_Complete
  | other (code : Nat)
  deriving DecidableEq, Repr

/-- A callback of `SCRSDK::IDeviceCallback` delivered by the driver.  `OnOther` stands for
the callbacks whose body is empty or only prints (`OnWarningExt`, `OnCompleteDownload`,
`OnLvPropertyChanged`, `OnPropertyChanged`, ...). -/
inductive Callback
  | OnConnected
  | OnDisconnected (error : Nat)
  | OnError (error : Nat)
  | OnWarning (warning : Warning)
  | OnNotifyContentsTransfer (notify : Notify)
  | OnOther
  deriving DecidableEq, Repr

/-- Reply of `SCRSDK::Connect`: the error code (0 is success), the value left in
`m_device_handle`, and the callbacks delivered while the caller waits for completion. -/
structure ConnectReply where
  err : Nat
  handle : Int
  events : List Callback
  deriving DecidableEq, Repr

/-- One `SCRSDK::CrDeviceProperty`: code, current value (64 bit), current string (UTF-16). -/
structure DevProp where
  code : Nat
  currentValue : Nat
  currentStr : Option (List Nat)
  deriving DecidableEq, Repr

/-- Reply of `GetSelectDeviceProperties`: error code and the property list (`none` is a null
pointer; `nprop` is the length of the list). -/
structure PropReply where
  err : Nat
  props : Option (List DevProp)
  deriving DecidableEq, Repr

/-- Reply of `EnumCameraObjects`: error code and the enumeration (`none` is a null pointer). -/
structure EnumReply where
  err : Nat
  infos : Option (List ObjInfo)
  deriving DecidableEq, Repr

/-- The enumeration when the test `err || !enumInfo` does not fire. -/
def EnumReply.list? (r : EnumReply) : Option (List ObjInfo) :=
  if r.err ≠ 0 then none else r.infos

/-- Reply of `GetDateFolderList` / `GetContentsHandleList`: error code and the handles
(`none` is a null pointer; the count is the length). -/
structure HandleListReply where
  err : Nat
  handles : Option (List Nat)
  deriving DecidableEq, Repr

/-- Reply of `GetContentsDetailInfo`: error code and `info.fileName`. -/
structure DetailReply where
  err : Nat
  fileName : String
  deriving DecidableEq, Repr

/-- Reply of `PullContentsFile`: error code and the callbacks delivered during the
five-minute wait that follows. -/
structure PullReply where
  err : Nat
  events : List Callback
  deriving DecidableEq, Repr

/-- The command ids the program sends with `SCRSDK::SendCommand`. -/
inductive CommandId
  | MovieRecord
  deriving DecidableEq, Repr

/-- `SCRSDK::CrCommandParam`: the two parameters the program sends. -/
inductive CommandParam
  | Down
  | Up
  deriving DecidableEq, Repr

/-- The control codes the program executes with `SCRSDK::ExecuteControlCodeValue`. -/
inductive ControlCode
  | SelectedMediaFormat
  deriving DecidableEq, Repr

/-- The `CrMediaFormat_*` values the program passes. -/
inductive MediaFormat
  | QuickFormatSlot1
  | QuickFormatSlot2
  deriving DecidableEq, Repr

/-! ## The outside world -/

/-- The driver and the file system, as functions of an abstract outside state. -/
structure Env (σ : Type) where
  Connect : σ → ObjInfo → Int → SdkControlMode → ConnectReply × σ
  ReleaseDevice : σ → Int → σ
  Disconnect : σ → Int → List Callback × σ
  resetUSBDevice : σ → σ
  sleep : σ → Nat → σ
  EnumCameraObjects : σ → EnumReply × σ
  EnumRelease : σ → σ
  GetSelectDeviceProperties : σ → Int → List Nat → PropReply × σ
  ReleaseDeviceProperties : σ → Int → σ
  SetDeviceProperty : σ → Int → DevProp → Nat × σ
  SetSaveInfo : σ → Int → String → Nat × σ
  GetDateFolderList : σ → Int → HandleListReply × σ
  GetContentsHandleList : σ → Int → Nat → HandleListReply × σ
  GetContentsDetailInfo : σ → Int → Nat → DetailReply × σ
  PullContentsFile : σ → Int → Nat → PullReply × σ
  ReleaseContentsHandleList : σ → Int → σ
  ReleaseDateFolderList : σ → Int → σ
  fsExists : σ → String → Bool
  fsCreateDirectories : σ → String → Option String × σ
  fsReadFile : σ → String → Option String
  SendCommand : σ → Int → CommandId → CommandParam → Nat × σ
  ExecuteControlCodeValue : σ → Int → ControlCode → MediaFormat → Nat × σ
  fsWriteFile : σ → String → String → Bool × σ

/-- One logged call, with its arguments and its reply. -/
inductive Ev
  | Connect (info : ObjInfo) (mode : SdkControlMode) (reply : ConnectReply)
  | ReleaseDevice (h : Int)
  | Disconnect (h : Int)
  | resetUSBDevice
  | sleep (ms : Nat)
  | EnumCameraObjects (reply : EnumReply)
  | EnumRelease
  | GetSelectDeviceProperties (h : Int) (codes : List Nat) (reply : PropReply)
  | ReleaseDeviceProperties (h : Int)
  | SetDeviceProperty (h : Int) (prop : DevProp) (err : Nat)
  | SetSaveInfo (h : Int) (path : String) (err : Nat)
  | GetDateFolderList (h : Int) (reply : HandleListReply)
  | GetContentsHandleList (h : Int) (folder : Nat) (reply : HandleListReply)
  | GetContentsDetailInfo (h : Int) (content : Nat) (reply : DetailReply)
  | PullContentsFile (h : Int) (content : Nat) (reply : PullReply)
  | ReleaseContentsHandleList (h : Int)
  | ReleaseDateFolderList (h : Int)
  | fsExists (path : String) (found : Bool)
  | fsCreateDirectories (path : String) (error : Option String)
  | fsReadFile (path : String) (content : Option String)
  | SendCommand (h : Int) (id : CommandId) (param : CommandParam) (err : Nat)
  | ExecuteControlCodeValue (h : Int) (code : ControlCode) (value : MediaFormat) (err : Nat)
  | fsWriteFile (path : String) (text : String) (opened : Bool)
  deriving DecidableEq, Repr

/-- Calls into the camera SDK (as opposed to the file system, the USB reset and sleeping). -/
def Ev.isDriverCall : Ev → Bool
  | .resetUSBDevice => false
  | .sleep _ => false
  | .fsExists _ _ => false
  | .fsCreateDirectories _ _ => false
  | .fsReadFile _ _ => false
  | .fsWriteFile _ _ _ => false
  | _ => true

/-- The outside state together with the log of the calls made so far. -/
structure World (σ : Type) where
  s : σ
  log : List Ev

/-- Append one call to the log and move to the next outside state. -/
def World.step {σ : Type} (w : World σ) (s : σ) (ev : Ev) : World σ :=
  ⟨s, w.log ++ [ev]⟩

/-! ### The calls, logged -/

namespace SCRSDK

variable {σ : Type}

def Connect (E : Env σ) (info : ObjInfo) (h : Int) (mode : SdkControlMode) (w : World σ) :
    ConnectReply × World σ :=
  let r := E.Connect w.s info h mode
  (r.1, w.step r.2 (Ev.Connect info mode r.1))

def ReleaseDevice (E : Env σ) (h : Int) (w : World σ) : World σ :=
  w.step (E.ReleaseDevice w.s h) (Ev.ReleaseDevice h)

def Disconnect (E : Env σ) (h : Int) (w : World σ) : List Callback × World σ :=
  let r := E.Disconnect w.s h
  (r.1, w.step r.2 (Ev.Disconnect h))

def EnumCameraObjects (E : Env σ) (w : World σ) : EnumReply × World σ :=
  let r := E.EnumCameraObjects w.s
  (r.1, w.step r.2 (Ev.EnumCameraObjects r.1))

def EnumRelease (E : Env σ) (w : World σ) : World σ :=
  w.step (E.EnumRelease w.s) Ev.EnumRelease

def GetSelectDeviceProperties (E : Env σ) (h : Int) (codes : List Nat) (w : World σ) :
    PropReply × World σ :=
  let r := E.GetSelectDeviceProperties w.s h codes
  (r.1, w.step r.2 (Ev.GetSelectDeviceProperties h codes r.1))

def ReleaseDeviceProperties (E : Env σ) (h : Int) (w : World σ) : World σ :=
  w.step (E.ReleaseDeviceProperties w.s h) (Ev.ReleaseDeviceProperties h)

def SetDeviceProperty (E : Env σ) (h : Int) (prop : DevProp) (w : World σ) : Nat × World σ :=
  let r := E.SetDeviceProperty w.s h prop
  (r.1, w.step r.2 (Ev.SetDeviceProperty h prop r.1))

def SetSaveInfo (E : Env σ) (h : Int) (path : String) (w : World σ) : Nat × World σ :=
  let r := E.SetSaveInfo w.s h path
  (r.1, w.step r.2 (Ev.SetSaveInfo h path r.1))

def GetDateFolderList (E : Env σ) (h : Int) (w : World σ) : HandleListReply × World σ :=
  let r := E.GetDateFolderList w.s h
  (r.1, w.step r.2 (Ev.GetDateFolderList h r.1))

def GetContentsHandleList (E : Env σ) (h : Int) (folder : Nat) (w : World σ) :
    HandleListReply × World σ :=
  let r := E.GetContentsHandleList w.s h folder
  (r.1, w.step r.2 (Ev.GetContentsHandleList h folder r.1))

def GetContentsDetailInfo (E : Env σ) (h : Int) (content : Nat) (w : World σ) :
    DetailReply × World σ :=
  let r := E.GetContentsDetailInfo w.s h content
  (r.1, w.step r.2 (Ev.GetContentsDetailInfo h content r.1))

def PullContentsFile (E : Env σ) (h : Int) (content : Nat) (w : World σ) :
    PullReply × World σ :=
  let r := E.PullContentsFile w.s h content
  (r.1, w.step r.2 (Ev.PullContentsFile h content r.1))

def ReleaseContentsHandleList (E : Env σ) (h : Int) (w : World σ) : World σ :=
  w.step (E.ReleaseContentsHandleList w.s h) (Ev.ReleaseContentsHandleList h)

def ReleaseDateFolderList (E : Env σ) (h : Int) (w : World σ) : World σ :=
  w.step (E.ReleaseDateFolderList w.s h) (Ev.ReleaseDateFolderList h)

def SendCommand (E : Env σ) (h : Int) (id : CommandId) (param : CommandParam) (w : World σ) :
    Nat × World σ :=
  let r := E.SendCommand w.s h id param
  (r.1, w.step r.2 (Ev.SendCommand h id param r.1))

def ExecuteControlCodeValue (E : Env σ) (h : Int) (code : ControlCode) (value : MediaFormat)
    (w : World σ) : Nat × World σ :=
  let r := E.ExecuteControlCodeValue w.s h code value
  (r.1, w.step r.2 (Ev.ExecuteControlCodeValue h code value r.1))

end SCRSDK

section Platform

variable {σ : Type}

/-- `resetUSBDevice(kSonyVendorId, kFX30ProductId)`; its result is never used. -/
def resetUSBDevice (E : Env σ) (w : World σ) : World σ :=
  w.step (E.resetUSBDevice w.s) Ev.resetUSBDevice

/-- `std::this_thread::sleep_for`, in milliseconds. -/
def sleep_for (E : Env σ) (ms : Nat) (w : World σ) : World σ :=
  w.step (E.sleep w.s ms) (Ev.sleep ms)

/-- `fs::exists`. -/
def fsExists (E : Env σ) (path : String) (w : World σ) : Bool × World σ :=
  let b := E.fsExists w.s path
  (b, w.step w.s (Ev.fsExists path b))

/-- `fs::create_directories`; `some what` is the exception thrown. -/
def fsCreateDirectories (E : Env σ) (path : String) (w : World σ) : Option String × World σ :=
  let r := E.fsCreateDirectories w.s path
  (r.1, w.step r.2 (Ev.fsCreateDirectories path r.1))

/-- Opening a file with `std::ifstream` and reading all of it; `none` when it does not open. -/
def fsReadFile (E : Env σ) (path : String) (w : World σ) : Option String × World σ :=
  let r := E.fsReadFile w.s path
  (r, w.step w.s (Ev.fsReadFile path r))

/-- Opening `path` with `std::ofstream` (which truncates it), writing `text` and closing;
the result is `is_open()`, and nothing is written when it is false. -/
def fsWriteFile (E : Env σ) (path text : String) (w : World σ) : Bool × World σ :=
  let r := E.fsWriteFile w.s path text
  (r.1, w.step r.2 (Ev.fsWriteFile path text r.1))

end Platform

/-! ## CameraDevice -/

/-- How a `std::promise<void>` was resolved: `set_value` or `set_exception`. -/
inductive Resolution
  | value
  | exception
  deriving DecidableEq, Repr

/-- The fields of `class CameraDevice`.  The two promise slots hold a pointer to a promise
that lives on the stack of the waiting function; the model keeps whether the slot is
non-null. -/
structure CameraDevice where
  m_device_handle : Int := 0
  m_connected : Bool := false
  m_reconnecting : Bool := false
  m_modelId : String := ""
  m_eventPromise : Bool := false
  m_downloadPromise : Bool := false
  deriving DecidableEq, Repr

namespace CameraDevice

def setEventPromise (c : CameraDevice) (p : Bool) : CameraDevice :=
  { c with m_eventPromise := p }

def setDownloadPromise (c : CameraDevice) (p : Bool) : CameraDevice :=
  { c with m_downloadPromise := p }

/-- `OnConnected`: the device and how the registered event promise was resolved, if one was. -/
def OnConnected (c : CameraDevice) : CameraDevice × Option Resolution :=
  let c := { c with m_connected := true }
  if c.m_eventPromise then ({ c with m_eventPromise := false }, some .value) else (c, none)

def OnDisconnected (c : CameraDevice) (_error : Nat) : CameraDevice × Option Resolution :=
  let c := { c with m_connected := false }
  if c.m_eventPromise then ({ c with m_eventPromise := false }, some .value) else (c, none)

def OnError (c : CameraDevice) (_error : Nat) : CameraDevice × Option Resolution :=
  if c.m_eventPromise then ({ c with m_eventPromise := false }, some .exception) else (c, none)

/-- `OnWarning`: the device and how the registered download promise was resolved, if one was. -/
def OnWarning (c : CameraDevice) (warning : Warning) : CameraDevice × Option Resolution :=
  if warning = Warning.Connect_Reconnecting then
    ({ c with m_reconnecting := true }, none)
  else if warning = Warning.ContentsTransferMode_DeviceBusy ∨
      warning = Warning.ContentsTransferMode_StatusError ∨
      warning = Warning.ContentsTransferMode_CanceledFromCamera then
    if c.m_downloadPromise then ({ c with m_downloadPromise := false }, some .exception)
    else (c, none)
  else (c, none)

def OnNotifyContentsTransfer (c : CameraDevice) (notify : Notify) :
    CameraDevice × Option Resolution :=
  match notify with
  | .ContentsTransfer_Start => (c, none)
  | .ContentsTransfer_Complete =>
    if c.m_downloadPromise then ({ c with m_downloadPromise := false }, some .value)
    else (c, none)
  | .other _ =>
    if c.m_downloadPromise then ({ c with m_downloadPromise := false }, some .exception)
    else (c, none)

/-- What one delivered callback did: the device after it, and the resolution of the event
promise and of the download promise. -/
structure Delivered where
  cam : CameraDevice
  event : Option Resolution
  download : Option Resolution

def deliver (c : CameraDevice) : Callback → Delivered
  | .OnConnected => let r := c.OnConnected; ⟨r.1, r.2, none⟩
  | .OnDisconnected e => let r := c.OnDisconnected e; ⟨r.1, r.2, none⟩
  | .OnError e => let r := c.OnError e; ⟨r.1, r.2, none⟩
  | .OnWarning w => let r := c.OnWarning w; ⟨r.1, none, r.2⟩
  | .OnNotifyContentsTransfer n => let r := c.OnNotifyContentsTransfer n; ⟨r.1, none, r.2⟩
  | .OnOther => ⟨c, none, none⟩

/-- Waiting on the event future: the callbacks are delivered in order until one resolves the
event promise.  `none` as resolution: the callbacks ran out with the promise unresolved. -/
def awaitEvent : List Callback → CameraDevice → Option Resolution × CameraDevice
  | [], c => (none, c)
  | cb :: rest, c =>
    let d := c.deliver cb
    match d.event with
    | some r => (some r, d.cam)
    | none => awaitEvent rest d.cam

/-- Waiting on the download future, likewise. -/
def awaitDownload : List Callback → CameraDevice → Option Resolution × CameraDevice
  | [], c => (none, c)
  | cb :: rest, c =>
    let d := c.deliver cb
    match d.download with
    | some r => (some r, d.cam)
    | none => awaitDownload rest d.cam

variable {σ : Type}

/-- The block `if (m_device_handle) { ReleaseDevice(m_device_handle); m_device_handle = 0; }`. -/
def releaseIfOpen (E : Env σ) (c : CameraDevice) (w : World σ) : CameraDevice × World σ :=
  if c.m_device_handle ≠ 0 then
    ({ c with m_device_handle := 0 }, SCRSDK.ReleaseDevice E c.m_device_handle w)
  else (c, w)

/-- The block run between two attempts of `connect`: USB reset and 4 s on macOS, 3 s elsewhere. -/
def retryDelay (E : Env σ) (apple : Bool) (w : World σ) : World σ :=
  if apple then sleep_for E 4000 (resetUSBDevice E w) else sleep_for E 3000 w

/-- One open attempt, the code `connect` (in its loop body) and `connectContentsTransfer`
share but for the mode: register the event promise, call `SCRSDK::Connect`, wait for the
completion event, and release the handle when the attempt failed.  The result is whether the
attempt succeeded.  `none`: the request was accepted and never completed, so that
`eventFuture.get()` does not return. -/
def openOnce (E : Env σ) (objInfo : ObjInfo) (mode : SdkControlMode) (c : CameraDevice)
    (w : World σ) : Option (Bool × CameraDevice × World σ) :=
  let c := c.setEventPromise true
  let r := SCRSDK.Connect E objInfo c.m_device_handle mode w
  let c := { c with m_device_handle := r.1.handle }
  if r.1.err ≠ 0 then
    let rc := (c.setEventPromise false).releaseIfOpen E r.2
    some (false, rc.1, rc.2)
  else
    match c.awaitEvent r.1.events with
    | (none, _) => none
    | (some .exception, c) =>
      let rc := c.releaseIfOpen E r.2
      some (false, rc.1, rc.2)
    | (some .value, c) => some (true, c, r.2)

/-- The loop of `connect` with `k + 1` iterations left, so that `attempt = maxRetries - k`. -/
def connectLoop (E : Env σ) (apple : Bool) (objInfo : ObjInfo) (maxRetries : Int) :
    Nat → CameraDevice → World σ → Option (Bool × CameraDevice × World σ)
  | 0, c, w => some (false, c, w)
  | k + 1, c, w =>
    let attempt : Int := maxRetries - k
    match c.openOnce E objInfo .Remote w with
    | none => none
    | some (true, c, w) => some (true, c, w)
    | some (false, c, w) =>
      let w := if attempt < maxRetries then retryDelay E apple w else w
      connectLoop E apple objInfo maxRetries k c w

/-- `CameraDevice::connect(objInfo, maxRetries)`: the result, the device and the world. -/
def connect (E : Env σ) (apple : Bool) (objInfo : ObjInfo) (maxRetries : Int)
    (c : CameraDevice) (w : World σ) : Option (Bool × CameraDevice × World σ) :=
  let c := { c with m_modelId := getModelId objInfo }
  connectLoop E apple objInfo maxRetries maxRetries.toNat c w

/-- `CameraDevice::connectContentsTransfer(objInfo)`. -/
def connectContentsTransfer (E : Env σ) (objInfo : ObjInfo) (c : CameraDevice) (w : World σ) :
    Option (Bool × CameraDevice × World σ) :=
  let c := { c with m_modelId := getModelId objInfo }
  c.openOnce E objInfo .ContentsTransfer w

/-- `CameraDevice::disconnect()`: the wait on the event future is bounded (3 s), so it
returns whether or not a callback resolved the promise. -/
def disconnect (E : Env σ) (c : CameraDevice) (w : World σ) : CameraDevice × World σ :=
  let (c, w) :=
    if c.m_connected then
      let c := c.setEventPromise true
      let (events, w) := SCRSDK.Disconnect E c.m_device_handle w
      let c := (c.awaitEvent events).2
      ({ c with m_connected := false }, w)
    else (c, w)
  c.releaseIfOpen E w

end CameraDevice

/-! ## SDK constants

The header `CrDeviceProperty.h` is not part of the sources.  The numeric values of the
enumerators the program names are a parameter `SdkCodes`: a map from the enumerators to
numbers.  A C++ `switch` over such enumerators is a search for the enumerator that has the
given value (case labels are distinct, or the file would not compile). -/

/-- The `CrDeviceProperty_*` enumerators the program uses. -/
inductive PropertyCode
  | BatteryRemain
  | IsoSensitivity
  | ShutterSpeed
  | FNumber
  | WhiteBalance
  | Colortemp
  | RecordingState
  | MediaSLOT1_RemainingTime
  | MediaSLOT2_RemainingTime
  | Movie_File_Format
  | Movie_Recording_Setting
  | Movie_Recording_FrameRateSetting
  | RecorderClipName
  | DeviceOverheatingState
  deriving DecidableEq, Repr

/-- The `CrWhiteBalance_*` enumerators of `formatWhiteBalance`, in the order of its cases. -/
inductive WhiteBalanceCode
  | AWB | Underwater_Auto | Daylight | Shadow | Cloudy | Tungsten | Fluorescent
  | Fluorescent_WarmWhite | Fluorescent_CoolWhite | Fluorescent_DayWhite
  | Fluorescent_Daylight | Flush | ColorTemp | Custom_1 | Custom_2 | Custom_3 | Custom
  deriving DecidableEq, Repr

/-- The `CrFileFormatMovie_*` enumerators of `formatMovieFormat`. -/
inductive MovieFormatCode
  | AVCHD | MP4 | XAVC_S_4K | XAVC_S_HD | XAVC_HS_8K | XAVC_HS_4K | XAVC_S_L_4K | XAVC_S_L_HD
  | XAVC_S_I_4K | XAVC_S_I_HD | XAVC_I | XAVC_L | XAVC_HS_HD | XAVC_S_I_DCI_4K
  deriving DecidableEq, Repr

/-- The `CrRecordingSettingMovie_*` enumerators of `formatRecSetting`. -/
inductive RecSettingCode
  | s60p_50M | s30p_50M | s24p_50M | s50p_50M | s25p_50M
  | s600M_422_10bit | s500M_422_10bit | s400M_420_10bit | s300M_422_10bit | s280M_422_10bit
  | s250M_422_10bit | s200M_422_10bit | s200M_420_10bit | s200M_420_8bit | s150M_420_10bit
  | s150M_420_8bit | s100M_422_10bit | s100M_420_10bit | s100M_420_8bit | s50M_422_10bit
  | s50M_420_10bit | s50M_420_8bit
  deriving DecidableEq, Repr

/-- The `CrRecordingFrameRateSettingMovie_*` enumerators of `formatFrameRate`. -/
inductive FrameRateCode
  | r120p | r100p | r60p | r50p | r30p | r25p | r24p | r23_98p | r29_97p | r59_94p
  | r24_00p | r119_88p
  deriving DecidableEq, Repr

/-- The numeric values the SDK header gives to the enumerators. -/
structure SdkCodes where
  CrDeviceProperty : PropertyCode → Nat
  CrWhiteBalance : WhiteBalanceCode → Nat
  CrFileFormatMovie : MovieFormatCode → Nat
  CrRecordingSettingMovie : RecSettingCode → Nat
  CrRecordingFrameRateSettingMovie : FrameRateCode → Nat
  CrMovie_Recording_State_Recording : Nat
  CrError_None : Nat

/-! ## Property formatting helpers -/

def formatFNumber (v : Nat) : String :=
  let val := v % 2 ^ 16
  if val = 0 then "---"
  else
    let whole := val / 100
    let frac := val % 100
    if frac = 0 then "F" ++ toString whole
    else if frac % 10 = 0 then "F" ++ toString whole ++ "." ++ toString (frac / 10)
    else "F" ++ toString whole ++ "." ++ toString frac

def formatShutterSpeed (v : Nat) : String :=
  let val := v % 2 ^ 32
  if val = 0 then "---"
  else
    let hi := (val / 2 ^ 16) % 2 ^ 16
    let lo := val % 2 ^ 16
    if hi = 0 ∧ lo = 0 then "Bulb"
    else if hi = 1 then "1/" ++ toString lo
    else if lo = 10 then toString hi ++ "." ++ toString (lo % 10) ++ "\""
    else if hi > 1 ∧ lo = 1 then toString hi ++ "\""
    else if hi = 0 then "1/" ++ toString lo
    else toString hi ++ "/" ++ toString lo

def formatISO (v : Nat) : String :=
  let val := v % 2 ^ 32
  if val = 0 ∨ val = 0xFFFFFF then "---"
  else
    let isoVal := val % 2 ^ 24
    let mode := (val / 2 ^ 24) % 16
    if mode = 0 ∧ isoVal = 0 then "ISO AUTO"
    else (if mode ≠ 0 then "ISO AUTO " else "ISO ") ++ toString isoVal

def WhiteBalanceCode.all : List WhiteBalanceCode :=
  [.AWB, .Underwater_Auto, .Daylight, .Shadow, .Cloudy, .Tungsten, .Fluorescent,
   .Fluorescent_WarmWhite, .Fluorescent_CoolWhite, .Fluorescent_DayWhite,
   .Fluorescent_Daylight, .Flush, .ColorTemp, .Custom_1, .Custom_2, .Custom_3, .Custom]

def WhiteBalanceCode.label : WhiteBalanceCode → String
  | .AWB => "AWB" | .Underwater_Auto => "Underwater" | .Daylight => "Daylight"
  | .Shadow => "Shadow" | .Cloudy => "Cloudy" | .Tungsten => "Tungsten"
  | .Fluorescent => "Fluorescent" | .Fluorescent_WarmWhite => "Fluor WarmWhite"
  | .Fluorescent_CoolWhite => "Fluor CoolWhite" | .Fluorescent_DayWhite => "Fluor DayWhite"
  | .Fluorescent_Daylight => "Fluor Daylight" | .Flush => "Flash" | .ColorTemp => "ColorTemp"
  | .Custom_1 => "Custom 1" | .Custom_2 => "Custom 2" | .Custom_3 => "Custom 3"
  | .Custom => "Custom"

def formatWhiteBalance (K : SdkCodes) (v : Nat) : String :=
  let val := v % 2 ^ 16
  match WhiteBalanceCode.all.find? (fun c => K.CrWhiteBalance c = val) with
  | some c => c.label
  | none => "WB " ++ toString val

def MovieFormatCode.all : List MovieFormatCode :=
  [.AVCHD, .MP4, .XAVC_S_4K, .XAVC_S_HD, .XAVC_HS_8K, .XAVC_HS_4K, .XAVC_S_L_4K, .XAVC_S_L_HD,
   .XAVC_S_I_4K, .XAVC_S_I_HD, .XAVC_I, .XAVC_L, .XAVC_HS_HD, .XAVC_S_I_DCI_4K]

def MovieFormatCode.label : MovieFormatCode → String
  | .AVCHD => "AVCHD" | .MP4 => "MP4" | .XAVC_S_4K => "XAVC S 4K" | .XAVC_S_HD => "XAVC S HD"
  | .XAVC_HS_8K => "XAVC HS 8K" | .XAVC_HS_4K => "XAVC HS 4K" | .XAVC_S_L_4K => "XAVC S-L 4K"
  | .XAVC_S_L_HD => "XAVC S-L HD" | .XAVC_S_I_4K => "XAVC S-I 4K"
  | .XAVC_S_I_HD => "XAVC S-I HD" | .XAVC_I => "XAVC I" | .XAVC_L => "XAVC L"
  | .XAVC_HS_HD => "XAVC HS HD" | .XAVC_S_I_DCI_4K => "XAVC S-I DCI 4K"

def formatMovieFormat (K : SdkCodes) (v : Nat) : String :=
  let val := v % 2 ^ 16
  match MovieFormatCode.all.find? (fun c => K.CrFileFormatMovie c = val) with
  | some c => c.label
  | none => "Format " ++ toString val

def RecSettingCode.all : List RecSettingCode :=
  [.s60p_50M, .s30p_50M, .s24p_50M, .s50p_50M, .s25p_50M,
   .s600M_422_10bit, .s500M_422_10bit, .s400M_420_10bit, .s300M_422_10bit, .s280M_422_10bit,
   .s250M_422_10bit, .s200M_422_10bit, .s200M_420_10bit, .s200M_420_8bit, .s150M_420_10bit,
   .s150M_420_8bit, .s100M_422_10bit, .s100M_420_10bit, .s100M_420_8bit, .s50M_422_10bit,
   .s50M_420_10bit, .s50M_420_8bit]

def RecSettingCode.label : RecSettingCode → String
  | .s60p_50M => "60p 50M" | .s30p_50M => "30p 50M" | .s24p_50M => "24p 50M"
  | .s50p_50M => "50p 50M" | .s25p_50M => "25p 50M"
  | .s600M_422_10bit => "600M 422 10bit" | .s500M_422_10bit => "500M 422 10bit"
  | .s400M_420_10bit => "400M 420 10bit" | .s300M_422_10bit => "300M 422 10bit"
  | .s280M_422_10bit => "280M 422 10bit" | .s250M_422_10bit => "250M 422 10bit"
  | .s200M_422_10bit => "200M 422 10bit" | .s200M_420_10bit => "200M 420 10bit"
  | .s200M_420_8bit => "200M 420 8bit" | .s150M_420_10bit => "150M 420 10bit"
  | .s150M_420_8bit => "150M 420 8bit" | .s100M_422_10bit => "100M 422 10bit"
  | .s100M_420_10bit => "100M 420 10bit" | .s100M_420_8bit => "100M 420 8bit"
  | .s50M_422_10bit => "50M 422 10bit" | .s50M_420_10bit => "50M 420 10bit"
  | .s50M_420_8bit => "50M 420 8bit"

def formatRecSetting (K : SdkCodes) (v : Nat) : String :=
  let val := v % 2 ^ 16
  match RecSettingCode.all.find? (fun c => K.CrRecordingSettingMovie c = val) with
  | some c => c.label
  | none => "RecSet " ++ toString val

def FrameRateCode.all : List FrameRateCode :=
  [.r120p, .r100p, .r60p, .r50p, .r30p, .r25p, .r24p, .r23_98p, .r29_97p, .r59_94p,
   .r24_00p, .r119_88p]

def FrameRateCode.label : FrameRateCode → String
  | .r120p => "120p" | .r100p => "100p" | .r60p => "60p" | .r50p => "50p" | .r30p => "30p"
  | .r25p => "25p" | .r24p => "24p" | .r23_98p => "23.98p" | .r29_97p => "29.97p"
  | .r59_94p => "59.94p" | .r24_00p => "24.00p" | .r119_88p => "119.88p"

def formatFrameRate (K : SdkCodes) (v : Nat) : String :=
  let val := v % 2 ^ 16
  match FrameRateCode.all.find? (fun c => K.CrRecordingFrameRateSettingMovie c = val) with
  | some c => c.label
  | none => "FR " ++ toString val

/-- `crStr16ToString`: the UTF-16 units up to the first 0, keeping those in `[0x20, 128)`. -/
def crStr16ToString (str : Option (List Nat)) : String :=
  match str with
  | none => ""
  | some units =>
    String.mk (((units.takeWhile (fun u => u ≠ 0)).filter
      (fun u => 0x20 ≤ u ∧ u < 128)).map Char.ofNat)

/-- The cast `(int)val` of a 64-bit value. -/
def toInt32 (val : Nat) : Int :=
  let r : Nat := val % 2 ^ 32
  if r < 2 ^ 31 then (r : Int) else (r : Int) - 2 ^ 32

structure CameraProperties where
  battery : Int := -1
  iso : String := "---"
  shutterSpeed : String := "---"
  fNumber : String := "---"
  whiteBalance : String := "---"
  colorTemp : Int := 0
  mediaSlot1Min : Int := -1
  mediaSlot2Min : Int := -1
  movieFormat : String := "---"
  recSetting : String := "---"
  frameRate : String := "---"
  recording : Bool := false
  clipName : String := ""
  heatState : Int := 0
  deriving DecidableEq, Repr

/-- The property codes `getProperties` asks for, in the order of its `codes` array. -/
def getPropertiesCodes : List PropertyCode :=
  [.BatteryRemain, .IsoSensitivity, .ShutterSpeed, .FNumber, .WhiteBalance, .Colortemp,
   .RecordingState, .MediaSLOT1_RemainingTime, .MediaSLOT2_RemainingTime, .Movie_File_Format,
   .Movie_Recording_Setting, .Movie_Recording_FrameRateSetting, .RecorderClipName,
   .DeviceOverheatingState]

/-- The body of the `switch (code)` of `getProperties` for one returned property. -/
def getPropertiesCase (K : SdkCodes) (props : CameraProperties) (p : DevProp) :
    CameraProperties :=
  let val := p.currentValue
  match getPropertiesCodes.find? (fun c => K.CrDeviceProperty c = p.code) with
  | some .BatteryRemain => { props with battery := toInt32 val }
  | some .IsoSensitivity => { props with iso := formatISO val }
  | some .ShutterSpeed => { props with shutterSpeed := formatShutterSpeed val }
  | some .FNumber => { props with fNumber := formatFNumber val }
  | some .WhiteBalance => { props with whiteBalance := formatWhiteBalance K val }
  | some .Colortemp => { props with colorTemp := toInt32 val }
  | some .RecordingState =>
    { props with recording := decide (val = K.CrMovie_Recording_State_Recording) }
  | some .MediaSLOT1_RemainingTime => { props with mediaSlot1Min := toInt32 val }
  | some .MediaSLOT2_RemainingTime => { props with mediaSlot2Min := toInt32 val }
  | some .Movie_File_Format => { props with movieFormat := formatMovieFormat K val }
  | some .Movie_Recording_Setting => { props with recSetting := formatRecSetting K val }
  | some .Movie_Recording_FrameRateSetting => { props with frameRate := formatFrameRate K val }
  | some .RecorderClipName =>
    match p.currentStr with
    | some str => { props with clipName := crStr16ToString (some str) }
    | none => props
  | some .DeviceOverheatingState => { props with heatState := toInt32 val }
  | none => props

/-- The list a `GetSelectDeviceProperties` reply gives when the test
`err || !prop_list || nprop < 1` does not fire. -/
def PropReply.list? (r : PropReply) : Option (List DevProp) :=
  if r.err ≠ 0 then none
  else
    match r.props with
    | none => none
    | some [] => none
    | some (p :: ps) => some (p :: ps)

/-- `CameraDevice::getProperties`. -/
def CameraDevice.getProperties {σ : Type} (E : Env σ) (K : SdkCodes) (c : CameraDevice)
    (w : World σ) : CameraProperties × World σ :=
  if ¬ c.m_connected then ({}, w)
  else
    let (reply, w) := SCRSDK.GetSelectDeviceProperties E c.m_device_handle
      (getPropertiesCodes.map K.CrDeviceProperty) w
    match reply.list? with
    | none => ({}, w)
    | some prop_list =>
      let props := prop_list.foldl (getPropertiesCase K) {}
      (props, SCRSDK.ReleaseDeviceProperties E c.m_device_handle w)

section Commands

variable {σ : Type}

/-- `CameraDevice::startRecording`. -/
def CameraDevice.startRecording (E : Env σ) (K : SdkCodes) (c : CameraDevice) (w : World σ) :
    Bool × World σ :=
  if ¬ c.m_connected then (false, w)
  else
    let (err, w) := SCRSDK.SendCommand E c.m_device_handle .MovieRecord .Down w
    (decide (err = K.CrError_None), w)

/-- `CameraDevice::stopRecording`. -/
def CameraDevice.stopRecording (E : Env σ) (K : SdkCodes) (c : CameraDevice) (w : World σ) :
    Bool × World σ :=
  if ¬ c.m_connected then (false, w)
  else
    let (err, w) := SCRSDK.SendCommand E c.m_device_handle .MovieRecord .Up w
    (decide (err = K.CrError_None), w)

/-- `CameraDevice::formatSlot1`. -/
def CameraDevice.formatSlot1 (E : Env σ) (K : SdkCodes) (c : CameraDevice) (w : World σ) :
    Bool × World σ :=
  if ¬ c.m_connected then (false, w)
  else
    let (err, w) := SCRSDK.ExecuteControlCodeValue E c.m_device_handle .SelectedMediaFormat
      .QuickFormatSlot1 w
    (decide (err = K.CrError_None), w)

/-- `CameraDevice::formatSlot2`. -/
def CameraDevice.formatSlot2 (E : Env σ) (K : SdkCodes) (c : CameraDevice) (w : World σ) :
    Bool × World σ :=
  if ¬ c.m_connected then (false, w)
  else
    let (err, w) := SCRSDK.ExecuteControlCodeValue E c.m_device_handle .SelectedMediaFormat
      .QuickFormatSlot2 w
    (decide (err = K.CrError_None), w)

end Commands

/-! ## Global state -/

/-- The global variables of the program (`g_mutex` apart). -/
structure Globals where
  g_cameras : List CameraDevice := []
  g_downloadPath : String := "/tmp/fx30_downloads"
  g_downloading : Bool := false
  g_downloadStatus : String := ""
  g_scanning : Bool := false
  g_scanStatus : String := ""
  g_running : Bool := true
  g_presetPath : String := "fx30_preset.json"
  deriving DecidableEq, Repr

/-! ## Settings preset -/

/-- The cases of `presetCodeName`, which are also the entries of `kPresetCodes`, in order. -/
def presetTable : List (PropertyCode × String) :=
  [(.IsoSensitivity, "iso"), (.ShutterSpeed, "shutterSpeed"), (.FNumber, "fNumber"),
   (.WhiteBalance, "whiteBalance"), (.Colortemp, "colorTemp"),
   (.Movie_File_Format, "movieFormat"), (.Movie_Recording_Setting, "recSetting"),
   (.Movie_Recording_FrameRateSetting, "frameRate")]

def kPresetCodes (K : SdkCodes) : List Nat :=
  presetTable.map (fun e => K.CrDeviceProperty e.1)

def presetCodeName (K : SdkCodes) (code : Nat) : String :=
  match presetTable.find? (fun e => K.CrDeviceProperty e.1 = code) with
  | some e => e.2
  | none => "unknown_" ++ toString code

structure PresetEntry where
  code : Nat
  value : Nat
  deriving DecidableEq, Repr

/-- The `isspace` of the C locale. -/
def isspace (c : Char) : Bool :=
  c = ' ' ∨ (9 ≤ c.toNat ∧ c.toNat ≤ 13)

/-- `std::strtoull(str, nullptr, 10)`: leading white space, an optional sign, then decimal
digits; 0 when there is no digit, `ULLONG_MAX` on overflow, negation modulo `2^64`. -/
def strtoull (str : List Char) : Nat :=
  let s := str.dropWhile isspace
  let (neg, s) :=
    match s with
    | '-' :: t => (true, t)
    | '+' :: t => (false, t)
    | _ => (false, s)
  let v := (s.takeWhile Char.isDigit).foldl (fun a d => 10 * a + (d.toNat - 48)) 0
  if 2 ^ 64 ≤ v then 2 ^ 64 - 1
  else if neg then (2 ^ 64 - v) % 2 ^ 64
  else v

/-- The value `loadPreset` reads for the key `name`: find the quoted key, then the next ':',
skip spaces and tabs, and convert what follows with `strtoull`.  `none`: the loop of
`loadPreset` continues without an entry. -/
def presetValue (content : List Char) (name : String) : Option Nat :=
  let key := "\"".toList ++ name.toList ++ "\"".toList
  match strFind content key 0 with
  | none => none
  | some pos =>
    match strFindChar content ':' (pos + key.length) with
    | none => none
    | some pos =>
      let pos := pos + 1
      let rest := (content.drop pos).dropWhile (fun ch => ch = ' ' ∨ ch = '\t')
      some (strtoull rest)

/-- One iteration of the loop of `loadPreset`: the entry for `code`, if its key is found. -/
def loadPresetEntry (K : SdkCodes) (content : List Char) (code : Nat) : Option PresetEntry :=
  (presetValue content (presetCodeName K code)).map (fun val => ⟨code, val⟩)

section Preset

variable {σ : Type}

/-- One iteration of the loop of `savePreset`: the text so far and the flag `first`. -/
def savePresetLine (K : SdkCodes) (st : String × Bool) (p : DevProp) : String × Bool :=
  let js := if ¬ st.2 then st.1 ++ ",\n" else st.1
  (js ++ "  \"" ++ presetCodeName K p.code ++ "\": " ++ toString p.currentValue, false)

/-- The text `savePreset` writes for the properties the driver returned. -/
def presetText (K : SdkCodes) (prop_list : List DevProp) : String :=
  (prop_list.foldl (savePresetLine K) ("\x7b\n", true)).1 ++ "\n\x7d\n"

/-- `savePreset(cam, path)`. -/
def savePreset (E : Env σ) (K : SdkCodes) (cam : CameraDevice) (path : String) (w : World σ) :
    Bool × World σ :=
  if ¬ cam.m_connected then (false, w)
  else
    let (reply, w) := SCRSDK.GetSelectDeviceProperties E cam.m_device_handle (kPresetCodes K) w
    match reply.list? with
    | none => (false, w)
    | some prop_list =>
      let js := presetText K prop_list
      let w := SCRSDK.ReleaseDeviceProperties E cam.m_device_handle w
      let (opened, w) := fsWriteFile E path js w
      if ¬ opened then (false, w) else (true, w)

/-- `loadPreset(path)`. -/
def loadPreset (E : Env σ) (K : SdkCodes) (path : String) (w : World σ) :
    List PresetEntry × World σ :=
  let (f, w) := fsReadFile E path w
  match f with
  | none => ([], w)
  | some content => ((kPresetCodes K).filterMap (loadPresetEntry K content.toList), w)

/-- The body of the loop of `applyPreset` for one entry, on the counter `applied` and the
world: read the current value; when the read succeeds and the value differs, write the target
value, count the write when the driver accepts it and wait 500 ms. -/
def applyPresetEntry (E : Env σ) (h : Int) (st : Nat × World σ) (entry : PresetEntry) :
    Nat × World σ :=
  let applied := st.1
  let (reply, w) := SCRSDK.GetSelectDeviceProperties E h [entry.code] st.2
  match reply.list? with
  | some (devProp :: _) =>
    let current := devProp.currentValue
    let w := SCRSDK.ReleaseDeviceProperties E h w
    if current = entry.value then (applied, w)
    else
      let devProp := { devProp with currentValue := entry.value }
      let (err, w) := SCRSDK.SetDeviceProperty E h devProp w
      if err ≠ 0 then (applied, w)
      else (applied + 1, sleep_for E 500 w)
  | _ => (applied, w)

/-- `applyPreset(cam, entries)`. -/
def applyPreset (E : Env σ) (cam : CameraDevice) (entries : List PresetEntry) (w : World σ) :
    Nat × World σ :=
  if ¬ cam.m_connected ∨ entries.isEmpty then (0, w)
  else entries.foldl (applyPresetEntry E cam.m_device_handle) (0, w)

/-! ## Scan and connect -/

/-- The text " (i/n)" of the scan status. -/
def progressText (attempted total : Nat) : String :=
  " (" ++ toString attempted ++ "/" ++ toString total ++ ")"

/-- The flag `alreadyConnected` of `scanAndConnect`: some camera of the registry has the
identity `id` and is connected. -/
def alreadyConnected (cameras : List CameraDevice) (id : String) : Bool :=
  cameras.any (fun cam => cam.m_modelId = id ∧ cam.m_connected)

/-- The second loop of `scanAndConnect`; the result carries `fx30Found`. -/
def scanLoop (E : Env σ) (apple : Bool) (fx30Total : Nat) :
    List ObjInfo → Nat → Nat → Globals → World σ → Option (Nat × Globals × World σ)
  | [], _, fx30Found, g, w => some (fx30Found, g, w)
  | objInfo :: rest, fx30Attempted, fx30Found, g, w =>
    if ¬ isFX30Camera objInfo then scanLoop E apple fx30Total rest fx30Attempted fx30Found g w
    else
      let fx30Attempted := fx30Attempted + 1
      let modelStr := objInfo.Model
      let id := getModelId objInfo
      if alreadyConnected g.g_cameras id then
        let g := { g with g_scanStatus :=
          "Already connected: " ++ modelStr ++ progressText fx30Attempted fx30Total }
        scanLoop E apple fx30Total rest fx30Attempted fx30Found g w
      else
        let g := { g with g_scanStatus :=
          "Connecting to " ++ modelStr ++ progressText fx30Attempted fx30Total ++ "..." }
        match CameraDevice.connect E apple objInfo 3 {} w with
        | none => none
        | some (true, cam, w) =>
          scanLoop E apple fx30Total rest fx30Attempted (fx30Found + 1)
            { g with g_cameras := g.g_cameras ++ [cam] } w
        | some (false, _, w) => scanLoop E apple fx30Total rest fx30Attempted fx30Found g w

/-- The loop of `scanAndConnect` that applies the preset to every connected camera. -/
def applyPresetAll (E : Env σ) (preset : List PresetEntry) :
    List CameraDevice → Globals → World σ → Globals × World σ
  | [], g, w => (g, w)
  | cam :: rest, g, w =>
    if ¬ cam.m_connected then applyPresetAll E preset rest g w
    else
      let g := { g with g_scanStatus := "Applying preset to " ++ cam.m_modelId ++ "..." }
      let (_, w) := applyPreset E cam preset w
      applyPresetAll E preset rest g w

/-- The beginning of `scanAndConnect`, up to the enumeration: set `g_scanning` and, on
macOS, reset the USB devices when asked to. -/
def scanPrologue (E : Env σ) (apple : Bool) (usbReset : Bool) (g : Globals) (w : World σ) :
    Globals × World σ :=
  let g := { g with g_scanning := true }
  if apple ∧ usbReset then
    let g := { g with g_scanStatus := "Resetting USB devices..." }
    let w := resetUSBDevice E w
    let g := { g with g_scanStatus := "Waiting for USB re-enumeration..." }
    (g, sleep_for E 6000 w)
  else (g, w)

/-- The end of `scanAndConnect`, after the second loop: release the enumeration, report,
apply the preset when a camera was newly connected and the preset is not empty, and clear
`g_scanning`. -/
def scanEpilogue (E : Env σ) (K : SdkCodes) (fx30Found : Nat) (g : Globals) (w : World σ) :
    Globals × World σ :=
  let w := SCRSDK.EnumRelease E w
  let (g, w) :=
    if fx30Found = 0 then
      ({ g with g_scanStatus := "Scan complete. No new cameras found." }, w)
    else
      let g := { g with g_scanStatus := "Scan complete. " ++ toString fx30Found ++
        " new camera(s), " ++ toString g.g_cameras.length ++ " total." }
      let w := sleep_for E 1500 w
      let (preset, w) := loadPreset E K g.g_presetPath w
      if ¬ preset.isEmpty then
        let g := { g with g_scanStatus := "Applying preset..." }
        let (g, w) := applyPresetAll E preset g.g_cameras g w
        ({ g with g_scanStatus :=
          "Preset applied. " ++ toString g.g_cameras.length ++ " camera(s) ready." }, w)
      else (g, w)
  ({ g with g_scanning := false }, w)

/-- `scanAndConnect(usbReset)`; the caller holds `g_mutex`.  `none`: a connect never returned. -/
def scanAndConnect (E : Env σ) (K : SdkCodes) (apple : Bool) (usbReset : Bool)
    (g : Globals) (w : World σ) : Option (Globals × World σ) :=
  let (g, w) := scanPrologue E apple usbReset g w
  let g := { g with g_scanStatus := "Enumerating cameras..." }
  let (reply, w) := SCRSDK.EnumCameraObjects E w
  match reply.list? with
  | none => some ({ g with g_scanStatus := "No cameras found.", g_scanning := false }, w)
  | some infos =>
    let fx30Total := infos.countP isFX30Camera
    match scanLoop E apple fx30Total infos 0 0 g w with
    | none => none
    | some (fx30Found, g, w) => some (scanEpilogue E K fx30Found g w)

/-! ## Camera management thread -/

/-- `for (auto& cam : cameras) cam->disconnect();` (the devices are discarded afterwards). -/
def disconnectAll (E : Env σ) : List CameraDevice → World σ → World σ
  | [], w => w
  | cam :: rest, w => disconnectAll E rest (cam.disconnect E w).2

/-- The number of seconds of sustained disconnection after which the fleet is torn down. -/
def kResetAfterSecs : Nat := 20

/-- One iteration of the `while (g_running)` loop of `cameraManagementThread`, on the counter
`disconnectedSecs` and the global state as it is after the five-second sleep. -/
def managementTick (E : Env σ) (K : SdkCodes) (apple : Bool) (disconnectedSecs : Nat)
    (g : Globals) (w : World σ) : Option (Nat × Globals × World σ) :=
  let w := sleep_for E 5000 w
  if ¬ g.g_running ∨ g.g_downloading ∨ g.g_scanning then some (0, g, w)
  else
    let g := { g with g_cameras := g.g_cameras.map (fun cam =>
      if cam.m_connected ∧ cam.m_reconnecting then { cam with m_reconnecting := false }
      else cam) }
    let allOk := ¬ g.g_cameras.isEmpty ∧ g.g_cameras.all (fun cam => cam.m_connected)
    if allOk then some (0, g, w)
    else
      let disconnectedSecs := disconnectedSecs + 5
      if kResetAfterSecs ≤ disconnectedSecs then
        let w := disconnectAll E g.g_cameras w
        let g := { g with g_cameras := [] }
        match scanAndConnect E K apple true g w with
        | none => none
        | some (g, w) => some (0, g, w)
      else some (disconnectedSecs, g, w)

/-! ## File download -/

/-- The four counters of `downloadFilesThread`. -/
structure Counters where
  totalFiles : Nat := 0
  skippedFiles : Nat := 0
  downloadedFiles : Nat := 0
  errorFiles : Nat := 0
  deriving DecidableEq, Repr

/-- What the download loops carry: the counters, the camera being read, the globals
(for `g_downloadStatus`) and the world. -/
structure DlState (σ : Type) where
  cnt : Counters
  cam : CameraDevice
  g : Globals
  w : World σ

/-- The body of the innermost loop of `downloadFilesThread`, for one content handle. -/
def downloadContent (E : Env σ) (dlPath camName : String) (st : DlState σ) (content : Nat) :
    DlState σ :=
  let cnt := st.cnt
  let cam := st.cam
  let (info, w) := SCRSDK.GetContentsDetailInfo E cam.m_device_handle content st.w
  if info.err ≠ 0 then { st with cnt := { cnt with errorFiles := cnt.errorFiles + 1 }, w := w }
  else
    let cnt := { cnt with totalFiles := cnt.totalFiles + 1 }
    let fileName := info.fileName
    let fullPath := dlPath ++ "/" ++ fileName
    let (found, w) := fsExists E fullPath w
    if found then
      let cnt := { cnt with skippedFiles := cnt.skippedFiles + 1 }
      let status := "Skipped (exists): " ++ fileName ++ " [" ++
        toString (cnt.downloadedFiles + cnt.skippedFiles) ++ "/" ++ toString cnt.totalFiles ++ "]"
      let g := { st.g with g_downloadStatus := status }
      { cnt := cnt, cam := cam, g := g, w := w }
    else
      let status := "Downloading: " ++ fileName ++ " from " ++ camName ++ " [" ++
        toString (cnt.downloadedFiles + cnt.skippedFiles + 1) ++ "/" ++
        toString cnt.totalFiles ++ "]"
      let g := { st.g with g_downloadStatus := status }
      let cam := cam.setDownloadPromise true
      let (reply, w) := SCRSDK.PullContentsFile E cam.m_device_handle content w
      if reply.err ≠ 0 then
        let cam := cam.setDownloadPromise false
        { cnt := { cnt with errorFiles := cnt.errorFiles + 1 }, cam := cam, g := g, w := w }
      else
        match cam.awaitDownload reply.events with
        | (none, cam) =>
          let cnt := { cnt with errorFiles := cnt.errorFiles + 1 }
          let cam := cam.setDownloadPromise false
          let g := { g with g_downloadStatus := "Timeout downloading: " ++ fileName }
          { cnt := cnt, cam := cam, g := g, w := w }
        | (some .value, cam) =>
          let cnt := { cnt with downloadedFiles := cnt.downloadedFiles + 1 }
          { cnt := cnt, cam := cam, g := g, w := sleep_for E 100 w }
        | (some .exception, cam) =>
          let cnt := { cnt with errorFiles := cnt.errorFiles + 1 }
          let g := { g with g_downloadStatus := "Error downloading: " ++ fileName }
          { cnt := cnt, cam := cam, g := g, w := sleep_for E 100 w }

/-- The list a folder or content listing gives when the test
`err || !list || count == 0` does not fire. -/
def HandleListReply.list? (r : HandleListReply) : Option (List Nat) :=
  if r.err ≠ 0 then none
  else
    match r.handles with
    | none => none
    | some [] => none
    | some (x :: xs) => some (x :: xs)

/-- The body of the folder loop of `downloadFilesThread`, for one folder handle. -/
def downloadFolder (E : Env σ) (dlPath camName : String) (st : DlState σ) (folder : Nat) :
    DlState σ :=
  let (reply, w) := SCRSDK.GetContentsHandleList E st.cam.m_device_handle folder st.w
  match reply.list? with
  | none => { st with w := w }
  | some contentHandles =>
    let st := contentHandles.foldl (downloadContent E dlPath camName) { st with w := w }
    { st with w := SCRSDK.ReleaseContentsHandleList E st.cam.m_device_handle st.w }

/-- The body of the camera loop of `downloadFilesThread`, for one transfer-mode camera. -/
def downloadCamera (E : Env σ) (dlPath : String) (st : DlState σ) : DlState σ :=
  let cam := st.cam
  let camName := cam.m_modelId
  let (err, w) := SCRSDK.SetSaveInfo E cam.m_device_handle dlPath st.w
  if err ≠ 0 then
    { st with g := { st.g with g_downloadStatus := "Error: SetSaveInfo failed for " ++ camName },
              w := w }
  else
    let (reply, w) := SCRSDK.GetDateFolderList E cam.m_device_handle w
    match reply.list? with
    | none =>
      { st with g := { st.g with g_downloadStatus := "No folders found on " ++ camName }, w := w }
    | some folderList =>
      let st := folderList.foldl (downloadFolder E dlPath camName) { st with w := w }
      { st with w := SCRSDK.ReleaseDateFolderList E st.cam.m_device_handle st.w }

/-- The camera loop of `downloadFilesThread` (step 4): the counters, the cameras as the
callbacks left them, the globals and the world. -/
def downloadAll (E : Env σ) (dlPath : String) :
    List CameraDevice → Counters → Globals → World σ →
      Counters × List CameraDevice × Globals × World σ
  | [], cnt, g, w => (cnt, [], g, w)
  | cam :: rest, cnt, g, w =>
    let st := downloadCamera E dlPath { cnt := cnt, cam := cam, g := g, w := w }
    let (cnt, cams, g, w) := downloadAll E dlPath rest st.cnt st.g st.w
    (cnt, st.cam :: cams, g, w)

/-- The loop of step 2: open every FX30 camera of the enumeration in ContentsTransfer mode. -/
def connectTransferAll (E : Env σ) :
    List ObjInfo → List CameraDevice → World σ → Option (List CameraDevice × World σ)
  | [], dlCameras, w => some (dlCameras, w)
  | objInfo :: rest, dlCameras, w =>
    if ¬ isFX30Camera objInfo then connectTransferAll E rest dlCameras w
    else
      match CameraDevice.connectContentsTransfer E objInfo {} w with
      | none => none
      | some (true, cam, w) => connectTransferAll E rest (dlCameras ++ [cam]) w
      | some (false, _, w) => connectTransferAll E rest dlCameras w

/-- The text of the final download status for the given counters. -/
def downloadSummary (cnt : Counters) : String :=
  "Download complete. Downloaded: " ++ toString cnt.downloadedFiles ++
    ", Skipped: " ++ toString cnt.skippedFiles ++
    ", Errors: " ++ toString cnt.errorFiles

/-- `downloadFilesThread()`, run without interference from other threads.  Besides the
globals and the world it returns the counters of step 4 when that step was reached.
`none`: a connect never returned. -/
def downloadFilesRun (E : Env σ) (K : SdkCodes) (apple : Bool) (g : Globals) (w : World σ) :
    Option (Option Counters × Globals × World σ) :=
  let g := { g with g_downloading := true }
  let g := { g with g_downloadStatus := "Starting download..." }
  let dlPath := g.g_downloadPath
  let (thrown, w) := fsCreateDirectories E dlPath w
  match thrown with
  | some what =>
    some (none, { g with g_downloadStatus := "Error creating directory: " ++ what,
                         g_downloading := false }, w)
  | none =>
    let g := { g with g_downloadStatus := "Disconnecting cameras from Remote mode..." }
    let w := disconnectAll E g.g_cameras w
    let g := { g with g_cameras := [] }
    let w := sleep_for E 2000 w
    let g := { g with g_downloadStatus := "Scanning for cameras in ContentsTransfer mode..." }
    let (reply, w) := SCRSDK.EnumCameraObjects E w
    match reply.list? with
    | none =>
      let g := { g with g_downloadStatus := "Error: No cameras found for download." }
      match scanAndConnect E K apple false g w with
      | none => none
      | some (g, w) => some (none, { g with g_downloading := false }, w)
    | some infos =>
      match connectTransferAll E infos [] w with
      | none => none
      | some (dlCameras, w) =>
        let w := SCRSDK.EnumRelease E w
        if dlCameras.isEmpty then
          let g := { g with g_downloadStatus :=
            "Error: Could not connect to any camera in ContentsTransfer mode." }
          match scanAndConnect E K apple false g w with
          | none => none
          | some (g, w) => some (none, { g with g_downloading := false }, w)
        else
          let w := sleep_for E 3000 w
          let (cnt, dlCameras, g, w) := downloadAll E dlPath dlCameras {} g w
          let w := disconnectAll E dlCameras w
          let w := sleep_for E 2000 w
          let g := { g with g_downloadStatus := downloadSummary cnt ++ ". Reconnecting..." }
          match scanAndConnect E K apple false g w with
          | none => none
          | some (g, w) =>
            let g := { g with g_downloadStatus := downloadSummary cnt }
            some (some cnt, { g with g_downloading := false }, w)

/-- `downloadFilesThread()`: the globals and the world when it returns. -/
def downloadFilesThread (E : Env σ) (K : SdkCodes) (apple : Bool) (g : Globals) (w : World σ) :
    Option (Globals × World σ) :=
  (downloadFilesRun E K apple g w).map (fun r => r.2)

/-! ## JSON builders -/

/-- One hexadecimal digit, lower case, as `%x` prints it. -/
def hexDigit (n : Nat) : Char :=
  if n < 10 then Char.ofNat (48 + n) else Char.ofNat (87 + n)

/-- The text `jsonEscape` appends for one character. -/
def jsonEscapeChar (c : Char) : List Char :=
  if c = '"' then ['\\', '"']
  else if c = '\\' then ['\\', '\\']
  else if c = '\n' then ['\\', 'n']
  else if c = '\r' then ['\\', 'r']
  else if c = '\t' then ['\\', 't']
  else if c.toNat < 0x20 then
    ['\\', 'u', '0', '0', hexDigit (c.toNat / 16), hexDigit (c.toNat % 16)]
  else [c]

def jsonEscape (s : String) : String :=
  String.mk (s.toList.flatMap jsonEscapeChar)

/-- The text `<<` prints for a `bool` selected by `? "true" : "false"`. -/
def boolText (b : Bool) : String :=
  if b then "true" else "false"

/-- `buildCameraJson(index, cam)`. -/
def buildCameraJson (E : Env σ) (K : SdkCodes) (index : Nat) (cam : CameraDevice)
    (w : World σ) : String × World σ :=
  let modelStr := cam.m_modelId
  let (props, w) :=
    if cam.m_connected then cam.getProperties E K w else (({} : CameraProperties), w)
  ("\x7b" ++
   "\"index\":" ++ toString index ++ "," ++
   "\"model\":\"" ++ jsonEscape modelStr ++ "\"," ++
   "\"connected\":" ++ boolText cam.m_connected ++ "," ++
   "\"recording\":" ++ boolText props.recording ++ "," ++
   "\"battery\":" ++ toString props.battery ++ "," ++
   "\"iso\":\"" ++ jsonEscape props.iso ++ "\"," ++
   "\"shutterSpeed\":\"" ++ jsonEscape props.shutterSpeed ++ "\"," ++
   "\"fNumber\":\"" ++ jsonEscape props.fNumber ++ "\"," ++
   "\"whiteBalance\":\"" ++ jsonEscape props.whiteBalance ++ "\"," ++
   "\"colorTemp\":" ++ toString props.colorTemp ++ "," ++
   "\"mediaSlot1Min\":" ++ toString props.mediaSlot1Min ++ "," ++
   "\"mediaSlot2Min\":" ++ toString props.mediaSlot2Min ++ "," ++
   "\"movieFormat\":\"" ++ jsonEscape props.movieFormat ++ "\"," ++
   "\"recSetting\":\"" ++ jsonEscape props.recSetting ++ "\"," ++
   "\"frameRate\":\"" ++ jsonEscape props.frameRate ++ "\"," ++
   "\"clipName\":\"" ++ jsonEscape props.clipName ++ "\"," ++
   "\"heatState\":" ++ toString props.heatState ++
   "\x7d", w)

/-- The loop of `buildStatusJson` over `g_cameras`, from index `i`, appending to `js`. -/
def buildCamerasJson (E : Env σ) (K : SdkCodes) :
    List CameraDevice → Nat → String → World σ → String × World σ
  | [], _, js, w => (js, w)
  | cam :: rest, i, js, w =>
    let js := if i > 0 then js ++ "," else js
    let (obj, w) := buildCameraJson E K i cam w
    buildCamerasJson E K rest (i + 1) (js ++ obj) w

/-- `buildStatusJson()`; `ownsLock` is the outcome of the `try_to_lock` on `g_mutex`. -/
def buildStatusJson (E : Env σ) (K : SdkCodes) (ownsLock : Bool) (g : Globals) (w : World σ) :
    String × World σ :=
  let js := "\x7b\"cameras\":["
  let (js, w) := if ownsLock then buildCamerasJson E K g.g_cameras 0 js w else (js, w)
  let js := js ++ "],"
  let js := js ++ "\"downloading\":" ++ boolText g.g_downloading ++ ","
  let js := js ++ "\"downloadStatus\":\"" ++ jsonEscape g.g_downloadStatus ++ "\","
  let js := js ++ "\"downloadPath\":\"" ++ jsonEscape g.g_downloadPath ++ "\","
  let js := js ++ "\"scanning\":" ++ boolText g.g_scanning ++ ","
  let js := js ++ "\"scanStatus\":\"" ++ jsonEscape g.g_scanStatus ++ "\","
  let js := js ++ "\"presetPath\":\"" ++ jsonEscape g.g_presetPath ++ "\","
  let (found, w) := fsExists E g.g_presetPath w
  let js := js ++ "\"hasPreset\":" ++ boolText found
  (js ++ "\x7d", w)

end Preset

/-! ## Simple JSON body parser -/

/-- `jsonGetString(body, key)`. -/
def jsonGetString (body key : String) : String :=
  let b := body.toList
  let needle := "\"".toList ++ key.toList ++ "\"".toList
  match strFind b needle 0 with
  | none => ""
  | some pos =>
    match strFindChar b ':' (pos + needle.length) with
    | none => ""
    | some pos =>
      match strFindChar b '"' (pos + 1) with
      | none => ""
      | some pos =>
        match strFindChar b '"' (pos + 1) with
        | none => ""
        | some end_ => String.mk ((b.drop (pos + 1)).take (end_ - pos - 1))

/-! ## HTTP handlers for the long operations -/

/-- The detached threads the handlers start. -/
inductive BackgroundTask
  | scan
  | reset
  | download
  deriving DecidableEq, Repr

/-- What a handler did: the globals after it, the response body, the threads it started. -/
structure Handled where
  g : Globals
  response : String
  spawned : List BackgroundTask
  deriving DecidableEq, Repr

/-- The handler of `POST /api/scan`. -/
def postScan (g : Globals) : Handled :=
  if g.g_downloading then ⟨g, "\x7b\"error\":\"Download in progress\"\x7d", []⟩
  else if g.g_scanning then ⟨g, "\x7b\"error\":\"Scan already in progress\"\x7d", []⟩
  else ⟨g, "\x7b\"status\":\"scan started\"\x7d", [.scan]⟩

/-- The handler of `POST /api/reset`. -/
def postReset (g : Globals) : Handled :=
  if g.g_downloading then ⟨g, "\x7b\"error\":\"Download in progress\"\x7d", []⟩
  else if g.g_scanning then ⟨g, "\x7b\"error\":\"Scan already in progress\"\x7d", []⟩
  else ⟨g, "\x7b\"status\":\"reset started\"\x7d", [.reset]⟩

/-- The handler of `POST /api/download`, for a request with the given body. -/
def postDownload (body : String) (g : Globals) : Handled :=
  if g.g_downloading then ⟨g, "\x7b\"error\":\"Download already in progress\"\x7d", []⟩
  else
    let g :=
      if ¬ body.isEmpty then
        let path := jsonGetString body "path"
        if ¬ path.isEmpty then { g with g_downloadPath := path } else g
      else g
    ⟨g, "\x7b\"status\":\"download started\"\x7d", [.download]⟩

/-- The text of the reply of the handlers that count: `ok` and `failed`. -/
def countsJson (ok fail : Nat) : String :=
  "\x7b\"ok\":" ++ toString ok ++ ",\"failed\":" ++ toString fail ++ "\x7d"

/-- The loop `for (auto& cam : g_cameras) { if (cam->command()) ok++; else fail++; }` of the
handlers of `/api/start`, `/api/stop` and `/api/format`, for the command they call. -/
def commandAll {σ : Type} (command : CameraDevice → World σ → Bool × World σ) :
    List CameraDevice → Nat → Nat → World σ → Nat × Nat × World σ
  | [], ok, fail, w => (ok, fail, w)
  | cam :: rest, ok, fail, w =>
    let (done, w) := command cam w
    if done then commandAll command rest (ok + 1) fail w
    else commandAll command rest ok (fail + 1) w

/-- The handler of `POST /api/start`: the response body and the world. -/
def postStart {σ : Type} (E : Env σ) (K : SdkCodes) (g : Globals) (w : World σ) :
    String × World σ :=
  if g.g_downloading then ("\x7b\"error\":\"Download in progress\"\x7d", w)
  else
    let (ok, fail, w) := commandAll (CameraDevice.startRecording E K) g.g_cameras 0 0 w
    (countsJson ok fail, w)

/-- The handler of `POST /api/stop`. -/
def postStop {σ : Type} (E : Env σ) (K : SdkCodes) (g : Globals) (w : World σ) :
    String × World σ :=
  if g.g_downloading then ("\x7b\"error\":\"Download in progress\"\x7d", w)
  else
    let (ok, fail, w) := commandAll (CameraDevice.stopRecording E K) g.g_cameras 0 0 w
    (countsJson ok fail, w)

/-- The handler of `POST /api/format`. -/
def postFormat {σ : Type} (E : Env σ) (K : SdkCodes) (g : Globals) (w : World σ) :
    String × World σ :=
  if g.g_downloading ∨ g.g_scanning then ("\x7b\"error\":\"Busy\"\x7d", w)
  else
    let (ok, fail, w) := commandAll (CameraDevice.formatSlot1 E K) g.g_cameras 0 0 w
    (countsJson ok fail, w)

/-- The body of a detached thread, run with `g_mutex` free. -/
def BackgroundTask.run {σ : Type} (E : Env σ) (K : SdkCodes) (apple : Bool) :
    BackgroundTask → Globals → World σ → Option (Globals × World σ)
  | .scan, g, w => scanAndConnect E K apple false g w
  | .reset, g, w =>
    let w := disconnectAll E g.g_cameras w
    scanAndConnect E K apple true { g with g_cameras := [] } w
  | .download, g, w => downloadFilesThread E K apple g w

/-! ## Vocabulary of the statements -/

/-- The callbacks that resolve a registered event promise. -/
def Callback.completesEvent : Callback → Bool
  | .OnConnected => true
  | .OnDisconnected _ => true
  | .OnError _ => true
  | _ => false

/-- The completion event of an accepted request: the first callback that resolves the
event promise. -/
def firstCompletion (events : List Callback) : Option Callback :=
  events.find? Callback.completesEvent

/-- A `Connect` reply on which the open attempt fails: a synchronous error, or acceptance
followed by `OnError` as completion event. -/
def ConnectReply.fails (r : ConnectReply) : Bool :=
  r.err ≠ 0 ||
    match firstCompletion r.events with
    | some (.OnError _) => true
    | _ => false

/-- A `Connect` reply answered by a synchronous error or by a completion event. -/
def ConnectReply.answered (r : ConnectReply) : Bool :=
  r.err ≠ 0 || (firstCompletion r.events).isSome

/-- The calls of the block run between two attempts of `connect`. -/
def retryDelayLog (apple : Bool) : List Ev :=
  if apple then [Ev.resetUSBDevice, Ev.sleep 4000] else [Ev.sleep 3000]

def Ev.isConnect : Ev → Bool
  | .Connect _ _ _ => true
  | _ => false

/-- The calls of one failed attempt: the `Connect` call, then at most one `ReleaseDevice`. -/
def isFailedAttempt (info : ObjInfo) (block : List Ev) : Prop :=
  (∃ r, block = [Ev.Connect info .Remote r]) ∨
  (∃ r h, block = [Ev.Connect info .Remote r, Ev.ReleaseDevice h])

/-- The devices `scanAndConnect` tries to open: the FX30 cameras of the enumeration whose
identity is not that of a connected camera of the registry. -/
def scanCandidates (cameras : List CameraDevice) (infos : List ObjInfo) : List ObjInfo :=
  infos.filter (fun i => isFX30Camera i && !alreadyConnected cameras (getModelId i))

/-- The devices of an enumeration reply that passes the test of `scanAndConnect`. -/
def EnumReply.devices (r : EnumReply) : List ObjInfo :=
  r.list?.getD []

/-! ## A scripted outside world, for the examples

The state holds a property store, the files present and the save path; the replies to
`Connect`, to the enumeration and to the listing calls are fixed by a script. -/

/-- The state of the scripted world. -/
structure MockState where
  props : Nat → Nat
  files : List (String × String)
  savePath : String

/-- The script of the scripted world. -/
structure MockScript where
  connect : ObjInfo → SdkControlMode → ConnectReply
  disconnect : List Callback
  enumeration : EnumReply
  folders : Int → HandleListReply
  contents : Int → Nat → HandleListReply
  detail : Int → Nat → DetailReply
  pull : Int → Nat → PullReply
  command : Int → Nat := fun _ => 0

/-- The callbacks that resolve a registered download promise. -/
def Callback.completesDownload : Callback → Bool
  | .OnWarning .ContentsTransferMode_DeviceBusy => true
  | .OnWarning .ContentsTransferMode_StatusError => true
  | .OnWarning .ContentsTransferMode_CanceledFromCamera => true
  | .OnNotifyContentsTransfer .ContentsTransfer_Complete => true
  | .OnNotifyContentsTransfer (.other _) => true
  | _ => false

/-- How a pull ended, read off the reply of `PullContentsFile`. -/
inductive PullOutcome
  | rejected
  | timedOut
  | failed
  | completed
  deriving DecidableEq, Repr

/-- The outcome of a pull: rejected when the call returns an error; otherwise decided by the
first callback that resolves the download promise (none within five minutes: timed out;
`ContentsTransfer_Complete`: completed; any other: failed). -/
def PullReply.outcome (r : PullReply) : PullOutcome :=
  if r.err ≠ 0 then .rejected
  else
    match r.events.find? Callback.completesDownload with
    | none => .timedOut
    | some (.OnNotifyContentsTransfer .ContentsTransfer_Complete) => .completed
    | some _ => .failed

/-- The scripted world: properties are a store that every write updates, a completed pull
creates the file under the save path, everything else answers from the script. -/
def mockEnv (S : MockScript) : Env MockState where
  Connect := fun s info _ mode => (S.connect info mode, s)
  ReleaseDevice := fun s _ => s
  Disconnect := fun s _ => (S.disconnect, s)
  resetUSBDevice := fun s => s
  sleep := fun s _ => s
  EnumCameraObjects := fun s => (S.enumeration, s)
  EnumRelease := fun s => s
  GetSelectDeviceProperties := fun s _ codes =>
    (⟨0, some (codes.map (fun c => ⟨c, s.props c, none⟩))⟩, s)
  ReleaseDeviceProperties := fun s _ => s
  SetDeviceProperty := fun s _ p =>
    (0, { s with props := fun c => if c = p.code then p.currentValue else s.props c })
  SetSaveInfo := fun s _ path => (0, { s with savePath := path })
  GetDateFolderList := fun s h => (S.folders h, s)
  GetContentsHandleList := fun s h f => (S.contents h f, s)
  GetContentsDetailInfo := fun s h c => (S.detail h c, s)
  PullContentsFile := fun s h c =>
    (S.pull h c,
      if (S.pull h c).outcome = .completed then
        { s with files := (s.savePath ++ "/" ++ (S.detail h c).fileName, "") :: s.files }
      else s)
  ReleaseContentsHandleList := fun s _ => s
  ReleaseDateFolderList := fun s _ => s
  fsExists := fun s path => s.files.any (fun f => f.1 = path)
  fsCreateDirectories := fun s _ => (none, s)
  fsReadFile := fun s path => (s.files.find? (fun f => f.1 = path)).map (fun f => f.2)
  SendCommand := fun s h _ _ => (S.command h, s)
  ExecuteControlCodeValue := fun s h _ _ => (S.command h, s)
  fsWriteFile := fun s path text => (true, { s with files := (path, text) :: s.files })

/-- A script with no camera: every open is refused, every listing is empty. -/
def emptyScript : MockScript where
  connect := fun _ _ => ⟨1, 0, []⟩
  disconnect := []
  enumeration := ⟨0, some []⟩
  folders := fun _ => ⟨0, some []⟩
  contents := fun _ _ => ⟨0, some []⟩
  detail := fun _ _ => ⟨1, ""⟩
  pull := fun _ _ => ⟨1, []⟩

/-- A scripted world at its start: all properties 0, no file, nothing logged. -/
def mockStart : World MockState :=
  ⟨⟨fun _ => 0, [], ""⟩, []⟩

/-- An FX30 on USB. -/
def fx30A : ObjInfo := ⟨"ILME-FX30", "USB", "", "A"⟩

/-- A second FX30 on USB. -/
def fx30B : ObjInfo := ⟨"ILME-FX30", "USB", "", "B"⟩

/-- A script on which every open fails: the first camera is refused, the second is accepted
and then reports an error. -/
def failingScript : MockScript :=
  { emptyScript with
    connect := fun info _ => if info = fx30A then ⟨1, 0, []⟩ else ⟨0, 7, [.OnError 2]⟩
    enumeration := ⟨0, some [fx30A, fx30B]⟩ }

/-- Example values for the SDK enumerators (pairwise distinct within each enumeration); the
values of the real header are not in the sources and no statement depends on them. -/
def exampleCodes : SdkCodes where
  CrDeviceProperty := fun
    | .FNumber => 256 | .ShutterSpeed => 259 | .IsoSensitivity => 260 | .WhiteBalance => 264
    | .Colortemp => 271 | .BatteryRemain => 1280 | .RecordingState => 1290
    | .MediaSLOT1_RemainingTime => 1300 | .MediaSLOT2_RemainingTime => 1301
    | .Movie_File_Format => 1310 | .Movie_Recording_Setting => 1311
    | .Movie_Recording_FrameRateSetting => 1312 | .RecorderClipName => 1320
    | .DeviceOverheatingState => 1330
  CrWhiteBalance := fun c => (WhiteBalanceCode.all.indexOf c)
  CrFileFormatMovie := fun c => (MovieFormatCode.all.indexOf c)
  CrRecordingSettingMovie := fun c => (RecSettingCode.all.indexOf c)
  CrRecordingFrameRateSettingMovie := fun c => (FrameRateCode.all.indexOf c)
  CrMovie_Recording_State_Recording := 1
  CrError_None := 0

/-- A script on which the open of the camera is accepted and completed by `OnDisconnected`. -/
def disconnectedScript : MockScript :=
  { emptyScript with
    connect := fun _ _ => ⟨0, 5, [.OnDisconnected 0]⟩
    enumeration := ⟨0, some [fx30A]⟩ }

/-- The property reads of a log: handle, codes and reply of each
`GetSelectDeviceProperties` call, in order. -/
def readsOf (log : List Ev) : List (Int × List Nat × PropReply) :=
  log.filterMap (fun
    | .GetSelectDeviceProperties h codes r => some (h, codes, r)
    | _ => none)

/-- The property writes of a log: handle, property written and error code of each
`SetDeviceProperty` call, in order. -/
def writesOf (log : List Ev) : List (Int × DevProp × Nat) :=
  log.filterMap (fun
    | .SetDeviceProperty h p err => some (h, p, err)
    | _ => none)

/-- The write `applyPreset` owes to an entry, given the reply to the read of its property:
none when the read failed or the current value is the target, else the property read, with
the target as value. -/
def wantedWrite (entry : PresetEntry) (reply : PropReply) : Option DevProp :=
  match reply.list? with
  | some (p :: _) =>
    if p.currentValue = entry.value then none else some { p with currentValue := entry.value }
  | _ => none

/-- A device, behind handle `h`, on which every property read and every property write
succeeds and a property reads back as the value last written to it: `val s c` is the value
of property `c` in the outside state `s`. -/
structure StoreDevice {σ : Type} (E : Env σ) (h : Int) (val : σ → Nat → Nat) : Prop where
  read_ok : ∀ s c, ∃ p ps, (E.GetSelectDeviceProperties s h [c]).1 = ⟨0, some (p :: ps)⟩ ∧
    p.code = c ∧ p.currentValue = val s c
  read_keeps : ∀ s c c', val (E.GetSelectDeviceProperties s h [c]).2 c' = val s c'
  release_keeps : ∀ s c', val (E.ReleaseDeviceProperties s h) c' = val s c'
  sleep_keeps : ∀ s ms c', val (E.sleep s ms) c' = val s c'
  write_ok : ∀ s p, (E.SetDeviceProperty s h p).1 = 0
  write_sets : ∀ s p c', val (E.SetDeviceProperty s h p).2 c' =
    if c' = p.code then p.currentValue else val s c'

/-- The text of the preset file of the scenario. -/
def iso800File : String := "\x7b\"iso\": 800\x7d"

/-- A scripted world in which the ISO property reads 400 and the preset file holds
`iso800File`. -/
def iso400Start : World MockState :=
  ⟨⟨fun c => if c = exampleCodes.CrDeviceProperty .IsoSensitivity then 400 else 0,
    [("fx30_preset.json", iso800File)], ""⟩, []⟩

/-- A connected camera behind handle 1. -/
def connectedCam : CameraDevice :=
  { m_device_handle := 1, m_connected := true, m_modelId := "ILME-FX30 (A)" }

/-- The `while (g_running)` loop of `cameraManagementThread` over a run of ticks.  The other
threads change the globals between two ticks, so the run is given by the globals each tick
finds after its sleep; the counter `disconnectedSecs` and the world are threaded through.
The result lists the value of the counter after each tick. -/
def managementRun {σ : Type} (E : Env σ) (K : SdkCodes) (apple : Bool) :
    List Globals → Nat → World σ → Option (List Nat × World σ)
  | [], _, w => some ([], w)
  | g :: gs, disconnectedSecs, w =>
    match managementTick E K apple disconnectedSecs g w with
    | none => none
    | some (d, _, w) => (managementRun E K apple gs d w).map (fun r => (d :: r.1, r.2))

/-- The beginning of the JSON object of one camera: its index, its model and whether it is
connected. -/
def cameraJsonHead (index : Nat) (modelStr : String) (connected : Bool) : String :=
  "\x7b" ++ ("\"index\":" ++ (toString index ++ ("," ++ ("\"model\":\"" ++
    (jsonEscape modelStr ++ ("\"," ++ ("\"connected\":" ++ (boolText connected ++ ","))))))))

/-- The status object after the text of the `cameras` array: the closing of the array and
the seven fleet-wide fields. -/
def statusFields (g : Globals) (hasPreset : Bool) : String :=
  "]," ++ ("\"downloading\":" ++ (boolText g.g_downloading ++ ("," ++
    ("\"downloadStatus\":\"" ++ (jsonEscape g.g_downloadStatus ++ ("\"," ++
    ("\"downloadPath\":\"" ++ (jsonEscape g.g_downloadPath ++ ("\"," ++
    ("\"scanning\":" ++ (boolText g.g_scanning ++ ("," ++
    ("\"scanStatus\":\"" ++ (jsonEscape g.g_scanStatus ++ ("\"," ++
    ("\"presetPath\":\"" ++ (jsonEscape g.g_presetPath ++ ("\"," ++
    ("\"hasPreset\":" ++ (boolText hasPreset ++ "\x7d"))))))))))))))))))))

/-- The JSON objects `buildStatusJson` prints for the cameras, from index `i`, each built in
the world the previous one left. -/
def cameraObjects {σ : Type} (E : Env σ) (K : SdkCodes) :
    List CameraDevice → Nat → World σ → List String × World σ
  | [], _, w => ([], w)
  | cam :: rest, i, w =>
    let r := buildCameraJson E K i cam w
    let rs := cameraObjects E K rest (i + 1) r.2
    (r.1 :: rs.1, rs.2)

/-- The text starts with the head of the camera object for index, model and connection. -/
def startsWithHead (obj : String) (index : Nat) (modelStr : String) (connected : Bool) : Prop :=
  ∃ rest, obj = cameraJsonHead index modelStr connected ++ rest

/-- A script with two FX30 cameras (and a camera of another model between them) whose opens
are accepted and completed by `OnConnected`. -/
def twoCameraScript : MockScript :=
  { emptyScript with
    connect := fun info _ => ⟨0, if info = fx30A then 11 else 12, [.OnConnected]⟩
    enumeration := ⟨0, some [fx30A, ⟨"ILCE-7M4", "USB", "", "C"⟩, fx30B]⟩ }

/-! ## Reading the transfer calls off a log -/

/-- The detail queries of a log: handle, content handle and reply, in order. -/
def detailsOf (log : List Ev) : List (Int × Nat × DetailReply) :=
  log.filterMap (fun
    | .GetContentsDetailInfo h c r => some (h, c, r)
    | _ => none)

/-- The existence checks of a log: path and answer, in order. -/
def existsOf (log : List Ev) : List (String × Bool) :=
  log.filterMap (fun
    | .fsExists path found => some (path, found)
    | _ => none)

/-- The pull requests of a log: handle, content handle and reply, in order. -/
def pullsOf (log : List Ev) : List (Int × Nat × PullReply) :=
  log.filterMap (fun
    | .PullContentsFile h c r => some (h, c, r)
    | _ => none)

/-- The content listings of a log: handle, folder handle and reply, in order. -/
def listingsOf (log : List Ev) : List (Int × Nat × HandleListReply) :=
  log.filterMap (fun
    | .GetContentsHandleList h f r => some (h, f, r)
    | _ => none)

/-- The folder listings of a log: handle and reply, in order. -/
def folderListsOf (log : List Ev) : List (Int × HandleListReply) :=
  log.filterMap (fun
    | .GetDateFolderList h r => some (h, r)
    | _ => none)

/-- The `SetSaveInfo` calls of a log: handle, path and error code, in order. -/
def saveInfosOf (log : List Ev) : List (Int × String × Nat) :=
  log.filterMap (fun
    | .SetSaveInfo h path err => some (h, path, err)
    | _ => none)

/-- The calls of the download step: the transfer calls of the SDK and the existence check. -/
def Ev.isTransfer : Ev → Bool
  | .SetSaveInfo _ _ _ => true
  | .GetDateFolderList _ _ => true
  | .GetContentsHandleList _ _ _ => true
  | .GetContentsDetailInfo _ _ _ => true
  | .PullContentsFile _ _ _ => true
  | .ReleaseContentsHandleList _ => true
  | .ReleaseDateFolderList _ => true
  | .fsExists _ _ => true
  | _ => false

/-- The handles a listing reply gives (none when the listing failed or is empty). -/
def HandleListReply.entries (r : HandleListReply) : List Nat :=
  r.list?.getD []

/-- The remote entries a log lists: for every content listing, in order, its content
handles, each with the device handle. -/
def listedEntries (log : List Ev) : List (Int × Nat) :=
  (listingsOf log).flatMap (fun l => l.2.2.entries.map (fun c => (l.1, c)))

/-- The folders a log lists: for every folder listing, in order, its folder handles, each
with the device handle. -/
def listedFolders (log : List Ev) : List (Int × Nat) :=
  (folderListsOf log).flatMap (fun l => l.2.entries.map (fun f => (l.1, f)))

/-- The examined entries whose detail query succeeded: handle, content handle, file name. -/
def examinedFiles (log : List Ev) : List (Int × Nat × String) :=
  (detailsOf log).filterMap (fun d =>
    if d.2.2.err = 0 then some (d.1, d.2.1, d.2.2.fileName) else none)

/-- The counters as read off a log: files whose detail query succeeded; existence checks
answered yes; pulls completed; failed detail queries plus pulls rejected, timed out or
failed. -/
def tally (log : List Ev) : Counters where
  totalFiles := (detailsOf log).countP (fun d => d.2.2.err = 0)
  skippedFiles := (existsOf log).countP (fun x => x.2)
  downloadedFiles := (pullsOf log).countP (fun p => p.2.2.outcome = .completed)
  errorFiles := (detailsOf log).countP (fun d => d.2.2.err ≠ 0) +
    (pullsOf log).countP (fun p => p.2.2.outcome ≠ .completed)

/-- Counters add field by field. -/
def Counters.add (a b : Counters) : Counters where
  totalFiles := a.totalFiles + b.totalFiles
  skippedFiles := a.skippedFiles + b.skippedFiles
  downloadedFiles := a.downloadedFiles + b.downloadedFiles
  errorFiles := a.errorFiles + b.errorFiles

/-- What holds of the calls made for the entries of a log, with `dlPath` the target
directory: there is one existence check per entry whose detail query succeeded, in order,
for the path of its file; and the pulls are, in order, those of the checked entries whose
file did not exist. -/
structure EntryFacts (dlPath : String) (log : List Ev) : Prop where
  checks : (existsOf log).map (fun x => x.1) =
    (examinedFiles log).map (fun e => dlPath ++ "/" ++ e.2.2)
  pulls : (pullsOf log).map (fun p => (p.1, p.2.1)) =
    ((examinedFiles log).zip (existsOf log)).filterMap (fun ex =>
      if ex.2.2 then none else some (ex.1.1, ex.1.2.1))

/-- The globals agree but for the download status text. -/
def sameButDownloadStatus (g g' : Globals) : Prop :=
  g' = { g with g_downloadStatus := g'.g_downloadStatus }

/-- What holds of the transfer calls of a log, with `dlPath` the target directory: the facts
about the entries; every entry of every content listing is examined exactly once, in order;
every folder of every folder listing is listed exactly once, in order; and the folders are
listed of exactly the devices whose `SetSaveInfo` succeeded. -/
structure TransferFacts (dlPath : String) (log : List Ev) : Prop where
  entries : EntryFacts dlPath log
  examined : (detailsOf log).map (fun d => (d.1, d.2.1)) = listedEntries log
  listed : (listingsOf log).map (fun l => (l.1, l.2.1)) = listedFolders log
  folders : (folderListsOf log).map (fun l => l.1) =
    (saveInfosOf log).filterMap (fun s => if s.2.2 = 0 then some s.1 else none)

/-- The world `w'` comes from `w` by calls none of which is a transfer call. -/
def Quiet {σ : Type} (w w' : World σ) : Prop :=
  ∃ tr, w'.log = w.log ++ tr ∧ ∀ ev ∈ tr, Ev.isTransfer ev = false

/-- A script with one FX30 camera that opens in both modes (handle 11), with one folder
(100) of six entries, one for each way an entry can end: the detail query of entry 1 fails;
the file of entry 2 exists already; the pull of entry 3 is rejected; that of entry 4 gets no
completion; that of entry 5 ends with an error notification; that of entry 6 completes. -/
def sixEntryScript : MockScript :=
  { emptyScript with
    connect := fun _ _ => ⟨0, 11, [.OnConnected]⟩
    disconnect := [.OnDisconnected 0]
    enumeration := ⟨0, some [fx30A]⟩
    folders := fun _ => ⟨0, some [100]⟩
    contents := fun _ _ => ⟨0, some [1, 2, 3, 4, 5, 6]⟩
    detail := fun _ c =>
      if c = 1 then ⟨1, ""⟩ else ⟨0, "C000" ++ toString c ++ ".MP4"⟩
    pull := fun _ c =>
      if c = 3 then ⟨1, []⟩
      else if c = 4 then ⟨0, [.OnOther]⟩
      else if c = 5 then ⟨0, [.OnNotifyContentsTransfer (.other 9)]⟩
      else ⟨0, [.OnNotifyContentsTransfer .ContentsTransfer_Start,
                .OnNotifyContentsTransfer .ContentsTransfer_Complete]⟩ }

/-- A scripted world in which the file of entry 2 is in the download directory. -/
def sixEntryStart : World MockState :=
  ⟨⟨fun _ => 0, [("/tmp/fx30_downloads/C0002.MP4", "")], ""⟩, []⟩

/-- A script with one camera, one folder and three entries whose detail queries succeed and
whose pulls complete. -/
def resumeScript : MockScript :=
  { emptyScript with
    connect := fun _ _ => ⟨0, 11, [.OnConnected]⟩
    disconnect := [.OnDisconnected 0]
    enumeration := ⟨0, some [fx30A]⟩
    folders := fun _ => ⟨0, some [100]⟩
    contents := fun _ _ => ⟨0, some [1, 2, 3]⟩
    detail := fun _ c => ⟨0, "C000" ++ toString c ++ ".MP4"⟩
    pull := fun _ _ => ⟨0, [.OnNotifyContentsTransfer .ContentsTransfer_Complete]⟩ }

/-- A script with one camera, one folder and one entry whose detail query fails. -/
def detailFailScript : MockScript :=
  { resumeScript with
    contents := fun _ _ => ⟨0, some [1]⟩
    detail := fun _ _ => ⟨1, "C0001.MP4"⟩ }

/-- A script with two cameras (handles 11 and 12), each with one folder holding one clip
named `C0001.MP4`; every pull completes. -/
def sameNameScript : MockScript :=
  { resumeScript with
    connect := fun info _ => ⟨0, if info = fx30A then 11 else 12, [.OnConnected]⟩
    enumeration := ⟨0, some [fx30A, fx30B]⟩
    contents := fun _ _ => ⟨0, some [1]⟩
    detail := fun _ _ => ⟨0, "C0001.MP4"⟩ }

/-- The remote entry `e` of the scripted world was in the directory `dlPath` at `start`. -/
def preExisting (S : MockScript) (start : World MockState) (dlPath : String)
    (e : Int × Nat) : Bool :=
  start.s.files.any (fun f => f.1 = dlPath ++ "/" ++ (S.detail e.1 e.2).fileName)

/-- The download-idempotence property as the specification words it, for a run in the
scripted world whose counters are `cnt` and whose log is `log`: the skipped count is the
number of listed remote entries that were in the directory before the run, and the pulls
are those of exactly the remaining listed entries. -/
def skipsExactlyPreExisting (S : MockScript) (start : World MockState) (dlPath : String)
    (cnt : Counters) (log : List Ev) : Prop :=
  cnt.skippedFiles = (listedEntries log).countP (preExisting S start dlPath) ∧
  (pullsOf log).map (fun p => (p.1, p.2.1)) =
    (listedEntries log).filter (fun e => !preExisting S start dlPath e)

/-! ## Vocabulary of the download phases -/

/-- The world in which `downloadFilesThread` enumerates the cameras for the transfer: the
directory created, the registry disconnected, two seconds slept. -/
def transferScanWorld {σ : Type} (E : Env σ) (g : Globals) (w : World σ) : World σ :=
  sleep_for E 2000 (disconnectAll E g.g_cameras (fsCreateDirectories E g.g_downloadPath w).2)

/-- No camera for the transfer: the enumeration of `downloadFilesThread` fails, or the loop
that opens the FX30 devices of the enumeration in transfer mode ends with none opened. -/
def noTransferCamera {σ : Type} (E : Env σ) (g : Globals) (w : World σ) : Prop :=
  (SCRSDK.EnumCameraObjects E (transferScanWorld E g w)).1.list? = none ∨
  ∃ infos w3,
    (SCRSDK.EnumCameraObjects E (transferScanWorld E g w)).1.list? = some infos ∧
    connectTransferAll E infos []
      (SCRSDK.EnumCameraObjects E (transferScanWorld E g w)).2 = some ([], w3)

/-- The scripted world with a target directory that cannot be created. -/
def readOnlyEnv (S : MockScript) : Env MockState :=
  { mockEnv S with fsCreateDirectories := fun s _ => (some "Permission denied", s) }

/-- A script with one FX30 camera that opens in Remote mode (handle 11) and refuses to open
in ContentsTransfer mode. -/
def transferRefusedScript : MockScript :=
  { emptyScript with
    connect := fun _ mode =>
      if mode = .ContentsTransfer then ⟨1, 0, []⟩ else ⟨0, 11, [.OnConnected]⟩
    disconnect := [.OnDisconnected 0]
    enumeration := ⟨0, some [fx30A]⟩ }

/-- The file writes of a log: path, text and whether the file opened, in order. -/
def fileWritesOf (log : List Ev) : List (String × String × Bool) :=
  log.filterMap (fun
    | .fsWriteFile path text opened => some (path, text, opened)
    | _ => none)

/-- A script whose camera (handle 1) answers the batch read of the preset properties with an
error; every other property read succeeds. -/
def readFailEnv : Env MockState :=
  { mockEnv emptyScript with
    GetSelectDeviceProperties := fun s _ codes =>
      if codes.length = 1 then (⟨0, some (codes.map (fun c => ⟨c, s.props c, none⟩))⟩, s)
      else (⟨0x8402, none⟩, s) }

/-! ## Vocabulary of the preset scan -/

/-- The text `needle` occurs in `s` at index `p` and at no smaller index. -/
def firstOccurrence (s needle : List Char) (p : Nat) : Prop :=
  p ≤ s.length ∧ needle <+: s.drop p ∧ ∀ q < p, ¬ needle <+: s.drop q

/-- The key `name` between double quotes. -/
def quotedKey (name : String) : List Char :=
  "\"".toList ++ name.toList ++ "\"".toList

/-- The quoted key `name` occurs in `content` and a ':' occurs after its first occurrence. -/
def keyWithColon (content : List Char) (name : String) : Prop :=
  ∃ p, firstOccurrence content (quotedKey name) p ∧
    ':' ∈ content.drop (p + (quotedKey name).length)

/-- A preset text with the keys out of order: `frameRate` has no ':' of its own, `iso` has,
and `bogus` is not a known identifier. -/
def mixedPresetFile : String := "\x7b\"frameRate\" 5, \"iso\": 800, \"bogus\": 1\x7d"

/-- A scripted world whose preset file holds `mixedPresetFile`. -/
def mixedPresetStart : World MockState :=
  ⟨⟨fun _ => 0, [("fx30_preset.json", mixedPresetFile)], ""⟩, []⟩

/-! ## Vocabulary of the counting handlers -/

/-- The device handles of the connected cameras of a registry, in order. -/
def connectedHandles (cams : List CameraDevice) : List Int :=
  (cams.filter (fun c => c.m_connected)).map (fun c => c.m_device_handle)

/-- The counting property as the specification words it: the two counts of a reply add up to
the number of connected handles of the registry. -/
def countsConnectedOnly (cams : List CameraDevice) (ok failed : Nat) : Prop :=
  ok + failed = (connectedHandles cams).length

/-- A camera of the registry that lost its connection (handle 2). -/
def lostCam : CameraDevice :=
  { m_device_handle := 2, m_connected := false, m_modelId := "ILME-FX30 (B)" }

/-- What holds of the reply `r` of a counting handler run on the registry `cams` from a log
`before`, with `mkEv handle err` the call it makes: there is one driver reply per connected
handle, in order, and no other call; `ok` is the number of replies that are `CrError_None`;
`failed` is the number of handles that are not connected plus the number of the other
replies; and the two add up to the number of handles of the registry. -/
def countsReply {σ : Type} (K : SdkCodes) (cams : List CameraDevice) (mkEv : Int → Nat → Ev)
    (before : List Ev) (r : String × World σ) : Prop :=
  ∃ errs : List Nat, errs.length = (connectedHandles cams).length ∧
    r.2.log = before ++ List.zipWith mkEv (connectedHandles cams) errs ∧
    r.1 = countsJson (errs.countP (fun e => e = K.CrError_None))
      (cams.countP (fun c => !c.m_connected) + errs.countP (fun e => e ≠ K.CrError_None)) ∧
    errs.countP (fun e => e = K.CrError_None) +
      (cams.countP (fun c => !c.m_connected) + errs.countP (fun e => e ≠ K.CrError_None)) =
      cams.length

/-- A script whose camera accepts every open and then delivers no completion event. -/
def silentScript : MockScript :=
  { emptyScript with
    connect := fun _ _ => ⟨0, 5, [.OnOther]⟩
    enumeration := ⟨0, some [fx30A]⟩ }

/-! ## Vocabulary of the health monitor -/

/-- What the tick does to a camera of the registry: a connected camera that was reconnecting
has its `m_reconnecting` flag cleared. -/
def clearRecovered (cam : CameraDevice) : CameraDevice :=
  if cam.m_connected ∧ cam.m_reconnecting then { cam with m_reconnecting := false } else cam

/-- The tick is evaluated: the program runs and neither a download nor a scan is going on. -/
def evaluatedTick (g : Globals) : Prop :=
  g.g_running = true ∧ g.g_downloading = false ∧ g.g_scanning = false

/-- Every known handle is connected (which holds of a registry with no handles). -/
def everyHandleConnected (cams : List CameraDevice) : Prop :=
  ∀ cam ∈ cams, cam.m_connected = true

/-- The flag `allOk` of the tick: the registry is not empty and every handle is connected. -/
def allOk (cams : List CameraDevice) : Bool :=
  !cams.isEmpty && cams.all (fun cam => cam.m_connected)

/-- The calls `disconnect()` makes for a camera: `Disconnect` when it is connected, then
`ReleaseDevice` when its handle is not null. -/
def disconnectCalls (cam : CameraDevice) : List Ev :=
  (if cam.m_connected then [Ev.Disconnect cam.m_device_handle] else []) ++
    (if cam.m_device_handle ≠ 0 then [Ev.ReleaseDevice cam.m_device_handle] else [])

/-- What the registry tells of a handle: the device handle, the identity and the connection. -/
def handleView (cam : CameraDevice) : Int × String × Bool :=
  (cam.m_device_handle, cam.m_modelId, cam.m_connected)

/-! ## Vocabulary of the completion signals -/

/-- Delivering a sequence of callbacks, in order: the device after them and, for each of
them, how it resolved the event promise and the download promise. -/
def deliverAll : CameraDevice → List Callback →
    CameraDevice × List (Option Resolution × Option Resolution)
  | c, [] => (c, [])
  | c, cb :: rest =>
    let d := c.deliver cb
    let r := deliverAll d.cam rest
    (r.1, (d.event, d.download) :: r.2)

/-- The resolutions of the event promise in a list of deliveries. -/
def eventResolutions (ds : List (Option Resolution × Option Resolution)) :
    List (Option Resolution) :=
  ds.map (fun d => d.1)

/-- The resolutions of the download promise in a list of deliveries. -/
def downloadResolutions (ds : List (Option Resolution × Option Resolution)) :
    List (Option Resolution) :=
  ds.map (fun d => d.2)

/-! ## Decoding a JSON string body -/

/-- The value of a hexadecimal digit. -/
def hexValue (c : Char) : Option Nat :=
  if 48 ≤ c.toNat ∧ c.toNat ≤ 57 then some (c.toNat - 48)
  else if 97 ≤ c.toNat ∧ c.toNat ≤ 102 then some (c.toNat - 87)
  else if 65 ≤ c.toNat ∧ c.toNat ≤ 70 then some (c.toNat - 55)
  else none

/-- Where the decoder of a JSON string body stands: between tokens, after a backslash, or
inside a `\u` escape of which `count` digits, of value `acc`, were read. -/
inductive UnescapeState
  | plain
  | escape
  | hex (count acc : Nat)
  deriving DecidableEq, Repr

/-- Decoding the rest of the body of a JSON string from a state of the decoder, with the
standard escapes (`\"`, `\\`, `\n`, `\r`, `\t` and `\uXXXX`).  `none`: the text is not the
body of a JSON string: it holds a raw double quote, a raw control character or a backslash
that does not start one of these escapes. -/
def jsonUnescapeFrom : UnescapeState → List Char → Option (List Char)
  | .plain, [] => some []
  | .escape, [] => none
  | .hex _ _, [] => none
  | .plain, c :: rest =>
    if c = '\\' then jsonUnescapeFrom .escape rest
    else if c = '"' ∨ c.toNat < 0x20 then none
    else (jsonUnescapeFrom .plain rest).map (fun l => c :: l)
  | .escape, e :: rest =>
    if e = '"' then (jsonUnescapeFrom .plain rest).map (fun l => '"' :: l)
    else if e = '\\' then (jsonUnescapeFrom .plain rest).map (fun l => '\\' :: l)
    else if e = 'n' then (jsonUnescapeFrom .plain rest).map (fun l => '\n' :: l)
    else if e = 'r' then (jsonUnescapeFrom .plain rest).map (fun l => '\r' :: l)
    else if e = 't' then (jsonUnescapeFrom .plain rest).map (fun l => '\t' :: l)
    else if e = 'u' then jsonUnescapeFrom (.hex 0 0) rest
    else none
  | .hex count acc, h :: rest =>
    match hexValue h with
    | none => none
    | some v =>
      if count = 3 then
        (jsonUnescapeFrom .plain rest).map (fun l => Char.ofNat (16 * acc + v) :: l)
      else jsonUnescapeFrom (.hex (count + 1) (16 * acc + v)) rest

/-- Decoding the body of a JSON string. -/
def jsonUnescape (body : List Char) : Option (List Char) :=
  jsonUnescapeFrom .plain body

/-- The characters `jsonEscape` does not copy as they are. -/
def needsEscape (c : Char) : Bool :=
  c = '"' || c = '\\' || decide (c.toNat < 0x20)

/-- The body of the request that sets a path: the object with the one member `path` whose
value is the JSON string of `p`. -/
def pathBody (p : String) : String :=
  "\x7b\"path\":\"" ++ jsonEscape p ++ "\"\x7d"

/-! ## Vocabulary of the preset values -/

/-- The text `loadPreset` converts for a key whose first occurrence is at index `pos`: what
follows the first ':' after the key, with the spaces and tabs at its start skipped. -/
def valueText (content : List Char) (name : String) (pos : Nat) : List Char :=
  (((content.drop (pos + (quotedKey name).length)).dropWhile (fun ch => ch ≠ ':')).tail).dropWhile
    (fun ch => ch = ' ' ∨ ch = '\t')

/-- The text starts with a decimal digit. -/
def startsWithDigit (text : List Char) : Bool :=
  match text with
  | d :: _ => d.isDigit
  | [] => false

/-- The text holds a number for `strtoull`: after the white space at its start and an
optional sign comes a decimal digit. -/
def startsWithNumber (text : List Char) : Bool :=
  match text.dropWhile isspace with
  | '-' :: t => startsWithDigit t
  | '+' :: t => startsWithDigit t
  | s => startsWithDigit s

/-- A preset text whose ISO value is a quoted string. -/
def quotedValueFile : String := "\x7b\"iso\": \"auto\"\x7d"

/-- A preset text whose ISO value stands on the line after the key. -/
def nextLineValueFile : String := "\x7b\"iso\":\n800\x7d"

/-! ## Vocabulary of the preset round trip -/

/-- The digit fold of `strtoull`. -/
def digitsValue (ds : List Char) : Nat :=
  ds.foldl (fun a d => 10 * a + (d.toNat - 48)) 0

/-- The characters one iteration of the loop of `savePreset` writes after the separator. -/
def entryText (K : SdkCodes) (p : DevProp) : List Char :=
  "  \"".toList ++ (presetCodeName K p.code).toList ++ "\": ".toList ++
    (toString p.currentValue).toList

/-- The characters the loop of `savePreset` writes, from the flag `first`. -/
def entriesText (K : SdkCodes) : Bool → List DevProp → List Char
  | _, [] => []
  | first, p :: ps =>
    (if first then [] else ",\n".toList) ++ entryText K p ++ entriesText K false ps

/-- No occurrence of the quoted key `n` starts within `x` when `s` follows `x`. -/
def keyFree (n : String) (x s : List Char) : Prop :=
  ∀ q < x.length, ¬ quotedKey n <+: (x ++ s).drop q

/-- The pairs of `props` whose code is one of `kPresetCodes`, ordered as in `kPresetCodes`. -/
def presetPairs (K : SdkCodes) (props : List DevProp) : List PresetEntry :=
  (kPresetCodes K).filterMap (fun c =>
    (props.find? (fun p => p.code = c)).map (fun p => ⟨c, p.currentValue⟩))

/-- Properties as the driver may return them: three known codes, out of the order of
`kPresetCodes`, and one code that is not in `kPresetCodes`. -/
def exampleProps : List DevProp :=
  [⟨260, 800, none⟩, ⟨4242, 7, none⟩, ⟨1312, 2 ^ 64 - 1, none⟩, ⟨256, 280, none⟩]

/-! ## Vocabulary of the scan -/

/-- The `Connect` calls of a log: the device and the mode of each, in order. -/
def connectsOf (log : List Ev) : List (ObjInfo × SdkControlMode) :=
  log.filterMap (fun
    | .Connect info mode _ => some (info, mode)
    | _ => none)

/-- The world `w'` comes from `w` by calls all of which are of the kind `p`. -/
def Only {σ : Type} (p : Ev → Bool) (w w' : World σ) : Prop :=
  ∃ tr, w'.log = w.log ++ tr ∧ ∀ ev ∈ tr, p ev = true

/-- The calls of the scan proper: USB reset, sleeping, enumeration, and the calls of
`connect`. -/
def Ev.isScanCall : Ev → Bool
  | .Connect _ _ _ => true
  | .ReleaseDevice _ => true
  | .resetUSBDevice => true
  | .sleep _ => true
  | .EnumCameraObjects _ => true
  | .EnumRelease => true
  | _ => false

/-- The handle a step of the scan appends to the registry: the device of a `connect` call
that returned true.  A step is `none` when the scan called no `connect` for the enumerated
device, else the result of the `connect` call. -/
def stepAdded {σ : Type} (st : Option (Bool × CameraDevice × World σ)) : List CameraDevice :=
  match st with
  | some (true, cam, _) => [cam]
  | _ => []

/-- The step is a `connect` call that returned true. -/
def stepSucceeded {σ : Type} (st : Option (Bool × CameraDevice × World σ)) : Bool :=
  match st with
  | some (true, _, _) => true
  | _ => false

/-- The world after a step. -/
def stepWorld {σ : Type} (w : World σ) (st : Option (Bool × CameraDevice × World σ)) :
    World σ :=
  match st with
  | some r => r.2.2
  | none => w

/-- The enumerated device is one to connect: its model string contains "FX30" and its
identity is not that of a handle of the registry that is connected. -/
def toConnect (cams : List CameraDevice) (info : ObjInfo) : Prop :=
  "FX30".toList <:+: info.Model.toList ∧
    ∀ cam ∈ cams, cam.m_connected = true → cam.m_modelId ≠ getModelId info

/-- The steps of a scan over the enumerated devices, from the registry `cams` and the world
`w`: the step of a device is a `connect` call, made in the world the steps before it left,
exactly when the device is one to connect for the registry as the steps before it left it. -/
def reconciled {σ : Type} (E : Env σ) (apple : Bool) :
    List CameraDevice → World σ → List ObjInfo →
      List (Option (Bool × CameraDevice × World σ)) → Prop
  | _, _, [], [] => True
  | cams, w, info :: infos, st :: steps =>
    (st.isSome = true ↔ toConnect cams info) ∧
    (∀ r, st = some r → CameraDevice.connect E apple info 3 {} w = some r) ∧
    reconciled E apple (cams ++ stepAdded st) (stepWorld w st) infos steps
  | _, _, _, _ => False

/-- The calls of the end of the scan: the release of the enumeration, sleeping, the read of
the preset file, and the property calls of `applyPreset`. -/
def Ev.isPresetCall : Ev → Bool
  | .EnumRelease => true
  | .sleep _ => true
  | .fsReadFile _ _ => true
  | .GetSelectDeviceProperties _ _ _ => true
  | .ReleaseDeviceProperties _ => true
  | .SetDeviceProperty _ _ _ => true
  | _ => false

/-- The enumeration call of `scanAndConnect`: its reply and the world after it. -/
def scanStart {σ : Type} (E : Env σ) (apple usbReset : Bool) (g : Globals) (w : World σ) :
    EnumReply × World σ :=
  SCRSDK.EnumCameraObjects E (scanPrologue E apple usbReset g w).2

/-- The `Connect` calls of a scan in which the `i`-th enumerated device got `counts[i]` of
them: all in remote mode, in enumeration order. -/
def scanConnects (infos : List ObjInfo) (counts : List Nat) :
    List (ObjInfo × SdkControlMode) :=
  (List.zipWith (fun info m => List.replicate m (info, SdkControlMode.Remote))
    infos counts).flatten

/-- The file reads of a log: path and content of each, in order. -/
def fileReadsOf (log : List Ev) : List (String × Option String) :=
  log.filterMap (fun
    | .fsReadFile path content => some (path, content)
    | _ => none)

/-- The property reads `applyPreset` owes to the connected handles of a registry for a
preset: for each connected handle, in order, one read per entry, in order. -/
def presetReads (cams : List CameraDevice) (preset : List PresetEntry) :
    List (Int × List Nat) :=
  (cams.filter (fun cam => cam.m_connected)).flatMap
    (fun cam => preset.map (fun e => (cam.m_device_handle, [e.code])))

/-- The identities of the connected handles of a registry, in order. -/
def connectedIds (cams : List CameraDevice) : List String :=
  (cams.filter (fun cam => cam.m_connected)).map (fun cam => cam.m_modelId)

/-! ## Theorems -/

section Proofs

variable {σ : Type}

theorem deliver_not_completes (c : CameraDevice) (cb : Callback)
    (h : cb.completesEvent = false) :
    (c.deliver cb).event = none ∧ (c.deliver cb).cam.m_eventPromise = c.m_eventPromise ∧
      (c.deliver cb).cam.m_device_handle = c.m_device_handle ∧
      (c.deliver cb).cam.m_modelId = c.m_modelId ∧
      (c.deliver cb).cam.m_connected = c.m_connected := by
  cases cb with
  | OnConnected => simp [Callback.completesEvent] at h
  | OnDisconnected e => simp [Callback.completesEvent] at h
  | OnError e => simp [Callback.completesEvent] at h
  | OnWarning wn =>
    simp only [CameraDevice.deliver, CameraDevice.OnWarning]
    split_ifs <;> simp
  | OnNotifyContentsTransfer n =>
    cases n <;> simp only [CameraDevice.deliver, CameraDevice.OnNotifyContentsTransfer] <;>
      (try split_ifs) <;> simp
  | OnOther => simp [CameraDevice.deliver]

theorem deliver_frame (c : CameraDevice) (cb : Callback) :
    (c.deliver cb).cam.m_device_handle = c.m_device_handle ∧
      (c.deliver cb).cam.m_modelId = c.m_modelId := by
  cases cb with
  | OnConnected => simp only [CameraDevice.deliver, CameraDevice.OnConnected]; split_ifs <;> simp
  | OnDisconnected e =>
    simp only [CameraDevice.deliver, CameraDevice.OnDisconnected]; split_ifs <;> simp
  | OnError e => simp only [CameraDevice.deliver, CameraDevice.OnError]; split_ifs <;> simp
  | OnWarning wn =>
    simp only [CameraDevice.deliver, CameraDevice.OnWarning]
    split_ifs <;> simp
  | OnNotifyContentsTransfer n =>
    cases n <;> simp only [CameraDevice.deliver, CameraDevice.OnNotifyContentsTransfer] <;>
      (try split_ifs) <;> simp
  | OnOther => simp [CameraDevice.deliver]

theorem awaitEvent_frame (events : List Callback) (c : CameraDevice) :
    (c.awaitEvent events).2.m_device_handle = c.m_device_handle ∧
      (c.awaitEvent events).2.m_modelId = c.m_modelId := by
  induction events generalizing c with
  | nil => simp [CameraDevice.awaitEvent]
  | cons cb rest ih =>
    have hf := deliver_frame c cb
    simp only [CameraDevice.awaitEvent]
    cases hd : (c.deliver cb).event with
    | some r => simpa using hf
    | none =>
      simp only
      have := ih (c.deliver cb).cam
      exact ⟨this.1.trans hf.1, this.2.trans hf.2⟩

/-- With the slot registered, the wait ends at the first completion event: `OnError` gives an
exception, `OnConnected` a value with the device connected, `OnDisconnected` a value with the
device not connected; with no completion event the wait does not end. -/
theorem awaitEvent_registered (events : List Callback) (c : CameraDevice)
    (hslot : c.m_eventPromise = true) :
    match firstCompletion events with
    | none => (c.awaitEvent events).1 = none
    | some .OnConnected =>
      (c.awaitEvent events).1 = some .value ∧ (c.awaitEvent events).2.m_connected = true
    | some (.OnDisconnected _) =>
      (c.awaitEvent events).1 = some .value ∧ (c.awaitEvent events).2.m_connected = false
    | some _ => (c.awaitEvent events).1 = some .exception := by
  induction events generalizing c with
  | nil => simp [firstCompletion, CameraDevice.awaitEvent]
  | cons cb rest ih =>
    by_cases hc : cb.completesEvent = true
    · have hfc : firstCompletion (cb :: rest) = some cb := by
        simp [firstCompletion, List.find?, hc]
      rw [hfc]
      cases cb with
      | OnConnected =>
        simp [CameraDevice.awaitEvent, CameraDevice.deliver, CameraDevice.OnConnected, hslot]
      | OnDisconnected e =>
        simp [CameraDevice.awaitEvent, CameraDevice.deliver, CameraDevice.OnDisconnected, hslot]
      | OnError e =>
        simp [CameraDevice.awaitEvent, CameraDevice.deliver, CameraDevice.OnError, hslot]
      | OnWarning wn => simp [Callback.completesEvent] at hc
      | OnNotifyContentsTransfer n => simp [Callback.completesEvent] at hc
      | OnOther => simp [Callback.completesEvent] at hc
    · have hc' : cb.completesEvent = false := by simpa using hc
      have hfc : firstCompletion (cb :: rest) = firstCompletion rest := by
        simp [firstCompletion, List.find?, hc']
      obtain ⟨h1, h2, -, -, -⟩ := deliver_not_completes c cb hc'
      have hstep : c.awaitEvent (cb :: rest) = (c.deliver cb).cam.awaitEvent rest := by
        simp [CameraDevice.awaitEvent, h1]
      rw [hfc, hstep]
      exact ih _ (h2.trans hslot)

theorem intercalate_cons_cons {α : Type} (sep b b' : List α) (bs : List (List α)) :
    List.intercalate sep (b :: b' :: bs) = b ++ (sep ++ List.intercalate sep (b' :: bs)) := by
  simp [List.intercalate, List.intersperse]

theorem intercalate_singleton {α : Type} (sep b : List α) :
    List.intercalate sep [b] = b := by
  simp [List.intercalate, List.intersperse]

theorem releaseIfOpen_handle (E : Env σ) (c : CameraDevice) (w : World σ) :
    (c.releaseIfOpen E w).1.m_device_handle = 0 ∧
      (c.releaseIfOpen E w).1.m_modelId = c.m_modelId ∧
      ((c.releaseIfOpen E w).2.log = w.log ∨
        (c.releaseIfOpen E w).2.log = w.log ++ [Ev.ReleaseDevice c.m_device_handle]) := by
  unfold CameraDevice.releaseIfOpen
  by_cases h : c.m_device_handle = 0
  · simp [h]
  · simp [h, SCRSDK.ReleaseDevice, World.step]

theorem retryDelay_log (E : Env σ) (apple : Bool) (w : World σ) :
    (CameraDevice.retryDelay E apple w).log = w.log ++ retryDelayLog apple := by
  cases apple <;>
    simp [CameraDevice.retryDelay, retryDelayLog, sleep_for, resetUSBDevice, World.step]

/-- An open attempt on a failing reply: it fails after the `Connect` call and at most one
`ReleaseDevice`, and leaves the handle at 0. -/
theorem openOnce_fails (E : Env σ) (info : ObjInfo) (mode : SdkControlMode)
    (c : CameraDevice) (w : World σ)
    (hfail : ((E.Connect w.s info c.m_device_handle mode).1).fails = true) :
    ∃ c1 w1, c.openOnce E info mode w = some (false, c1, w1) ∧
      c1.m_device_handle = 0 ∧ c1.m_modelId = c.m_modelId ∧
      ((∃ r, w1.log = w.log ++ [Ev.Connect info mode r]) ∨
       (∃ r h, w1.log = w.log ++ [Ev.Connect info mode r, Ev.ReleaseDevice h])) := by
  have hlog : ∀ (c0 : CameraDevice) (w0 : World σ) (r : ConnectReply),
      w0.log = w.log ++ [Ev.Connect info mode r] →
      ((∃ r, (c0.releaseIfOpen E w0).2.log = w.log ++ [Ev.Connect info mode r]) ∨
       (∃ r h, (c0.releaseIfOpen E w0).2.log =
          w.log ++ [Ev.Connect info mode r, Ev.ReleaseDevice h])) := by
    intro c0 w0 r hw0
    rcases (releaseIfOpen_handle E c0 w0).2.2 with h | h
    · exact Or.inl ⟨r, h.trans hw0⟩
    · exact Or.inr ⟨r, c0.m_device_handle, by rw [h, hw0]; simp⟩
  unfold CameraDevice.openOnce
  simp only [CameraDevice.setEventPromise, SCRSDK.Connect, World.step]
  generalize E.Connect w.s info c.m_device_handle mode = r at hfail ⊢
  by_cases herr : r.1.err = 0
  · have hfc : ∃ e, firstCompletion r.1.events = some (.OnError e) := by
      simp only [ConnectReply.fails, herr, ne_eq, not_true_eq_false, decide_False,
        Bool.false_or] at hfail
      split at hfail
      · exact ⟨_, by assumption⟩
      · simp at hfail
    obtain ⟨e, hfc⟩ := hfc
    set c0 : CameraDevice := { c with m_eventPromise := true, m_device_handle := r.1.handle }
      with hc0
    have hreg := awaitEvent_registered r.1.events c0 rfl
    rw [hfc] at hreg
    simp only at hreg
    have hfr := awaitEvent_frame r.1.events c0
    have hpair : c0.awaitEvent r.1.events =
        (some .exception, (c0.awaitEvent r.1.events).2) := Prod.ext hreg rfl
    simp only [herr, ne_eq, not_true_eq_false, if_false]
    rw [hpair]
    simp only
    obtain ⟨hh, hm, -⟩ := releaseIfOpen_handle E (c0.awaitEvent r.1.events).2
      ⟨r.2, w.log ++ [Ev.Connect info mode r.1]⟩
    exact ⟨_, _, rfl, hh, hm.trans hfr.2, hlog _ _ r.1 rfl⟩
  · simp only [herr, ne_eq, not_false_eq_true, if_true]
    obtain ⟨hh, hm, -⟩ := releaseIfOpen_handle E
      ({ c with m_eventPromise := false, m_device_handle := r.1.handle } : CameraDevice)
      ⟨r.2, w.log ++ [Ev.Connect info mode r.1]⟩
    exact ⟨_, _, rfl, hh, hm, hlog _ _ r.1 rfl⟩

/-- The loop of `connect` against replies that all fail: `k` iterations, each a failed
attempt, with the delay between consecutive attempts only. -/
theorem connectLoop_all_fail (E : Env σ) (apple : Bool) (info : ObjInfo) (n : Int)
    (hfail : ∀ s h, ((E.Connect s info h .Remote).1).fails = true) :
    ∀ (k : Nat) (c : CameraDevice) (w : World σ), (k = 0 → c.m_device_handle = 0) →
      ∃ c' w' blocks, CameraDevice.connectLoop E apple info n k c w = some (false, c', w') ∧
        c'.m_device_handle = 0 ∧ c'.m_modelId = c.m_modelId ∧
        w'.log = w.log ++ List.intercalate (retryDelayLog apple) blocks ∧
        blocks.length = k ∧ ∀ b ∈ blocks, isFailedAttempt info b := by
  intro k
  induction k with
  | zero =>
    intro c w h0
    exact ⟨c, w, [], rfl, h0 rfl, rfl, by simp [List.intercalate], rfl, by simp⟩
  | succ k ih =>
    intro c w _
    obtain ⟨c1, w1, hopen, hh, hm, hl⟩ := openOnce_fails E info .Remote c w (hfail _ _)
    have hlt : ((n - (k : Int) < n) ↔ 0 < k) := by omega
    obtain ⟨block, hblock, hw1⟩ : ∃ block, isFailedAttempt info block ∧
        w1.log = w.log ++ block := by
      rcases hl with ⟨r, h⟩ | ⟨r, h, hrh⟩
      · exact ⟨_, Or.inl ⟨r, rfl⟩, h⟩
      · exact ⟨_, Or.inr ⟨r, h, rfl⟩, hrh⟩
    by_cases hk : 0 < k
    · obtain ⟨c', w', blocks, hrun, hh', hm', hl', hlen, hall⟩ :=
        ih c1 (CameraDevice.retryDelay E apple w1) (by omega)
      refine ⟨c', w', block :: blocks, ?_, hh', hm'.trans hm, ?_, by simp [hlen], ?_⟩
      · simp only [CameraDevice.connectLoop, hopen, hlt, hk, if_true]
        exact hrun
      · obtain ⟨b', bs, rfl⟩ : ∃ b' bs, blocks = b' :: bs := by
          cases blocks with
          | nil => simp at hlen; omega
          | cons b' bs => exact ⟨b', bs, rfl⟩
        rw [hl', retryDelay_log, hw1, intercalate_cons_cons]
        simp [List.append_assoc]
      · intro b hb
        rcases List.mem_cons.mp hb with rfl | hb
        · exact hblock
        · exact hall b hb
    · have hk0 : k = 0 := by omega
      subst hk0
      refine ⟨c1, w1, [block], ?_, hh, hm, ?_, rfl, ?_⟩
      · simp [CameraDevice.connectLoop, hopen]
      · rw [hw1, intercalate_singleton]
      · intro b hb
        rcases List.mem_singleton.mp hb with rfl
        exact hblock

theorem countP_isConnect_failed (apple : Bool) (info : ObjInfo) (blocks : List (List Ev))
    (hall : ∀ b ∈ blocks, isFailedAttempt info b) :
    (List.intercalate (retryDelayLog apple) blocks).countP Ev.isConnect = blocks.length := by
  have hdelay : (retryDelayLog apple).countP Ev.isConnect = 0 := by
    cases apple <;> simp [retryDelayLog, Ev.isConnect]
  have hblock : ∀ b, isFailedAttempt info b → b.countP Ev.isConnect = 1 := by
    intro b hb
    rcases hb with ⟨r, rfl⟩ | ⟨r, h, rfl⟩ <;> simp [Ev.isConnect]
  induction blocks with
  | nil => simp [List.intercalate]
  | cons b bs ih =>
    cases bs with
    | nil => simp [intercalate_singleton, hblock b (hall b (by simp))]
    | cons b' bs' =>
      rw [intercalate_cons_cons, List.countP_append, List.countP_append, hdelay,
        ih (fun x hx => hall x (List.mem_cons_of_mem _ hx)), hblock b (hall b (by simp))]
      simp
      omega

/-- All that `connect` does against a driver whose attempts all fail. -/
theorem connect_all_fail (E : Env σ) (apple : Bool) (info : ObjInfo) (n : Nat)
    (hfail : ∀ s h, ((E.Connect s info h .Remote).1).fails = true)
    (c : CameraDevice) (w : World σ) (h0 : n = 0 → c.m_device_handle = 0) :
    ∃ c' w' blocks, CameraDevice.connect E apple info n c w = some (false, c', w') ∧
      c'.m_device_handle = 0 ∧
      w'.log = w.log ++ List.intercalate (retryDelayLog apple) blocks ∧
      blocks.length = n ∧ (∀ b ∈ blocks, isFailedAttempt info b) ∧
      (List.intercalate (retryDelayLog apple) blocks).countP Ev.isConnect = n := by
  obtain ⟨c', w', blocks, hrun, hh, -, hl, hlen, hall⟩ :=
    connectLoop_all_fail E apple info n hfail n
      { c with m_modelId := getModelId info } w (by simpa using h0)
  refine ⟨c', w', blocks, ?_, hh, hl, hlen, hall, ?_⟩
  · simpa [CameraDevice.connect] using hrun
  · rw [countP_isConnect_failed apple info blocks hall, hlen]

theorem scanLoop_all_fail (E : Env σ) (apple : Bool) (total : Nat)
    (hfail : ∀ s info h, ((E.Connect s info h .Remote).1).fails = true) :
    ∀ (infos : List ObjInfo) (att found : Nat) (g : Globals) (w : World σ),
      ∃ g' w' tr, scanLoop E apple total infos att found g w = some (found, g', w') ∧
        g'.g_cameras = g.g_cameras ∧ g'.g_presetPath = g.g_presetPath ∧
        g'.g_scanning = g.g_scanning ∧ w'.log = w.log ++ tr ∧
        tr.countP Ev.isConnect = 3 * (scanCandidates g.g_cameras infos).length := by
  intro infos
  induction infos with
  | nil =>
    intro att found g w
    exact ⟨g, w, [], rfl, rfl, rfl, rfl, by simp, by simp [scanCandidates]⟩
  | cons info rest ih =>
    intro att found g w
    by_cases hfx : isFX30Camera info = true
    · by_cases hac : alreadyConnected g.g_cameras (getModelId info) = true
      · obtain ⟨g', w', tr, hrun, hc, hp, hs, hl, hcount⟩ := ih (att + 1) found
          { g with g_scanStatus :=
            "Already connected: " ++ info.Model ++ progressText (att + 1) total } w
        refine ⟨g', w', tr, ?_, hc, hp, hs, hl, ?_⟩
        · simp only [scanLoop, hfx, hac, not_true_eq_false, if_false, if_true]
          exact hrun
        · simpa [scanCandidates, hfx, hac] using hcount
      · obtain ⟨c', w1, blocks, hconn, -, hl1, hlen, -, hcnt⟩ :=
          connect_all_fail E apple info 3 (fun s h => hfail s info h) {} w (by simp)
        obtain ⟨g', w', tr, hrun, hc, hp, hs, hl, hcount⟩ := ih (att + 1) found
          { g with g_scanStatus :=
            "Connecting to " ++ info.Model ++ progressText (att + 1) total ++ "..." } w1
        refine ⟨g', w', List.intercalate (retryDelayLog apple) blocks ++ tr, ?_, hc, hp, hs,
          ?_, ?_⟩
        · simp only [scanLoop, hfx, hac, not_true_eq_false, if_false]
          have hconn' : CameraDevice.connect E apple info 3 {} w = some (false, c', w1) := by
            exact_mod_cast hconn
          simp only [hconn']
          exact hrun
        · rw [hl, hl1, List.append_assoc]
        · rw [List.countP_append, hcnt, hcount]
          simp [scanCandidates, hfx, hac]
          omega
    · obtain ⟨g', w', tr, hrun, hc, hp, hs, hl, hcount⟩ := ih att found g w
      refine ⟨g', w', tr, ?_, hc, hp, hs, hl, ?_⟩
      · simp only [scanLoop, hfx, not_false_eq_true, if_true]
        exact hrun
      · simpa [scanCandidates, hfx] using hcount

theorem applyPresetAll_cameras (E : Env σ) (preset : List PresetEntry) :
    ∀ (cams : List CameraDevice) (g : Globals) (w : World σ),
      (applyPresetAll E preset cams g w).1.g_cameras = g.g_cameras := by
  intro cams
  induction cams with
  | nil => intro g w; rfl
  | cons cam rest ih =>
    intro g w
    unfold applyPresetAll
    by_cases hc : cam.m_connected = true
    · simp only [hc, not_true_eq_false, if_false]
      rw [ih]
    · simp [hc, ih]

theorem scanPrologue_spec (E : Env σ) (apple usbReset : Bool) (g : Globals) (w : World σ) :
    (scanPrologue E apple usbReset g w).1.g_cameras = g.g_cameras ∧
    (scanPrologue E apple usbReset g w).1.g_presetPath = g.g_presetPath ∧
    ∃ pre, (scanPrologue E apple usbReset g w).2.log = w.log ++ pre ∧
      pre.countP Ev.isConnect = 0 := by
  unfold scanPrologue
  by_cases h : apple ∧ usbReset
  · rw [if_pos h]
    exact ⟨rfl, rfl, [Ev.resetUSBDevice, Ev.sleep 6000],
      by simp [sleep_for, resetUSBDevice, World.step], by simp [Ev.isConnect]⟩
  · rw [if_neg h]
    exact ⟨rfl, rfl, [], by simp, by simp⟩

theorem scanEpilogue_cameras (E : Env σ) (K : SdkCodes) (found : Nat) (g : Globals)
    (w : World σ) :
    (scanEpilogue E K found g w).1.g_cameras = g.g_cameras := by
  unfold scanEpilogue
  by_cases h0 : found = 0
  · simp [h0]
  · simp only [h0, if_false]
    split_ifs <;> simp [applyPresetAll_cameras]

theorem scanEpilogue_zero (E : Env σ) (K : SdkCodes) (g : Globals) (w : World σ) :
    (scanEpilogue E K 0 g w).2.log = w.log ++ [Ev.EnumRelease] := by
  simp [scanEpilogue, SCRSDK.EnumRelease, World.step]

theorem scanAndConnect_all_fail (E : Env σ) (K : SdkCodes) (apple : Bool)
    (hfail : ∀ s info h, ((E.Connect s info h .Remote).1).fails = true)
    (usbReset : Bool) (g : Globals) (w : World σ) :
    ∃ g' w' tr reply, scanAndConnect E K apple usbReset g w = some (g', w') ∧
      g'.g_cameras = g.g_cameras ∧ w'.log = w.log ++ tr ∧
      Ev.EnumCameraObjects reply ∈ tr ∧
      tr.countP Ev.isConnect = 3 * (scanCandidates g.g_cameras reply.devices).length := by
  obtain ⟨hg0, -, pre, hw0, hpc⟩ := scanPrologue_spec E apple usbReset g w
  unfold scanAndConnect
  generalize scanPrologue E apple usbReset g w = p0 at hg0 hw0
  obtain ⟨g0, w0⟩ := p0
  simp only at hg0 hw0
  simp only [SCRSDK.EnumCameraObjects]
  set r := E.EnumCameraObjects w0.s with hr
  set w1 : World σ := w0.step r.2 (Ev.EnumCameraObjects r.1) with hw1
  have hw1l : w1.log = w.log ++ (pre ++ [Ev.EnumCameraObjects r.1]) := by
    simp [hw1, World.step, hw0]
  cases hlist : r.1.list? with
  | none =>
    refine ⟨_, w1, pre ++ [Ev.EnumCameraObjects r.1], r.1, rfl, hg0, hw1l, by simp, ?_⟩
    simp [EnumReply.devices, hlist, scanCandidates, List.countP_append, hpc, Ev.isConnect]
  | some infos =>
    obtain ⟨g2, w2, tr, hloop, hc2, -, -, hl2, hcount⟩ :=
      scanLoop_all_fail E apple (infos.countP isFX30Camera) hfail infos 0 0
        { g0 with g_scanStatus := "Enumerating cameras..." } w1
    simp only [hloop]
    refine ⟨(scanEpilogue E K 0 g2 w2).1, (scanEpilogue E K 0 g2 w2).2,
      pre ++ [Ev.EnumCameraObjects r.1] ++ tr ++ [Ev.EnumRelease], r.1, rfl, ?_, ?_, by simp, ?_⟩
    · rw [scanEpilogue_cameras, hc2]; exact hg0
    · rw [scanEpilogue_zero, hl2, hw1l]; simp
    · simp only [List.countP_append, hpc, hcount, EnumReply.devices, hlist, Option.getD_some]
      simp [Ev.isConnect, hg0]

/-- C1. Retry bound of `CameraDevice::connect`: against a driver whose every open attempt
fails (synchronous error, or acceptance followed by `OnError`), `connect` with
`maxRetries = n` returns false after exactly `n` failed attempts, each one `Connect` call
followed by at most one `ReleaseDevice`, with the reset/delay block between consecutive
attempts only (none after the last), and leaves `m_device_handle` at 0; `scanAndConnect`,
which calls it with 3, then makes 3 `Connect` calls per candidate device and leaves the
registry as it was. -/
theorem connect_retry_bound (E : Env σ) (K : SdkCodes) (apple : Bool)
    (hfail : ∀ s info h, ((E.Connect s info h .Remote).1).fails = true) :
    (∀ (info : ObjInfo) (n : Nat) (c : CameraDevice) (w : World σ),
      (n = 0 → c.m_device_handle = 0) →
      ∃ c' w' blocks, CameraDevice.connect E apple info n c w = some (false, c', w') ∧
        c'.m_device_handle = 0 ∧
        w'.log = w.log ++ List.intercalate (retryDelayLog apple) blocks ∧
        blocks.length = n ∧ (∀ b ∈ blocks, isFailedAttempt info b) ∧
        (List.intercalate (retryDelayLog apple) blocks).countP Ev.isConnect = n) ∧
    (∀ (usbReset : Bool) (g : Globals) (w : World σ),
      ∃ g' w' tr reply, scanAndConnect E K apple usbReset g w = some (g', w') ∧
        g'.g_cameras = g.g_cameras ∧ w'.log = w.log ++ tr ∧
        Ev.EnumCameraObjects reply ∈ tr ∧
        tr.countP Ev.isConnect = 3 * (scanCandidates g.g_cameras reply.devices).length) :=
  ⟨fun info n c w h0 => connect_all_fail E apple info n (fun s h => hfail s info h) c w h0,
   fun usbReset g w => scanAndConnect_all_fail E K apple hfail usbReset g w⟩

/-- Witness of C1: the scripted driver `failingScript` fails every open; `connect` with
`maxRetries = 3` on a fresh device makes exactly three attempts and returns false. -/
theorem connect_retry_bound_witness :
    (∀ s info h, (((mockEnv failingScript).Connect s info h .Remote).1).fails = true) ∧
    (∃ c' w' blocks,
      CameraDevice.connect (mockEnv failingScript) false fx30B 3 {} mockStart =
        some (false, c', w') ∧
      c'.m_device_handle = 0 ∧
      w'.log = mockStart.log ++ List.intercalate (retryDelayLog false) blocks ∧
      blocks.length = 3 ∧ (∀ b ∈ blocks, isFailedAttempt fx30B b) ∧
      (List.intercalate (retryDelayLog false) blocks).countP Ev.isConnect = 3) ∧
    (CameraDevice.connect (mockEnv failingScript) false fx30B 3 {} mockStart).map
        (fun r => r.2.2.log) =
      some [Ev.Connect fx30B .Remote ⟨0, 7, [.OnError 2]⟩, Ev.ReleaseDevice 7, Ev.sleep 3000,
            Ev.Connect fx30B .Remote ⟨0, 7, [.OnError 2]⟩, Ev.ReleaseDevice 7, Ev.sleep 3000,
            Ev.Connect fx30B .Remote ⟨0, 7, [.OnError 2]⟩, Ev.ReleaseDevice 7] :=
  have hfail : ∀ s info h,
      (((mockEnv failingScript).Connect s info h .Remote).1).fails = true := by
    intro s info h
    by_cases hi : info = fx30A <;> simp [mockEnv, failingScript, hi] <;> decide
  ⟨hfail,
   (connect_retry_bound (mockEnv failingScript) exampleCodes false hfail).1 fx30B 3 {} mockStart
     (by decide),
   by decide⟩

/-- C9 (evaluation at the failing input). The driver accepts the open and completes it with
`OnDisconnected`: `connect` returns true, after a single attempt, although `m_connected` is
false; `scanAndConnect` then puts this handle into the registry. -/
theorem connect_true_not_connected :
    CameraDevice.connect (mockEnv disconnectedScript) false fx30A 3 {} mockStart =
      some (true,
        { m_device_handle := 5, m_connected := false, m_modelId := "ILME-FX30 (A)" },
        ⟨mockStart.s, [Ev.Connect fx30A .Remote ⟨0, 5, [.OnDisconnected 0]⟩]⟩) ∧
    (scanAndConnect (mockEnv disconnectedScript) exampleCodes false false {} mockStart).map
        (fun r => r.1.g_cameras) =
      some [{ m_device_handle := 5, m_connected := false, m_modelId := "ILME-FX30 (A)" }] := by
  constructor
  · rfl
  · rfl

/-! ### applyPreset -/

/-- The calls of one iteration of the loop of `applyPreset`: one read, and the write the
entry is owed, counted when accepted. -/
theorem applyPresetEntry_spec (E : Env σ) (h : Int) (st : Nat × World σ) (e : PresetEntry) :
    ∃ tr reply, (applyPresetEntry E h st e).2.log = st.2.log ++ tr ∧
      readsOf tr = [(h, [e.code], reply)] ∧
      (writesOf tr).map (fun x => (x.1, x.2.1)) =
        (wantedWrite e reply).toList.map (fun p => (h, p)) ∧
      (applyPresetEntry E h st e).1 = st.1 + (writesOf tr).countP (fun x => x.2.2 = 0) := by
  obtain ⟨applied, w⟩ := st
  unfold applyPresetEntry
  simp only [SCRSDK.GetSelectDeviceProperties, SCRSDK.ReleaseDeviceProperties,
    SCRSDK.SetDeviceProperty, sleep_for, World.step]
  generalize E.GetSelectDeviceProperties w.s h [e.code] = r
  cases hl : r.1.list? with
  | none =>
    refine ⟨[Ev.GetSelectDeviceProperties h [e.code] r.1], r.1, ?_⟩
    simp [readsOf, writesOf, wantedWrite, hl]
  | some l =>
    cases l with
    | nil =>
      refine ⟨[Ev.GetSelectDeviceProperties h [e.code] r.1], r.1, ?_⟩
      simp [readsOf, writesOf, wantedWrite, hl]
    | cons p ps =>
      by_cases hv : p.currentValue = e.value
      · refine ⟨[Ev.GetSelectDeviceProperties h [e.code] r.1, Ev.ReleaseDeviceProperties h],
          r.1, ?_⟩
        simp [readsOf, writesOf, wantedWrite, hl, hv]
      · generalize hq : E.SetDeviceProperty (E.ReleaseDeviceProperties r.2 h) h
          { p with currentValue := e.value } = q
        by_cases herr : q.1 = 0
        · refine ⟨[Ev.GetSelectDeviceProperties h [e.code] r.1, Ev.ReleaseDeviceProperties h,
            Ev.SetDeviceProperty h { p with currentValue := e.value } q.1, Ev.sleep 500],
            r.1, ?_⟩
          simp [readsOf, writesOf, wantedWrite, hl, hv, hq, herr]
        · refine ⟨[Ev.GetSelectDeviceProperties h [e.code] r.1, Ev.ReleaseDeviceProperties h,
            Ev.SetDeviceProperty h { p with currentValue := e.value } q.1], r.1, ?_⟩
          simp [readsOf, writesOf, wantedWrite, hl, hv, hq, herr]

theorem readsOf_append (a b : List Ev) : readsOf (a ++ b) = readsOf a ++ readsOf b := by
  simp [readsOf, List.filterMap_append]

theorem writesOf_append (a b : List Ev) : writesOf (a ++ b) = writesOf a ++ writesOf b := by
  simp [writesOf, List.filterMap_append]

theorem reduceOption_cons_toList {α : Type} (o : Option α) (l : List (Option α)) :
    (o :: l).reduceOption = o.toList ++ l.reduceOption := by
  cases o <;> simp [List.reduceOption]

/-- The calls of the loop of `applyPreset`: one read per entry, in order; the writes are
those owed to the entries, in order; the counter grows by the number of accepted writes. -/
theorem applyPreset_fold_spec (E : Env σ) (h : Int) :
    ∀ (entries : List PresetEntry) (st : Nat × World σ),
      ∃ tr, (entries.foldl (applyPresetEntry E h) st).2.log = st.2.log ++ tr ∧
        (readsOf tr).map (fun r => (r.1, r.2.1)) = entries.map (fun e => (h, [e.code])) ∧
        (writesOf tr).map (fun x => (x.1, x.2.1)) =
          (List.zipWith wantedWrite entries ((readsOf tr).map (fun r => r.2.2))).reduceOption.map
            (fun p => (h, p)) ∧
        (entries.foldl (applyPresetEntry E h) st).1 =
          st.1 + (writesOf tr).countP (fun x => x.2.2 = 0) := by
  intro entries
  induction entries with
  | nil => intro st; exact ⟨[], by simp, by simp [readsOf], by simp [readsOf, writesOf], by simp [writesOf]⟩
  | cons e rest ih =>
    intro st
    obtain ⟨tr1, reply, hl1, hr1, hw1, hc1⟩ := applyPresetEntry_spec E h st e
    obtain ⟨tr2, hl2, hr2, hw2, hc2⟩ := ih (applyPresetEntry E h st e)
    refine ⟨tr1 ++ tr2, ?_, ?_, ?_, ?_⟩
    · rw [List.foldl_cons, hl2, hl1, List.append_assoc]
    · rw [readsOf_append, List.map_append, hr1, hr2]; simp
    · rw [writesOf_append, readsOf_append, List.map_append, hw1, hw2, hr1]
      simp [reduceOption_cons_toList]
    · rw [List.foldl_cons, hc2, hc1, writesOf_append, List.countP_append]; omega

theorem presetCodeName_table (K : SdkCodes) (hinj : Function.Injective K.CrDeviceProperty)
    (e : PropertyCode × String) (he : e ∈ presetTable) :
    presetCodeName K (K.CrDeviceProperty e.1) = e.2 := by
  have hfun : (fun e' : PropertyCode × String =>
      decide (K.CrDeviceProperty e'.1 = K.CrDeviceProperty e.1)) =
      (fun e' => decide (e'.1 = e.1)) := by
    funext e'
    simp [hinj.eq_iff]
  unfold presetCodeName
  rw [hfun]
  simp only [presetTable, List.mem_cons, List.mem_singleton, List.not_mem_nil, or_false] at he
  rcases he with rfl | rfl | rfl | rfl | rfl | rfl | rfl | rfl <;> rfl

theorem loadPreset_iso800 (K : SdkCodes) (hinj : Function.Injective K.CrDeviceProperty) :
    (kPresetCodes K).filterMap (loadPresetEntry K iso800File.toList) =
      [⟨K.CrDeviceProperty .IsoSensitivity, 800⟩] := by
  have hname := presetCodeName_table K hinj
  have h1 : loadPresetEntry K iso800File.toList (K.CrDeviceProperty .IsoSensitivity) =
      some ⟨K.CrDeviceProperty .IsoSensitivity, 800⟩ := by
    unfold loadPresetEntry
    rw [hname (.IsoSensitivity, "iso") (by simp [presetTable])]
    have : presetValue iso800File.toList "iso" = some 800 := by decide
    show (presetValue iso800File.toList "iso").map _ = _
    rw [this]
    rfl
  have hnone : ∀ e ∈ presetTable, e.1 ≠ .IsoSensitivity →
      loadPresetEntry K iso800File.toList (K.CrDeviceProperty e.1) = none := by
    intro e he hne
    unfold loadPresetEntry
    rw [hname e he]
    simp only [presetTable, List.mem_cons, List.mem_singleton, List.not_mem_nil, or_false] at he
    have hv : ∀ name ∈ ["shutterSpeed", "fNumber", "whiteBalance", "colorTemp", "movieFormat",
        "recSetting", "frameRate"], presetValue iso800File.toList name = none := by decide
    rcases he with rfl | rfl | rfl | rfl | rfl | rfl | rfl | rfl
    · exact absurd rfl hne
    all_goals
      show (presetValue iso800File.toList _).map _ = none
      rw [hv _ (by decide)]
      rfl
  simp only [kPresetCodes, presetTable, List.map, List.filterMap, h1]
  rw [hnone (.ShutterSpeed, "shutterSpeed") (by simp [presetTable]) (by simp),
    hnone (.FNumber, "fNumber") (by simp [presetTable]) (by simp),
    hnone (.WhiteBalance, "whiteBalance") (by simp [presetTable]) (by simp),
    hnone (.Colortemp, "colorTemp") (by simp [presetTable]) (by simp),
    hnone (.Movie_File_Format, "movieFormat") (by simp [presetTable]) (by simp),
    hnone (.Movie_Recording_Setting, "recSetting") (by simp [presetTable]) (by simp),
    hnone (.Movie_Recording_FrameRateSetting, "frameRate") (by simp [presetTable]) (by simp)]

/-- C3. `applyPreset` count: on a disconnected handle or an empty list it returns 0 and
makes no call at all; on a connected handle it reads every entry once, in order, issues a
write for exactly the entries whose read succeeded with a value different from the target
(writing the target), and returns the number of those writes the driver accepted.  Scenario:
when the preset file holds `iso800File`, `loadPreset` gives the single entry ISO = 800, and
on a device whose ISO reads 400 and accepts the write, `applyPreset` issues exactly one
write, ISO to 800, and returns 1. -/
theorem applyPreset_count (E : Env σ) (K : SdkCodes) (cam : CameraDevice)
    (entries : List PresetEntry) (w : World σ) :
    ((cam.m_connected = false ∨ entries = []) → applyPreset E cam entries w = (0, w)) ∧
    (cam.m_connected = true →
      ∃ tr, (applyPreset E cam entries w).2.log = w.log ++ tr ∧
        (readsOf tr).map (fun r => (r.1, r.2.1)) =
          entries.map (fun e => (cam.m_device_handle, [e.code])) ∧
        (writesOf tr).map (fun x => (x.1, x.2.1)) =
          (List.zipWith wantedWrite entries ((readsOf tr).map (fun r => r.2.2))).reduceOption.map
            (fun p => (cam.m_device_handle, p)) ∧
        (applyPreset E cam entries w).1 = (writesOf tr).countP (fun x => x.2.2 = 0)) ∧
    (∀ (path : String) (p : DevProp) (ps : List DevProp),
      Function.Injective K.CrDeviceProperty →
      cam.m_connected = true →
      E.fsReadFile w.s path = some iso800File →
      (E.GetSelectDeviceProperties w.s cam.m_device_handle
        [K.CrDeviceProperty .IsoSensitivity]).1 = ⟨0, some (p :: ps)⟩ →
      p.currentValue = 400 →
      (E.SetDeviceProperty (E.ReleaseDeviceProperties (E.GetSelectDeviceProperties w.s
        cam.m_device_handle [K.CrDeviceProperty .IsoSensitivity]).2 cam.m_device_handle)
        cam.m_device_handle { p with currentValue := 800 }).1 = 0 →
      (loadPreset E K path w).1 = [⟨K.CrDeviceProperty .IsoSensitivity, 800⟩] ∧
      (applyPreset E cam (loadPreset E K path w).1 (loadPreset E K path w).2).1 = 1 ∧
      ∃ tr, (applyPreset E cam (loadPreset E K path w).1 (loadPreset E K path w).2).2.log =
          (loadPreset E K path w).2.log ++ tr ∧
        writesOf tr = [(cam.m_device_handle, { p with currentValue := 800 }, 0)]) := by
  refine ⟨?_, ?_, ?_⟩
  · intro h
    rcases h with h | h
    · simp [applyPreset, h]
    · simp [applyPreset, h]
  · intro hconn
    by_cases hne : entries = []
    · subst hne
      exact ⟨[], by simp [applyPreset], by simp [readsOf], by simp [readsOf, writesOf],
        by simp [applyPreset, writesOf]⟩
    · have hrun : applyPreset E cam entries w =
          entries.foldl (applyPresetEntry E cam.m_device_handle) (0, w) := by
        simp [applyPreset, hconn, hne]
      obtain ⟨tr, hl, hr, hw, hc⟩ := applyPreset_fold_spec E cam.m_device_handle entries (0, w)
      rw [hrun]
      exact ⟨tr, hl, hr, hw, by simpa using hc⟩
  · intro path p ps hinj hconn hfile hread hval hwrite
    have hload : loadPreset E K path w =
        ([⟨K.CrDeviceProperty .IsoSensitivity, 800⟩],
          w.step w.s (Ev.fsReadFile path (some iso800File))) := by
      simp only [loadPreset, fsReadFile, hfile]
      rw [loadPreset_iso800 K hinj]
    rw [hload]
    refine ⟨rfl, ?_⟩
    have hrun : applyPreset E cam [⟨K.CrDeviceProperty .IsoSensitivity, 800⟩]
        (w.step w.s (Ev.fsReadFile path (some iso800File))) =
        (1, ⟨E.sleep (E.SetDeviceProperty (E.ReleaseDeviceProperties
            (E.GetSelectDeviceProperties w.s cam.m_device_handle
              [K.CrDeviceProperty .IsoSensitivity]).2 cam.m_device_handle)
            cam.m_device_handle { p with currentValue := 800 }).2 500,
          (w.step w.s (Ev.fsReadFile path (some iso800File))).log ++
            [Ev.GetSelectDeviceProperties cam.m_device_handle
               [K.CrDeviceProperty .IsoSensitivity] ⟨0, some (p :: ps)⟩,
             Ev.ReleaseDeviceProperties cam.m_device_handle,
             Ev.SetDeviceProperty cam.m_device_handle { p with currentValue := 800 } 0,
             Ev.sleep 500]⟩) := by
      simp [applyPreset, hconn, applyPresetEntry, SCRSDK.GetSelectDeviceProperties,
        SCRSDK.ReleaseDeviceProperties, SCRSDK.SetDeviceProperty, sleep_for, World.step,
        hread, PropReply.list?, hval, hwrite]
    rw [hrun]
    exact ⟨rfl, _, rfl, by simp [writesOf]⟩

/-- Witness of C3: in the scripted world where ISO reads 400 and the preset file holds
`iso800File`, loading the preset and applying it to the connected camera issues exactly one
write, ISO to 800, and returns 1. -/
theorem applyPreset_count_witness :
    (loadPreset (mockEnv emptyScript) exampleCodes "fx30_preset.json" iso400Start).1 =
      [⟨exampleCodes.CrDeviceProperty .IsoSensitivity, 800⟩] ∧
    (applyPreset (mockEnv emptyScript) connectedCam
      (loadPreset (mockEnv emptyScript) exampleCodes "fx30_preset.json" iso400Start).1
      (loadPreset (mockEnv emptyScript) exampleCodes "fx30_preset.json" iso400Start).2).1 = 1 ∧
    (∃ tr, (applyPreset (mockEnv emptyScript) connectedCam
      (loadPreset (mockEnv emptyScript) exampleCodes "fx30_preset.json" iso400Start).1
      (loadPreset (mockEnv emptyScript) exampleCodes "fx30_preset.json" iso400Start).2).2.log =
        (loadPreset (mockEnv emptyScript) exampleCodes "fx30_preset.json" iso400Start).2.log
          ++ tr ∧
      writesOf tr = [(1, ⟨exampleCodes.CrDeviceProperty .IsoSensitivity, 800, none⟩, 0)]) :=
  (applyPreset_count (mockEnv emptyScript) exampleCodes connectedCam [] iso400Start).2.2
    "fx30_preset.json" ⟨exampleCodes.CrDeviceProperty .IsoSensitivity, 400, none⟩ []
    (by intro a b hab; cases a <;> cases b <;> first | rfl | (exact absurd hab (by decide)))
    rfl rfl rfl rfl rfl

/-- One iteration of the loop of `applyPreset` on a store device: afterwards the property of
the entry holds the target and no other property has changed; if it held the target already,
nothing is written and the counter stays. -/
theorem applyPresetEntry_store (E : Env σ) (h : Int) (val : σ → Nat → Nat)
    (hS : StoreDevice E h val) (st : Nat × World σ) (e : PresetEntry) :
    val (applyPresetEntry E h st e).2.s e.code = e.value ∧
    (∀ c, c ≠ e.code → val (applyPresetEntry E h st e).2.s c = val st.2.s c) ∧
    (val st.2.s e.code = e.value →
      (applyPresetEntry E h st e).1 = st.1 ∧
      ∃ tr, (applyPresetEntry E h st e).2.log = st.2.log ++ tr ∧ writesOf tr = []) := by
  obtain ⟨applied, w⟩ := st
  obtain ⟨p, ps, hread, hcode, hcur⟩ := hS.read_ok w.s e.code
  have hkeep : ∀ c, val (E.ReleaseDeviceProperties
      (E.GetSelectDeviceProperties w.s h [e.code]).2 h) c = val w.s c := by
    intro c
    rw [hS.release_keeps, hS.read_keeps]
  by_cases hv : p.currentValue = e.value
  · have hrun : applyPresetEntry E h (applied, w) e =
        (applied, ⟨E.ReleaseDeviceProperties (E.GetSelectDeviceProperties w.s h [e.code]).2 h,
          w.log ++ [Ev.GetSelectDeviceProperties h [e.code] ⟨0, some (p :: ps)⟩,
            Ev.ReleaseDeviceProperties h]⟩) := by
      simp [applyPresetEntry, SCRSDK.GetSelectDeviceProperties, SCRSDK.ReleaseDeviceProperties,
        World.step, hread, PropReply.list?, hv]
    rw [hrun]
    refine ⟨?_, ?_, ?_⟩
    · show val (E.ReleaseDeviceProperties _ h) e.code = e.value
      rw [hkeep, ← hcur, hv]
    · intro c _
      exact hkeep c
    · intro _
      exact ⟨rfl, _, rfl, by simp [writesOf]⟩
  · have hrun : applyPresetEntry E h (applied, w) e =
        (applied + 1, ⟨E.sleep (E.SetDeviceProperty (E.ReleaseDeviceProperties
            (E.GetSelectDeviceProperties w.s h [e.code]).2 h) h
            { p with currentValue := e.value }).2 500,
          w.log ++ [Ev.GetSelectDeviceProperties h [e.code] ⟨0, some (p :: ps)⟩,
            Ev.ReleaseDeviceProperties h,
            Ev.SetDeviceProperty h { p with currentValue := e.value } 0, Ev.sleep 500]⟩) := by
      simp [applyPresetEntry, SCRSDK.GetSelectDeviceProperties, SCRSDK.ReleaseDeviceProperties,
        SCRSDK.SetDeviceProperty, sleep_for, World.step, hread, PropReply.list?, hv,
        hS.write_ok]
    rw [hrun]
    refine ⟨?_, ?_, ?_⟩
    · show val (E.sleep _ 500) e.code = e.value
      rw [hS.sleep_keeps, hS.write_sets]
      simp [hcode]
    · intro c hc
      show val (E.sleep _ 500) c = val w.s c
      rw [hS.sleep_keeps, hS.write_sets]
      simp [hcode, hc, hkeep]
    · intro hval
      exact absurd (hcur.trans hval) hv

/-- After the loop of `applyPreset` over entries with pairwise distinct identifiers, every
property of the preset holds its target. -/
theorem applyPreset_fold_reaches (E : Env σ) (h : Int) (val : σ → Nat → Nat)
    (hS : StoreDevice E h val) :
    ∀ (entries : List PresetEntry) (st : Nat × World σ),
      (entries.map (fun e => e.code)).Nodup →
      (∀ e ∈ entries, val (entries.foldl (applyPresetEntry E h) st).2.s e.code = e.value) ∧
      (∀ c, c ∉ entries.map (fun e => e.code) →
        val (entries.foldl (applyPresetEntry E h) st).2.s c = val st.2.s c) := by
  intro entries
  induction entries with
  | nil => intro st _; simp
  | cons e rest ih =>
    intro st hnd
    rw [List.map_cons, List.nodup_cons] at hnd
    obtain ⟨h1, h2, -⟩ := applyPresetEntry_store E h val hS st e
    obtain ⟨ihA, ihB⟩ := ih (applyPresetEntry E h st e) hnd.2
    refine ⟨?_, ?_⟩
    · intro e' he'
      rw [List.foldl_cons]
      rcases List.mem_cons.mp he' with rfl | hmem
      · rw [ihB _ hnd.1]; exact h1
      · exact ihA e' hmem
    · intro c hc
      rw [List.foldl_cons]
      rw [List.map_cons, List.mem_cons, not_or] at hc
      rw [ihB c hc.2]
      exact h2 c hc.1

/-- The loop of `applyPreset` on a device that already holds every target: no write. -/
theorem applyPreset_fold_noop (E : Env σ) (h : Int) (val : σ → Nat → Nat)
    (hS : StoreDevice E h val) :
    ∀ (entries : List PresetEntry) (st : Nat × World σ),
      (∀ e ∈ entries, val st.2.s e.code = e.value) →
      (entries.foldl (applyPresetEntry E h) st).1 = st.1 ∧
      ∃ tr, (entries.foldl (applyPresetEntry E h) st).2.log = st.2.log ++ tr ∧
        writesOf tr = [] := by
  intro entries
  induction entries with
  | nil => intro st _; exact ⟨rfl, [], by simp, by simp [writesOf]⟩
  | cons e rest ih =>
    intro st hall
    obtain ⟨h1, h2, h3⟩ := applyPresetEntry_store E h val hS st e
    obtain ⟨hc, tr1, hl1, hw1⟩ := h3 (hall e (by simp))
    have hall' : ∀ e' ∈ rest, val (applyPresetEntry E h st e).2.s e'.code = e'.value := by
      intro e' he'
      by_cases hce : e'.code = e.code
      · rw [hce, h1, ← hall e' (List.mem_cons_of_mem _ he'), hce, hall e (by simp)]
      · rw [h2 _ hce]; exact hall e' (List.mem_cons_of_mem _ he')
    obtain ⟨hc2, tr2, hl2, hw2⟩ := ih (applyPresetEntry E h st e) hall'
    refine ⟨?_, tr1 ++ tr2, ?_, ?_⟩
    · rw [List.foldl_cons, hc2, hc]
    · rw [List.foldl_cons, hl2, hl1, List.append_assoc]
    · rw [writesOf_append, hw1, hw2]; rfl

/-- C2. Idempotent preset apply: on a connected device on which every property read and
write succeeds and a property reads back as the value last written to it, and for entries
with pairwise distinct identifiers, a second `applyPreset` with the same entries, right
after the first, returns 0 and issues no property write. -/
theorem applyPreset_idempotent (E : Env σ) (val : σ → Nat → Nat) (cam : CameraDevice)
    (entries : List PresetEntry) (w : World σ)
    (hS : StoreDevice E cam.m_device_handle val) (hconn : cam.m_connected = true)
    (hnodup : (entries.map (fun e => e.code)).Nodup) :
    (applyPreset E cam entries (applyPreset E cam entries w).2).1 = 0 ∧
    ∃ tr, (applyPreset E cam entries (applyPreset E cam entries w).2).2.log =
        (applyPreset E cam entries w).2.log ++ tr ∧
      writesOf tr = [] := by
  by_cases hne : entries = []
  · subst hne
    exact ⟨by simp [applyPreset], [], by simp [applyPreset], by simp [writesOf]⟩
  · have hrun : ∀ w', applyPreset E cam entries w' =
        entries.foldl (applyPresetEntry E cam.m_device_handle) (0, w') := by
      intro w'
      simp [applyPreset, hconn, hne]
    obtain ⟨hreach, -⟩ :=
      applyPreset_fold_reaches E cam.m_device_handle val hS entries (0, w) hnodup
    rw [← hrun w] at hreach
    obtain ⟨hc, tr, hl, hw⟩ := applyPreset_fold_noop E cam.m_device_handle val hS entries
      (0, (applyPreset E cam entries w).2) hreach
    rw [← hrun] at hc hl
    exact ⟨hc, tr, hl, hw⟩

/-- Witness of C2: the scripted world is a store device; a preset of two entries is applied
twice to the connected camera: the first call writes both, the second none. -/
theorem applyPreset_idempotent_witness :
    (applyPreset (mockEnv emptyScript) connectedCam [⟨260, 800⟩, ⟨259, 100⟩] mockStart).1 = 2 ∧
    ((applyPreset (mockEnv emptyScript) connectedCam [⟨260, 800⟩, ⟨259, 100⟩]
      (applyPreset (mockEnv emptyScript) connectedCam [⟨260, 800⟩, ⟨259, 100⟩]
        mockStart).2).1 = 0 ∧
    ∃ tr, (applyPreset (mockEnv emptyScript) connectedCam [⟨260, 800⟩, ⟨259, 100⟩]
        (applyPreset (mockEnv emptyScript) connectedCam [⟨260, 800⟩, ⟨259, 100⟩]
          mockStart).2).2.log =
        (applyPreset (mockEnv emptyScript) connectedCam [⟨260, 800⟩, ⟨259, 100⟩]
          mockStart).2.log ++ tr ∧
      writesOf tr = []) :=
  ⟨by decide,
   applyPreset_idempotent (mockEnv emptyScript) (fun s c => s.props c) connectedCam
    [⟨260, 800⟩, ⟨259, 100⟩] mockStart
    { read_ok := fun s c => ⟨⟨c, s.props c, none⟩, [], rfl, rfl, rfl⟩
      read_keeps := fun _ _ _ => rfl
      release_keeps := fun _ _ => rfl
      sleep_keeps := fun _ _ _ => rfl
      write_ok := fun _ _ => rfl
      write_sets := fun _ _ _ => rfl }
    rfl (by decide)⟩

/-! ### HTTP handlers and the health monitor -/

/-- C4. Busy rejection: while `scanning` is true the handlers of `POST /api/scan` and
`POST /api/reset` answer with a JSON error object and start no thread; while `downloading`
is true the handler of `POST /api/download` answers "Download already in progress", starts no
thread and leaves the globals, the download path among them, as they were. -/
theorem busy_rejection (g : Globals) (body : String) :
    (g.g_scanning = true →
      (postScan g).spawned = [] ∧ (postReset g).spawned = [] ∧
      (postScan g).g = g ∧ (postReset g).g = g ∧
      (∃ msg, (postScan g).response = "\x7b\"error\":\"" ++ msg ++ "\"\x7d") ∧
      (∃ msg, (postReset g).response = "\x7b\"error\":\"" ++ msg ++ "\"\x7d")) ∧
    (g.g_downloading = true →
      (postDownload body g).spawned = [] ∧
      (postDownload body g).response = "\x7b\"error\":\"Download already in progress\"\x7d" ∧
      (postDownload body g).g = g ∧
      (postDownload body g).g.g_downloadPath = g.g_downloadPath) := by
  constructor
  · intro hs
    by_cases hd : g.g_downloading = true
    · have h1 : postScan g = ⟨g, "\x7b\"error\":\"Download in progress\"\x7d", []⟩ := by
        simp [postScan, hd]
      have h2 : postReset g = ⟨g, "\x7b\"error\":\"Download in progress\"\x7d", []⟩ := by
        simp [postReset, hd]
      rw [h1, h2]
      exact ⟨rfl, rfl, rfl, rfl, ⟨"Download in progress", rfl⟩, ⟨"Download in progress", rfl⟩⟩
    · have h1 : postScan g = ⟨g, "\x7b\"error\":\"Scan already in progress\"\x7d", []⟩ := by
        simp [postScan, hd, hs]
      have h2 : postReset g = ⟨g, "\x7b\"error\":\"Scan already in progress\"\x7d", []⟩ := by
        simp [postReset, hd, hs]
      rw [h1, h2]
      exact ⟨rfl, rfl, rfl, rfl, ⟨"Scan already in progress", rfl⟩,
        ⟨"Scan already in progress", rfl⟩⟩
  · intro hd
    simp [postDownload, hd]

/-- A tick of the health monitor that finds `downloading` or `scanning` set: the counter
becomes 0, the globals stay, and the only call is the five-second sleep. -/
theorem managementTick_defers (E : Env σ) (K : SdkCodes) (apple : Bool) (d : Nat)
    (g : Globals) (w : World σ) (hbusy : g.g_downloading = true ∨ g.g_scanning = true) :
    managementTick E K apple d g w = some (0, g, ⟨E.sleep w.s 5000, w.log ++ [Ev.sleep 5000]⟩) := by
  unfold managementTick
  have : (¬ g.g_running = true ∨ g.g_downloading = true ∨ g.g_scanning = true) := Or.inr hbusy
  simp only [this, if_true]
  rfl

/-- C5. Health-monitor deference: a tick that finds `downloading` or `scanning` true sets
`disconnectedSecs` to 0, leaves the globals (the registry and every handle) unchanged and
makes no driver call, its only call being the sleep, whatever the counter and the registry
were; hence over any run of ticks that all find one of the flags set, the counter is 0
after every tick and the log holds nothing but the sleeps: no teardown. -/
theorem health_monitor_deference (E : Env σ) (K : SdkCodes) (apple : Bool) :
    (∀ (d : Nat) (g : Globals) (w : World σ),
      g.g_downloading = true ∨ g.g_scanning = true →
      ∃ w', managementTick E K apple d g w = some (0, g, w') ∧
        w'.log = w.log ++ [Ev.sleep 5000] ∧
        ∀ ev ∈ [Ev.sleep 5000], Ev.isDriverCall ev = false) ∧
    (∀ (gs : List Globals) (d : Nat) (w : World σ),
      (∀ g ∈ gs, g.g_downloading = true ∨ g.g_scanning = true) →
      ∃ w', managementRun E K apple gs d w = some (List.replicate gs.length 0, w') ∧
        w'.log = w.log ++ List.replicate gs.length (Ev.sleep 5000)) := by
  constructor
  · intro d g w hbusy
    exact ⟨_, managementTick_defers E K apple d g w hbusy, rfl, by simp [Ev.isDriverCall]⟩
  · intro gs
    induction gs with
    | nil => intro d w _; exact ⟨w, rfl, by simp⟩
    | cons g gs ih =>
      intro d w hall
      obtain ⟨w', hrun, hl⟩ := ih 0 ⟨E.sleep w.s 5000, w.log ++ [Ev.sleep 5000]⟩
        (fun g' hg' => hall g' (List.mem_cons_of_mem _ hg'))
      refine ⟨w', ?_, ?_⟩
      · simp only [managementRun, managementTick_defers E K apple d g w (hall g (by simp)),
          hrun, Option.map_some', List.length_cons, List.replicate_succ]
      · rw [hl]
        simp [List.replicate_succ]

/-! ### Status JSON -/

theorem intercalate_go_append (a b s : String) (l : List String) :
    String.intercalate.go (a ++ b) s l = a ++ String.intercalate.go b s l := by
  induction l generalizing b with
  | nil => rfl
  | cons x l ih =>
    simp only [String.intercalate.go]
    rw [String.append_assoc, String.append_assoc, ← String.append_assoc b s x]
    exact ih _

theorem buildCamerasJson_pos (E : Env σ) (K : SdkCodes) :
    ∀ (cams : List CameraDevice) (i : Nat) (js : String) (w : World σ), 0 < i →
      buildCamerasJson E K cams i js w =
        (String.intercalate.go js "," (cameraObjects E K cams i w).1,
          (cameraObjects E K cams i w).2) := by
  intro cams
  induction cams with
  | nil => intro i js w _; rfl
  | cons cam rest ih =>
    intro i js w hi
    simp only [buildCamerasJson, cameraObjects, hi, if_true, String.intercalate.go]
    exact ih (i + 1) _ _ (by omega)

/-- The loop of `buildStatusJson` appends the camera objects, separated by commas. -/
theorem buildCamerasJson_zero (E : Env σ) (K : SdkCodes) (cams : List CameraDevice)
    (js : String) (w : World σ) :
    buildCamerasJson E K cams 0 js w =
      (js ++ ",".intercalate (cameraObjects E K cams 0 w).1,
        (cameraObjects E K cams 0 w).2) := by
  cases cams with
  | nil => simp [buildCamerasJson, cameraObjects, String.intercalate]
  | cons cam rest =>
    simp only [buildCamerasJson, cameraObjects, String.intercalate, Nat.lt_irrefl, if_false]
    rw [buildCamerasJson_pos E K rest (0 + 1) _ _ (by omega), intercalate_go_append]

theorem buildCameraJson_head (E : Env σ) (K : SdkCodes) (i : Nat) (cam : CameraDevice)
    (w : World σ) :
    startsWithHead (buildCameraJson E K i cam w).1 i cam.m_modelId cam.m_connected := by
  unfold startsWithHead buildCameraJson cameraJsonHead
  simp only [String.append_assoc]
  exact ⟨_, rfl⟩

/-- One object per camera, in order, each with the index, model and connection state of its
camera. -/
theorem cameraObjects_heads (E : Env σ) (K : SdkCodes) :
    ∀ (cams : List CameraDevice) (i : Nat) (w : World σ),
      List.Forall₂ (fun obj (p : Nat × CameraDevice) =>
          startsWithHead obj p.1 p.2.m_modelId p.2.m_connected)
        (cameraObjects E K cams i w).1 (cams.enumFrom i) := by
  intro cams
  induction cams with
  | nil => intro i w; exact List.Forall₂.nil
  | cons cam rest ih =>
    intro i w
    simp only [cameraObjects, List.enumFrom]
    exact List.Forall₂.cons (buildCameraJson_head E K i cam w) (ih (i + 1) _)

/-- The calls of the camera objects are those of `getProperties` on the connected cameras;
with no camera there is none. -/
theorem buildStatusJson_eq (E : Env σ) (K : SdkCodes) (ownsLock : Bool) (g : Globals)
    (w : World σ) :
    buildStatusJson E K ownsLock g w =
      (if ownsLock then
        ("\x7b\"cameras\":[" ++ (",".intercalate (cameraObjects E K g.g_cameras 0 w).1 ++
            statusFields g (E.fsExists (cameraObjects E K g.g_cameras 0 w).2.s g.g_presetPath)),
          ⟨(cameraObjects E K g.g_cameras 0 w).2.s,
            (cameraObjects E K g.g_cameras 0 w).2.log ++ [Ev.fsExists g.g_presetPath
              (E.fsExists (cameraObjects E K g.g_cameras 0 w).2.s g.g_presetPath)]⟩)
       else
        ("\x7b\"cameras\":[" ++ statusFields g (E.fsExists w.s g.g_presetPath),
          ⟨w.s, w.log ++ [Ev.fsExists g.g_presetPath (E.fsExists w.s g.g_presetPath)]⟩)) := by
  cases ownsLock with
  | true =>
    simp only [buildStatusJson, if_true, buildCamerasJson_zero, fsExists, World.step,
      statusFields, String.append_assoc]
  | false =>
    simp only [buildStatusJson, fsExists, World.step, statusFields, String.append_assoc]
    rfl

/-- With the lock, the `cameras` array holds one object per registry handle, in order. -/
theorem buildStatusJson_locked (E : Env σ) (K : SdkCodes) (g : Globals) (w : World σ) :
    ∃ objs found,
      (buildStatusJson E K true g w).1 =
        "\x7b\"cameras\":[" ++ (",".intercalate objs ++ statusFields g found) ∧
      objs.length = g.g_cameras.length ∧
      List.Forall₂ (fun obj (p : Nat × CameraDevice) =>
          startsWithHead obj p.1 p.2.m_modelId p.2.m_connected)
        objs (g.g_cameras.enumFrom 0) := by
  rw [buildStatusJson_eq]
  have hF := cameraObjects_heads E K g.g_cameras 0 w
  refine ⟨(cameraObjects E K g.g_cameras 0 w).1, _, rfl, ?_, hF⟩
  have := hF.length_eq
  simpa using this

/-- C8. The status endpoint never waits for the registry lock: when the try-lock fails,
`buildStatusJson` still returns the complete status object, with an empty `cameras` array
and the current `downloading`, `downloadStatus`, `downloadPath`, `scanning`, `scanStatus`,
`presetPath` and `hasPreset`, and its only call is the existence test of the preset file (no
driver call); when the try-lock succeeds the array holds one object per registry handle, in
registry order, each starting with the index, model and connection state of its handle. -/
theorem status_without_lock (E : Env σ) (K : SdkCodes) (g : Globals) (w : World σ) :
    ((buildStatusJson E K false g w).1 =
        "\x7b\"cameras\":[" ++ statusFields g (E.fsExists w.s g.g_presetPath) ∧
      (buildStatusJson E K false g w).2.log =
        w.log ++ [Ev.fsExists g.g_presetPath (E.fsExists w.s g.g_presetPath)] ∧
      Ev.isDriverCall (Ev.fsExists g.g_presetPath (E.fsExists w.s g.g_presetPath)) = false) ∧
    (∃ objs found,
      (buildStatusJson E K true g w).1 =
        "\x7b\"cameras\":[" ++ (",".intercalate objs ++ statusFields g found) ∧
      objs.length = g.g_cameras.length ∧
      List.Forall₂ (fun obj (p : Nat × CameraDevice) =>
          startsWithHead obj p.1 p.2.m_modelId p.2.m_connected)
        objs (g.g_cameras.enumFrom 0)) := by
  constructor
  · rw [buildStatusJson_eq]
    exact ⟨rfl, rfl, rfl⟩
  · exact buildStatusJson_locked E K g w

/-! ### Discovery -/

/-- An open attempt that the driver accepts and completes with `OnConnected` succeeds at
once: the device is connected and the only call is `Connect`. -/
theorem openOnce_connected (E : Env σ) (info : ObjInfo) (mode : SdkControlMode)
    (c : CameraDevice) (w : World σ)
    (herr : ((E.Connect w.s info c.m_device_handle mode).1).err = 0)
    (hfc : firstCompletion ((E.Connect w.s info c.m_device_handle mode).1).events =
      some .OnConnected) :
    ∃ c1 w1, c.openOnce E info mode w = some (true, c1, w1) ∧
      c1.m_connected = true ∧ c1.m_modelId = c.m_modelId ∧
      w1.log = w.log ++ [Ev.Connect info mode (E.Connect w.s info c.m_device_handle mode).1] := by
  unfold CameraDevice.openOnce
  simp only [CameraDevice.setEventPromise, SCRSDK.Connect, World.step]
  generalize E.Connect w.s info c.m_device_handle mode = r at herr hfc ⊢
  set c0 : CameraDevice := { c with m_eventPromise := true, m_device_handle := r.1.handle }
    with hc0
  have hreg := awaitEvent_registered r.1.events c0 rfl
  rw [hfc] at hreg
  simp only at hreg
  have hfr := awaitEvent_frame r.1.events c0
  have hpair : c0.awaitEvent r.1.events = (some .value, (c0.awaitEvent r.1.events).2) :=
    Prod.ext hreg.1 rfl
  simp only [herr, ne_eq, not_true_eq_false, if_false]
  rw [hpair]
  exact ⟨_, _, rfl, hreg.2, hfr.2, rfl⟩

/-- `connect` with three attempts against a driver that completes the open with
`OnConnected`: true after one `Connect` call, the device connected under its identity. -/
theorem connect_connected (E : Env σ) (apple : Bool) (info : ObjInfo) (c : CameraDevice)
    (w : World σ)
    (hok : ∀ s h, ((E.Connect s info h .Remote).1).err = 0 ∧
      firstCompletion ((E.Connect s info h .Remote).1).events = some .OnConnected) :
    ∃ c1 w1, CameraDevice.connect E apple info 3 c w = some (true, c1, w1) ∧
      c1.m_connected = true ∧ c1.m_modelId = getModelId info := by
  obtain ⟨c1, w1, hopen, hconn, hm, -⟩ := openOnce_connected E info .Remote
    { c with m_modelId := getModelId info } w (hok _ _).1 (hok _ _).2
  refine ⟨c1, w1, ?_, hconn, hm⟩
  have h3 : (3 : Int).toNat = 2 + 1 := rfl
  simp only [CameraDevice.connect, h3, CameraDevice.connectLoop, hopen]

theorem alreadyConnected_append (cams : List CameraDevice) (cam : CameraDevice) (id : String) :
    alreadyConnected (cams ++ [cam]) id =
      (alreadyConnected cams id || decide (cam.m_modelId = id ∧ cam.m_connected = true)) := by
  simp [alreadyConnected, List.any_append]

/-- The second loop of `scanAndConnect` when every FX30 camera of the enumeration is new and
opens: one connected handle per FX30 camera is appended, in enumeration order. -/
theorem scanLoop_all_connect (E : Env σ) (apple : Bool) (total : Nat)
    (hok : ∀ s info h, isFX30Camera info = true →
      ((E.Connect s info h .Remote).1).err = 0 ∧
      firstCompletion ((E.Connect s info h .Remote).1).events = some .OnConnected) :
    ∀ (infos : List ObjInfo) (att found : Nat) (g : Globals) (w : World σ),
      ((infos.filter isFX30Camera).map getModelId).Nodup →
      (∀ i ∈ infos, isFX30Camera i = true → alreadyConnected g.g_cameras (getModelId i) = false) →
      ∃ g' w' cams, scanLoop E apple total infos att found g w =
          some (found + (infos.filter isFX30Camera).length, g', w') ∧
        g'.g_cameras = g.g_cameras ++ cams ∧
        cams.map (fun c => c.m_modelId) = (infos.filter isFX30Camera).map getModelId ∧
        (∀ c ∈ cams, c.m_connected = true) := by
  intro infos
  induction infos with
  | nil =>
    intro att found g w _ _
    exact ⟨g, w, [], rfl, by simp, rfl, by simp⟩
  | cons info rest ih =>
    intro att found g w hnd hfresh
    by_cases hfx : isFX30Camera info = true
    · have hac : alreadyConnected g.g_cameras (getModelId info) = false :=
        hfresh info (by simp) hfx
      simp only [List.filter_cons, hfx, if_true, List.map_cons, List.nodup_cons] at hnd
      obtain ⟨c1, w1, hconn, hc1, hm1⟩ := connect_connected E apple info {} w
        (fun s h => hok s info h hfx)
      have hfresh' : ∀ i ∈ rest, isFX30Camera i = true →
          alreadyConnected (g.g_cameras ++ [c1]) (getModelId i) = false := by
        intro i hi hfi
        rw [alreadyConnected_append, hfresh i (List.mem_cons_of_mem _ hi) hfi, hm1]
        have hne : getModelId info ≠ getModelId i := by
          intro heq
          apply hnd.1
          rw [heq]
          exact List.mem_map_of_mem _ (List.mem_filter.mpr ⟨hi, hfi⟩)
        simp [hne]
      obtain ⟨g', w', cams, hrun, hcams, hids, hall⟩ := ih (att + 1) (found + 1)
        { g with
          g_scanStatus := "Connecting to " ++ info.Model ++ progressText (att + 1) total ++ "..."
          g_cameras := g.g_cameras ++ [c1] } w1 hnd.2 hfresh'
      refine ⟨g', w', c1 :: cams, ?_, ?_, ?_, ?_⟩
      · simp only [scanLoop, hfx, hac, not_true_eq_false, if_false, Bool.false_eq_true, hconn,
          List.filter_cons, if_true, List.length_cons]
        rw [hrun]
        congr 2
        omega
      · rw [hcams]; simp
      · simp [List.filter_cons, hfx, hids, hm1]
      · intro c hc
        rcases List.mem_cons.mp hc with rfl | hc
        · exact hc1
        · exact hall c hc
    · have hnd' : ((rest.filter isFX30Camera).map getModelId).Nodup := by
        simpa [List.filter_cons, hfx] using hnd
      obtain ⟨g', w', cams, hrun, hcams, hids, hall⟩ := ih att found g w hnd'
        (fun i hi => hfresh i (List.mem_cons_of_mem _ hi))
      refine ⟨g', w', cams, ?_, hcams, ?_, hall⟩
      · simp only [scanLoop, hfx, not_false_eq_true, if_true, List.filter_cons, if_false,
          Bool.false_eq_true]
        exact hrun
      · simpa [List.filter_cons, hfx] using hids

/-- C7. Discovery scenario: from an empty registry, when the enumeration holds `k` cameras
whose model contains "FX30", with pairwise distinct identities, and the driver completes
every open of such a camera with `OnConnected`, `scanAndConnect` returns with a registry of
exactly `k` handles, one per FX30 camera in enumeration order, all connected; and
`buildStatusJson` with the lock acquired then prints a `cameras` array of exactly `k`
objects, the object at position `i` starting with index `i`, the identity of the `i`-th
camera and `"connected":true`. -/
theorem discovery_scenario (E : Env σ) (K : SdkCodes) (apple usbReset : Bool)
    (infos : List ObjInfo) (g : Globals) (w : World σ)
    (hempty : g.g_cameras = [])
    (henum : ∀ s, ((E.EnumCameraObjects s).1).list? = some infos)
    (hnodup : ((infos.filter isFX30Camera).map getModelId).Nodup)
    (hok : ∀ s info h, isFX30Camera info = true →
      ((E.Connect s info h .Remote).1).err = 0 ∧
      firstCompletion ((E.Connect s info h .Remote).1).events = some .OnConnected) :
    ∃ g' w', scanAndConnect E K apple usbReset g w = some (g', w') ∧
      g'.g_cameras.length = (infos.filter isFX30Camera).length ∧
      g'.g_cameras.map (fun c => c.m_modelId) = (infos.filter isFX30Camera).map getModelId ∧
      (∀ c ∈ g'.g_cameras, c.m_connected = true) ∧
      ∀ w2 : World σ, ∃ objs found,
        (buildStatusJson E K true g' w2).1 =
          "\x7b\"cameras\":[" ++ (",".intercalate objs ++ statusFields g' found) ∧
        objs.length = (infos.filter isFX30Camera).length ∧
        List.Forall₂ (fun obj (p : Nat × ObjInfo) => startsWithHead obj p.1 (getModelId p.2) true)
          objs ((infos.filter isFX30Camera).enumFrom 0) := by
  obtain ⟨hg0, -, -⟩ := scanPrologue_spec E apple usbReset g w
  unfold scanAndConnect
  generalize scanPrologue E apple usbReset g w = p0 at hg0
  obtain ⟨g0, w0⟩ := p0
  simp only at hg0
  simp only [SCRSDK.EnumCameraObjects, henum]
  obtain ⟨g2, w2, cams, hloop, hcams, hids, hall⟩ :=
    scanLoop_all_connect E apple (infos.countP isFX30Camera) hok infos 0 0
      { g0 with g_scanStatus := "Enumerating cameras..." }
      (w0.step (E.EnumCameraObjects w0.s).2 (Ev.EnumCameraObjects (E.EnumCameraObjects w0.s).1))
      hnodup (by intro i _ _; simp [hg0, hempty, alreadyConnected])
  simp only [hloop]
  have hreg : (scanEpilogue E K (0 + (infos.filter isFX30Camera).length) g2 w2).1.g_cameras
      = cams := by
    rw [scanEpilogue_cameras, hcams]
    simp [hg0, hempty]
  have hlen : cams.length = (infos.filter isFX30Camera).length := by
    have := congrArg List.length hids
    simpa using this
  refine ⟨(scanEpilogue E K (0 + (infos.filter isFX30Camera).length) g2 w2).1,
    (scanEpilogue E K (0 + (infos.filter isFX30Camera).length) g2 w2).2, rfl, ?_, ?_, ?_, ?_⟩
  · rw [hreg, hlen]
  · rw [hreg, hids]
  · rw [hreg]; exact hall
  · intro w3
    obtain ⟨objs, found, hjson, hol, hF⟩ := buildStatusJson_locked E K
      (scanEpilogue E K (0 + (infos.filter isFX30Camera).length) g2 w2).1 w3
    refine ⟨objs, found, hjson, by rw [hol, hreg, hlen], ?_⟩
    rw [hreg] at hF
    -- from the cameras to the enumerated FX30 devices
    have hconv : ∀ (cs : List CameraDevice) (is : List ObjInfo) (n : Nat) (os : List String),
        cs.map (fun c => c.m_modelId) = is.map getModelId →
        (∀ c ∈ cs, c.m_connected = true) →
        List.Forall₂ (fun obj (p : Nat × CameraDevice) =>
          startsWithHead obj p.1 p.2.m_modelId p.2.m_connected) os (cs.enumFrom n) →
        List.Forall₂ (fun obj (p : Nat × ObjInfo) =>
          startsWithHead obj p.1 (getModelId p.2) true) os (is.enumFrom n) := by
      intro cs
      induction cs with
      | nil =>
        intro is n os hm _ hf
        cases is with
        | nil => simpa using hf
        | cons i is => simp at hm
      | cons c cs ih =>
        intro is n os hm hc hf
        cases is with
        | nil => simp at hm
        | cons i is =>
          simp only [List.map_cons, List.cons.injEq] at hm
          simp only [List.enumFrom] at hf ⊢
          cases hf with
          | cons h1 h2 =>
            refine List.Forall₂.cons ?_ (ih is (n + 1) _ hm.2
              (fun c' hc' => hc c' (List.mem_cons_of_mem _ hc')) h2)
            simpa [hm.1, hc c (by simp)] using h1
    exact hconv cams _ 0 objs hids hall hF

set_option maxRecDepth 20000 in
/-- Witness of C7, with `k = 2`: the scripted enumeration holds two FX30 cameras and one
camera of another model; both FX30 cameras open with `OnConnected`.  After `scanAndConnect`
the registry has two connected handles and the status object lists two cameras, with
indices 0 and 1. -/
theorem discovery_scenario_witness :
    (∃ g' w', scanAndConnect (mockEnv twoCameraScript) exampleCodes true true {} mockStart =
        some (g', w') ∧
      g'.g_cameras.length = 2 ∧
      g'.g_cameras.map (fun c => c.m_modelId) = ["ILME-FX30 (A)", "ILME-FX30 (B)"] ∧
      (∀ c ∈ g'.g_cameras, c.m_connected = true) ∧
      ∀ w2 : World MockState, ∃ objs found,
        (buildStatusJson (mockEnv twoCameraScript) exampleCodes true g' w2).1 =
          "\x7b\"cameras\":[" ++ (",".intercalate objs ++ statusFields g' found) ∧
        objs.length = 2 ∧
        List.Forall₂ (fun obj (p : Nat × ObjInfo) => startsWithHead obj p.1 (getModelId p.2) true)
          objs [(0, fx30A), (1, fx30B)]) ∧
    (scanAndConnect (mockEnv twoCameraScript) exampleCodes true true {} mockStart).map
        (fun r => (buildStatusJson (mockEnv twoCameraScript) exampleCodes true r.1 r.2).1) =
      some ("\x7b\"cameras\":[" ++
        "\x7b\"index\":0,\"model\":\"ILME-FX30 (A)\",\"connected\":true,\"recording\":false," ++
        "\"battery\":0,\"iso\":\"---\",\"shutterSpeed\":\"---\",\"fNumber\":\"---\"," ++
        "\"whiteBalance\":\"AWB\",\"colorTemp\":0,\"mediaSlot1Min\":0,\"mediaSlot2Min\":0," ++
        "\"movieFormat\":\"AVCHD\",\"recSetting\":\"60p 50M\",\"frameRate\":\"120p\"," ++
        "\"clipName\":\"\",\"heatState\":0\x7d," ++
        "\x7b\"index\":1,\"model\":\"ILME-FX30 (B)\",\"connected\":true,\"recording\":false," ++
        "\"battery\":0,\"iso\":\"---\",\"shutterSpeed\":\"---\",\"fNumber\":\"---\"," ++
        "\"whiteBalance\":\"AWB\",\"colorTemp\":0,\"mediaSlot1Min\":0,\"mediaSlot2Min\":0," ++
        "\"movieFormat\":\"AVCHD\",\"recSetting\":\"60p 50M\",\"frameRate\":\"120p\"," ++
        "\"clipName\":\"\",\"heatState\":0\x7d" ++
        "],\"downloading\":false,\"downloadStatus\":\"\"," ++
        "\"downloadPath\":\"/tmp/fx30_downloads\",\"scanning\":false," ++
        "\"scanStatus\":\"Scan complete. 2 new camera(s), 2 total.\"," ++
        "\"presetPath\":\"fx30_preset.json\",\"hasPreset\":false\x7d") :=
  ⟨discovery_scenario (mockEnv twoCameraScript) exampleCodes true true
      [fx30A, ⟨"ILCE-7M4", "USB", "", "C"⟩, fx30B] {} mockStart rfl (fun _ => rfl) (by decide)
      (fun _ _ _ _ => ⟨rfl, rfl⟩),
   by decide⟩

/-! ### File download -/

@[simp] theorem detailsOf_append (a b : List Ev) :
    detailsOf (a ++ b) = detailsOf a ++ detailsOf b := by
  simp [detailsOf, List.filterMap_append]

@[simp] theorem existsOf_append (a b : List Ev) :
    existsOf (a ++ b) = existsOf a ++ existsOf b := by
  simp [existsOf, List.filterMap_append]

@[simp] theorem pullsOf_append (a b : List Ev) :
    pullsOf (a ++ b) = pullsOf a ++ pullsOf b := by
  simp [pullsOf, List.filterMap_append]

@[simp] theorem listingsOf_append (a b : List Ev) :
    listingsOf (a ++ b) = listingsOf a ++ listingsOf b := by
  simp [listingsOf, List.filterMap_append]

@[simp] theorem folderListsOf_append (a b : List Ev) :
    folderListsOf (a ++ b) = folderListsOf a ++ folderListsOf b := by
  simp [folderListsOf, List.filterMap_append]

@[simp] theorem saveInfosOf_append (a b : List Ev) :
    saveInfosOf (a ++ b) = saveInfosOf a ++ saveInfosOf b := by
  simp [saveInfosOf, List.filterMap_append]

@[simp] theorem examinedFiles_append (a b : List Ev) :
    examinedFiles (a ++ b) = examinedFiles a ++ examinedFiles b := by
  simp [examinedFiles, List.filterMap_append]

@[simp] theorem listedEntries_append (a b : List Ev) :
    listedEntries (a ++ b) = listedEntries a ++ listedEntries b := by
  simp [listedEntries, List.flatMap_append]

@[simp] theorem listedFolders_append (a b : List Ev) :
    listedFolders (a ++ b) = listedFolders a ++ listedFolders b := by
  simp [listedFolders, List.flatMap_append]

theorem tally_append (a b : List Ev) : tally (a ++ b) = (tally a).add (tally b) := by
  simp only [tally, Counters.add, detailsOf_append, existsOf_append, pullsOf_append,
    List.countP_append, Counters.mk.injEq, true_and]
  omega

theorem Counters.add_assoc (a b c : Counters) : (a.add b).add c = a.add (b.add c) := by
  simp [Counters.add, Nat.add_assoc]

theorem EntryFacts.nil (dlPath : String) : EntryFacts dlPath [] :=
  ⟨by simp [existsOf, examinedFiles, detailsOf], by simp [existsOf, examinedFiles, detailsOf, pullsOf]⟩

theorem EntryFacts.append {dlPath : String} {a b : List Ev}
    (ha : EntryFacts dlPath a) (hb : EntryFacts dlPath b) : EntryFacts dlPath (a ++ b) := by
  have hlen : (examinedFiles a).length = (existsOf a).length := by
    have := congrArg List.length ha.checks
    simpa using this.symm
  constructor
  · simp [ha.checks, hb.checks]
  · simp only [pullsOf_append, examinedFiles_append, existsOf_append, List.map_append]
    rw [List.zip_append hlen, List.filterMap_append, ha.pulls, hb.pulls]

theorem deliver_frame_download (c : CameraDevice) (cb : Callback) :
    (cb.completesDownload = false →
      (c.deliver cb).download = none ∧
      (c.deliver cb).cam.m_downloadPromise = c.m_downloadPromise) := by
  intro h
  cases cb with
  | OnConnected => simp only [CameraDevice.deliver, CameraDevice.OnConnected]; split_ifs <;> simp
  | OnDisconnected e =>
    simp only [CameraDevice.deliver, CameraDevice.OnDisconnected]; split_ifs <;> simp
  | OnError e => simp only [CameraDevice.deliver, CameraDevice.OnError]; split_ifs <;> simp
  | OnWarning wn =>
    cases wn <;> simp [Callback.completesDownload] at h <;>
      simp [CameraDevice.deliver, CameraDevice.OnWarning]
  | OnNotifyContentsTransfer n =>
    cases n <;> simp [Callback.completesDownload] at h
    simp [CameraDevice.deliver, CameraDevice.OnNotifyContentsTransfer]
  | OnOther => simp [CameraDevice.deliver]

theorem awaitDownload_frame (events : List Callback) (c : CameraDevice) :
    (c.awaitDownload events).2.m_device_handle = c.m_device_handle ∧
      (c.awaitDownload events).2.m_modelId = c.m_modelId := by
  induction events generalizing c with
  | nil => simp [CameraDevice.awaitDownload]
  | cons cb rest ih =>
    have hf := deliver_frame c cb
    simp only [CameraDevice.awaitDownload]
    cases hd : (c.deliver cb).download with
    | some r => simpa using hf
    | none =>
      simp only
      have := ih (c.deliver cb).cam
      exact ⟨this.1.trans hf.1, this.2.trans hf.2⟩

/-- With the download slot registered, the wait ends as the outcome of the reply says. -/
theorem awaitDownload_registered (r : PullReply) (c : CameraDevice) (herr : r.err = 0)
    (hslot : c.m_downloadPromise = true) :
    (c.awaitDownload r.events).1 =
      match r.outcome with
      | .completed => some .value
      | .failed => some .exception
      | _ => none := by
  unfold PullReply.outcome
  simp only [herr, ne_eq, not_true_eq_false, if_false]
  generalize r.events = events
  induction events generalizing c with
  | nil => simp [CameraDevice.awaitDownload]
  | cons cb rest ih =>
    by_cases hc : cb.completesDownload = true
    · simp only [List.find?, hc]
      cases cb with
      | OnConnected => simp [Callback.completesDownload] at hc
      | OnDisconnected e => simp [Callback.completesDownload] at hc
      | OnError e => simp [Callback.completesDownload] at hc
      | OnOther => simp [Callback.completesDownload] at hc
      | OnWarning wn =>
        cases wn <;> simp [Callback.completesDownload] at hc <;>
          simp [CameraDevice.awaitDownload, CameraDevice.deliver, CameraDevice.OnWarning, hslot]
      | OnNotifyContentsTransfer n =>
        cases n <;> simp [Callback.completesDownload] at hc <;>
          simp [CameraDevice.awaitDownload, CameraDevice.deliver,
            CameraDevice.OnNotifyContentsTransfer, hslot]
    · have hc' : cb.completesDownload = false := by simpa using hc
      obtain ⟨h1, h2⟩ := deliver_frame_download c cb hc'
      have hstep : c.awaitDownload (cb :: rest) = (c.deliver cb).cam.awaitDownload rest := by
        simp [CameraDevice.awaitDownload, h1]
      rw [hstep]
      simp only [List.find?, hc']
      exact ih _ (h2.trans hslot)

theorem pair_eq_of_fst {α β : Type} {a : α × β} {x : α} (h : a.1 = x) : a = (x, a.2) := by
  cases a; cases h; rfl

theorem sameButDownloadStatus.same (g : Globals) : sameButDownloadStatus g g := rfl

theorem sameButDownloadStatus.set {g g' : Globals} (h : sameButDownloadStatus g g')
    (status : String) : sameButDownloadStatus g { g' with g_downloadStatus := status } := by
  unfold sameButDownloadStatus at h ⊢
  rw [h]

theorem sameButDownloadStatus.chain {g g' g'' : Globals} (h : sameButDownloadStatus g g')
    (h' : sameButDownloadStatus g' g'') : sameButDownloadStatus g g'' := by
  unfold sameButDownloadStatus at h h' ⊢
  rw [h', h]

/-- The calls made for one remote entry: one detail query; when it succeeds, one existence
check of the file; when the file does not exist, one pull.  The counters grow by the tally
of these calls. -/
theorem downloadContent_spec (E : Env σ) (dlPath camName : String) (st : DlState σ)
    (content : Nat) :
    ∃ tr, (downloadContent E dlPath camName st content).w.log = st.w.log ++ tr ∧
      (downloadContent E dlPath camName st content).cam.m_device_handle =
        st.cam.m_device_handle ∧
      (downloadContent E dlPath camName st content).cam.m_modelId = st.cam.m_modelId ∧
      (downloadContent E dlPath camName st content).cnt = st.cnt.add (tally tr) ∧
      sameButDownloadStatus st.g (downloadContent E dlPath camName st content).g ∧
      (detailsOf tr).map (fun d => (d.1, d.2.1)) = [(st.cam.m_device_handle, content)] ∧
      listingsOf tr = [] ∧ folderListsOf tr = [] ∧ saveInfosOf tr = [] ∧
      EntryFacts dlPath tr := by
  obtain ⟨cnt, cam, g, w⟩ := st
  unfold downloadContent
  simp only [SCRSDK.GetContentsDetailInfo, SCRSDK.PullContentsFile, fsExists, sleep_for,
    World.step, CameraDevice.setDownloadPromise]
  generalize E.GetContentsDetailInfo w.s cam.m_device_handle content = d
  by_cases herr : d.1.err = 0
  · simp only [herr, ne_eq, not_true_eq_false, if_false]
    generalize hx : E.fsExists d.2 (dlPath ++ "/" ++ d.1.fileName) = found
    cases found with
    | true =>
      simp only [if_true]
      refine ⟨[Ev.GetContentsDetailInfo cam.m_device_handle content d.1,
        Ev.fsExists (dlPath ++ "/" ++ d.1.fileName) true], by simp, by simp, by simp, ?_,
        sameButDownloadStatus.set (sameButDownloadStatus.same g) _, ?_, ?_, ?_, ?_, ?_⟩
      · simp [tally, Counters.add, detailsOf, existsOf, pullsOf, herr]
      · simp [detailsOf]
      · simp [listingsOf]
      · simp [folderListsOf]
      · simp [saveInfosOf]
      · constructor <;> simp [existsOf, examinedFiles, detailsOf, pullsOf, herr]
    | false =>
      simp only [Bool.false_eq_true, if_false]
      generalize hp : E.PullContentsFile d.2 cam.m_device_handle content = p
      have hfacts : ∀ slept : Bool,
          (detailsOf ([Ev.GetContentsDetailInfo cam.m_device_handle content d.1,
            Ev.fsExists (dlPath ++ "/" ++ d.1.fileName) false,
            Ev.PullContentsFile cam.m_device_handle content p.1] ++
              if slept then [Ev.sleep 100] else [])).map
              (fun d => (d.1, d.2.1)) = [(cam.m_device_handle, content)] ∧
          listingsOf ([Ev.GetContentsDetailInfo cam.m_device_handle content d.1,
            Ev.fsExists (dlPath ++ "/" ++ d.1.fileName) false,
            Ev.PullContentsFile cam.m_device_handle content p.1] ++
              if slept then [Ev.sleep 100] else []) = [] ∧
          folderListsOf ([Ev.GetContentsDetailInfo cam.m_device_handle content d.1,
            Ev.fsExists (dlPath ++ "/" ++ d.1.fileName) false,
            Ev.PullContentsFile cam.m_device_handle content p.1] ++
              if slept then [Ev.sleep 100] else []) = [] ∧
          saveInfosOf ([Ev.GetContentsDetailInfo cam.m_device_handle content d.1,
            Ev.fsExists (dlPath ++ "/" ++ d.1.fileName) false,
            Ev.PullContentsFile cam.m_device_handle content p.1] ++
              if slept then [Ev.sleep 100] else []) = [] ∧
          EntryFacts dlPath ([Ev.GetContentsDetailInfo cam.m_device_handle content d.1,
            Ev.fsExists (dlPath ++ "/" ++ d.1.fileName) false,
            Ev.PullContentsFile cam.m_device_handle content p.1] ++
              if slept then [Ev.sleep 100] else []) ∧
          tally ([Ev.GetContentsDetailInfo cam.m_device_handle content d.1,
            Ev.fsExists (dlPath ++ "/" ++ d.1.fileName) false,
            Ev.PullContentsFile cam.m_device_handle content p.1] ++
              if slept then [Ev.sleep 100] else []) =
            ⟨1, 0, if p.1.outcome = .completed then 1 else 0,
              if p.1.outcome = .completed then 0 else 1⟩ := by
        intro slept
        refine ⟨?_, ?_, ?_, ?_, ?_, ?_⟩
        · cases slept <;> simp [detailsOf]
        · cases slept <;> simp [listingsOf]
        · cases slept <;> simp [folderListsOf]
        · cases slept <;> simp [saveInfosOf]
        · cases slept <;> constructor <;>
            simp [existsOf, examinedFiles, detailsOf, pullsOf, herr]
        · by_cases ho : p.1.outcome = .completed <;> cases slept <;>
            simp [tally, detailsOf, existsOf, pullsOf, herr, ho]
      by_cases hperr : p.1.err = 0
      · simp only [hperr, ne_eq, not_true_eq_false, if_false]
        have hreg := awaitDownload_registered p.1
          ({ cam with m_downloadPromise := true } : CameraDevice) hperr rfl
        have hfr := awaitDownload_frame p.1.events
          ({ cam with m_downloadPromise := true } : CameraDevice)
        cases ho : p.1.outcome with
        | rejected =>
          simp only [PullReply.outcome, hperr, ne_eq, not_true_eq_false, if_false] at ho
          split at ho <;> simp at ho
        | timedOut =>
          rw [ho] at hreg
          rw [pair_eq_of_fst hreg]
          obtain ⟨h1, h2, h3, h4, h5, h6⟩ := hfacts false
          simp only [Bool.false_eq_true, if_false, List.append_nil] at h1 h2 h3 h4 h5 h6
          refine ⟨_, by simp, hfr.1, hfr.2, ?_,
            sameButDownloadStatus.set (sameButDownloadStatus.set (sameButDownloadStatus.same g) _) _,
            h1, h2, h3, h4, h5⟩
          rw [h6, ho]
          simp [Counters.add]
        | failed =>
          rw [ho] at hreg
          rw [pair_eq_of_fst hreg]
          obtain ⟨h1, h2, h3, h4, h5, h6⟩ := hfacts true
          simp only [if_true] at h1 h2 h3 h4 h5 h6
          refine ⟨_, by simp, hfr.1, hfr.2, ?_,
            sameButDownloadStatus.set (sameButDownloadStatus.set (sameButDownloadStatus.same g) _) _,
            h1, h2, h3, h4, h5⟩
          rw [h6, ho]
          simp [Counters.add]
        | completed =>
          rw [ho] at hreg
          rw [pair_eq_of_fst hreg]
          obtain ⟨h1, h2, h3, h4, h5, h6⟩ := hfacts true
          simp only [if_true] at h1 h2 h3 h4 h5 h6
          refine ⟨_, by simp, hfr.1, hfr.2, ?_,
            sameButDownloadStatus.set (sameButDownloadStatus.same g) _,
            h1, h2, h3, h4, h5⟩
          rw [h6, ho]
          simp [Counters.add]
      · simp only [hperr, ne_eq, not_false_eq_true, if_true]
        obtain ⟨h1, h2, h3, h4, h5, h6⟩ := hfacts false
        simp only [Bool.false_eq_true, if_false, List.append_nil] at h1 h2 h3 h4 h5 h6
        have ho : p.1.outcome = .rejected := by simp [PullReply.outcome, hperr]
        refine ⟨_, by simp, by simp, by simp, ?_,
          sameButDownloadStatus.set (sameButDownloadStatus.same g) _, h1, h2, h3, h4, h5⟩
        rw [h6, ho]
        simp [Counters.add]
  · simp only [herr, ne_eq, not_false_eq_true, if_true]
    refine ⟨[Ev.GetContentsDetailInfo cam.m_device_handle content d.1], by simp, by simp,
      by simp, ?_,
      sameButDownloadStatus.same g, ?_, ?_, ?_, ?_, ?_⟩
    · simp [tally, Counters.add, detailsOf, existsOf, pullsOf, herr]
    · simp [detailsOf]
    · simp [listingsOf]
    · simp [folderListsOf]
    · simp [saveInfosOf]
    · constructor <;> simp [existsOf, examinedFiles, detailsOf, pullsOf, herr]

theorem TransferFacts.empty (dlPath : String) : TransferFacts dlPath [] :=
  ⟨EntryFacts.nil dlPath, by simp [detailsOf, listedEntries, listingsOf],
    by simp [listingsOf, listedFolders, folderListsOf], by simp [folderListsOf, saveInfosOf]⟩

theorem TransferFacts.join {dlPath : String} {a b : List Ev}
    (ha : TransferFacts dlPath a) (hb : TransferFacts dlPath b) :
    TransferFacts dlPath (a ++ b) :=
  ⟨ha.entries.append hb.entries, by simp [ha.examined, hb.examined],
    by simp [ha.listed, hb.listed], by simp [ha.folders, hb.folders, List.filterMap_append]⟩

/-- The loop over the content handles of one folder. -/
theorem downloadContents_spec (E : Env σ) (dlPath camName : String) :
    ∀ (contents : List Nat) (st : DlState σ),
    ∃ tr, (contents.foldl (downloadContent E dlPath camName) st).w.log = st.w.log ++ tr ∧
      (contents.foldl (downloadContent E dlPath camName) st).cam.m_device_handle =
        st.cam.m_device_handle ∧
      (contents.foldl (downloadContent E dlPath camName) st).cam.m_modelId =
        st.cam.m_modelId ∧
      (contents.foldl (downloadContent E dlPath camName) st).cnt = st.cnt.add (tally tr) ∧
      sameButDownloadStatus st.g (contents.foldl (downloadContent E dlPath camName) st).g ∧
      (detailsOf tr).map (fun d => (d.1, d.2.1)) =
        contents.map (fun c => (st.cam.m_device_handle, c)) ∧
      listingsOf tr = [] ∧ folderListsOf tr = [] ∧ saveInfosOf tr = [] ∧
      EntryFacts dlPath tr := by
  intro contents
  induction contents with
  | nil =>
    intro st
    exact ⟨[], by simp, rfl, rfl, by simp [tally, Counters.add, detailsOf, existsOf, pullsOf],
      sameButDownloadStatus.same _, by simp [detailsOf], by simp [listingsOf],
      by simp [folderListsOf], by simp [saveInfosOf], EntryFacts.nil dlPath⟩
  | cons c rest ih =>
    intro st
    obtain ⟨tr1, hl1, hh1, hm1, hc1, hg1, hd1, hli1, hf1, hs1, he1⟩ :=
      downloadContent_spec E dlPath camName st c
    obtain ⟨tr2, hl2, hh2, hm2, hc2, hg2, hd2, hli2, hf2, hs2, he2⟩ :=
      ih (downloadContent E dlPath camName st c)
    refine ⟨tr1 ++ tr2, ?_, ?_, ?_, ?_, hg1.chain hg2, ?_, ?_, ?_, ?_, he1.append he2⟩
    · rw [List.foldl_cons, hl2, hl1, List.append_assoc]
    · rw [List.foldl_cons, hh2, hh1]
    · rw [List.foldl_cons, hm2, hm1]
    · rw [List.foldl_cons, hc2, hc1, tally_append, Counters.add_assoc]
    · simp [hd1, hd2, hh1]
    · simp [hli1, hli2]
    · simp [hf1, hf2]
    · simp [hs1, hs2]

/-- The calls made for one folder: one content listing, then the calls for each of its
entries. -/
theorem downloadFolder_spec (E : Env σ) (dlPath camName : String) (st : DlState σ)
    (folder : Nat) :
    ∃ tr, (downloadFolder E dlPath camName st folder).w.log = st.w.log ++ tr ∧
      (downloadFolder E dlPath camName st folder).cam.m_device_handle =
        st.cam.m_device_handle ∧
      (downloadFolder E dlPath camName st folder).cam.m_modelId = st.cam.m_modelId ∧
      (downloadFolder E dlPath camName st folder).cnt = st.cnt.add (tally tr) ∧
      sameButDownloadStatus st.g (downloadFolder E dlPath camName st folder).g ∧
      (detailsOf tr).map (fun d => (d.1, d.2.1)) = listedEntries tr ∧
      (listingsOf tr).map (fun l => (l.1, l.2.1)) = [(st.cam.m_device_handle, folder)] ∧
      folderListsOf tr = [] ∧ saveInfosOf tr = [] ∧
      EntryFacts dlPath tr := by
  unfold downloadFolder
  simp only [SCRSDK.GetContentsHandleList, SCRSDK.ReleaseContentsHandleList, World.step]
  generalize E.GetContentsHandleList st.w.s st.cam.m_device_handle folder = r
  cases hl : r.1.list? with
  | none =>
    refine ⟨[Ev.GetContentsHandleList st.cam.m_device_handle folder r.1], by simp, by simp,
      by simp, ?_, sameButDownloadStatus.same _, ?_, ?_, ?_, ?_, ?_⟩
    · simp [tally, Counters.add, detailsOf, existsOf, pullsOf]
    · simp [detailsOf, listedEntries, listingsOf, HandleListReply.entries, hl]
    · simp [listingsOf]
    · simp [folderListsOf]
    · simp [saveInfosOf]
    · constructor <;> simp [existsOf, examinedFiles, detailsOf, pullsOf]
  | some contents =>
    obtain ⟨tr, hlog, hh, hm, hc, hg, hd, hli, hf, hs, he⟩ :=
      downloadContents_spec E dlPath camName contents
        { st with w := ⟨r.2, st.w.log ++ [Ev.GetContentsHandleList st.cam.m_device_handle
          folder r.1]⟩ }
    have hquiet : ∀ h, detailsOf [Ev.ReleaseContentsHandleList h] = [] ∧
        existsOf [Ev.ReleaseContentsHandleList h] = [] ∧
        pullsOf [Ev.ReleaseContentsHandleList h] = [] ∧
        listingsOf [Ev.ReleaseContentsHandleList h] = [] ∧
        folderListsOf [Ev.ReleaseContentsHandleList h] = [] ∧
        saveInfosOf [Ev.ReleaseContentsHandleList h] = [] := by
      intro h
      simp [detailsOf, existsOf, pullsOf, listingsOf, folderListsOf, saveInfosOf]
    have hhead : detailsOf [Ev.GetContentsHandleList st.cam.m_device_handle folder r.1] = [] ∧
        existsOf [Ev.GetContentsHandleList st.cam.m_device_handle folder r.1] = [] ∧
        pullsOf [Ev.GetContentsHandleList st.cam.m_device_handle folder r.1] = [] ∧
        listingsOf [Ev.GetContentsHandleList st.cam.m_device_handle folder r.1] =
          [(st.cam.m_device_handle, folder, r.1)] ∧
        folderListsOf [Ev.GetContentsHandleList st.cam.m_device_handle folder r.1] = [] ∧
        saveInfosOf [Ev.GetContentsHandleList st.cam.m_device_handle folder r.1] = [] := by
      simp [detailsOf, existsOf, pullsOf, listingsOf, folderListsOf, saveInfosOf]
    simp only []
    generalize List.foldl (downloadContent E dlPath camName)
      { st with w := ⟨r.2, st.w.log ++ [Ev.GetContentsHandleList st.cam.m_device_handle
        folder r.1]⟩ } contents = stF at hlog hh hm hc hg ⊢
    obtain ⟨q1, q2, q3, q4, q5, q6⟩ := hquiet stF.cam.m_device_handle
    obtain ⟨a1, a2, a3, a4, a5, a6⟩ := hhead
    refine ⟨[Ev.GetContentsHandleList st.cam.m_device_handle folder r.1] ++ tr ++
      [Ev.ReleaseContentsHandleList stF.cam.m_device_handle], ?_, hh, hm, ?_, hg, ?_, ?_, ?_,
      ?_, ?_⟩
    · simp only [hlog]; simp
    · simp only [hc]
      simp only [tally, detailsOf_append, existsOf_append, pullsOf_append, q1, q2, q3, a1, a2,
        a3, List.nil_append, List.append_nil]
    · simp only [detailsOf_append, listedEntries, listingsOf_append, a1, a4, q1, q4, hli,
        List.nil_append, List.append_nil, hd]
      simp [HandleListReply.entries, hl]
    · simp only [listingsOf_append, a4, q4, hli]; simp
    · simp only [folderListsOf_append, a5, q5, hf]; simp
    · simp only [saveInfosOf_append, a6, q6, hs]; simp
    · constructor
      · simp only [existsOf_append, examinedFiles, detailsOf_append, a1, a2, q1, q2,
          List.nil_append, List.append_nil]
        exact he.checks
      · simp only [existsOf_append, examinedFiles, detailsOf_append, pullsOf_append, a1, a2, a3,
          q1, q2, q3, List.nil_append, List.append_nil]
        exact he.pulls

/-- The loop over the folders of one camera. -/
theorem downloadFolders_spec (E : Env σ) (dlPath camName : String) :
    ∀ (folders : List Nat) (st : DlState σ),
    ∃ tr, (folders.foldl (downloadFolder E dlPath camName) st).w.log = st.w.log ++ tr ∧
      (folders.foldl (downloadFolder E dlPath camName) st).cam.m_device_handle =
        st.cam.m_device_handle ∧
      (folders.foldl (downloadFolder E dlPath camName) st).cam.m_modelId = st.cam.m_modelId ∧
      (folders.foldl (downloadFolder E dlPath camName) st).cnt = st.cnt.add (tally tr) ∧
      sameButDownloadStatus st.g (folders.foldl (downloadFolder E dlPath camName) st).g ∧
      (detailsOf tr).map (fun d => (d.1, d.2.1)) = listedEntries tr ∧
      (listingsOf tr).map (fun l => (l.1, l.2.1)) =
        folders.map (fun f => (st.cam.m_device_handle, f)) ∧
      folderListsOf tr = [] ∧ saveInfosOf tr = [] ∧
      EntryFacts dlPath tr := by
  intro folders
  induction folders with
  | nil =>
    intro st
    exact ⟨[], by simp, rfl, rfl, by simp [tally, Counters.add, detailsOf, existsOf, pullsOf],
      sameButDownloadStatus.same _, by simp [detailsOf, listedEntries, listingsOf],
      by simp [listingsOf], by simp [folderListsOf], by simp [saveInfosOf], EntryFacts.nil dlPath⟩
  | cons f rest ih =>
    intro st
    obtain ⟨tr1, hl1, hh1, hm1, hc1, hg1, hd1, hli1, hf1, hs1, he1⟩ :=
      downloadFolder_spec E dlPath camName st f
    obtain ⟨tr2, hl2, hh2, hm2, hc2, hg2, hd2, hli2, hf2, hs2, he2⟩ :=
      ih (downloadFolder E dlPath camName st f)
    refine ⟨tr1 ++ tr2, ?_, ?_, ?_, ?_, hg1.chain hg2, ?_, ?_, ?_, ?_, he1.append he2⟩
    · rw [List.foldl_cons, hl2, hl1, List.append_assoc]
    · rw [List.foldl_cons, hh2, hh1]
    · rw [List.foldl_cons, hm2, hm1]
    · rw [List.foldl_cons, hc2, hc1, tally_append, Counters.add_assoc]
    · simp [hd1, hd2]
    · simp [hli1, hli2, hh1]
    · simp [hf1, hf2]
    · simp [hs1, hs2]

/-- The calls made for one transfer-mode camera: `SetSaveInfo`, then the folder listing,
then the calls for each folder. -/
theorem downloadCamera_spec (E : Env σ) (dlPath : String) (st : DlState σ) :
    ∃ tr, (downloadCamera E dlPath st).w.log = st.w.log ++ tr ∧
      (downloadCamera E dlPath st).cam.m_device_handle = st.cam.m_device_handle ∧
      (downloadCamera E dlPath st).cam.m_modelId = st.cam.m_modelId ∧
      (downloadCamera E dlPath st).cnt = st.cnt.add (tally tr) ∧
      sameButDownloadStatus st.g (downloadCamera E dlPath st).g ∧
      TransferFacts dlPath tr ∧
      (saveInfosOf tr).map (fun s => s.1) = [st.cam.m_device_handle] := by
  unfold downloadCamera
  simp only [SCRSDK.SetSaveInfo, SCRSDK.GetDateFolderList, SCRSDK.ReleaseDateFolderList,
    World.step]
  generalize E.SetSaveInfo st.w.s st.cam.m_device_handle dlPath = sv
  by_cases hsv : sv.1 = 0
  · simp only [hsv, ne_eq, not_true_eq_false, if_false]
    generalize E.GetDateFolderList sv.2 st.cam.m_device_handle = r
    cases hl : r.1.list? with
    | none =>
      simp only []
      refine ⟨[Ev.SetSaveInfo st.cam.m_device_handle dlPath 0,
        Ev.GetDateFolderList st.cam.m_device_handle r.1], by simp, by simp, by simp, ?_,
        sameButDownloadStatus.set (sameButDownloadStatus.same _) _, ?_, ?_⟩
      · simp [tally, Counters.add, detailsOf, existsOf, pullsOf]
      · refine ⟨⟨?_, ?_⟩, ?_, ?_, ?_⟩ <;>
          simp [existsOf, examinedFiles, detailsOf, pullsOf, listedEntries, listingsOf,
            listedFolders, folderListsOf, saveInfosOf, HandleListReply.entries, hl]
      · simp [saveInfosOf]
    | some folders =>
      simp only []
      obtain ⟨tr, hlog, hh, hm, hc, hg, hd, hli, hf, hs, he⟩ :=
        downloadFolders_spec E dlPath st.cam.m_modelId folders
          { st with w := ⟨r.2, st.w.log ++ [Ev.SetSaveInfo st.cam.m_device_handle dlPath 0] ++
            [Ev.GetDateFolderList st.cam.m_device_handle r.1]⟩ }
      generalize List.foldl (downloadFolder E dlPath st.cam.m_modelId)
        { st with w := ⟨r.2, st.w.log ++ [Ev.SetSaveInfo st.cam.m_device_handle dlPath 0] ++
          [Ev.GetDateFolderList st.cam.m_device_handle r.1]⟩ } folders = stF
        at hlog hh hm hc hg ⊢
      have hhead : detailsOf [Ev.SetSaveInfo st.cam.m_device_handle dlPath 0,
            Ev.GetDateFolderList st.cam.m_device_handle r.1] = [] ∧
          existsOf [Ev.SetSaveInfo st.cam.m_device_handle dlPath 0,
            Ev.GetDateFolderList st.cam.m_device_handle r.1] = [] ∧
          pullsOf [Ev.SetSaveInfo st.cam.m_device_handle dlPath 0,
            Ev.GetDateFolderList st.cam.m_device_handle r.1] = [] ∧
          listingsOf [Ev.SetSaveInfo st.cam.m_device_handle dlPath 0,
            Ev.GetDateFolderList st.cam.m_device_handle r.1] = [] ∧
          folderListsOf [Ev.SetSaveInfo st.cam.m_device_handle dlPath 0,
            Ev.GetDateFolderList st.cam.m_device_handle r.1] =
              [(st.cam.m_device_handle, r.1)] ∧
          saveInfosOf [Ev.SetSaveInfo st.cam.m_device_handle dlPath 0,
            Ev.GetDateFolderList st.cam.m_device_handle r.1] =
              [(st.cam.m_device_handle, dlPath, 0)] := by
        simp [detailsOf, existsOf, pullsOf, listingsOf, folderListsOf, saveInfosOf]
      have htail : detailsOf [Ev.ReleaseDateFolderList stF.cam.m_device_handle] = [] ∧
          existsOf [Ev.ReleaseDateFolderList stF.cam.m_device_handle] = [] ∧
          pullsOf [Ev.ReleaseDateFolderList stF.cam.m_device_handle] = [] ∧
          listingsOf [Ev.ReleaseDateFolderList stF.cam.m_device_handle] = [] ∧
          folderListsOf [Ev.ReleaseDateFolderList stF.cam.m_device_handle] = [] ∧
          saveInfosOf [Ev.ReleaseDateFolderList stF.cam.m_device_handle] = [] := by
        simp [detailsOf, existsOf, pullsOf, listingsOf, folderListsOf, saveInfosOf]
      obtain ⟨a1, a2, a3, a4, a5, a6⟩ := hhead
      obtain ⟨q1, q2, q3, q4, q5, q6⟩ := htail
      refine ⟨[Ev.SetSaveInfo st.cam.m_device_handle dlPath 0,
        Ev.GetDateFolderList st.cam.m_device_handle r.1] ++ tr ++
        [Ev.ReleaseDateFolderList stF.cam.m_device_handle], ?_, hh, hm, ?_, hg, ?_, ?_⟩
      · simp only [hlog]; simp
      · simp only [hc]
        simp only [tally, detailsOf_append, existsOf_append, pullsOf_append, q1, q2, q3, a1, a2,
          a3, List.nil_append, List.append_nil]
      · refine ⟨⟨?_, ?_⟩, ?_, ?_, ?_⟩
        · simp only [existsOf_append, examinedFiles, detailsOf_append, a1, a2, q1, q2,
            List.nil_append, List.append_nil]
          exact he.checks
        · simp only [existsOf_append, examinedFiles, detailsOf_append, pullsOf_append, a1, a2,
            a3, q1, q2, q3, List.nil_append, List.append_nil]
          exact he.pulls
        · simp only [detailsOf_append, listedEntries, listingsOf_append, a1, a4, q1, q4,
            List.nil_append, List.append_nil]
          exact hd
        · simp only [listingsOf_append, listedFolders, folderListsOf_append, a4, a5, q4, q5, hf,
            List.nil_append, List.append_nil, hli]
          simp [HandleListReply.entries, hl]
        · simp only [folderListsOf_append, saveInfosOf_append, a5, a6, q5, q6, hf, hs]
          simp
      · simp only [saveInfosOf_append, a6, q6, hs]; simp
  · simp only [hsv, ne_eq, not_false_eq_true, if_true]
    refine ⟨[Ev.SetSaveInfo st.cam.m_device_handle dlPath sv.1], by simp, by simp, by simp, ?_,
      sameButDownloadStatus.set (sameButDownloadStatus.same _) _, ?_, ?_⟩
    · simp [tally, Counters.add, detailsOf, existsOf, pullsOf]
    · refine ⟨⟨?_, ?_⟩, ?_, ?_, ?_⟩ <;>
        simp [existsOf, examinedFiles, detailsOf, pullsOf, listedEntries, listingsOf,
          listedFolders, folderListsOf, saveInfosOf, hsv]
    · simp [saveInfosOf]

/-- Step 4 of `downloadFilesThread`: the calls for the transfer-mode cameras, one after
the other.  The counters are the tally of the calls. -/
theorem downloadAll_spec (E : Env σ) (dlPath : String) :
    ∀ (cams : List CameraDevice) (cnt : Counters) (g : Globals) (w : World σ),
    ∃ tr, (downloadAll E dlPath cams cnt g w).2.2.2.log = w.log ++ tr ∧
      (downloadAll E dlPath cams cnt g w).1 = cnt.add (tally tr) ∧
      sameButDownloadStatus g (downloadAll E dlPath cams cnt g w).2.2.1 ∧
      TransferFacts dlPath tr ∧
      (saveInfosOf tr).map (fun s => s.1) = cams.map (fun c => c.m_device_handle) := by
  intro cams
  induction cams with
  | nil =>
    intro cnt g w
    exact ⟨[], by simp [downloadAll],
      by simp [downloadAll, tally, Counters.add, detailsOf, existsOf, pullsOf],
      sameButDownloadStatus.same _, TransferFacts.empty dlPath, by simp [saveInfosOf]⟩
  | cons cam rest ih =>
    intro cnt g w
    obtain ⟨tr1, hl1, -, -, hc1, hg1, hf1, hs1⟩ :=
      downloadCamera_spec E dlPath { cnt := cnt, cam := cam, g := g, w := w }
    obtain ⟨tr2, hl2, hc2, hg2, hf2, hs2⟩ :=
      ih (downloadCamera E dlPath { cnt := cnt, cam := cam, g := g, w := w }).cnt
        (downloadCamera E dlPath { cnt := cnt, cam := cam, g := g, w := w }).g
        (downloadCamera E dlPath { cnt := cnt, cam := cam, g := g, w := w }).w
    refine ⟨tr1 ++ tr2, ?_, ?_, ?_, hf1.join hf2, ?_⟩
    · simp only [downloadAll]
      rw [hl2, hl1, List.append_assoc]
    · simp only [downloadAll]
      rw [hc2, hc1, tally_append, Counters.add_assoc]
    · simp only [downloadAll]
      exact sameButDownloadStatus.chain hg1 hg2
    · simp [hs1, hs2]

/-! ### The phases around the download step make no transfer call and return -/

theorem Quiet.refl (w : World σ) : Quiet w w := ⟨[], by simp, by simp⟩

theorem Quiet.trans {w w' w'' : World σ} (h : Quiet w w') (h' : Quiet w' w'') :
    Quiet w w'' := by
  obtain ⟨t1, hl1, hq1⟩ := h
  obtain ⟨t2, hl2, hq2⟩ := h'
  refine ⟨t1 ++ t2, by rw [hl2, hl1, List.append_assoc], ?_⟩
  intro ev hev
  rcases List.mem_append.mp hev with h | h
  · exact hq1 ev h
  · exact hq2 ev h

theorem Quiet.step (w : World σ) (s : σ) (ev : Ev) (h : Ev.isTransfer ev = false) :
    Quiet w (w.step s ev) :=
  ⟨[ev], rfl, by simpa using h⟩

theorem Quiet.projections {w w' : World σ} (h : Quiet w w') :
    ∃ tr, w'.log = w.log ++ tr ∧ detailsOf tr = [] ∧ existsOf tr = [] ∧ pullsOf tr = [] ∧
      listingsOf tr = [] ∧ folderListsOf tr = [] ∧ saveInfosOf tr = [] := by
  obtain ⟨tr, hl, hq⟩ := h
  refine ⟨tr, hl, ?_, ?_, ?_, ?_, ?_, ?_⟩
  · simp only [detailsOf, List.filterMap_eq_nil_iff]
    intro ev hev
    have := hq ev hev
    cases ev <;> first | rfl | simp [Ev.isTransfer] at this
  · simp only [existsOf, List.filterMap_eq_nil_iff]
    intro ev hev
    have := hq ev hev
    cases ev <;> first | rfl | simp [Ev.isTransfer] at this
  · simp only [pullsOf, List.filterMap_eq_nil_iff]
    intro ev hev
    have := hq ev hev
    cases ev <;> first | rfl | simp [Ev.isTransfer] at this
  · simp only [listingsOf, List.filterMap_eq_nil_iff]
    intro ev hev
    have := hq ev hev
    cases ev <;> first | rfl | simp [Ev.isTransfer] at this
  · simp only [folderListsOf, List.filterMap_eq_nil_iff]
    intro ev hev
    have := hq ev hev
    cases ev <;> first | rfl | simp [Ev.isTransfer] at this
  · simp only [saveInfosOf, List.filterMap_eq_nil_iff]
    intro ev hev
    have := hq ev hev
    cases ev <;> first | rfl | simp [Ev.isTransfer] at this

theorem quiet_Connect (E : Env σ) (info : ObjInfo) (h : Int) (mode : SdkControlMode)
    (w : World σ) : Quiet w (SCRSDK.Connect E info h mode w).2 := Quiet.step _ _ _ rfl

theorem quiet_ReleaseDevice (E : Env σ) (h : Int) (w : World σ) :
    Quiet w (SCRSDK.ReleaseDevice E h w) := Quiet.step _ _ _ rfl

theorem quiet_Disconnect (E : Env σ) (h : Int) (w : World σ) :
    Quiet w (SCRSDK.Disconnect E h w).2 := Quiet.step _ _ _ rfl

theorem quiet_EnumCameraObjects (E : Env σ) (w : World σ) :
    Quiet w (SCRSDK.EnumCameraObjects E w).2 := Quiet.step _ _ _ rfl

theorem quiet_EnumRelease (E : Env σ) (w : World σ) :
    Quiet w (SCRSDK.EnumRelease E w) := Quiet.step _ _ _ rfl

theorem quiet_GetSelectDeviceProperties (E : Env σ) (h : Int) (codes : List Nat)
    (w : World σ) : Quiet w (SCRSDK.GetSelectDeviceProperties E h codes w).2 :=
  Quiet.step _ _ _ rfl

theorem quiet_ReleaseDeviceProperties (E : Env σ) (h : Int) (w : World σ) :
    Quiet w (SCRSDK.ReleaseDeviceProperties E h w) := Quiet.step _ _ _ rfl

theorem quiet_SetDeviceProperty (E : Env σ) (h : Int) (p : DevProp) (w : World σ) :
    Quiet w (SCRSDK.SetDeviceProperty E h p w).2 := Quiet.step _ _ _ rfl

theorem quiet_resetUSBDevice (E : Env σ) (w : World σ) :
    Quiet w (resetUSBDevice E w) := Quiet.step _ _ _ rfl

theorem quiet_sleep_for (E : Env σ) (ms : Nat) (w : World σ) :
    Quiet w (sleep_for E ms w) := Quiet.step _ _ _ rfl

theorem quiet_fsCreateDirectories (E : Env σ) (path : String) (w : World σ) :
    Quiet w (fsCreateDirectories E path w).2 := Quiet.step _ _ _ rfl

theorem quiet_fsReadFile (E : Env σ) (path : String) (w : World σ) :
    Quiet w (fsReadFile E path w).2 := Quiet.step _ _ _ rfl

theorem releaseIfOpen_quiet (E : Env σ) (c : CameraDevice) (w : World σ) :
    Quiet w (c.releaseIfOpen E w).2 := by
  unfold CameraDevice.releaseIfOpen
  split_ifs
  · exact quiet_ReleaseDevice E _ w
  · exact Quiet.refl w

theorem retryDelay_quiet (E : Env σ) (apple : Bool) (w : World σ) :
    Quiet w (CameraDevice.retryDelay E apple w) := by
  unfold CameraDevice.retryDelay
  split_ifs
  · exact (quiet_resetUSBDevice E w).trans (quiet_sleep_for E _ _)
  · exact quiet_sleep_for E _ w

/-- An open attempt that the driver answers returns, and makes no transfer call. -/
theorem openOnce_returns (E : Env σ) (info : ObjInfo) (mode : SdkControlMode)
    (c : CameraDevice) (w : World σ)
    (hans : ((E.Connect w.s info c.m_device_handle mode).1).answered = true) :
    ∃ r, c.openOnce E info mode w = some r ∧ Quiet w r.2.2 := by
  unfold CameraDevice.openOnce
  simp only [CameraDevice.setEventPromise, SCRSDK.Connect]
  generalize E.Connect w.s info c.m_device_handle mode = r at hans ⊢
  have hq0 : Quiet w (w.step r.2 (Ev.Connect info mode r.1)) := Quiet.step w r.2 _ rfl
  by_cases herr : r.1.err = 0
  · simp only [herr, ne_eq, not_true_eq_false, if_false]
    have hreg := awaitEvent_registered r.1.events
      ({ c with m_eventPromise := true, m_device_handle := r.1.handle } : CameraDevice) rfl
    simp only [ConnectReply.answered, herr, ne_eq, not_true_eq_false, decide_False,
      Bool.false_or] at hans
    obtain ⟨cb, hcb⟩ := Option.isSome_iff_exists.mp hans
    rw [hcb] at hreg
    cases cb with
    | OnConnected =>
      simp only at hreg
      rw [pair_eq_of_fst hreg.1]
      exact ⟨_, rfl, hq0⟩
    | OnDisconnected e =>
      simp only at hreg
      rw [pair_eq_of_fst hreg.1]
      exact ⟨_, rfl, hq0⟩
    | OnError e =>
      simp only at hreg
      rw [pair_eq_of_fst hreg]
      exact ⟨_, rfl, hq0.trans (releaseIfOpen_quiet E _ _)⟩
    | OnWarning wn =>
      have := List.find?_some hcb
      simp [Callback.completesEvent] at this
    | OnNotifyContentsTransfer n =>
      have := List.find?_some hcb
      simp [Callback.completesEvent] at this
    | OnOther =>
      have := List.find?_some hcb
      simp [Callback.completesEvent] at this
  · simp only [herr, ne_eq, not_false_eq_true, if_true]
    exact ⟨_, rfl, hq0.trans (releaseIfOpen_quiet E _ _)⟩

theorem connectLoop_returns (E : Env σ) (apple : Bool) (info : ObjInfo) (n : Int)
    (hans : ∀ s info h mode, ((E.Connect s info h mode).1).answered = true) :
    ∀ (k : Nat) (c : CameraDevice) (w : World σ),
      ∃ r, CameraDevice.connectLoop E apple info n k c w = some r ∧ Quiet w r.2.2 := by
  intro k
  induction k with
  | zero => intro c w; exact ⟨_, rfl, Quiet.refl w⟩
  | succ k ih =>
    intro c w
    obtain ⟨⟨ok, c1, w1⟩, hopen, hq⟩ := openOnce_returns E info .Remote c w (hans _ _ _ _)
    cases ok with
    | true => exact ⟨_, by simp only [CameraDevice.connectLoop, hopen], hq⟩
    | false =>
      simp only [CameraDevice.connectLoop, hopen]
      split_ifs
      · obtain ⟨r, hr, hq2⟩ := ih c1 (CameraDevice.retryDelay E apple w1)
        exact ⟨r, hr, hq.trans ((retryDelay_quiet E apple w1).trans hq2)⟩
      · obtain ⟨r, hr, hq2⟩ := ih c1 w1
        exact ⟨r, hr, hq.trans hq2⟩

theorem connect_returns (E : Env σ) (apple : Bool) (info : ObjInfo) (n : Int)
    (hans : ∀ s info h mode, ((E.Connect s info h mode).1).answered = true)
    (c : CameraDevice) (w : World σ) :
    ∃ r, CameraDevice.connect E apple info n c w = some r ∧ Quiet w r.2.2 :=
  connectLoop_returns E apple info n hans _ _ w

theorem disconnect_quiet (E : Env σ) (c : CameraDevice) (w : World σ) :
    Quiet w (c.disconnect E w).2 := by
  unfold CameraDevice.disconnect
  split_ifs
  · exact (quiet_Disconnect E _ w).trans (releaseIfOpen_quiet E _ _)
  · exact releaseIfOpen_quiet E _ _

theorem disconnectAll_quiet (E : Env σ) :
    ∀ (cams : List CameraDevice) (w : World σ), Quiet w (disconnectAll E cams w) := by
  intro cams
  induction cams with
  | nil => intro w; exact Quiet.refl w
  | cons c rest ih =>
    intro w
    exact (disconnect_quiet E c w).trans (ih _)

theorem applyPresetEntry_quiet (E : Env σ) (h : Int) (st : Nat × World σ) (e : PresetEntry) :
    Quiet st.2 (applyPresetEntry E h st e).2 := by
  unfold applyPresetEntry
  have h1 := quiet_GetSelectDeviceProperties E h [e.code] st.2
  have h2 := quiet_ReleaseDeviceProperties E h (SCRSDK.GetSelectDeviceProperties E h [e.code] st.2).2
  simp only []
  split
  · split_ifs
    · exact h1.trans h2
    · exact h1.trans (h2.trans (quiet_SetDeviceProperty E h _ _))
    · exact h1.trans (h2.trans ((quiet_SetDeviceProperty E h _ _).trans (quiet_sleep_for E _ _)))
  · exact h1

theorem applyPreset_quiet (E : Env σ) (cam : CameraDevice) (entries : List PresetEntry)
    (w : World σ) : Quiet w (applyPreset E cam entries w).2 := by
  unfold applyPreset
  split_ifs
  · exact Quiet.refl w
  · have hfold : ∀ (es : List PresetEntry) (st : Nat × World σ),
        Quiet st.2 (es.foldl (applyPresetEntry E cam.m_device_handle) st).2 := by
      intro es
      induction es with
      | nil => intro st; exact Quiet.refl _
      | cons e rest ih =>
        intro st
        exact (applyPresetEntry_quiet E _ st e).trans (ih _)
    exact hfold entries (0, w)

theorem applyPresetAll_quiet (E : Env σ) (preset : List PresetEntry) :
    ∀ (cams : List CameraDevice) (g : Globals) (w : World σ),
      Quiet w (applyPresetAll E preset cams g w).2 := by
  intro cams
  induction cams with
  | nil => intro g w; exact Quiet.refl w
  | cons cam rest ih =>
    intro g w
    unfold applyPresetAll
    split_ifs
    · exact (applyPreset_quiet E cam preset w).trans (ih _ _)
    · exact ih _ _

theorem loadPreset_quiet (E : Env σ) (K : SdkCodes) (path : String) (w : World σ) :
    Quiet w (loadPreset E K path w).2 := by
  have h := quiet_fsReadFile E path w
  unfold loadPreset
  simp only []
  split <;> exact h

theorem scanPrologue_quiet (E : Env σ) (apple usbReset : Bool) (g : Globals) (w : World σ) :
    Quiet w (scanPrologue E apple usbReset g w).2 := by
  unfold scanPrologue
  split_ifs
  · exact (quiet_resetUSBDevice E w).trans (quiet_sleep_for E _ _)
  · exact Quiet.refl w

theorem scanEpilogue_quiet (E : Env σ) (K : SdkCodes) (found : Nat) (g : Globals)
    (w : World σ) : Quiet w (scanEpilogue E K found g w).2 := by
  unfold scanEpilogue
  have h1 : Quiet w (SCRSDK.EnumRelease E w) := quiet_EnumRelease E w
  simp only []
  split_ifs
  · exact h1
  · exact h1.trans ((quiet_sleep_for E _ _).trans (loadPreset_quiet E K _ _))
  · exact h1.trans ((quiet_sleep_for E _ _).trans ((loadPreset_quiet E K _ _).trans
      (applyPresetAll_quiet E _ _ _ _)))

theorem scanLoop_returns (E : Env σ) (apple : Bool) (total : Nat)
    (hans : ∀ s info h mode, ((E.Connect s info h mode).1).answered = true) :
    ∀ (infos : List ObjInfo) (att found : Nat) (g : Globals) (w : World σ),
      ∃ r, scanLoop E apple total infos att found g w = some r ∧ Quiet w r.2.2 ∧
        r.2.1.g_downloadStatus = g.g_downloadStatus ∧
        r.2.1.g_downloading = g.g_downloading := by
  intro infos
  induction infos with
  | nil => intro att found g w; exact ⟨_, rfl, Quiet.refl w, rfl, rfl⟩
  | cons info rest ih =>
    intro att found g w
    by_cases hfx : isFX30Camera info = true
    · by_cases hac : alreadyConnected g.g_cameras (getModelId info) = true
      · obtain ⟨r, hr, hq, hs, hd⟩ := ih (att + 1) found
          { g with g_scanStatus :=
            "Already connected: " ++ info.Model ++ progressText (att + 1) total } w
        refine ⟨r, ?_, hq, hs, hd⟩
        simp only [scanLoop, hfx, hac, not_true_eq_false, if_false, if_true]
        exact hr
      · obtain ⟨⟨ok, c1, w1⟩, hconn, hq1⟩ := connect_returns E apple info 3 hans {} w
        cases ok with
        | true =>
          obtain ⟨r, hr, hq, hs, hd⟩ := ih (att + 1) (found + 1)
            { g with
              g_scanStatus :=
                "Connecting to " ++ info.Model ++ progressText (att + 1) total ++ "..."
              g_cameras := g.g_cameras ++ [c1] } w1
          refine ⟨r, ?_, hq1.trans hq, hs, hd⟩
          simp only [scanLoop, hfx, hac, not_true_eq_false, if_false, Bool.false_eq_true, hconn]
          exact hr
        | false =>
          obtain ⟨r, hr, hq, hs, hd⟩ := ih (att + 1) found
            { g with
              g_scanStatus :=
                "Connecting to " ++ info.Model ++ progressText (att + 1) total ++ "..." } w1
          refine ⟨r, ?_, hq1.trans hq, hs, hd⟩
          simp only [scanLoop, hfx, hac, not_true_eq_false, if_false, Bool.false_eq_true, hconn]
          exact hr
    · obtain ⟨r, hr, hq, hs, hd⟩ := ih att found g w
      refine ⟨r, ?_, hq, hs, hd⟩
      simp only [scanLoop, hfx, not_false_eq_true, if_true, Bool.false_eq_true]
      exact hr

theorem applyPresetAll_status (E : Env σ) (preset : List PresetEntry) :
    ∀ (cams : List CameraDevice) (g : Globals) (w : World σ),
      (applyPresetAll E preset cams g w).1.g_downloadStatus = g.g_downloadStatus ∧
      (applyPresetAll E preset cams g w).1.g_downloading = g.g_downloading := by
  intro cams
  induction cams with
  | nil => intro g w; exact ⟨rfl, rfl⟩
  | cons cam rest ih =>
    intro g w
    unfold applyPresetAll
    split_ifs
    · exact ih _ _
    · exact ih _ _

theorem scanEpilogue_status (E : Env σ) (K : SdkCodes) (found : Nat) (g : Globals)
    (w : World σ) :
    (scanEpilogue E K found g w).1.g_downloadStatus = g.g_downloadStatus ∧
    (scanEpilogue E K found g w).1.g_downloading = g.g_downloading := by
  unfold scanEpilogue
  simp only []
  split_ifs
  · exact ⟨rfl, rfl⟩
  · exact ⟨rfl, rfl⟩
  · exact applyPresetAll_status E _ _ _ _

/-- `scanAndConnect` returns when the driver answers every open; it makes no transfer call
and leaves the download status and the `downloading` flag as they were. -/
theorem scanAndConnect_returns (E : Env σ) (K : SdkCodes) (apple usbReset : Bool)
    (hans : ∀ s info h mode, ((E.Connect s info h mode).1).answered = true)
    (g : Globals) (w : World σ) :
    ∃ r, scanAndConnect E K apple usbReset g w = some r ∧ Quiet w r.2 ∧
      r.1.g_downloadStatus = g.g_downloadStatus ∧ r.1.g_downloading = g.g_downloading := by
  have hp := scanPrologue_quiet E apple usbReset g w
  have hps : (scanPrologue E apple usbReset g w).1.g_downloadStatus = g.g_downloadStatus ∧
      (scanPrologue E apple usbReset g w).1.g_downloading = g.g_downloading := by
    unfold scanPrologue
    split_ifs <;> exact ⟨rfl, rfl⟩
  unfold scanAndConnect
  generalize scanPrologue E apple usbReset g w = p0 at hp hps
  obtain ⟨g0, w0⟩ := p0
  have he := quiet_EnumCameraObjects E w0
  simp only []
  cases hlist : (SCRSDK.EnumCameraObjects E w0).1.list? with
  | none => exact ⟨_, rfl, hp.trans he, hps.1, hps.2⟩
  | some infos =>
    obtain ⟨⟨found, g2, w2⟩, hloop, hq, hs, hd⟩ :=
      scanLoop_returns E apple (infos.countP isFX30Camera) hans infos 0 0
        { g0 with g_scanStatus := "Enumerating cameras..." } (SCRSDK.EnumCameraObjects E w0).2
    simp only [hloop]
    obtain ⟨hes, hed⟩ := scanEpilogue_status E K found g2 w2
    exact ⟨_, rfl, hp.trans (he.trans (hq.trans (scanEpilogue_quiet E K found g2 w2))),
      by rw [hes, hs]; exact hps.1, by rw [hed, hd]; exact hps.2⟩

theorem connectTransferAll_returns (E : Env σ)
    (hans : ∀ s info h mode, ((E.Connect s info h mode).1).answered = true) :
    ∀ (infos : List ObjInfo) (cams : List CameraDevice) (w : World σ),
      ∃ r, connectTransferAll E infos cams w = some r ∧ Quiet w r.2 := by
  intro infos
  induction infos with
  | nil => intro cams w; exact ⟨_, rfl, Quiet.refl w⟩
  | cons info rest ih =>
    intro cams w
    by_cases hfx : isFX30Camera info = true
    · obtain ⟨⟨ok, c1, w1⟩, hopen, hq1⟩ := openOnce_returns E info .ContentsTransfer
        { ({} : CameraDevice) with m_modelId := getModelId info } w (hans _ _ _ _)
      have hconn : CameraDevice.connectContentsTransfer E info {} w = some (ok, c1, w1) := hopen
      cases ok with
      | true =>
        obtain ⟨r, hr, hq⟩ := ih (cams ++ [c1]) w1
        refine ⟨r, ?_, hq1.trans hq⟩
        simp only [connectTransferAll, hfx, not_true_eq_false, if_false, hconn]
        exact hr
      | false =>
        obtain ⟨r, hr, hq⟩ := ih cams w1
        refine ⟨r, ?_, hq1.trans hq⟩
        simp only [connectTransferAll, hfx, not_true_eq_false, if_false, hconn]
        exact hr
    · obtain ⟨r, hr, hq⟩ := ih cams w
      refine ⟨r, ?_, hq⟩
      simp only [connectTransferAll, hfx, not_false_eq_true, if_true, Bool.false_eq_true]
      exact hr

theorem quiet_trace_facts (dlPath : String) (tr : List Ev)
    (hq : ∀ ev ∈ tr, Ev.isTransfer ev = false) :
    TransferFacts dlPath tr ∧ tally tr = {} ∧ saveInfosOf tr = [] := by
  have hQ : Quiet (⟨(), []⟩ : World Unit) ⟨(), tr⟩ := ⟨tr, by simp, hq⟩
  obtain ⟨tr', hl, h1, h2, h3, h4, h5, h6⟩ := hQ.projections
  have : tr' = tr := by simpa using hl.symm
  subst this
  refine ⟨⟨⟨?_, ?_⟩, ?_, ?_, ?_⟩, ?_, h6⟩
  · simp [h1, h2, examinedFiles]
  · simp [h1, h2, h3, examinedFiles]
  · simp [h1, h4, listedEntries]
  · simp [h4, h5, listedFolders]
  · simp [h5, h6]
  · simp [tally, h1, h2, h3]

theorem Counters.add_zero (a : Counters) : a.add {} = a := by
  cases a; simp [Counters.add]

theorem Counters.zero_add (a : Counters) : Counters.add {} a = a := by
  cases a; simp [Counters.add]

/-- What `downloadFilesThread` does when the driver answers every open: it returns with
`downloading` cleared.  When step 4 was reached, the counters are the tally of the log, the
transfer facts hold of the log, and the final status is the summary of the counters;
otherwise no transfer call was made. -/
theorem downloadFilesRun_spec (E : Env σ) (K : SdkCodes) (apple : Bool)
    (hans : ∀ s info h mode, ((E.Connect s info h mode).1).answered = true)
    (g : Globals) (w : World σ) :
    ∃ res tr, downloadFilesRun E K apple g w = some res ∧
      res.2.2.log = w.log ++ tr ∧ res.2.1.g_downloading = false ∧
      TransferFacts g.g_downloadPath tr ∧
      (res.1 = none → ∀ ev ∈ tr, Ev.isTransfer ev = false) ∧
      (∀ cnt, res.1 = some cnt →
        cnt = tally tr ∧ res.2.1.g_downloadStatus = downloadSummary cnt) := by
  unfold downloadFilesRun
  simp only []
  have hq1 := quiet_fsCreateDirectories E g.g_downloadPath w
  generalize fsCreateDirectories E g.g_downloadPath w = cd at hq1
  obtain ⟨thrown, w1⟩ := cd
  cases thrown with
  | some what =>
    obtain ⟨tr, hl, hq⟩ := hq1
    exact ⟨_, tr, rfl, hl, rfl, (quiet_trace_facts _ tr hq).1, fun _ => hq,
      fun cnt h => by simp at h⟩
  | none =>
    simp only []
    have hq2 : Quiet w1 (SCRSDK.EnumCameraObjects E
        (sleep_for E 2000 (disconnectAll E g.g_cameras w1))).2 :=
      (disconnectAll_quiet E _ _).trans ((quiet_sleep_for E _ _).trans
        (quiet_EnumCameraObjects E _))
    generalize SCRSDK.EnumCameraObjects E
      (sleep_for E 2000 (disconnectAll E g.g_cameras w1)) = en at hq2
    obtain ⟨reply, w2⟩ := en
    cases hlist : reply.list? with
    | none =>
      simp only []
      obtain ⟨⟨g3, w3⟩, hscan, hq3, hs3, -⟩ := scanAndConnect_returns E K apple false hans
        { g with
          g_downloading := true
          g_downloadStatus := "Error: No cameras found for download."
          g_cameras := [] } w2
      simp only [hscan]
      obtain ⟨tr, hl, hq⟩ := hq1.trans (hq2.trans hq3)
      exact ⟨_, tr, rfl, hl, rfl, (quiet_trace_facts _ tr hq).1, fun _ => hq,
        fun cnt h => by simp at h⟩
    | some infos =>
      simp only []
      obtain ⟨⟨dlCameras, w3⟩, hct, hq3⟩ := connectTransferAll_returns E hans infos [] w2
      simp only [hct]
      by_cases hempty : dlCameras.isEmpty = true
      · simp only [hempty, if_true]
        obtain ⟨⟨g4, w4⟩, hscan, hq4, hs4, -⟩ := scanAndConnect_returns E K apple false hans
          { g with
            g_downloading := true
            g_downloadStatus :=
              "Error: Could not connect to any camera in ContentsTransfer mode."
            g_cameras := [] } (SCRSDK.EnumRelease E w3)
        simp only [hscan]
        obtain ⟨tr, hl, hq⟩ :=
          hq1.trans (hq2.trans (hq3.trans ((quiet_EnumRelease E w3).trans hq4)))
        exact ⟨_, tr, rfl, hl, rfl, (quiet_trace_facts _ tr hq).1, fun _ => hq,
          fun cnt h => by simp at h⟩
      · simp only [hempty, Bool.false_eq_true, if_false]
        obtain ⟨pre, hlpre, hqpre⟩ := hq1.trans (hq2.trans (hq3.trans
          ((quiet_EnumRelease E w3).trans (quiet_sleep_for E 3000 _))))
        obtain ⟨tr4, hl4, hc4, hg4, hf4, -⟩ := downloadAll_spec E g.g_downloadPath dlCameras {}
          { g with
            g_downloading := true
            g_downloadStatus := "Scanning for cameras in ContentsTransfer mode..."
            g_cameras := [] } (sleep_for E 3000 (SCRSDK.EnumRelease E w3))
        generalize downloadAll E g.g_downloadPath dlCameras {}
          { g with
            g_downloading := true
            g_downloadStatus := "Scanning for cameras in ContentsTransfer mode..."
            g_cameras := [] } (sleep_for E 3000 (SCRSDK.EnumRelease E w3)) = d4
          at hl4 hc4 hg4
        obtain ⟨cnt, cams4, g4, w4⟩ := d4
        simp only at hl4 hc4 hg4
        simp only []
        obtain ⟨⟨g5, w5⟩, hscan, hq5, hs5, -⟩ := scanAndConnect_returns E K apple false hans
          { g4 with g_downloadStatus := downloadSummary cnt ++ ". Reconnecting..." }
          (sleep_for E 2000 (disconnectAll E cams4 w4))
        simp only [hscan]
        obtain ⟨post, hlpost, hqpost⟩ :=
          (disconnectAll_quiet E cams4 w4).trans ((quiet_sleep_for E 2000 _).trans hq5)
        obtain ⟨fpre, tpre, -⟩ := quiet_trace_facts g.g_downloadPath pre hqpre
        obtain ⟨fpost, tpost, -⟩ := quiet_trace_facts g.g_downloadPath post hqpost
        refine ⟨_, pre ++ tr4 ++ post, rfl, ?_, rfl, (fpre.join hf4).join fpost,
          fun h => by simp at h, ?_⟩
        · simp only at hlpost
          rw [hlpost, hl4, hlpre]
          simp only [List.append_assoc]
        · intro cnt' hcnt'
          simp only [Option.some.injEq] at hcnt'
          subst hcnt'
          refine ⟨?_, rfl⟩
          rw [tally_append, tally_append, tpre, tpost, Counters.add_zero, hc4]

theorem length_filterMap_ite {α β : Type} (p : α → Prop) [DecidablePred p] (f : α → β)
    (l : List α) :
    (l.filterMap (fun a => if p a then some (f a) else none)).length = l.countP (fun a => p a) := by
  induction l with
  | nil => rfl
  | cons a l ih =>
    by_cases h : p a <;> simp [List.filterMap_cons, List.countP_cons, h, ih]

theorem countP_zip_snd {α β : Type} (q : β → Bool) :
    ∀ (a : List α) (b : List β), a.length = b.length →
      (a.zip b).countP (fun ex => q ex.2) = b.countP q := by
  intro a
  induction a with
  | nil => intro b hb; cases b with
    | nil => rfl
    | cons _ _ => simp at hb
  | cons x a ih =>
    intro b hb
    cases b with
    | nil => simp at hb
    | cons y b =>
      simp only [List.length_cons, Nat.add_right_cancel_iff] at hb
      simp [List.zip_cons_cons, List.countP_cons, ih b hb]

theorem countP_not_add {α : Type} (q : α → Bool) (l : List α) :
    l.countP q + l.countP (fun a => !q a) = l.length := by
  induction l with
  | nil => rfl
  | cons a l ih =>
    cases h : q a <;> simp [List.countP_cons, h] <;> omega

/-- From the facts about the entries: every file whose detail query succeeded is either
skipped or pulled. -/
theorem EntryFacts.balance {dlPath : String} {tr : List Ev} (h : EntryFacts dlPath tr) :
    (tally tr).totalFiles = (tally tr).skippedFiles + (pullsOf tr).length := by
  have h1 : (existsOf tr).length = (examinedFiles tr).length := by
    have := congrArg List.length h.checks
    simpa using this
  have h2 : (examinedFiles tr).length = (detailsOf tr).countP (fun d => d.2.2.err = 0) := by
    unfold examinedFiles
    exact length_filterMap_ite (fun d : Int × Nat × DetailReply => d.2.2.err = 0)
      (fun d => (d.1, d.2.1, d.2.2.fileName)) (detailsOf tr)
  have h3 : (pullsOf tr).length = (existsOf tr).countP (fun x => !x.2) := by
    have := congrArg List.length h.pulls
    rw [List.length_map] at this
    rw [this]
    have hz := length_filterMap_ite
      (fun ex : (Int × Nat × String) × (String × Bool) => ex.2.2 = false)
      (fun ex => (ex.1.1, ex.1.2.1)) ((examinedFiles tr).zip (existsOf tr))
    have hfun : (fun ex : (Int × Nat × String) × (String × Bool) =>
        if ex.2.2 = true then none else some (ex.1.1, ex.1.2.1)) =
        (fun ex => if ex.2.2 = false then some (ex.1.1, ex.1.2.1) else none) := by
      funext ex
      obtain ⟨e, pth, b⟩ := ex
      cases b <;> simp
    rw [hfun, hz]
    have hc := countP_zip_snd (fun x : String × Bool => !x.2) (examinedFiles tr) (existsOf tr)
      h1.symm
    rw [← hc]
    congr 1
    funext ex
    obtain ⟨e, pth, b⟩ := ex
    cases b <;> simp
  have h4 := countP_not_add (fun x : String × Bool => x.2) (existsOf tr)
  simp only [tally]
  omega

theorem countP_outcome_add (l : List (Int × Nat × PullReply)) :
    l.countP (fun p => p.2.2.outcome = .completed) +
      l.countP (fun p => p.2.2.outcome ≠ .completed) = l.length := by
  have := countP_not_add (fun p : Int × Nat × PullReply => decide (p.2.2.outcome = .completed)) l
  rw [← this]
  congr 2
  funext p
  by_cases h : p.2.2.outcome = .completed <;> simp [h]

/-- C10. One file's failure never aborts the batch.  When the driver answers every open,
`downloadFilesThread` returns.  In its log every entry of every content listing is examined
(detail query) exactly once, in listing order, every folder of every folder listing is
listed once, and folders are listed for exactly the devices whose `SetSaveInfo` succeeded.
When the download step was reached, the counters are the tally of the log, so that
`totalFiles = skippedFiles + downloadedFiles + (pulls rejected, timed out or failed)` and
`errorFiles` is that number plus the number of failed detail queries, whatever the outcomes
were; and the final status text is the summary of these counters. -/
theorem download_batch_counts (E : Env σ) (K : SdkCodes) (apple : Bool)
    (hans : ∀ s info h mode, ((E.Connect s info h mode).1).answered = true)
    (g : Globals) (w : World σ) :
    ∃ res tr, downloadFilesRun E K apple g w = some res ∧
      downloadFilesThread E K apple g w = some res.2 ∧
      res.2.2.log = w.log ++ tr ∧
      (detailsOf tr).map (fun d => (d.1, d.2.1)) = listedEntries tr ∧
      (listingsOf tr).map (fun l => (l.1, l.2.1)) = listedFolders tr ∧
      (folderListsOf tr).map (fun l => l.1) =
        (saveInfosOf tr).filterMap (fun s => if s.2.2 = 0 then some s.1 else none) ∧
      ∀ cnt, res.1 = some cnt →
        cnt.skippedFiles = (existsOf tr).countP (fun x => x.2) ∧
        cnt.downloadedFiles = (pullsOf tr).countP (fun p => p.2.2.outcome = .completed) ∧
        cnt.totalFiles = cnt.skippedFiles + cnt.downloadedFiles +
          (pullsOf tr).countP (fun p => p.2.2.outcome ≠ .completed) ∧
        cnt.errorFiles = (pullsOf tr).countP (fun p => p.2.2.outcome ≠ .completed) +
          (detailsOf tr).countP (fun d => d.2.2.err ≠ 0) ∧
        res.2.1.g_downloadStatus =
          "Download complete. Downloaded: " ++ toString cnt.downloadedFiles ++
            ", Skipped: " ++ toString cnt.skippedFiles ++
            ", Errors: " ++ toString cnt.errorFiles := by
  obtain ⟨res, tr, hrun, hlog, -, hfacts, -, hcnt⟩ := downloadFilesRun_spec E K apple hans g w
  refine ⟨res, tr, hrun, by simp [downloadFilesThread, hrun], hlog, hfacts.examined,
    hfacts.listed, hfacts.folders, ?_⟩
  intro cnt hres
  obtain ⟨hc, hstatus⟩ := hcnt cnt hres
  have hbal := hfacts.entries.balance
  have hsum := countP_outcome_add (pullsOf tr)
  subst hc
  refine ⟨rfl, rfl, ?_, ?_, hstatus⟩
  · simp only [tally] at hbal ⊢
    omega
  · simp only [tally]
    omega

theorem mock_answered (S : MockScript)
    (h : ∀ info mode, (S.connect info mode).answered = true) :
    ∀ s info hd mode, (((mockEnv S).Connect s info hd mode).1).answered = true :=
  fun _ info _ mode => h info mode

set_option maxRecDepth 20000 in
/-- Witness of C10: the scripted camera has six entries, one for each outcome.  The run
returns with 5 files found, 1 skipped, 1 downloaded and 4 errors, and says so. -/
theorem download_batch_counts_witness :
    (∀ s info h mode, (((mockEnv sixEntryScript).Connect s info h mode).1).answered = true) ∧
    (∃ res tr, downloadFilesRun (mockEnv sixEntryScript) exampleCodes false {} sixEntryStart =
        some res ∧
      res.2.2.log = sixEntryStart.log ++ tr ∧
      (detailsOf tr).map (fun d => (d.1, d.2.1)) = listedEntries tr ∧
      ∀ cnt, res.1 = some cnt →
        cnt.totalFiles = cnt.skippedFiles + cnt.downloadedFiles +
          (pullsOf tr).countP (fun p => p.2.2.outcome ≠ .completed)) ∧
    (downloadFilesRun (mockEnv sixEntryScript) exampleCodes false {} sixEntryStart).map
        (fun r => (r.1, r.2.1.g_downloadStatus, r.2.1.g_downloading, listedEntries r.2.2.log)) =
      some (some ⟨5, 1, 1, 4⟩, "Download complete. Downloaded: 1, Skipped: 1, Errors: 4",
        false, [(11, 1), (11, 2), (11, 3), (11, 4), (11, 5), (11, 6)]) := by
  have hans := mock_answered sixEntryScript (fun _ _ => rfl)
  refine ⟨hans, ?_, by decide⟩
  obtain ⟨res, tr, hrun, -, hlog, hex, -, -, hcnt⟩ :=
    download_batch_counts (mockEnv sixEntryScript) exampleCodes false hans {} sixEntryStart
  exact ⟨res, tr, hrun, hlog, hex, fun cnt h => (hcnt cnt h).2.2.1⟩

theorem zip_map_self {α β : Type} (f : α → β) (l : List α) :
    l.zip (l.map f) = l.map (fun a => (a, f a)) := by
  induction l with
  | nil => rfl
  | cons a l ih => simp [ih]

theorem checks_determined {α : Type} (f : α → String) (v : String → Bool) :
    ∀ (xs : List (String × Bool)) (es : List α),
      xs.map (fun x => x.1) = es.map f → (∀ x ∈ xs, x.2 = v x.1) →
      xs = es.map (fun e => (f e, v (f e))) := by
  intro xs
  induction xs with
  | nil =>
    intro es hm _
    cases es with
    | nil => rfl
    | cons e es => simp at hm
  | cons x xs ih =>
    intro es hm hv
    cases es with
    | nil => simp at hm
    | cons e es =>
      simp only [List.map_cons, List.cons.injEq] at hm ⊢
      refine ⟨?_, ih es hm.2 (fun y hy => hv y (List.mem_cons_of_mem _ hy))⟩
      rw [Prod.ext_iff]
      exact ⟨hm.1, by rw [hv x (by simp), hm.1]⟩

/-- C6, as amended.  When the driver answers every open, `downloadFilesThread` returns, and
if the download step was reached: there is one existence check per examined entry whose
detail query succeeded, for the path of its file in the target directory; `skippedFiles` is
the number of checks that found the file; and `PullContentsFile` is issued, in order, for
exactly the checked entries whose file was not found.  If moreover every detail query
succeeded and every check gave the answer it would have given before the run, then
`skippedFiles` is the number of listed entries whose file was in the directory before the
run, and the pulls are those of exactly the other listed entries. -/
theorem download_skips_existing (E : Env σ) (K : SdkCodes) (apple : Bool)
    (hans : ∀ s info h mode, ((E.Connect s info h mode).1).answered = true)
    (g : Globals) (w : World σ) :
    ∃ res tr, downloadFilesRun E K apple g w = some res ∧
      res.2.2.log = w.log ++ tr ∧
      ∀ cnt, res.1 = some cnt →
        (existsOf tr).map (fun x => x.1) =
          (examinedFiles tr).map (fun e => g.g_downloadPath ++ "/" ++ e.2.2) ∧
        cnt.skippedFiles = (existsOf tr).countP (fun x => x.2) ∧
        (pullsOf tr).map (fun p => (p.1, p.2.1)) =
          ((examinedFiles tr).zip (existsOf tr)).filterMap (fun ex =>
            if ex.2.2 then none else some (ex.1.1, ex.1.2.1)) ∧
        ((∀ d ∈ detailsOf tr, d.2.2.err = 0) →
         (∀ x ∈ existsOf tr, x.2 = E.fsExists w.s x.1) →
          (examinedFiles tr).map (fun e => (e.1, e.2.1)) = listedEntries tr ∧
          cnt.skippedFiles = (examinedFiles tr).countP
            (fun e => E.fsExists w.s (g.g_downloadPath ++ "/" ++ e.2.2)) ∧
          (pullsOf tr).map (fun p => (p.1, p.2.1)) =
            ((examinedFiles tr).filter
              (fun e => !E.fsExists w.s (g.g_downloadPath ++ "/" ++ e.2.2))).map
              (fun e => (e.1, e.2.1))) := by
  obtain ⟨res, tr, hrun, hlog, -, hfacts, -, hcnt⟩ := downloadFilesRun_spec E K apple hans g w
  refine ⟨res, tr, hrun, hlog, ?_⟩
  intro cnt hres
  obtain ⟨hc, -⟩ := hcnt cnt hres
  subst hc
  refine ⟨hfacts.entries.checks, rfl, hfacts.entries.pulls, ?_⟩
  intro hok hstable
  have hexists : existsOf tr = (examinedFiles tr).map (fun e =>
      (g.g_downloadPath ++ "/" ++ e.2.2, E.fsExists w.s (g.g_downloadPath ++ "/" ++ e.2.2))) :=
    checks_determined (fun e : Int × Nat × String => g.g_downloadPath ++ "/" ++ e.2.2)
      (E.fsExists w.s) (existsOf tr) (examinedFiles tr) hfacts.entries.checks hstable
  have hexam : (examinedFiles tr).map (fun e => (e.1, e.2.1)) =
      (detailsOf tr).map (fun d => (d.1, d.2.1)) := by
    unfold examinedFiles
    generalize detailsOf tr = ds at hok
    induction ds with
    | nil => rfl
    | cons d ds ih =>
      have hd : d.2.2.err = 0 := hok d (by simp)
      simp only [List.filterMap_cons, hd, if_true, List.map_cons]
      rw [ih (fun d' hd' => hok d' (List.mem_cons_of_mem _ hd'))]
  refine ⟨hexam.trans hfacts.examined, ?_, ?_⟩
  · simp only [tally]
    rw [hexists, List.countP_map]
    rfl
  · rw [hfacts.entries.pulls, hexists, zip_map_self, List.filterMap_map]
    generalize examinedFiles tr = es
    induction es with
    | nil => rfl
    | cons e es ih =>
      by_cases hx : E.fsExists w.s (g.g_downloadPath ++ "/" ++ e.2.2) = true
      · simp [List.filterMap_cons, List.filter_cons, hx, ih]
      · simp only [Bool.not_eq_true] at hx
        simp [List.filterMap_cons, List.filter_cons, hx, ih]

set_option maxRecDepth 20000 in
/-- Witness of C6 as amended: the scripted camera lists three clips, the second of which is
in the directory already; all detail queries succeed and no check is disturbed.  The run
skips that one and pulls the other two. -/
theorem download_skips_existing_witness :
    (∀ s info h mode, (((mockEnv resumeScript).Connect s info h mode).1).answered = true) ∧
    (∃ res tr, downloadFilesRun (mockEnv resumeScript) exampleCodes false {} sixEntryStart =
        some res ∧
      res.2.2.log = sixEntryStart.log ++ tr ∧
      ∀ cnt, res.1 = some cnt →
        cnt.skippedFiles = (existsOf tr).countP (fun x => x.2) ∧
        (pullsOf tr).map (fun p => (p.1, p.2.1)) =
          ((examinedFiles tr).zip (existsOf tr)).filterMap (fun ex =>
            if ex.2.2 then none else some (ex.1.1, ex.1.2.1))) ∧
    (downloadFilesRun (mockEnv resumeScript) exampleCodes false {} sixEntryStart).map
        (fun r => (r.1, (pullsOf r.2.2.log).map (fun p => (p.1, p.2.1)),
          (detailsOf r.2.2.log).all (fun d => d.2.2.err = 0),
          (existsOf r.2.2.log).all (fun x =>
            x.2 = (mockEnv resumeScript).fsExists sixEntryStart.s x.1))) =
      some (some ⟨3, 1, 2, 0⟩, [(11, 1), (11, 3)], true, true) := by
  have hans := mock_answered resumeScript (fun _ _ => rfl)
  refine ⟨hans, ?_, by decide⟩
  obtain ⟨res, tr, hrun, hlog, hcnt⟩ :=
    download_skips_existing (mockEnv resumeScript) exampleCodes false hans {} sixEntryStart
  exact ⟨res, tr, hrun, hlog, fun cnt h => ⟨(hcnt cnt h).2.1, (hcnt cnt h).2.2.1⟩⟩

set_option maxRecDepth 20000 in
/-- C6, counterexample.  (1) One remote entry whose detail query fails, empty directory:
nothing pre-exists, yet no pull is issued for the entry.  (2) Two cameras that each hold a
clip named `C0001.MP4`, empty directory, pulls that store the file: nothing pre-exists, yet
the clip of the second camera is counted as skipped and not pulled.  In both runs the
property, as the specification words it, fails. -/
theorem download_skip_counterexample :
    (∃ cnt g' w',
      downloadFilesRun (mockEnv detailFailScript) exampleCodes false {} mockStart =
        some (some cnt, g', w') ∧
      listedEntries w'.log = [(11, 1)] ∧ pullsOf w'.log = [] ∧
      ¬ skipsExactlyPreExisting detailFailScript mockStart "/tmp/fx30_downloads" cnt w'.log) ∧
    (∃ cnt g' w',
      downloadFilesRun (mockEnv sameNameScript) exampleCodes false {} mockStart =
        some (some cnt, g', w') ∧
      listedEntries w'.log = [(11, 1), (12, 1)] ∧ cnt.skippedFiles = 1 ∧
      (pullsOf w'.log).map (fun p => (p.1, p.2.1)) = [(11, 1)] ∧
      ¬ skipsExactlyPreExisting sameNameScript mockStart "/tmp/fx30_downloads" cnt w'.log) := by
  constructor
  · refine ⟨_, _, _, rfl, by decide, by decide, ?_⟩
    unfold skipsExactlyPreExisting
    decide
  · refine ⟨_, _, _, rfl, by decide, by decide, by decide, ?_⟩
    unfold skipsExactlyPreExisting
    decide

/-! ### Flag discipline -/

/-- The loop of `scanAndConnect` writes neither flag nor the download status. -/
theorem scanLoop_flags (E : Env σ) (apple : Bool) (total : Nat) :
    ∀ (infos : List ObjInfo) (att found : Nat) (g : Globals) (w : World σ)
      (r : Nat × Globals × World σ),
      scanLoop E apple total infos att found g w = some r →
        r.2.1.g_scanning = g.g_scanning ∧ r.2.1.g_downloading = g.g_downloading ∧
        r.2.1.g_downloadStatus = g.g_downloadStatus := by
  intro infos
  induction infos with
  | nil =>
    intro att found g w r h
    simp only [scanLoop, Option.some.injEq] at h
    subst h
    exact ⟨rfl, rfl, rfl⟩
  | cons info rest ih =>
    intro att found g w r h
    by_cases hfx : isFX30Camera info = true
    · by_cases hac : alreadyConnected g.g_cameras (getModelId info) = true
      · simp only [scanLoop, hfx, hac, not_true_eq_false, if_false, if_true] at h
        have := ih _ _ _ _ r h
        exact this
      · simp only [scanLoop, hfx, hac, not_true_eq_false, if_false, Bool.false_eq_true] at h
        cases hconn : CameraDevice.connect E apple info 3 {} w with
        | none => simp [hconn] at h
        | some res =>
          obtain ⟨ok, c1, w1⟩ := res
          cases ok with
          | true =>
            simp only [hconn] at h
            have := ih _ _ _ _ r h
            exact this
          | false =>
            simp only [hconn] at h
            have := ih _ _ _ _ r h
            exact this
    · simp only [scanLoop, hfx, not_false_eq_true, if_true, Bool.false_eq_true] at h
      have := ih _ _ _ _ r h
      exact this

theorem applyPresetAll_scanning (E : Env σ) (preset : List PresetEntry) :
    ∀ (cams : List CameraDevice) (g : Globals) (w : World σ),
      (applyPresetAll E preset cams g w).1.g_scanning = g.g_scanning := by
  intro cams
  induction cams with
  | nil => intro g w; rfl
  | cons cam rest ih =>
    intro g w
    unfold applyPresetAll
    split_ifs
    · exact ih _ _
    · exact ih _ _

theorem scanPrologue_flags (E : Env σ) (apple usbReset : Bool) (g : Globals) (w : World σ) :
    (scanPrologue E apple usbReset g w).1.g_scanning = true ∧
    (scanPrologue E apple usbReset g w).1.g_downloading = g.g_downloading ∧
    (scanPrologue E apple usbReset g w).1.g_downloadStatus = g.g_downloadStatus ∧
    (scanPrologue E apple usbReset g w).1.g_cameras = g.g_cameras := by
  unfold scanPrologue
  split_ifs <;> exact ⟨rfl, rfl, rfl, rfl⟩

theorem scanEpilogue_scanning (E : Env σ) (K : SdkCodes) (found : Nat) (g : Globals)
    (w : World σ) : (scanEpilogue E K found g w).1.g_scanning = false := by
  unfold scanEpilogue
  simp only []

/-- Whenever `scanAndConnect` returns, `scanning` is false and it has written neither
`downloading` nor the download status. -/
theorem scanAndConnect_flags (E : Env σ) (K : SdkCodes) (apple usbReset : Bool)
    (g : Globals) (w : World σ) (r : Globals × World σ)
    (h : scanAndConnect E K apple usbReset g w = some r) :
    r.1.g_scanning = false ∧ r.1.g_downloading = g.g_downloading ∧
    r.1.g_downloadStatus = g.g_downloadStatus := by
  obtain ⟨-, hpd, hps, -⟩ := scanPrologue_flags E apple usbReset g w
  unfold scanAndConnect at h
  generalize scanPrologue E apple usbReset g w = p0 at h hpd hps
  obtain ⟨g0, w0⟩ := p0
  simp only [] at h
  cases hlist : (SCRSDK.EnumCameraObjects E w0).1.list? with
  | none =>
    simp only [hlist, Option.some.injEq] at h
    subst h
    exact ⟨rfl, hpd, hps⟩
  | some infos =>
    simp only [hlist] at h
    cases hloop : scanLoop E apple (infos.countP isFX30Camera) infos 0 0
        { g0 with g_scanStatus := "Enumerating cameras..." }
        (SCRSDK.EnumCameraObjects E w0).2 with
    | none => simp [hloop] at h
    | some res =>
      obtain ⟨found, g2, w2⟩ := res
      simp only [hloop, Option.some.injEq] at h
      subst h
      obtain ⟨-, hd, hs⟩ := scanLoop_flags E apple _ _ _ _ _ _ _ hloop
      obtain ⟨hes, hed⟩ := scanEpilogue_status E K found g2 w2
      refine ⟨scanEpilogue_scanning E K found g2 w2, ?_, ?_⟩
      · rw [hed]; simp only at hd; rw [hd]; exact hpd
      · rw [hes]; simp only at hs; rw [hs]; exact hps

/-- C12. Scanning flag discipline.  For every driver and every prior registry:
`scanAndConnect` starts by setting `scanning` (the run is the run from the state in which
it is set, and the flag is true after the prologue); the connecting loop and the preset loop,
which are all that runs before the last statement, do not write it, so that it is still true
when the connecting loop ends; and `scanning` is false whenever `scanAndConnect` returns.
It returns on the early path taken when the enumeration fails, with the status
"No cameras found." and the registry untouched, and on normal completion whenever the driver
answers every open. -/
theorem scanning_flag_discipline (E : Env σ) (K : SdkCodes) (apple usbReset : Bool)
    (g : Globals) (w : World σ) :
    scanAndConnect E K apple usbReset g w =
      scanAndConnect E K apple usbReset { g with g_scanning := true } w ∧
    (scanPrologue E apple usbReset g w).1.g_scanning = true ∧
    (∀ (total : Nat) (infos : List ObjInfo) (att found : Nat) (g0 : Globals) (w0 : World σ)
      (r : Nat × Globals × World σ),
      scanLoop E apple total infos att found g0 w0 = some r →
        r.2.1.g_scanning = g0.g_scanning) ∧
    (∀ (preset : List PresetEntry) (cams : List CameraDevice) (g0 : Globals) (w0 : World σ),
      (applyPresetAll E preset cams g0 w0).1.g_scanning = g0.g_scanning) ∧
    (∀ r, scanAndConnect E K apple usbReset g w = some r → r.1.g_scanning = false) ∧
    ((SCRSDK.EnumCameraObjects E (scanPrologue E apple usbReset g w).2).1.list? = none →
      ∃ r, scanAndConnect E K apple usbReset g w = some r ∧ r.1.g_scanning = false ∧
        r.1.g_scanStatus = "No cameras found." ∧ r.1.g_cameras = g.g_cameras ∧
        r.2 = (SCRSDK.EnumCameraObjects E (scanPrologue E apple usbReset g w).2).2) ∧
    (∀ infos found g2 w2,
      (SCRSDK.EnumCameraObjects E (scanPrologue E apple usbReset g w).2).1.list? = some infos →
      scanLoop E apple (infos.countP isFX30Camera) infos 0 0
        { (scanPrologue E apple usbReset g w).1 with g_scanStatus := "Enumerating cameras..." }
        (SCRSDK.EnumCameraObjects E (scanPrologue E apple usbReset g w).2).2 =
          some (found, g2, w2) →
      g2.g_scanning = true ∧
      scanAndConnect E K apple usbReset g w = some (scanEpilogue E K found g2 w2) ∧
      (scanEpilogue E K found g2 w2).1.g_scanning = false) ∧
    ((∀ s info h mode, ((E.Connect s info h mode).1).answered = true) →
      ∃ r, scanAndConnect E K apple usbReset g w = some r ∧ r.1.g_scanning = false) := by
  refine ⟨?_, (scanPrologue_flags E apple usbReset g w).1,
    fun total infos att found g0 w0 r h => (scanLoop_flags E apple total infos att found g0 w0 r h).1,
    applyPresetAll_scanning E,
    fun r h => (scanAndConnect_flags E K apple usbReset g w r h).1, ?_, ?_, ?_⟩
  · have hp : scanPrologue E apple usbReset { g with g_scanning := true } w =
        scanPrologue E apple usbReset g w := by
      unfold scanPrologue
      rfl
    unfold scanAndConnect
    rw [hp]
  · intro hfail
    refine ⟨({ (scanPrologue E apple usbReset g w).1 with
        g_scanStatus := "No cameras found."
        g_scanning := false },
      (SCRSDK.EnumCameraObjects E (scanPrologue E apple usbReset g w).2).2), ?_, rfl, rfl,
      (scanPrologue_flags E apple usbReset g w).2.2.2, rfl⟩
    unfold scanAndConnect
    simp only [hfail]
  · intro infos found g2 w2 hlist hloop
    refine ⟨?_, ?_, scanEpilogue_scanning E K found g2 w2⟩
    · have := (scanLoop_flags E apple _ _ _ _ _ _ _ hloop).1
      simp only at this
      rw [this]
      exact (scanPrologue_flags E apple usbReset g w).1
    · unfold scanAndConnect
      simp only [hlist, hloop]
  · intro hans
    obtain ⟨r, hr, -⟩ := scanAndConnect_returns E K apple usbReset hans g w
    exact ⟨r, hr, (scanAndConnect_flags E K apple usbReset g w r hr).1⟩

/-! ### The return paths of the download thread -/

/-- C17. Directory failure aborts before touching the fleet.  When creating the target
directory throws, `downloadFilesThread` returns with `downloading` false and the status
"Error creating directory: " followed by the message; the registry and the other globals
are as they were, and the only call made is the directory creation: no driver call, no
disconnect. -/
theorem directory_failure_aborts (E : Env σ) (K : SdkCodes) (apple : Bool) (g : Globals)
    (w : World σ) (what : String)
    (hdir : (E.fsCreateDirectories w.s g.g_downloadPath).1 = some what) :
    ∃ g' w', downloadFilesThread E K apple g w = some (g', w') ∧
      g'.g_downloading = false ∧
      g'.g_downloadStatus = "Error creating directory: " ++ what ∧
      g'.g_cameras = g.g_cameras ∧
      g' = { g with g_downloadStatus := g'.g_downloadStatus, g_downloading := false } ∧
      w'.log = w.log ++ [Ev.fsCreateDirectories g.g_downloadPath (some what)] ∧
      (∀ ev ∈ [Ev.fsCreateDirectories g.g_downloadPath (some what)],
        Ev.isDriverCall ev = false) := by
  refine ⟨{ g with
      g_downloadStatus := "Error creating directory: " ++ what
      g_downloading := false },
    (fsCreateDirectories E g.g_downloadPath w).2, ?_, rfl, rfl, rfl, rfl, ?_, ?_⟩
  · simp only [downloadFilesThread, downloadFilesRun, fsCreateDirectories, hdir, Option.map]
  · simp only [fsCreateDirectories, World.step, hdir]
  · intro ev hev
    simp only [List.mem_singleton] at hev
    subst hev
    rfl

/-- Witness of C17: in the scripted world whose directory cannot be created, with a camera
in the registry, the thread ends with the error status and has logged only the creation. -/
theorem directory_failure_aborts_witness :
    ((readOnlyEnv emptyScript).fsCreateDirectories mockStart.s
      ({ g_cameras := [connectedCam] } : Globals).g_downloadPath).1 = some "Permission denied" ∧
    (downloadFilesThread (readOnlyEnv emptyScript) exampleCodes false
        { g_cameras := [connectedCam] } mockStart).map
      (fun r => (r.1.g_downloading, r.1.g_downloadStatus, r.1.g_cameras, r.2.log)) =
      some (false, "Error creating directory: Permission denied", [connectedCam],
        [Ev.fsCreateDirectories "/tmp/fx30_downloads" (some "Permission denied")]) := by
  refine ⟨rfl, ?_⟩
  obtain ⟨g', w', hrun, hd, hs, hc, -, hl, -⟩ :=
    directory_failure_aborts (readOnlyEnv emptyScript) exampleCodes false
      { g_cameras := [connectedCam] } mockStart "Permission denied" rfl
  rw [hrun]
  simp only [Option.map, hd, hs, hc, hl]
  rfl

/-- C16. Transfer-mode fallback.  When the directory was created and there is no camera for
the transfer (the enumeration fails, or no FX30 device was opened in transfer mode), and the
driver answers every open, `downloadFilesThread` returns: it sets the download status to one
of the two "Error: ..." messages, runs `scanAndConnect(false)` once, from an empty registry,
and clears `downloading`.  The status is still the error message at the end, and the whole
run makes no `SetSaveInfo`, folder listing, content listing, detail query or
`PullContentsFile` call. -/
theorem transfer_fallback (E : Env σ) (K : SdkCodes) (apple : Bool)
    (hans : ∀ s info h mode, ((E.Connect s info h mode).1).answered = true)
    (g : Globals) (w : World σ)
    (hdir : (fsCreateDirectories E g.g_downloadPath w).1 = none)
    (hno : noTransferCamera E g w) :
    ∃ g1 w1 g2 w2 tr,
      downloadFilesThread E K apple g w = some ({ g2 with g_downloading := false }, w2) ∧
      scanAndConnect E K apple false g1 w1 = some (g2, w2) ∧
      Quiet w w1 ∧ g1.g_cameras = [] ∧ g1.g_downloading = true ∧
      (g1.g_downloadStatus = "Error: No cameras found for download." ∨
        g1.g_downloadStatus =
          "Error: Could not connect to any camera in ContentsTransfer mode.") ∧
      g2.g_downloadStatus = g1.g_downloadStatus ∧
      w2.log = w.log ++ tr ∧ saveInfosOf tr = [] ∧ folderListsOf tr = [] ∧
      listingsOf tr = [] ∧ detailsOf tr = [] ∧ pullsOf tr = [] := by
  have hq1 := quiet_fsCreateDirectories E g.g_downloadPath w
  have hq2 : Quiet w (SCRSDK.EnumCameraObjects E (transferScanWorld E g w)).2 :=
    hq1.trans ((disconnectAll_quiet E _ _).trans ((quiet_sleep_for E _ _).trans
      (quiet_EnumCameraObjects E _)))
  unfold noTransferCamera at hno
  unfold transferScanWorld at hno hq2
  unfold downloadFilesThread downloadFilesRun
  simp only []
  generalize fsCreateDirectories E g.g_downloadPath w = cd at hq1 hq2 hdir hno
  obtain ⟨thrown, w1⟩ := cd
  simp only at hdir
  subst hdir
  simp only []
  generalize SCRSDK.EnumCameraObjects E
    (sleep_for E 2000 (disconnectAll E g.g_cameras w1)) = en at hq2 hno
  obtain ⟨reply, w2⟩ := en
  simp only at hno hq2
  rcases hno with hnone | ⟨infos, w3, hlist, hct⟩
  · simp only [hnone]
    obtain ⟨⟨g3, w3⟩, hscan, hq3, hs3, -⟩ := scanAndConnect_returns E K apple false hans
      { g with
        g_downloading := true
        g_downloadStatus := "Error: No cameras found for download."
        g_cameras := [] } w2
    simp only [hscan, Option.map]
    obtain ⟨tr, hl, h1, -, h3, h4, h5, h6⟩ := (hq2.trans hq3).projections
    exact ⟨_, w2, g3, w3, tr, rfl, hscan, hq2, rfl, rfl, Or.inl rfl, hs3, hl, h6, h5, h4,
      h1, h3⟩
  · simp only [hlist, hct, List.isEmpty_nil, if_true]
    obtain ⟨⟨g4, w4⟩, hscan, hq4, hs4, -⟩ := scanAndConnect_returns E K apple false hans
      { g with
        g_downloading := true
        g_downloadStatus :=
          "Error: Could not connect to any camera in ContentsTransfer mode."
        g_cameras := [] } (SCRSDK.EnumRelease E w3)
    simp only [hscan, Option.map]
    obtain ⟨⟨r0, w0⟩, hct0, hq3⟩ := connectTransferAll_returns E hans infos [] w2
    rw [hct] at hct0
    simp only [Option.some.injEq, Prod.mk.injEq] at hct0
    obtain ⟨-, hw0⟩ := hct0
    subst hw0
    have hq : Quiet w (SCRSDK.EnumRelease E w3) :=
      hq2.trans (hq3.trans (quiet_EnumRelease E w3))
    obtain ⟨tr, hl, h1, -, h3, h4, h5, h6⟩ := (hq.trans hq4).projections
    exact ⟨_, _, g4, w4, tr, rfl, hscan, hq, rfl, rfl, Or.inr rfl, hs4, hl, h6, h5, h4,
      h1, h3⟩

/-- Witness of C16: the scripted camera refuses the transfer mode and opens in Remote mode.
The thread ends with the error status, `downloading` false and the camera reconnected. -/
theorem transfer_fallback_witness :
    (∀ s info h mode,
      (((mockEnv transferRefusedScript).Connect s info h mode).1).answered = true) ∧
    (fsCreateDirectories (mockEnv transferRefusedScript)
      ({} : Globals).g_downloadPath mockStart).1 = none ∧
    noTransferCamera (mockEnv transferRefusedScript) {} mockStart ∧
    (∃ (g2 : Globals) (w2 : World MockState) (tr : List Ev),
      downloadFilesThread (mockEnv transferRefusedScript) exampleCodes false {} mockStart =
        some ({ g2 with g_downloading := false }, w2) ∧
      w2.log = mockStart.log ++ tr ∧ saveInfosOf tr = [] ∧ pullsOf tr = []) ∧
    (downloadFilesThread (mockEnv transferRefusedScript) exampleCodes false {} mockStart).map
        (fun r => (r.1.g_downloading, r.1.g_downloadStatus,
          r.1.g_cameras.map (fun c => (c.m_device_handle, c.m_connected)),
          r.2.log.countP Ev.isConnect)) =
      some (false, "Error: Could not connect to any camera in ContentsTransfer mode.",
        [(11, true)], 2) := by
  have hans := mock_answered transferRefusedScript (fun _ mode => by cases mode <;> rfl)
  have hno : noTransferCamera (mockEnv transferRefusedScript) {} mockStart :=
    Or.inr ⟨[fx30A], _, rfl, rfl⟩
  refine ⟨hans, rfl, hno, ?_, by decide⟩
  obtain ⟨g1, w1, g2, w2, tr, hrun, -, -, -, -, -, -, hl, hs, -, -, -, hp⟩ :=
    transfer_fallback (mockEnv transferRefusedScript) exampleCodes false hans {} mockStart
      rfl hno
  exact ⟨g2, w2, tr, hrun, hl, hs, hp⟩

/-- When the driver answers every open, `downloadFilesThread` returns, with `downloading`
false, and the first call it made is the creation of the directory. -/
theorem downloadFilesRun_first_call (E : Env σ) (K : SdkCodes) (apple : Bool)
    (hans : ∀ s info h mode, ((E.Connect s info h mode).1).answered = true)
    (g : Globals) (w : World σ) :
    ∃ res tr, downloadFilesRun E K apple g w = some res ∧
      res.2.1.g_downloading = false ∧
      res.2.2.log = w.log ++ Ev.fsCreateDirectories g.g_downloadPath
        (E.fsCreateDirectories w.s g.g_downloadPath).1 :: tr := by
  have key : ∃ res tr, downloadFilesRun E K apple g w = some res ∧
      res.2.1.g_downloading = false ∧
      res.2.2.log = (fsCreateDirectories E g.g_downloadPath w).2.log ++ tr := by
    unfold downloadFilesRun
    simp only []
    generalize fsCreateDirectories E g.g_downloadPath w = cd
    obtain ⟨thrown, w1⟩ := cd
    cases thrown with
    | some what => exact ⟨_, [], rfl, rfl, by simp⟩
    | none =>
      simp only []
      have hq2 : Quiet w1 (SCRSDK.EnumCameraObjects E
          (sleep_for E 2000 (disconnectAll E g.g_cameras w1))).2 :=
        (disconnectAll_quiet E _ _).trans ((quiet_sleep_for E _ _).trans
          (quiet_EnumCameraObjects E _))
      generalize SCRSDK.EnumCameraObjects E
        (sleep_for E 2000 (disconnectAll E g.g_cameras w1)) = en at hq2
      obtain ⟨reply, w2⟩ := en
      cases hlist : reply.list? with
      | none =>
        simp only []
        obtain ⟨⟨g3, w3⟩, hscan, hq3, -, -⟩ := scanAndConnect_returns E K apple false hans
          { g with
            g_downloading := true
            g_downloadStatus := "Error: No cameras found for download."
            g_cameras := [] } w2
        simp only [hscan]
        obtain ⟨tr, hl, -⟩ := hq2.trans hq3
        exact ⟨_, tr, rfl, rfl, hl⟩
      | some infos =>
        simp only []
        obtain ⟨⟨dlCameras, w3⟩, hct, hq3⟩ := connectTransferAll_returns E hans infos [] w2
        simp only [hct]
        by_cases hempty : dlCameras.isEmpty = true
        · simp only [hempty, if_true]
          obtain ⟨⟨g4, w4⟩, hscan, hq4, -, -⟩ := scanAndConnect_returns E K apple false hans
            { g with
              g_downloading := true
              g_downloadStatus :=
                "Error: Could not connect to any camera in ContentsTransfer mode."
              g_cameras := [] } (SCRSDK.EnumRelease E w3)
          simp only [hscan]
          obtain ⟨tr, hl, -⟩ := hq2.trans (hq3.trans ((quiet_EnumRelease E w3).trans hq4))
          exact ⟨_, tr, rfl, rfl, hl⟩
        · simp only [hempty, Bool.false_eq_true, if_false]
          obtain ⟨pre, hlpre, -⟩ := hq2.trans (hq3.trans
            ((quiet_EnumRelease E w3).trans (quiet_sleep_for E 3000 _)))
          obtain ⟨tr4, hl4, -⟩ := downloadAll_spec E g.g_downloadPath dlCameras {}
            { g with
              g_downloading := true
              g_downloadStatus := "Scanning for cameras in ContentsTransfer mode..."
              g_cameras := [] } (sleep_for E 3000 (SCRSDK.EnumRelease E w3))
          generalize downloadAll E g.g_downloadPath dlCameras {}
            { g with
              g_downloading := true
              g_downloadStatus := "Scanning for cameras in ContentsTransfer mode..."
              g_cameras := [] } (sleep_for E 3000 (SCRSDK.EnumRelease E w3)) = d4
            at hl4
          obtain ⟨cnt, cams4, g4, w4⟩ := d4
          simp only at hl4
          simp only []
          obtain ⟨⟨g5, w5⟩, hscan, hq5, -, -⟩ := scanAndConnect_returns E K apple false hans
            { g4 with g_downloadStatus := downloadSummary cnt ++ ". Reconnecting..." }
            (sleep_for E 2000 (disconnectAll E cams4 w4))
          simp only [hscan]
          obtain ⟨post, hlpost, -⟩ :=
            (disconnectAll_quiet E cams4 w4).trans ((quiet_sleep_for E 2000 _).trans hq5)
          refine ⟨_, pre ++ tr4 ++ post, rfl, rfl, ?_⟩
          simp only at hlpost
          rw [hlpost, hl4, hlpre]
          simp only [List.append_assoc]
  obtain ⟨res, tr, hrun, hd, hl⟩ := key
  refine ⟨res, tr, hrun, hd, ?_⟩
  rw [hl]
  simp [fsCreateDirectories, World.step]

/-- Whenever `downloadFilesThread` returns, `downloading` is false. -/
theorem downloadFilesRun_clears (E : Env σ) (K : SdkCodes) (apple : Bool) (g : Globals)
    (w : World σ) (res : Option Counters × Globals × World σ)
    (h : downloadFilesRun E K apple g w = some res) : res.2.1.g_downloading = false := by
  unfold downloadFilesRun at h
  simp only [] at h
  generalize fsCreateDirectories E g.g_downloadPath w = cd at h
  obtain ⟨thrown, w1⟩ := cd
  cases thrown with
  | some what =>
    simp only [Option.some.injEq] at h
    subst h
    rfl
  | none =>
    simp only [] at h
    generalize SCRSDK.EnumCameraObjects E
      (sleep_for E 2000 (disconnectAll E g.g_cameras w1)) = en at h
    obtain ⟨reply, w2⟩ := en
    cases hlist : reply.list? with
    | none =>
      simp only [hlist] at h
      split at h
      · exact absurd h (by simp)
      · simp only [Option.some.injEq] at h
        subst h
        rfl
    | some infos =>
      simp only [hlist] at h
      split at h
      · exact absurd h (by simp)
      · split at h
        · split at h
          · exact absurd h (by simp)
          · simp only [Option.some.injEq] at h
            subst h
            rfl
        · split at h
          · exact absurd h (by simp)
          · simp only [Option.some.injEq] at h
            subst h
            rfl

/-- C11. Downloading flag discipline.  `downloadFilesThread` starts by setting
`downloading`: the run is the run from the state in which the flag is set, and the first
call it makes, the creation of the directory, comes after.  The calls that run before its
last statement (`scanAndConnect`, the download loops) do not write the flag.  Whenever the
thread returns, on whichever path, `downloading` is false; it returns at once when the
directory cannot be created, and on the three other paths (enumeration failure, no device
opened in transfer mode, normal completion) whenever the driver answers every open. -/
theorem downloading_flag_discipline (E : Env σ) (K : SdkCodes) (apple : Bool) (g : Globals)
    (w : World σ) :
    downloadFilesThread E K apple g w =
      downloadFilesThread E K apple { g with g_downloading := true } w ∧
    (∀ (usbReset : Bool) (g0 : Globals) (w0 : World σ) (r : Globals × World σ),
      scanAndConnect E K apple usbReset g0 w0 = some r →
        r.1.g_downloading = g0.g_downloading) ∧
    (∀ (dlPath : String) (cams : List CameraDevice) (cnt : Counters) (g0 : Globals)
      (w0 : World σ),
      (downloadAll E dlPath cams cnt g0 w0).2.2.1.g_downloading = g0.g_downloading) ∧
    (∀ r, downloadFilesThread E K apple g w = some r → r.1.g_downloading = false) ∧
    (∀ what, (E.fsCreateDirectories w.s g.g_downloadPath).1 = some what →
      ∃ r, downloadFilesThread E K apple g w = some r ∧ r.1.g_downloading = false) ∧
    ((∀ s info h mode, ((E.Connect s info h mode).1).answered = true) →
      ∃ r tr, downloadFilesThread E K apple g w = some r ∧ r.1.g_downloading = false ∧
        r.2.log = w.log ++ Ev.fsCreateDirectories g.g_downloadPath
          (E.fsCreateDirectories w.s g.g_downloadPath).1 :: tr) := by
  refine ⟨rfl, fun usbReset g0 w0 r h => (scanAndConnect_flags E K apple usbReset g0 w0 r h).2.1,
    ?_, ?_, ?_, ?_⟩
  · intro dlPath cams cnt g0 w0
    obtain ⟨-, -, -, hg, -⟩ := downloadAll_spec E dlPath cams cnt g0 w0
    unfold sameButDownloadStatus at hg
    rw [hg]
  · intro r h
    unfold downloadFilesThread at h
    cases hrun : downloadFilesRun E K apple g w with
    | none => simp [hrun] at h
    | some res =>
      simp only [hrun, Option.map, Option.some.injEq] at h
      subst h
      exact downloadFilesRun_clears E K apple g w res hrun
  · intro what hdir
    refine ⟨({ g with
        g_downloadStatus := "Error creating directory: " ++ what
        g_downloading := false }, (fsCreateDirectories E g.g_downloadPath w).2), ?_, rfl⟩
    simp only [downloadFilesThread, downloadFilesRun, fsCreateDirectories, hdir, Option.map]
  · intro hans
    obtain ⟨res, tr, hrun, hd, hl⟩ := downloadFilesRun_first_call E K apple hans g w
    exact ⟨res.2, tr, by simp [downloadFilesThread, hrun], hd, hl⟩

/-! ### savePreset -/

/-- C13. Failure atomicity of `savePreset`.  When the handle is not connected it returns
false and makes no call at all: the world is as it was.  When the batch read of the preset
properties fails (driver error, null list, or no property) it returns false and the read is
the only call made: the file is not opened for writing, so it is neither created nor
truncated nor rewritten.  The file is written on the remaining path only, after a successful
read, by the one `std::ofstream` that follows the release of the list. -/
theorem savePreset_failure_atomic (E : Env σ) (K : SdkCodes) (cam : CameraDevice)
    (path : String) (w : World σ) :
    (cam.m_connected = false → savePreset E K cam path w = (false, w)) ∧
    (cam.m_connected = true → ∀ reply s',
      E.GetSelectDeviceProperties w.s cam.m_device_handle (kPresetCodes K) = (reply, s') →
      (reply.err ≠ 0 ∨ reply.props = none ∨ reply.props = some []) →
      savePreset E K cam path w =
        (false, ⟨s', w.log ++
          [Ev.GetSelectDeviceProperties cam.m_device_handle (kPresetCodes K) reply]⟩) ∧
      fileWritesOf
        [Ev.GetSelectDeviceProperties cam.m_device_handle (kPresetCodes K) reply] = []) ∧
    (cam.m_connected = true → ∀ reply s' prop_list,
      E.GetSelectDeviceProperties w.s cam.m_device_handle (kPresetCodes K) = (reply, s') →
      reply.list? = some prop_list →
      ∃ opened w', savePreset E K cam path w = (opened, w') ∧
        w'.log = w.log ++
          [Ev.GetSelectDeviceProperties cam.m_device_handle (kPresetCodes K) reply,
           Ev.ReleaseDeviceProperties cam.m_device_handle,
           Ev.fsWriteFile path (presetText K prop_list) opened]) := by
  refine ⟨?_, ?_, ?_⟩
  · intro hc
    simp [savePreset, hc]
  · intro hc reply s' hread hfail
    have hnone : reply.list? = none := by
      unfold PropReply.list?
      rcases hfail with h | h | h
      · simp [h]
      · simp [h]
      · simp [h]
    refine ⟨?_, rfl⟩
    simp only [savePreset, hc, SCRSDK.GetSelectDeviceProperties, hread, World.step, hnone,
      not_true_eq_false, if_false]
  · intro hc reply s' prop_list hread hlist
    simp only [savePreset, hc, SCRSDK.GetSelectDeviceProperties, hread, World.step, hlist,
      not_true_eq_false, if_false, SCRSDK.ReleaseDeviceProperties, fsWriteFile]
    split_ifs with ho
    · refine ⟨true, _, rfl, ?_⟩
      simp [ho]
    · refine ⟨false, _, rfl, ?_⟩
      simp only [Bool.not_eq_true] at ho
      simp [ho]

/-- Examples: a disconnected handle and a failing batch read leave the files of the scripted
world as they were; a successful read writes the preset text. -/
theorem savePreset_examples :
    savePreset (mockEnv emptyScript) exampleCodes {} "fx30_preset.json" iso400Start =
      (false, iso400Start) ∧
    (savePreset readFailEnv exampleCodes connectedCam "fx30_preset.json" iso400Start).1 =
      false ∧
    (savePreset readFailEnv exampleCodes connectedCam "fx30_preset.json" iso400Start).2.s.files =
      iso400Start.s.files ∧
    (savePreset (mockEnv emptyScript) exampleCodes connectedCam "fx30_preset.json"
        iso400Start).1 = true ∧
    (mockEnv emptyScript).fsReadFile
      (savePreset (mockEnv emptyScript) exampleCodes connectedCam "fx30_preset.json"
        iso400Start).2.s "fx30_preset.json" =
      some ("\x7b\n  \"iso\": 400,\n  \"shutterSpeed\": 0,\n  \"fNumber\": 0,\n" ++
        "  \"whiteBalance\": 0,\n  \"colorTemp\": 0,\n  \"movieFormat\": 0,\n" ++
        "  \"recSetting\": 0,\n  \"frameRate\": 0\n\x7d\n") := by
  refine ⟨rfl, rfl, rfl, rfl, ?_⟩
  decide

/-! ### loadPreset -/

theorem findSubAt_some_iff (needle : List Char) :
    ∀ (l : List Char) (i j : Nat), findSubAt needle l i = some j ↔
      ∃ k, j = i + k ∧ k ≤ l.length ∧ needle <+: l.drop k ∧
        ∀ k' < k, ¬ needle <+: l.drop k' := by
  intro l
  induction l with
  | nil =>
    intro i j
    by_cases hp : needle.isPrefixOf [] = true
    · simp only [findSubAt, hp, if_true, Option.some.injEq]
      constructor
      · intro h
        exact ⟨0, by omega, by simp, by simpa using List.isPrefixOf_iff_prefix.mp hp, by simp⟩
      · rintro ⟨k, hj, hk, -, -⟩
        simp only [List.length_nil, Nat.le_zero_eq] at hk
        omega
    · simp only [findSubAt, hp, Bool.false_eq_true, if_false]
      constructor
      · intro h
        cases h
      · rintro ⟨k, -, hk, hpre, -⟩
        simp only [List.length_nil, Nat.le_zero_eq] at hk
        subst hk
        exact absurd (List.isPrefixOf_iff_prefix.mpr (by simpa using hpre)) hp
  | cons c t ih =>
    intro i j
    by_cases hp : needle.isPrefixOf (c :: t) = true
    · simp only [findSubAt, hp, if_true, Option.some.injEq]
      have hpre : needle <+: c :: t := List.isPrefixOf_iff_prefix.mp hp
      constructor
      · intro h
        exact ⟨0, by omega, by simp, by simpa using hpre, by simp⟩
      · rintro ⟨k, hj, -, -, hmin⟩
        cases k with
        | zero => omega
        | succ k => exact absurd (by simpa using hpre) (hmin 0 (by omega))
    · simp only [findSubAt, hp, Bool.false_eq_true, if_false]
      have hnpre : ¬ needle <+: c :: t := fun h => hp (List.isPrefixOf_iff_prefix.mpr h)
      rw [ih (i + 1) j]
      constructor
      · rintro ⟨k, hj, hk, hpre, hmin⟩
        refine ⟨k + 1, by omega, by simp; omega, by simpa using hpre, ?_⟩
        intro k' hk'
        cases k' with
        | zero => simpa using hnpre
        | succ k' => simpa using hmin k' (by omega)
      · rintro ⟨k, hj, hk, hpre, hmin⟩
        cases k with
        | zero => exact absurd (by simpa using hpre) hnpre
        | succ k =>
          refine ⟨k, by omega, by simpa using hk, by simpa using hpre, ?_⟩
          intro k' hk'
          simpa using hmin (k' + 1) (by omega)

/-- `std::string::find(needle)` gives the first occurrence of the needle. -/
theorem strFind_zero_iff (s needle : List Char) (p : Nat) :
    strFind s needle 0 = some p ↔ firstOccurrence s needle p := by
  unfold strFind firstOccurrence
  simp only [Nat.not_lt_zero, if_false, List.drop_zero]
  rw [findSubAt_some_iff]
  constructor
  · rintro ⟨k, hj, hk, hpre, hmin⟩
    have : p = k := by omega
    subst this
    exact ⟨hk, hpre, hmin⟩
  · rintro ⟨hk, hpre, hmin⟩
    exact ⟨p, by omega, hk, hpre, hmin⟩

theorem findSubAt_char_isSome (c : Char) :
    ∀ (l : List Char) (i : Nat), (findSubAt [c] l i).isSome = true ↔ c ∈ l := by
  intro l
  induction l with
  | nil => intro i; simp [findSubAt, List.isPrefixOf]
  | cons x t ih =>
    intro i
    by_cases hx : c = x
    · subst hx
      simp [findSubAt, List.isPrefixOf]
    · have hx' : x ≠ c := fun h => hx h.symm
      simp [findSubAt, List.isPrefixOf, hx, ih (i + 1)]

/-- `std::string::find(ch, pos)` finds something exactly when `ch` occurs from `pos` on. -/
theorem strFindChar_isSome (s : List Char) (c : Char) (k : Nat) :
    (strFindChar s c k).isSome = true ↔ c ∈ s.drop k := by
  unfold strFindChar strFind
  by_cases hk : s.length < k
  · simp [hk, List.drop_eq_nil_of_le (Nat.le_of_lt hk)]
  · simp only [hk, if_false]
    exact findSubAt_char_isSome c _ _

/-- The loop body of `loadPreset` finds a value for a key exactly when the quoted key occurs
and a ':' occurs after its first occurrence. -/
theorem presetValue_isSome (content : List Char) (name : String) :
    (presetValue content name).isSome = true ↔ keyWithColon content name := by
  unfold presetValue keyWithColon
  simp only []
  have hkey : "\"".toList ++ name.toList ++ "\"".toList = quotedKey name := rfl
  rw [hkey]
  cases hfind : strFind content (quotedKey name) 0 with
  | none =>
    simp only [Option.isSome_none, Bool.false_eq_true, false_iff]
    rintro ⟨p, hp, -⟩
    rw [(strFind_zero_iff _ _ _).mpr hp] at hfind
    cases hfind
  | some pos =>
    have hpos := (strFind_zero_iff _ _ _).mp hfind
    have huniq : ∀ p, firstOccurrence content (quotedKey name) p → p = pos := by
      intro p hp
      have := (strFind_zero_iff _ _ _).mpr hp
      rw [hfind] at this
      exact (Option.some.inj this).symm
    simp only []
    cases hcol : strFindChar content ':' (pos + (quotedKey name).length) with
    | none =>
      simp only [Option.isSome_none, Bool.false_eq_true, false_iff]
      rintro ⟨p, hp, hmem⟩
      rw [huniq p hp] at hmem
      have := (strFindChar_isSome content ':' _).mpr hmem
      rw [hcol] at this
      cases this
    | some q =>
      simp only [Option.isSome_some, true_iff]
      refine ⟨pos, hpos, (strFindChar_isSome content ':' _).mp ?_⟩
      rw [hcol]
      rfl

theorem map_filterMap_key {α β : Type} (f : α → Option β) (key : β → α)
    (hkey : ∀ a b, f a = some b → key b = a) (l : List α) :
    (l.filterMap f).map key = l.filter (fun a => (f a).isSome) := by
  induction l with
  | nil => rfl
  | cons a l ih =>
    cases hfa : f a with
    | none => simp [List.filterMap_cons, List.filter_cons, hfa, ih]
    | some b => simp [List.filterMap_cons, List.filter_cons, hfa, ih, hkey a b hfa]

theorem kPresetCodes_nodup (K : SdkCodes) (hinj : Function.Injective K.CrDeviceProperty) :
    (kPresetCodes K).Nodup := by
  have h : kPresetCodes K = (presetTable.map Prod.fst).map K.CrDeviceProperty := by
    simp [kPresetCodes, List.map_map, Function.comp_def]
  rw [h]
  exact List.Nodup.map hinj (by decide)

theorem exampleCodes_injective : Function.Injective exampleCodes.CrDeviceProperty := by
  intro a b h
  cases a <;> cases b <;> first | rfl | exact absurd h (by decide)

/-- The codes of the entries `loadPreset` builds from a text: the preset codes, in their
order, whose value the loop body finds. -/
theorem loadPreset_codes (K : SdkCodes) (content : List Char) :
    ((kPresetCodes K).filterMap (loadPresetEntry K content)).map (fun e => e.code) =
      (kPresetCodes K).filter
        (fun c => (presetValue content (presetCodeName K c)).isSome) := by
  have h := map_filterMap_key (loadPresetEntry K content) (fun e => e.code) (by
    intro a b hab
    unfold loadPresetEntry at hab
    cases hv : presetValue content (presetCodeName K a) with
    | none => simp [hv] at hab
    | some v =>
      simp only [hv, Option.map_some', Option.some.injEq] at hab
      subst hab
      rfl) (kPresetCodes K)
  rw [h]
  congr 1
  funext c
  simp [loadPresetEntry]

/-- C14. `loadPreset` is tolerant and keyed.  For every file content it returns, having only
read the file; a missing file gives the empty list.  The codes of the entries returned are
a sublist of `kPresetCodes`: at most one entry per known identifier, pairwise distinct codes,
at most 8 entries, in the order of `kPresetCodes`, and no entry for anything else.  The entry
of a known identifier is present exactly when its quoted key occurs in the text and a ':'
occurs after the first occurrence of the key. -/
theorem loadPreset_keyed (E : Env σ) (K : SdkCodes)
    (hinj : Function.Injective K.CrDeviceProperty) (path : String) (w : World σ) :
    (loadPreset E K path w).2 = w.step w.s (Ev.fsReadFile path (E.fsReadFile w.s path)) ∧
    (E.fsReadFile w.s path = none → (loadPreset E K path w).1 = []) ∧
    ((loadPreset E K path w).1.map (fun e => e.code)).Sublist (kPresetCodes K) ∧
    ((loadPreset E K path w).1.map (fun e => e.code)).Nodup ∧
    (loadPreset E K path w).1.length ≤ 8 ∧
    (∀ e ∈ (loadPreset E K path w).1, ∃ t ∈ presetTable, e.code = K.CrDeviceProperty t.1) ∧
    (∀ content, E.fsReadFile w.s path = some content → ∀ t ∈ presetTable,
      (K.CrDeviceProperty t.1 ∈ (loadPreset E K path w).1.map (fun e => e.code) ↔
        keyWithColon content.toList t.2)) := by
  have hsub : ((loadPreset E K path w).1.map (fun e => e.code)).Sublist (kPresetCodes K) := by
    unfold loadPreset fsReadFile
    cases hf : E.fsReadFile w.s path with
    | none => simp
    | some content =>
      simp only []
      rw [loadPreset_codes]
      exact List.filter_sublist _
  refine ⟨?_, ?_, hsub, hsub.nodup (kPresetCodes_nodup K hinj), ?_, ?_, ?_⟩
  · unfold loadPreset fsReadFile
    cases hf : E.fsReadFile w.s path <;> rfl
  · intro hf
    simp [loadPreset, fsReadFile, hf]
  · have := hsub.length_le
    simpa [kPresetCodes, presetTable] using this
  · intro e he
    have hmem : e.code ∈ kPresetCodes K := hsub.subset (List.mem_map_of_mem _ he)
    simp only [kPresetCodes, List.mem_map] at hmem
    obtain ⟨t, ht, hc⟩ := hmem
    exact ⟨t, ht, hc.symm⟩
  · intro content hf t ht
    have hload : (loadPreset E K path w).1 =
        (kPresetCodes K).filterMap (loadPresetEntry K content.toList) := by
      simp [loadPreset, fsReadFile, hf]
    rw [hload, loadPreset_codes, List.mem_filter, presetCodeName_table K hinj t ht,
      presetValue_isSome]
    constructor
    · exact fun h => h.2
    · intro h
      exact ⟨List.mem_map_of_mem (fun e => K.CrDeviceProperty e.1) ht, h⟩

/-- Witness of C14: from `mixedPresetFile` the entries are those of `iso` and `frameRate`,
in the order of `kPresetCodes`, both with the number after the one ':' that follows them;
`bogus` gives no entry. -/
theorem loadPreset_keyed_witness :
    Function.Injective exampleCodes.CrDeviceProperty ∧
    (loadPreset (mockEnv emptyScript) exampleCodes "fx30_preset.json" mixedPresetStart).1 =
      [⟨exampleCodes.CrDeviceProperty .IsoSensitivity, 800⟩,
       ⟨exampleCodes.CrDeviceProperty .Movie_Recording_FrameRateSetting, 800⟩] ∧
    ((loadPreset (mockEnv emptyScript) exampleCodes "fx30_preset.json"
      mixedPresetStart).1.map (fun e => e.code)).Sublist (kPresetCodes exampleCodes) ∧
    (loadPreset (mockEnv emptyScript) exampleCodes "nowhere.json" mixedPresetStart).1 = [] := by
  have h := loadPreset_keyed (mockEnv emptyScript) exampleCodes exampleCodes_injective
    "fx30_preset.json" mixedPresetStart
  have h' := loadPreset_keyed (mockEnv emptyScript) exampleCodes exampleCodes_injective
    "nowhere.json" mixedPresetStart
  exact ⟨exampleCodes_injective, by decide, h.2.2.1, h'.2.1 rfl⟩

/-! ### The counting handlers -/

/-- The loop of the counting handlers, for a command that returns false without a call on a
handle that is not connected and otherwise makes one call, logged as `mkEv handle err`, and
returns whether `err` is `CrError_None`: there is one reply per connected handle, in order;
`ok` grows by the number of replies that are `CrError_None`, `fail` by the number of the
other replies plus the number of handles that are not connected. -/
theorem commandAll_spec (K : SdkCodes) (command : CameraDevice → World σ → Bool × World σ)
    (mkEv : Int → Nat → Ev)
    (hoff : ∀ cam w, cam.m_connected = false → command cam w = (false, w))
    (hon : ∀ cam w, cam.m_connected = true → ∃ err s',
      command cam w = (decide (err = K.CrError_None), w.step s' (mkEv cam.m_device_handle err))) :
    ∀ (cams : List CameraDevice) (ok fail : Nat) (w : World σ),
      ∃ errs : List Nat, errs.length = (connectedHandles cams).length ∧
        (commandAll command cams ok fail w).2.2.log =
          w.log ++ List.zipWith mkEv (connectedHandles cams) errs ∧
        (commandAll command cams ok fail w).1 =
          ok + errs.countP (fun e => e = K.CrError_None) ∧
        (commandAll command cams ok fail w).2.1 =
          fail + cams.countP (fun c => !c.m_connected) +
            errs.countP (fun e => e ≠ K.CrError_None) := by
  intro cams
  induction cams with
  | nil =>
    intro ok fail w
    exact ⟨[], rfl, by simp [commandAll, connectedHandles], by simp [commandAll],
      by simp [commandAll]⟩
  | cons cam rest ih =>
    intro ok fail w
    cases hc : cam.m_connected with
    | false =>
      obtain ⟨errs, hlen, hlog, hok, hfail⟩ := ih ok (fail + 1) w
      refine ⟨errs, ?_, ?_, ?_, ?_⟩
      · simpa [connectedHandles, hc] using hlen
      · simp only [commandAll, hoff cam w hc, Bool.false_eq_true, if_false]
        simpa [connectedHandles, hc] using hlog
      · simp only [commandAll, hoff cam w hc, Bool.false_eq_true, if_false]
        exact hok
      · simp only [commandAll, hoff cam w hc, Bool.false_eq_true, if_false]
        rw [hfail]
        simp [hc]
        omega
    | true =>
      obtain ⟨err, s', hcmd⟩ := hon cam w hc
      by_cases he : err = K.CrError_None
      · obtain ⟨errs, hlen, hlog, hok, hfail⟩ :=
          ih (ok + 1) fail (w.step s' (mkEv cam.m_device_handle err))
        refine ⟨err :: errs, ?_, ?_, ?_, ?_⟩
        · simp [connectedHandles, hc] at hlen ⊢
          exact hlen
        · simp only [commandAll, hcmd, he, decide_True, if_true]
          rw [← he, hlog]
          simp [connectedHandles, hc, World.step]
        · simp only [commandAll, hcmd, he, decide_True, if_true]
          rw [← he, hok]
          simp [he]
          omega
        · simp only [commandAll, hcmd, he, decide_True, if_true]
          rw [← he, hfail]
          simp [hc, he]
      · obtain ⟨errs, hlen, hlog, hok, hfail⟩ :=
          ih ok (fail + 1) (w.step s' (mkEv cam.m_device_handle err))
        refine ⟨err :: errs, ?_, ?_, ?_, ?_⟩
        · simp [connectedHandles, hc] at hlen ⊢
          exact hlen
        · simp only [commandAll, hcmd, he, decide_False, Bool.false_eq_true, if_false]
          rw [hlog]
          simp [connectedHandles, hc, World.step]
        · simp only [commandAll, hcmd, he, decide_False, Bool.false_eq_true, if_false]
          rw [hok]
          simp [he]
        · simp only [commandAll, hcmd, he, decide_False, Bool.false_eq_true, if_false]
          rw [hfail]
          simp [hc, he]
          omega

theorem commandAll_reply (K : SdkCodes) (command : CameraDevice → World σ → Bool × World σ)
    (mkEv : Int → Nat → Ev)
    (hoff : ∀ cam w, cam.m_connected = false → command cam w = (false, w))
    (hon : ∀ cam w, cam.m_connected = true → ∃ err s',
      command cam w = (decide (err = K.CrError_None), w.step s' (mkEv cam.m_device_handle err)))
    (cams : List CameraDevice) (w : World σ) :
    countsReply K cams mkEv w.log
      (countsJson (commandAll command cams 0 0 w).1 (commandAll command cams 0 0 w).2.1,
        (commandAll command cams 0 0 w).2.2) := by
  obtain ⟨errs, hlen, hlog, hok, hfail⟩ := commandAll_spec K command mkEv hoff hon cams 0 0 w
  refine ⟨errs, hlen, hlog, ?_, ?_⟩
  · simp only [hok, hfail, Nat.zero_add]
  · have h1 := countP_not_add (fun e : Nat => decide (e = K.CrError_None)) errs
    have h2 := countP_not_add (fun c : CameraDevice => c.m_connected) cams
    have h3 : (connectedHandles cams).length = cams.countP (fun c => c.m_connected) := by
      simp [connectedHandles, List.countP_eq_length_filter]
    have h4 : errs.countP (fun e => decide (e ≠ K.CrError_None)) =
        errs.countP (fun e => !decide (e = K.CrError_None)) := by
      congr 1
      funext e
      simp
    rw [h4]
    omega

/-- C15, as amended. Mutating actions count over the handles of the registry.  When not
rejected as busy (`downloading` clear; for `/api/format` also `scanning`), each of the
handlers of `/api/start`, `/api/stop` and `/api/format` sends its command to exactly the
connected handles, in registry order, and replies with the counts `ok` and `failed`: `ok` is
the number of connected handles for which the driver accepted the command, `failed` is the
number of handles that are not connected plus the number of connected handles for which it
did not, so that `ok + failed` is the number of handles of the registry. -/
theorem command_counts (E : Env σ) (K : SdkCodes) (g : Globals) (w : World σ) :
    (g.g_downloading = false →
      countsReply K g.g_cameras (fun h err => Ev.SendCommand h .MovieRecord .Down err) w.log
        (postStart E K g w)) ∧
    (g.g_downloading = false →
      countsReply K g.g_cameras (fun h err => Ev.SendCommand h .MovieRecord .Up err) w.log
        (postStop E K g w)) ∧
    (g.g_downloading = false → g.g_scanning = false →
      countsReply K g.g_cameras
        (fun h err => Ev.ExecuteControlCodeValue h .SelectedMediaFormat .QuickFormatSlot1 err)
        w.log (postFormat E K g w)) := by
  refine ⟨?_, ?_, ?_⟩
  · intro hd
    have h := commandAll_reply K (CameraDevice.startRecording E K)
      (fun h err => Ev.SendCommand h .MovieRecord .Down err)
      (fun cam w hc => by simp [CameraDevice.startRecording, hc])
      (fun cam w hc => ⟨_, _, by
        simp only [CameraDevice.startRecording, hc, SCRSDK.SendCommand]
        rfl⟩) g.g_cameras w
    simpa [postStart, hd] using h
  · intro hd
    have h := commandAll_reply K (CameraDevice.stopRecording E K)
      (fun h err => Ev.SendCommand h .MovieRecord .Up err)
      (fun cam w hc => by simp [CameraDevice.stopRecording, hc])
      (fun cam w hc => ⟨_, _, by
        simp only [CameraDevice.stopRecording, hc, SCRSDK.SendCommand]
        rfl⟩) g.g_cameras w
    simpa [postStop, hd] using h
  · intro hd hs
    have h := commandAll_reply K (CameraDevice.formatSlot1 E K)
      (fun h err => Ev.ExecuteControlCodeValue h .SelectedMediaFormat .QuickFormatSlot1 err)
      (fun cam w hc => by simp [CameraDevice.formatSlot1, hc])
      (fun cam w hc => ⟨_, _, by
        simp only [CameraDevice.formatSlot1, hc, SCRSDK.ExecuteControlCodeValue]
        rfl⟩) g.g_cameras w
    simpa [postFormat, hd, hs] using h

/-- Counterexample to C15 as stated: with one connected camera and one that lost its
connection in the registry, `/api/start` (and likewise `/api/stop` and `/api/format`)
replies `ok` 1 and `failed` 1, although one handle is connected: the handle that is not
connected is counted as failed. -/
theorem command_counts_counterexample :
    (postStart (mockEnv emptyScript) exampleCodes { g_cameras := [connectedCam, lostCam] }
      mockStart).1 = countsJson 1 1 ∧
    (postStart (mockEnv emptyScript) exampleCodes { g_cameras := [connectedCam, lostCam] }
      mockStart).2.log = [Ev.SendCommand 1 .MovieRecord .Down 0] ∧
    (postStop (mockEnv emptyScript) exampleCodes { g_cameras := [connectedCam, lostCam] }
      mockStart).1 = countsJson 1 1 ∧
    (postFormat (mockEnv emptyScript) exampleCodes { g_cameras := [connectedCam, lostCam] }
      mockStart).1 = countsJson 1 1 ∧
    countsJson 1 1 = "\x7b\"ok\":1,\"failed\":1\x7d" ∧
    connectedHandles [connectedCam, lostCam] = [1] ∧
    ¬ countsConnectedOnly [connectedCam, lostCam] 1 1 := by
  refine ⟨by decide, by decide, by decide, by decide, by decide, by decide, ?_⟩
  unfold countsConnectedOnly
  decide

/-! ### Waits on completion signals -/

/-- An open attempt that returns has made one `Connect` call, followed by at most one
`ReleaseDevice`. -/
theorem openOnce_log (E : Env σ) (info : ObjInfo) (mode : SdkControlMode)
    (c : CameraDevice) (w : World σ) (r : Bool × CameraDevice × World σ)
    (h : c.openOnce E info mode w = some r) :
    ∃ tr, r.2.2.log = w.log ++ tr ∧ tr.countP Ev.isConnect = 1 := by
  unfold CameraDevice.openOnce at h
  simp only [CameraDevice.setEventPromise, SCRSDK.Connect] at h
  generalize E.Connect w.s info c.m_device_handle mode = rep at h
  have hrel : ∀ (c' : CameraDevice),
      ∃ tr, (c'.releaseIfOpen E (w.step rep.2 (Ev.Connect info mode rep.1))).2.log =
        w.log ++ tr ∧ tr.countP Ev.isConnect = 1 := by
    intro c'
    unfold CameraDevice.releaseIfOpen
    split_ifs
    · exact ⟨[Ev.Connect info mode rep.1, Ev.ReleaseDevice c'.m_device_handle],
        by simp [SCRSDK.ReleaseDevice, World.step], by simp [Ev.isConnect]⟩
    · exact ⟨[Ev.Connect info mode rep.1], by simp [World.step], by simp [Ev.isConnect]⟩
  by_cases herr : rep.1.err = 0
  · simp only [herr, ne_eq, not_true_eq_false, if_false] at h
    split at h
    · cases h
    · simp only [Option.some.injEq] at h
      subst h
      exact hrel _
    · simp only [Option.some.injEq] at h
      subst h
      exact ⟨[Ev.Connect info mode rep.1], by simp [World.step], by simp [Ev.isConnect]⟩
  · simp only [herr, ne_eq, not_false_eq_true, if_true, Option.some.injEq] at h
    subst h
    exact hrel _

theorem retryDelay_no_connect (E : Env σ) (apple : Bool) (w : World σ) :
    ∃ tr, (CameraDevice.retryDelay E apple w).log = w.log ++ tr ∧
      tr.countP Ev.isConnect = 0 := by
  unfold CameraDevice.retryDelay
  split_ifs
  · exact ⟨[Ev.resetUSBDevice, Ev.sleep 4000],
      by simp [sleep_for, resetUSBDevice, World.step], by simp [Ev.isConnect]⟩
  · exact ⟨[Ev.sleep 3000], by simp [sleep_for, World.step], by simp [Ev.isConnect]⟩

/-- When every open of the device is answered, the loop of `connect` with `k` iterations
left returns after at most `k` `Connect` calls. -/
theorem connectLoop_bounded (E : Env σ) (apple : Bool) (info : ObjInfo) (n : Int)
    (hans : ∀ s h, ((E.Connect s info h .Remote).1).answered = true) :
    ∀ (k : Nat) (c : CameraDevice) (w : World σ),
      ∃ r tr, CameraDevice.connectLoop E apple info n k c w = some r ∧
        r.2.2.log = w.log ++ tr ∧ tr.countP Ev.isConnect ≤ k := by
  intro k
  induction k with
  | zero => intro c w; exact ⟨_, [], rfl, by simp, by simp⟩
  | succ k ih =>
    intro c w
    obtain ⟨⟨ok, c1, w1⟩, hopen, -⟩ := openOnce_returns E info .Remote c w (hans _ _)
    obtain ⟨tr1, hl1, hc1⟩ := openOnce_log E info .Remote c w _ hopen
    simp only at hl1
    cases ok with
    | true =>
      exact ⟨(true, c1, w1), tr1, by simp only [CameraDevice.connectLoop, hopen], hl1,
        by omega⟩
    | false =>
      simp only [CameraDevice.connectLoop, hopen]
      split_ifs
      · obtain ⟨tr2, hl2, hc2⟩ := retryDelay_no_connect E apple w1
        obtain ⟨r, tr3, hr, hl3, hc3⟩ := ih c1 (CameraDevice.retryDelay E apple w1)
        refine ⟨r, tr1 ++ tr2 ++ tr3, hr, ?_, ?_⟩
        · rw [hl3, hl2, hl1]
          simp only [List.append_assoc]
        · simp only [List.countP_append]
          omega
      · obtain ⟨r, tr3, hr, hl3, hc3⟩ := ih c1 w1
        refine ⟨r, tr1 ++ tr3, hr, ?_, ?_⟩
        · rw [hl3, hl1]
          simp only [List.append_assoc]
        · simp only [List.countP_append]
          omega

/-- C18, as amended. Waits on completion signals.  The wait of a file pull is bounded: when
the driver accepts the pull and delivers no completion event within the wait, the entry is
counted as an error (and as a file found), the status is "Timeout downloading: " and the
file name, the download promise is unregistered, and the loop body returns, having made only
the detail query, the existence check and the pull.  The waits of `connect` and
`connectContentsTransfer` have no timeout of their own: `connect` returns after at most
`maxRetries` `Connect` calls, and `connectContentsTransfer` after one, provided the driver
answers every open of the device (with an error, or with a completion event after accepting
it). -/
theorem bounded_waits (E : Env σ) (apple : Bool) :
    (∀ (info : ObjInfo) (maxRetries : Int) (c : CameraDevice) (w : World σ),
      (∀ s h, ((E.Connect s info h .Remote).1).answered = true) →
      ∃ r tr, CameraDevice.connect E apple info maxRetries c w = some r ∧
        r.2.2.log = w.log ++ tr ∧ tr.countP Ev.isConnect ≤ maxRetries.toNat) ∧
    (∀ (info : ObjInfo) (c : CameraDevice) (w : World σ),
      ((E.Connect w.s info c.m_device_handle .ContentsTransfer).1).answered = true →
      ∃ r tr, CameraDevice.connectContentsTransfer E info c w = some r ∧
        r.2.2.log = w.log ++ tr ∧ tr.countP Ev.isConnect = 1) ∧
    (∀ (dlPath camName : String) (st : DlState σ) (content : Nat) (info : DetailReply)
      (s1 : σ) (reply : PullReply) (s2 : σ),
      E.GetContentsDetailInfo st.w.s st.cam.m_device_handle content = (info, s1) →
      info.err = 0 →
      E.fsExists s1 (dlPath ++ "/" ++ info.fileName) = false →
      E.PullContentsFile s1 st.cam.m_device_handle content = (reply, s2) →
      reply.outcome = .timedOut →
      (downloadContent E dlPath camName st content).cnt =
        { st.cnt with
          totalFiles := st.cnt.totalFiles + 1
          errorFiles := st.cnt.errorFiles + 1 } ∧
      (downloadContent E dlPath camName st content).g.g_downloadStatus =
        "Timeout downloading: " ++ info.fileName ∧
      (downloadContent E dlPath camName st content).cam.m_downloadPromise = false ∧
      (downloadContent E dlPath camName st content).w.log = st.w.log ++
        [Ev.GetContentsDetailInfo st.cam.m_device_handle content info,
         Ev.fsExists (dlPath ++ "/" ++ info.fileName) false,
         Ev.PullContentsFile st.cam.m_device_handle content reply]) := by
  refine ⟨?_, ?_, ?_⟩
  · intro info n c w hans
    exact connectLoop_bounded E apple info n hans _ _ w
  · intro info c w hans
    obtain ⟨r, hr, -⟩ := openOnce_returns E info .ContentsTransfer
      { c with m_modelId := getModelId info } w hans
    obtain ⟨tr, hl, hc⟩ := openOnce_log E info .ContentsTransfer _ w r hr
    exact ⟨r, tr, hr, hl, hc⟩
  · intro dlPath camName st content info s1 reply s2 hdet herr hex hpull hout
    have herr2 : reply.err = 0 := by
      by_contra hne
      simp [PullReply.outcome, hne] at hout
    have hwait := awaitDownload_registered reply (st.cam.setDownloadPromise true) herr2 rfl
    rw [hout] at hwait
    simp only at hwait
    have hpair := pair_eq_of_fst hwait
    simp only [downloadContent, SCRSDK.GetContentsDetailInfo, hdet, herr, ne_eq,
      not_true_eq_false, if_false, fsExists, World.step, hex, Bool.false_eq_true,
      SCRSDK.PullContentsFile, CameraDevice.setDownloadPromise, hpull, herr2]
    simp only [CameraDevice.setDownloadPromise] at hpair
    rw [hpair]
    simp

/-- Counterexample to C18 as stated: the scripted driver accepts every open and delivers no
completion event.  `connect` (three attempts allowed) and `connectContentsTransfer` do not
return, and neither does `scanAndConnect`. -/
theorem bounded_waits_counterexample :
    ((mockEnv silentScript).Connect mockStart.s fx30A 0 .Remote).1 = ⟨0, 5, [.OnOther]⟩ ∧
    firstCompletion [Callback.OnOther] = none ∧
    (CameraDevice.connect (mockEnv silentScript) false fx30A 3 {} mockStart).isNone = true ∧
    (CameraDevice.connectContentsTransfer (mockEnv silentScript) fx30A {}
      mockStart).isNone = true ∧
    (scanAndConnect (mockEnv silentScript) exampleCodes false false {}
      mockStart).isNone = true := by
  refine ⟨rfl, rfl, rfl, rfl, rfl⟩

/-! ### The health monitor -/

theorem handleView_clearRecovered (cams : List CameraDevice) :
    (cams.map clearRecovered).map handleView = cams.map handleView := by
  rw [List.map_map]
  apply List.map_congr_left
  intro cam _
  simp only [Function.comp, clearRecovered, handleView]
  split_ifs <;> rfl

theorem clearRecovered_connected (cam : CameraDevice) :
    (clearRecovered cam).m_connected = cam.m_connected := by
  unfold clearRecovered
  split_ifs <;> rfl

theorem clearRecovered_handle (cam : CameraDevice) :
    (clearRecovered cam).m_device_handle = cam.m_device_handle := by
  unfold clearRecovered
  split_ifs <;> rfl

/-- The flag `allOk` as the tick computes it, on the registry after the flags were cleared. -/
theorem allOk_clearRecovered (cams : List CameraDevice) :
    allOk (cams.map clearRecovered) = allOk cams := by
  unfold allOk
  congr 1
  · cases cams <;> rfl
  · rw [List.all_map]
    congr 1
    funext cam
    exact clearRecovered_connected cam

theorem allOk_iff (cams : List CameraDevice) :
    allOk cams = true ↔ cams ≠ [] ∧ everyHandleConnected cams := by
  unfold allOk everyHandleConnected
  cases cams with
  | nil => simp
  | cons a l => simp

/-- An evaluated tick, unfolded: the sleep, then the flags cleared, then the three cases. -/
theorem managementTick_evaluated (E : Env σ) (K : SdkCodes) (apple : Bool) (d : Nat)
    (g : Globals) (w : World σ) (hev : evaluatedTick g) :
    managementTick E K apple d g w =
      if allOk g.g_cameras then
        some (0, { g with g_cameras := g.g_cameras.map clearRecovered }, sleep_for E 5000 w)
      else if kResetAfterSecs ≤ d + 5 then
        (scanAndConnect E K apple true { g with g_cameras := [] }
          (disconnectAll E (g.g_cameras.map clearRecovered) (sleep_for E 5000 w))).map
          (fun r => (0, r.1, r.2))
      else
        some (d + 5, { g with g_cameras := g.g_cameras.map clearRecovered },
          sleep_for E 5000 w) := by
  obtain ⟨hr, hd, hs⟩ := hev
  have hcond : ¬ (¬ g.g_running = true ∨ g.g_downloading = true ∨ g.g_scanning = true) := by
    simp [hr, hd, hs]
  have hmap : (g.g_cameras.map (fun cam =>
      if cam.m_connected ∧ cam.m_reconnecting then { cam with m_reconnecting := false }
      else cam)) = g.g_cameras.map clearRecovered := rfl
  have hflag : (¬ (g.g_cameras.map clearRecovered).isEmpty = true ∧
      (g.g_cameras.map clearRecovered).all (fun cam => cam.m_connected) = true) ↔
      allOk g.g_cameras = true := by
    rw [← allOk_clearRecovered]
    simp [allOk]
  unfold managementTick
  simp only [hcond, if_false, hmap]
  by_cases hok : allOk g.g_cameras = true
  · rw [if_pos (hflag.mpr hok), if_pos hok]
  · rw [if_neg (fun h => hok (hflag.mp h)), if_neg hok]
    by_cases hth : kResetAfterSecs ≤ d + 5
    · rw [if_pos hth, if_pos hth]
      cases scanAndConnect E K apple true { g with g_cameras := [] }
        (disconnectAll E (g.g_cameras.map clearRecovered) (sleep_for E 5000 w)) <;> rfl
    · rw [if_neg hth, if_neg hth]

/-- The calls of `disconnect()`. -/
theorem disconnect_log (E : Env σ) (c : CameraDevice) (w : World σ) :
    (c.disconnect E w).2.log = w.log ++ disconnectCalls c := by
  unfold CameraDevice.disconnect disconnectCalls
  cases hc : c.m_connected with
  | false =>
    simp only [Bool.false_eq_true, if_false, CameraDevice.releaseIfOpen, List.nil_append]
    split_ifs
    · simp [SCRSDK.ReleaseDevice, World.step]
    · simp
  | true =>
    have hh := (awaitEvent_frame (E.Disconnect w.s c.m_device_handle).1
      (c.setEventPromise true)).1
    simp only [if_true, CameraDevice.releaseIfOpen, SCRSDK.Disconnect, World.step]
    simp only [CameraDevice.setEventPromise] at hh ⊢
    rw [hh]
    split_ifs
    · simp [SCRSDK.ReleaseDevice, World.step]
    · simp

/-- The calls of the tear-down loop: those of `disconnect()` for every handle, in order. -/
theorem disconnectAll_log (E : Env σ) :
    ∀ (cams : List CameraDevice) (w : World σ),
      (disconnectAll E cams w).log = w.log ++ cams.flatMap disconnectCalls := by
  intro cams
  induction cams with
  | nil => intro w; simp [disconnectAll]
  | cons cam rest ih =>
    intro w
    simp only [disconnectAll, ih, disconnect_log, List.flatMap_cons, List.append_assoc]

theorem disconnectCalls_clearRecovered (cams : List CameraDevice) :
    (cams.map clearRecovered).flatMap disconnectCalls = cams.flatMap disconnectCalls := by
  induction cams with
  | nil => rfl
  | cons cam rest ih =>
    simp only [List.map_cons, List.flatMap_cons, ih]
    congr 1
    simp only [disconnectCalls, clearRecovered_connected, clearRecovered_handle]

/-- A tick keeps the counter among 0, 5, 10 and 15. -/
theorem managementTick_counter (E : Env σ) (K : SdkCodes) (apple : Bool) (d : Nat)
    (g : Globals) (w : World σ) (r : Nat × Globals × World σ) (hd : d ∈ [0, 5, 10, 15])
    (h : managementTick E K apple d g w = some r) : r.1 ∈ [0, 5, 10, 15] := by
  by_cases hev : evaluatedTick g
  · rw [managementTick_evaluated E K apple d g w hev] at h
    split_ifs at h with hok hth
    · simp only [Option.some.injEq] at h
      subst h
      simp
    · cases hs : scanAndConnect E K apple true { g with g_cameras := [] }
          (disconnectAll E (g.g_cameras.map clearRecovered) (sleep_for E 5000 w)) with
      | none => simp [hs] at h
      | some r0 =>
        simp only [hs, Option.map_some', Option.some.injEq] at h
        subst h
        simp
    · simp only [Option.some.injEq] at h
      subst h
      simp only [kResetAfterSecs, not_le] at hth
      simp only [List.mem_cons, List.mem_singleton, List.not_mem_nil, or_false] at hd ⊢
      omega
  · have hbusy : ¬ g.g_running = true ∨ g.g_downloading = true ∨ g.g_scanning = true := by
      unfold evaluatedTick at hev
      by_contra hcon
      simp only [not_or, not_not] at hcon
      exact hev ⟨hcon.1, by simpa using hcon.2.1, by simpa using hcon.2.2⟩
    simp only [managementTick, hbusy, if_true, Option.some.injEq] at h
    subst h
    simp

/-- A run of ticks keeps the counter among 0, 5, 10 and 15. -/
theorem managementRun_counter (E : Env σ) (K : SdkCodes) (apple : Bool) :
    ∀ (gs : List Globals) (d : Nat) (w : World σ) (r : List Nat × World σ),
      d ∈ [0, 5, 10, 15] → managementRun E K apple gs d w = some r →
      ∀ x ∈ r.1, x ∈ [0, 5, 10, 15] := by
  intro gs
  induction gs with
  | nil =>
    intro d w r _ h
    simp only [managementRun, Option.some.injEq] at h
    subst h
    simp
  | cons g gs ih =>
    intro d w r hd h
    cases ht : managementTick E K apple d g w with
    | none => simp [managementRun, ht] at h
    | some t =>
      obtain ⟨d1, g1, w1⟩ := t
      have hd1 : d1 ∈ [0, 5, 10, 15] := managementTick_counter E K apple d g w _ hd ht
      simp only [managementRun, ht] at h
      cases hrest : managementRun E K apple gs d1 w1 with
      | none => simp [hrest] at h
      | some r1 =>
        simp only [hrest, Option.map_some', Option.some.injEq] at h
        subst h
        intro x hx
        simp only [List.mem_cons] at hx
        rcases hx with rfl | hx
        · exact hd1
        · exact ih d1 w1 r1 hd1 hrest x hx

theorem managementTick_below (E : Env σ) (K : SdkCodes) (apple : Bool) (d : Nat)
    (g : Globals) (w : World σ) (hev : evaluatedTick g) (hok : allOk g.g_cameras = false)
    (hd : d + 5 < kResetAfterSecs) :
    managementTick E K apple d g w =
      some (d + 5, { g with g_cameras := g.g_cameras.map clearRecovered },
        sleep_for E 5000 w) := by
  rw [managementTick_evaluated E K apple d g w hev, hok]
  simp only [Bool.false_eq_true, if_false]
  rw [if_neg (by omega)]

theorem managementTick_reset (E : Env σ) (K : SdkCodes) (apple : Bool) (d : Nat)
    (g : Globals) (w : World σ) (hev : evaluatedTick g) (hok : allOk g.g_cameras = false)
    (hd : kResetAfterSecs ≤ d + 5) :
    ∃ w1, w1.log = w.log ++ Ev.sleep 5000 :: g.g_cameras.flatMap disconnectCalls ∧
      managementTick E K apple d g w =
        (scanAndConnect E K apple true { g with g_cameras := [] } w1).map
          (fun r => (0, r.1, r.2)) := by
  refine ⟨disconnectAll E (g.g_cameras.map clearRecovered) (sleep_for E 5000 w), ?_, ?_⟩
  · rw [disconnectAll_log, disconnectCalls_clearRecovered]
    simp [sleep_for, World.step]
  · rw [managementTick_evaluated E K apple d g w hev, hok]
    simp only [Bool.false_eq_true, if_false]
    rw [if_pos hd]

/-- C19. Health-monitor hysteresis.  An evaluated tick that finds the fleet not all connected
adds 5 to the counter and does nothing else while the sum stays below 20: the only call is
the sleep.  When the sum reaches 20 it calls `disconnect()` on every handle, in order, empties
the registry, runs `scanAndConnect(true)` once from the empty registry, and leaves the
counter at 0.  So, from 0, three consecutive such ticks give 5, 10, 15 without any call but
the sleeps, the fourth tears down and gives 0, and on every run the counter between ticks is
one of 0, 5, 10, 15. -/
theorem health_monitor_hysteresis (E : Env σ) (K : SdkCodes) (apple : Bool) :
    (∀ (d : Nat) (g : Globals) (w : World σ),
      evaluatedTick g → allOk g.g_cameras = false → d + 5 < kResetAfterSecs →
      ∃ g' w', managementTick E K apple d g w = some (d + 5, g', w') ∧
        w'.log = w.log ++ [Ev.sleep 5000] ∧
        g'.g_cameras.map handleView = g.g_cameras.map handleView) ∧
    (∀ (d : Nat) (g : Globals) (w : World σ),
      evaluatedTick g → allOk g.g_cameras = false → kResetAfterSecs ≤ d + 5 →
      ∃ w1, w1.log = w.log ++ Ev.sleep 5000 :: g.g_cameras.flatMap disconnectCalls ∧
        managementTick E K apple d g w =
          (scanAndConnect E K apple true { g with g_cameras := [] } w1).map
            (fun r => (0, r.1, r.2))) ∧
    (∀ (g1 g2 g3 : Globals) (w : World σ),
      (∀ g ∈ [g1, g2, g3], evaluatedTick g ∧ allOk g.g_cameras = false) →
      ∃ w', managementRun E K apple [g1, g2, g3] 0 w = some ([5, 10, 15], w') ∧
        w'.log = w.log ++ [Ev.sleep 5000, Ev.sleep 5000, Ev.sleep 5000]) ∧
    ((∀ s info h mode, ((E.Connect s info h mode).1).answered = true) →
      ∀ (g1 g2 g3 g4 : Globals) (w : World σ),
      (∀ g ∈ [g1, g2, g3, g4], evaluatedTick g ∧ allOk g.g_cameras = false) →
      ∃ w', managementRun E K apple [g1, g2, g3, g4] 0 w = some ([5, 10, 15, 0], w')) ∧
    (∀ (gs : List Globals) (d : Nat) (w : World σ) (r : List Nat × World σ),
      d ∈ [0, 5, 10, 15] → managementRun E K apple gs d w = some r →
      ∀ x ∈ r.1, x ∈ [0, 5, 10, 15]) := by
  have three : ∀ (g1 g2 g3 : Globals) (w : World σ),
      (∀ g ∈ [g1, g2, g3], evaluatedTick g ∧ allOk g.g_cameras = false) →
      managementTick E K apple 0 g1 w = some (5,
        { g1 with g_cameras := g1.g_cameras.map clearRecovered }, sleep_for E 5000 w) ∧
      managementTick E K apple 5 g2 (sleep_for E 5000 w) = some (10,
        { g2 with g_cameras := g2.g_cameras.map clearRecovered },
        sleep_for E 5000 (sleep_for E 5000 w)) ∧
      managementTick E K apple 10 g3 (sleep_for E 5000 (sleep_for E 5000 w)) = some (15,
        { g3 with g_cameras := g3.g_cameras.map clearRecovered },
        sleep_for E 5000 (sleep_for E 5000 (sleep_for E 5000 w))) := by
    intro g1 g2 g3 w h
    have h1 := h g1 (by simp)
    have h2 := h g2 (by simp)
    have h3 := h g3 (by simp)
    exact ⟨managementTick_below E K apple 0 g1 _ h1.1 h1.2 (by decide),
      managementTick_below E K apple 5 g2 _ h2.1 h2.2 (by decide),
      managementTick_below E K apple 10 g3 _ h3.1 h3.2 (by decide)⟩
  refine ⟨?_, managementTick_reset E K apple, ?_, ?_, managementRun_counter E K apple⟩
  · intro d g w hev hok hd
    exact ⟨_, _, managementTick_below E K apple d g w hev hok hd,
      by simp [sleep_for, World.step], handleView_clearRecovered g.g_cameras⟩
  · intro g1 g2 g3 w h
    obtain ⟨t1, t2, t3⟩ := three g1 g2 g3 w h
    refine ⟨sleep_for E 5000 (sleep_for E 5000 (sleep_for E 5000 w)), ?_, ?_⟩
    · simp only [managementRun, t1, t2, t3, Option.map_some']
    · simp [sleep_for, World.step]
  · intro hans g1 g2 g3 g4 w h
    obtain ⟨t1, t2, t3⟩ := three g1 g2 g3 w
      (fun g hg => h g (by
        simp only [List.mem_cons, List.mem_singleton, List.not_mem_nil, or_false] at hg ⊢
        tauto))
    have h4 := h g4 (by simp)
    obtain ⟨w1, -, t4⟩ := managementTick_reset E K apple 15 g4
      (sleep_for E 5000 (sleep_for E 5000 (sleep_for E 5000 w))) h4.1 h4.2 (by decide)
    obtain ⟨r, hr, -⟩ := scanAndConnect_returns E K apple true hans
      { g4 with g_cameras := [] } w1
    rw [hr] at t4
    exact ⟨r.2, by simp only [managementRun, t1, t2, t3, t4, Option.map_some']⟩

/-- C20, as amended. A healthy tick resets the counter.  For every evaluated tick on a
registry that is not empty and in which every handle is connected, the counter becomes 0 and
the only call is the sleep: no disconnect, no rescan, and the registry holds the same handles
(with `m_reconnecting` cleared).  A registry with no handles does not count as healthy: the
tick adds 5 to the counter as it does for a fleet that is not all connected. -/
theorem healthy_tick_resets (E : Env σ) (K : SdkCodes) (apple : Bool) :
    (∀ (d : Nat) (g : Globals) (w : World σ),
      evaluatedTick g → g.g_cameras ≠ [] → everyHandleConnected g.g_cameras →
      ∃ g' w', managementTick E K apple d g w = some (0, g', w') ∧
        w'.log = w.log ++ [Ev.sleep 5000] ∧
        g'.g_cameras.map handleView = g.g_cameras.map handleView ∧
        g' = { g with g_cameras := g.g_cameras.map clearRecovered }) ∧
    (∀ (d : Nat) (g : Globals) (w : World σ),
      evaluatedTick g → g.g_cameras = [] → d + 5 < kResetAfterSecs →
      ∃ w', managementTick E K apple d g w = some (d + 5, g, w') ∧
        w'.log = w.log ++ [Ev.sleep 5000]) := by
  constructor
  · intro d g w hev hne hall
    have hok : allOk g.g_cameras = true := (allOk_iff _).mpr ⟨hne, hall⟩
    refine ⟨{ g with g_cameras := g.g_cameras.map clearRecovered }, sleep_for E 5000 w,
      ?_, ?_, handleView_clearRecovered g.g_cameras, rfl⟩
    · rw [managementTick_evaluated E K apple d g w hev, if_pos hok]
    · simp [sleep_for, World.step]
  · intro d g w hev hempty hd
    have hok : allOk g.g_cameras = false := by
      rw [hempty]
      rfl
    refine ⟨sleep_for E 5000 w, ?_, by simp [sleep_for, World.step]⟩
    rw [managementTick_below E K apple d g w hev hok hd, hempty]
    cases g
    simp only [List.map_nil] at hempty ⊢
    subst hempty
    rfl

/-- Counterexample to C20 as stated: on a registry with no handles (in which every known
handle is connected) the evaluated tick does not reset the counter: from 0 it gives 5, and
from 15 it rescans. -/
theorem healthy_tick_counterexample :
    evaluatedTick ({} : Globals) ∧ everyHandleConnected ({} : Globals).g_cameras ∧
    (managementTick (mockEnv emptyScript) exampleCodes false 0 {} mockStart).map
      (fun r => r.1) = some 5 ∧
    (managementTick (mockEnv emptyScript) exampleCodes false 15 {} mockStart).map
      (fun r => (r.1, r.2.2.log)) =
      some (0, [Ev.sleep 5000, Ev.EnumCameraObjects ⟨0, some []⟩, Ev.EnumRelease]) := by
  refine ⟨⟨rfl, rfl, rfl⟩, ?_, by decide, by decide⟩
  intro cam hcam
  cases hcam

/-! ### Accepting a long operation -/

/-- C28. Accepting a long operation does not mark it busy.  On their accept path the
handlers of `/api/scan`, `/api/reset` and `/api/download` spawn the task and leave
`scanning` and `downloading` as they were (scan and reset leave all globals as they were;
download may set the download path).  So the same request handled a second time, on the
globals the first handling left, is accepted again and spawns a second task. -/
theorem accept_not_busy (g : Globals) (body : String) :
    (g.g_downloading = false → g.g_scanning = false →
      (postScan g).spawned = [.scan] ∧ (postScan g).g = g ∧
      (postScan (postScan g).g).spawned = [.scan] ∧
      (postReset g).spawned = [.reset] ∧ (postReset g).g = g ∧
      (postReset (postReset g).g).spawned = [.reset]) ∧
    (g.g_downloading = false →
      (postDownload body g).spawned = [.download] ∧
      (postDownload body g).g.g_downloading = false ∧
      (postDownload body g).g.g_scanning = g.g_scanning ∧
      (postDownload body (postDownload body g).g).spawned = [.download]) := by
  constructor
  · intro hd hs
    have h1 : postScan g = ⟨g, "\x7b\"status\":\"scan started\"\x7d", [.scan]⟩ := by
      simp [postScan, hd, hs]
    have h2 : postReset g = ⟨g, "\x7b\"status\":\"reset started\"\x7d", [.reset]⟩ := by
      simp [postReset, hd, hs]
    rw [h1, h2]
    simp only [h1, h2, and_self]
  · intro hd
    have hflags : (postDownload body g).g.g_downloading = false ∧
        (postDownload body g).g.g_scanning = g.g_scanning := by
      simp only [postDownload, hd, Bool.false_eq_true, if_false]
      split_ifs <;> first | exact ⟨rfl, rfl⟩ | exact ⟨hd, rfl⟩
    have hspawn : ∀ g0 : Globals, g0.g_downloading = false →
        (postDownload body g0).spawned = [.download] := by
      intro g0 h0
      simp [postDownload, h0]
    exact ⟨hspawn g hd, hflags.1, hflags.2, hspawn _ hflags.1⟩

/-! ### Completion signals -/

/-- A callback delivered while the event slot is empty resolves no event promise and leaves
the slot empty. -/
theorem deliver_event_empty (c : CameraDevice) (cb : Callback)
    (h : c.m_eventPromise = false) :
    (c.deliver cb).event = none ∧ (c.deliver cb).cam.m_eventPromise = false := by
  cases cb with
  | OnConnected => simp [CameraDevice.deliver, CameraDevice.OnConnected, h]
  | OnDisconnected e => simp [CameraDevice.deliver, CameraDevice.OnDisconnected, h]
  | OnError e => simp [CameraDevice.deliver, CameraDevice.OnError, h]
  | OnWarning wn =>
    simp only [CameraDevice.deliver, CameraDevice.OnWarning]
    split_ifs <;> simp [h]
  | OnNotifyContentsTransfer n =>
    cases n <;> simp only [CameraDevice.deliver, CameraDevice.OnNotifyContentsTransfer] <;>
      (try split_ifs) <;> simp [h]
  | OnOther => simp [CameraDevice.deliver, h]

/-- A completing callback delivered while the event slot holds a promise resolves it and
empties the slot. -/
theorem deliver_event_completes (c : CameraDevice) (cb : Callback)
    (h : c.m_eventPromise = true) (hcb : cb.completesEvent = true) :
    (c.deliver cb).event.isSome = true ∧ (c.deliver cb).cam.m_eventPromise = false := by
  cases cb with
  | OnConnected => simp [CameraDevice.deliver, CameraDevice.OnConnected, h]
  | OnDisconnected e => simp [CameraDevice.deliver, CameraDevice.OnDisconnected, h]
  | OnError e => simp [CameraDevice.deliver, CameraDevice.OnError, h]
  | OnWarning wn => simp [Callback.completesEvent] at hcb
  | OnNotifyContentsTransfer n => simp [Callback.completesEvent] at hcb
  | OnOther => simp [Callback.completesEvent] at hcb

/-- A callback delivered while the download slot is empty resolves no download promise and
leaves the slot empty. -/
theorem deliver_download_empty (c : CameraDevice) (cb : Callback)
    (h : c.m_downloadPromise = false) :
    (c.deliver cb).download = none ∧ (c.deliver cb).cam.m_downloadPromise = false := by
  cases cb with
  | OnConnected =>
    simp only [CameraDevice.deliver, CameraDevice.OnConnected]
    split_ifs <;> simp [h]
  | OnDisconnected e =>
    simp only [CameraDevice.deliver, CameraDevice.OnDisconnected]
    split_ifs <;> simp [h]
  | OnError e =>
    simp only [CameraDevice.deliver, CameraDevice.OnError]
    split_ifs <;> simp [h]
  | OnWarning wn =>
    simp only [CameraDevice.deliver, CameraDevice.OnWarning]
    split_ifs <;> simp_all
  | OnNotifyContentsTransfer n =>
    cases n <;> simp [CameraDevice.deliver, CameraDevice.OnNotifyContentsTransfer, h]
  | OnOther => simp [CameraDevice.deliver, h]

/-- A completing callback delivered while the download slot holds a promise resolves it and
empties the slot. -/
theorem deliver_download_completes (c : CameraDevice) (cb : Callback)
    (h : c.m_downloadPromise = true) (hcb : cb.completesDownload = true) :
    (c.deliver cb).download.isSome = true ∧ (c.deliver cb).cam.m_downloadPromise = false := by
  cases cb with
  | OnConnected => simp [Callback.completesDownload] at hcb
  | OnDisconnected e => simp [Callback.completesDownload] at hcb
  | OnError e => simp [Callback.completesDownload] at hcb
  | OnWarning wn =>
    cases wn <;> simp [Callback.completesDownload] at hcb <;>
      simp [CameraDevice.deliver, CameraDevice.OnWarning, h]
  | OnNotifyContentsTransfer n =>
    cases n <;> simp [Callback.completesDownload] at hcb <;>
      simp [CameraDevice.deliver, CameraDevice.OnNotifyContentsTransfer, h]
  | OnOther => simp [Callback.completesDownload] at hcb

theorem deliverAll_append (c : CameraDevice) (a b : List Callback) :
    deliverAll c (a ++ b) =
      ((deliverAll (deliverAll c a).1 b).1,
        (deliverAll c a).2 ++ (deliverAll (deliverAll c a).1 b).2) := by
  induction a generalizing c with
  | nil => simp [deliverAll]
  | cons cb rest ih => simp [deliverAll, ih]

theorem deliverAll_length (c : CameraDevice) (cbs : List Callback) :
    (deliverAll c cbs).2.length = cbs.length := by
  induction cbs generalizing c with
  | nil => rfl
  | cons cb rest ih => simp [deliverAll, ih]

/-- With the event slot empty, no callback of a sequence resolves an event promise. -/
theorem deliverAll_event_empty (cbs : List Callback) (c : CameraDevice)
    (h : c.m_eventPromise = false) :
    eventResolutions (deliverAll c cbs).2 = List.replicate cbs.length none ∧
      (deliverAll c cbs).1.m_eventPromise = false := by
  induction cbs generalizing c with
  | nil => exact ⟨rfl, h⟩
  | cons cb rest ih =>
    obtain ⟨h1, h2⟩ := deliver_event_empty c cb h
    obtain ⟨h3, h4⟩ := ih (c.deliver cb).cam h2
    simp only [eventResolutions] at h3 ⊢
    exact ⟨by simp [deliverAll, h1, h3, List.replicate_succ], by simpa [deliverAll] using h4⟩

/-- Callbacks that do not complete an event leave the event slot as it is. -/
theorem deliverAll_event_pending (cbs : List Callback) (c : CameraDevice)
    (h : ∀ cb ∈ cbs, cb.completesEvent = false) :
    eventResolutions (deliverAll c cbs).2 = List.replicate cbs.length none ∧
      (deliverAll c cbs).1.m_eventPromise = c.m_eventPromise := by
  induction cbs generalizing c with
  | nil => exact ⟨rfl, rfl⟩
  | cons cb rest ih =>
    obtain ⟨h1, h2, -⟩ := deliver_not_completes c cb (h cb (by simp))
    obtain ⟨h3, h4⟩ := ih (c.deliver cb).cam (fun x hx => h x (List.mem_cons_of_mem _ hx))
    simp only [eventResolutions] at h3 ⊢
    exact ⟨by simp [deliverAll, h1, h3, List.replicate_succ],
      by simpa [deliverAll, h2] using h4⟩

theorem deliverAll_download_empty (cbs : List Callback) (c : CameraDevice)
    (h : c.m_downloadPromise = false) :
    downloadResolutions (deliverAll c cbs).2 = List.replicate cbs.length none ∧
      (deliverAll c cbs).1.m_downloadPromise = false := by
  induction cbs generalizing c with
  | nil => exact ⟨rfl, h⟩
  | cons cb rest ih =>
    obtain ⟨h1, h2⟩ := deliver_download_empty c cb h
    obtain ⟨h3, h4⟩ := ih (c.deliver cb).cam h2
    simp only [downloadResolutions] at h3 ⊢
    exact ⟨by simp [deliverAll, h1, h3, List.replicate_succ], by simpa [deliverAll] using h4⟩

theorem deliverAll_download_pending (cbs : List Callback) (c : CameraDevice)
    (h : ∀ cb ∈ cbs, cb.completesDownload = false) :
    downloadResolutions (deliverAll c cbs).2 = List.replicate cbs.length none ∧
      (deliverAll c cbs).1.m_downloadPromise = c.m_downloadPromise := by
  induction cbs generalizing c with
  | nil => exact ⟨rfl, rfl⟩
  | cons cb rest ih =>
    obtain ⟨h1, h2⟩ := deliver_frame_download c cb (h cb (by simp))
    obtain ⟨h3, h4⟩ := ih (c.deliver cb).cam (fun x hx => h x (List.mem_cons_of_mem _ hx))
    simp only [downloadResolutions] at h3 ⊢
    exact ⟨by simp [deliverAll, h1, h3, List.replicate_succ],
      by simpa [deliverAll, h2] using h4⟩

/-- The event promise is resolved at most once, and not at all when the slot is empty. -/
theorem deliverAll_event_once (cbs : List Callback) (c : CameraDevice) :
    (eventResolutions (deliverAll c cbs).2).countP Option.isSome ≤
      if c.m_eventPromise then 1 else 0 := by
  induction cbs generalizing c with
  | nil => simp [deliverAll, eventResolutions]
  | cons cb rest ih =>
    have hrest := ih (c.deliver cb).cam
    simp only [deliverAll, eventResolutions, List.map_cons, List.countP_cons] at hrest ⊢
    cases hslot : c.m_eventPromise with
    | false =>
      obtain ⟨h1, h2⟩ := deliver_event_empty c cb hslot
      simp only [h1, h2, Bool.false_eq_true, if_false] at hrest ⊢
      simpa using hrest
    | true =>
      cases hcb : cb.completesEvent with
      | false =>
        obtain ⟨h1, h2, -⟩ := deliver_not_completes c cb hcb
        simp only [h1, h2, hslot, if_true] at hrest ⊢
        simpa using hrest
      | true =>
        obtain ⟨h1, h2⟩ := deliver_event_completes c cb hslot hcb
        simp only [h1, h2, Bool.false_eq_true, if_false, if_true] at hrest ⊢
        omega

theorem deliverAll_download_once (cbs : List Callback) (c : CameraDevice) :
    (downloadResolutions (deliverAll c cbs).2).countP Option.isSome ≤
      if c.m_downloadPromise then 1 else 0 := by
  induction cbs generalizing c with
  | nil => simp [deliverAll, downloadResolutions]
  | cons cb rest ih =>
    have hrest := ih (c.deliver cb).cam
    simp only [deliverAll, downloadResolutions, List.map_cons, List.countP_cons] at hrest ⊢
    cases hslot : c.m_downloadPromise with
    | false =>
      obtain ⟨h1, h2⟩ := deliver_download_empty c cb hslot
      simp only [h1, h2, Bool.false_eq_true, if_false] at hrest ⊢
      simpa using hrest
    | true =>
      cases hcb : cb.completesDownload with
      | false =>
        obtain ⟨h1, h2⟩ := deliver_frame_download c cb hcb
        simp only [h1, h2, hslot, if_true] at hrest ⊢
        simpa using hrest
      | true =>
        obtain ⟨h1, h2⟩ := deliver_download_completes c cb hslot hcb
        simp only [h1, h2, Bool.false_eq_true, if_false, if_true] at hrest ⊢
        omega

/-- C24. Single resolution.  For every device state and every sequence of callbacks delivered
to it: the event promise and the download promise are each resolved at most once; with a
promise registered, it is resolved by the first callback that completes it and by no other,
and that callback empties the slot; with no completing callback it stays registered and
unresolved; with the slot empty nothing is resolved and the slot stays empty; and a
ContentsTransfer Start notification and a Reconnecting warning resolve nothing. -/
theorem single_resolution (c : CameraDevice) (cbs : List Callback) :
    (eventResolutions (deliverAll c cbs).2).countP Option.isSome ≤ 1 ∧
    (downloadResolutions (deliverAll c cbs).2).countP Option.isSome ≤ 1 ∧
    (c.m_eventPromise = true → ∀ pre cb post, cbs = pre ++ cb :: post →
      (∀ x ∈ pre, x.completesEvent = false) → cb.completesEvent = true →
      ∃ r, eventResolutions (deliverAll c cbs).2 =
          List.replicate pre.length none ++ some r :: List.replicate post.length none ∧
        (deliverAll c (pre ++ [cb])).1.m_eventPromise = false ∧
        (deliverAll c cbs).1.m_eventPromise = false) ∧
    (c.m_downloadPromise = true → ∀ pre cb post, cbs = pre ++ cb :: post →
      (∀ x ∈ pre, x.completesDownload = false) → cb.completesDownload = true →
      ∃ r, downloadResolutions (deliverAll c cbs).2 =
          List.replicate pre.length none ++ some r :: List.replicate post.length none ∧
        (deliverAll c (pre ++ [cb])).1.m_downloadPromise = false ∧
        (deliverAll c cbs).1.m_downloadPromise = false) ∧
    ((∀ x ∈ cbs, x.completesEvent = false) →
      eventResolutions (deliverAll c cbs).2 = List.replicate cbs.length none ∧
      (deliverAll c cbs).1.m_eventPromise = c.m_eventPromise) ∧
    ((∀ x ∈ cbs, x.completesDownload = false) →
      downloadResolutions (deliverAll c cbs).2 = List.replicate cbs.length none ∧
      (deliverAll c cbs).1.m_downloadPromise = c.m_downloadPromise) ∧
    (c.m_eventPromise = false →
      eventResolutions (deliverAll c cbs).2 = List.replicate cbs.length none ∧
      (deliverAll c cbs).1.m_eventPromise = false) ∧
    (c.m_downloadPromise = false →
      downloadResolutions (deliverAll c cbs).2 = List.replicate cbs.length none ∧
      (deliverAll c cbs).1.m_downloadPromise = false) ∧
    ((c.deliver (.OnNotifyContentsTransfer .ContentsTransfer_Start)).event = none ∧
      (c.deliver (.OnNotifyContentsTransfer .ContentsTransfer_Start)).download = none ∧
      (c.deliver (.OnWarning .Connect_Reconnecting)).event = none ∧
      (c.deliver (.OnWarning .Connect_Reconnecting)).download = none) := by
  refine ⟨?_, ?_, ?_, ?_, deliverAll_event_pending cbs c, deliverAll_download_pending cbs c,
    deliverAll_event_empty cbs c, deliverAll_download_empty cbs c, ⟨rfl, rfl, rfl, rfl⟩⟩
  · have := deliverAll_event_once cbs c
    split_ifs at this <;> omega
  · have := deliverAll_download_once cbs c
    split_ifs at this <;> omega
  · intro hslot pre cb post hcbs hpre hcb
    subst hcbs
    obtain ⟨hp1, hp2⟩ := deliverAll_event_pending pre c hpre
    rw [hslot] at hp2
    obtain ⟨hc1, hc2⟩ := deliver_event_completes (deliverAll c pre).1 cb hp2 hcb
    obtain ⟨r, hr⟩ := Option.isSome_iff_exists.mp hc1
    obtain ⟨hq1, hq2⟩ := deliverAll_event_empty post _ hc2
    refine ⟨r, ?_, ?_, ?_⟩
    · rw [deliverAll_append]
      simp only [eventResolutions, List.map_append, deliverAll, List.map_cons] at hp1 hq1 ⊢
      rw [hp1, hq1, hr]
    · rw [deliverAll_append]
      simpa [deliverAll] using hc2
    · rw [deliverAll_append]
      simpa [deliverAll] using hq2
  · intro hslot pre cb post hcbs hpre hcb
    subst hcbs
    obtain ⟨hp1, hp2⟩ := deliverAll_download_pending pre c hpre
    rw [hslot] at hp2
    obtain ⟨hc1, hc2⟩ := deliver_download_completes (deliverAll c pre).1 cb hp2 hcb
    obtain ⟨r, hr⟩ := Option.isSome_iff_exists.mp hc1
    obtain ⟨hq1, hq2⟩ := deliverAll_download_empty post _ hc2
    refine ⟨r, ?_, ?_, ?_⟩
    · rw [deliverAll_append]
      simp only [downloadResolutions, List.map_append, deliverAll, List.map_cons] at hp1 hq1 ⊢
      rw [hp1, hq1, hr]
    · rw [deliverAll_append]
      simpa [deliverAll] using hc2
    · rw [deliverAll_append]
      simpa [deliverAll] using hq2

/-- A callback that resolves the event promise empties the slot. -/
theorem deliver_event_some (c : CameraDevice) (cb : Callback) (r : Resolution)
    (h : (c.deliver cb).event = some r) : (c.deliver cb).cam.m_eventPromise = false := by
  cases hslot : c.m_eventPromise with
  | false =>
    rw [(deliver_event_empty c cb hslot).1] at h
    cases h
  | true =>
    cases hcb : cb.completesEvent with
    | false =>
      rw [(deliver_not_completes c cb hcb).1] at h
      cases h
    | true => exact (deliver_event_completes c cb hslot hcb).2

/-- A wait on the event future that ends resolved ends with the slot empty. -/
theorem awaitEvent_resolved (events : List Callback) (c : CameraDevice) (r : Resolution)
    (h : (c.awaitEvent events).1 = some r) : (c.awaitEvent events).2.m_eventPromise = false := by
  induction events generalizing c with
  | nil => simp [CameraDevice.awaitEvent] at h
  | cons cb rest ih =>
    simp only [CameraDevice.awaitEvent] at h ⊢
    cases hd : (c.deliver cb).event with
    | some r' =>
      simp only [hd]
      exact deliver_event_some c cb r' hd
    | none =>
      simp only [hd] at h ⊢
      exact ih _ h

/-- A wait on the event future that ends without a completion event ends with the slot as it
was. -/
theorem awaitEvent_pending (events : List Callback) (c : CameraDevice)
    (h : firstCompletion events = none) :
    (c.awaitEvent events).2.m_eventPromise = c.m_eventPromise := by
  induction events generalizing c with
  | nil => rfl
  | cons cb rest ih =>
    have hcb : cb.completesEvent = false := by
      by_contra hne
      simp only [Bool.not_eq_false] at hne
      simp [firstCompletion, List.find?_cons, hne] at h
    have hrest : firstCompletion rest = none := by
      simpa [firstCompletion, List.find?_cons, hcb] using h
    obtain ⟨h1, h2, -⟩ := deliver_not_completes c cb hcb
    simp only [CameraDevice.awaitEvent, h1]
    rw [ih _ hrest, h2]

theorem releaseIfOpen_slots (E : Env σ) (c : CameraDevice) (w : World σ) :
    (c.releaseIfOpen E w).1.m_eventPromise = c.m_eventPromise ∧
    (c.releaseIfOpen E w).1.m_downloadPromise = c.m_downloadPromise := by
  unfold CameraDevice.releaseIfOpen
  split_ifs <;> exact ⟨rfl, rfl⟩

/-- An open attempt that returns leaves the event slot empty. -/
theorem openOnce_slot (E : Env σ) (info : ObjInfo) (mode : SdkControlMode)
    (c : CameraDevice) (w : World σ) (r : Bool × CameraDevice × World σ)
    (h : c.openOnce E info mode w = some r) : r.2.1.m_eventPromise = false := by
  unfold CameraDevice.openOnce at h
  simp only [CameraDevice.setEventPromise, SCRSDK.Connect] at h
  generalize E.Connect w.s info c.m_device_handle mode = rep at h
  by_cases herr : rep.1.err = 0
  · simp only [herr, ne_eq, not_true_eq_false, if_false] at h
    have hres := awaitEvent_resolved rep.1.events
      ({ c with m_eventPromise := true, m_device_handle := rep.1.handle } : CameraDevice)
    generalize CameraDevice.awaitEvent rep.1.events
      ({ c with m_eventPromise := true, m_device_handle := rep.1.handle } : CameraDevice) = a
      at h hres
    obtain ⟨res, c'⟩ := a
    cases res with
    | none => simp at h
    | some rr =>
      have hslot := hres rr rfl
      simp only at hslot
      cases rr with
      | value =>
        simp only [Option.some.injEq] at h
        subst h
        exact hslot
      | exception =>
        simp only [Option.some.injEq] at h
        subst h
        rw [(releaseIfOpen_slots E c' _).1]
        exact hslot
  · simp only [herr, ne_eq, not_false_eq_true, if_true, Option.some.injEq] at h
    subst h
    rw [(releaseIfOpen_slots E _ _).1]

/-- The loop of `connect`, when it returns, leaves the event slot empty if it made an attempt
and as it was otherwise. -/
theorem connectLoop_slot (E : Env σ) (apple : Bool) (info : ObjInfo) (n : Int) :
    ∀ (k : Nat) (c : CameraDevice) (w : World σ) (r : Bool × CameraDevice × World σ),
      CameraDevice.connectLoop E apple info n k c w = some r →
      r.2.1.m_eventPromise = (if k = 0 then c.m_eventPromise else false) := by
  intro k
  induction k with
  | zero =>
    intro c w r h
    simp only [CameraDevice.connectLoop, Option.some.injEq] at h
    subst h
    rfl
  | succ k ih =>
    intro c w r h
    simp only [Nat.succ_ne_zero, if_false]
    cases hopen : c.openOnce E info .Remote w with
    | none => simp [CameraDevice.connectLoop, hopen] at h
    | some o =>
      obtain ⟨ok, c1, w1⟩ := o
      have hs := openOnce_slot E info .Remote c w _ hopen
      simp only at hs
      cases ok with
      | true =>
        simp only [CameraDevice.connectLoop, hopen, Option.some.injEq] at h
        subst h
        exact hs
      | false =>
        simp only [CameraDevice.connectLoop, hopen] at h
        have := ih c1 _ r h
        rw [this]
        split_ifs
        · exact hs
        · rfl

/-- A callback that resolves the download promise empties the slot. -/
theorem deliver_download_some (c : CameraDevice) (cb : Callback) (r : Resolution)
    (h : (c.deliver cb).download = some r) : (c.deliver cb).cam.m_downloadPromise = false := by
  cases hslot : c.m_downloadPromise with
  | false =>
    rw [(deliver_download_empty c cb hslot).1] at h
    cases h
  | true =>
    cases hcb : cb.completesDownload with
    | false =>
      rw [(deliver_frame_download c cb hcb).1] at h
      cases h
    | true => exact (deliver_download_completes c cb hslot hcb).2

/-- A wait on the download future that ends resolved ends with the slot empty. -/
theorem awaitDownload_resolved (events : List Callback) (c : CameraDevice) (r : Resolution)
    (h : (c.awaitDownload events).1 = some r) :
    (c.awaitDownload events).2.m_downloadPromise = false := by
  induction events generalizing c with
  | nil => simp [CameraDevice.awaitDownload] at h
  | cons cb rest ih =>
    simp only [CameraDevice.awaitDownload] at h ⊢
    cases hd : (c.deliver cb).download with
    | some r' =>
      simp only [hd]
      exact deliver_download_some c cb r' hd
    | none =>
      simp only [hd] at h ⊢
      exact ih _ h

/-- The loop body of the download, when it issues a pull, leaves the download slot empty,
however the pull ends. -/
theorem downloadContent_slot (E : Env σ) (dlPath camName : String) (st : DlState σ)
    (content : Nat)
    (hdet : (E.GetContentsDetailInfo st.w.s st.cam.m_device_handle content).1.err = 0)
    (hnew : E.fsExists (E.GetContentsDetailInfo st.w.s st.cam.m_device_handle content).2
      (dlPath ++ "/" ++
        (E.GetContentsDetailInfo st.w.s st.cam.m_device_handle content).1.fileName) = false) :
    (downloadContent E dlPath camName st content).cam.m_downloadPromise = false := by
  by_cases herr : (E.PullContentsFile
      (E.GetContentsDetailInfo st.w.s st.cam.m_device_handle content).2
      st.cam.m_device_handle content).1.err = 0
  · simp only [downloadContent, SCRSDK.GetContentsDetailInfo, hdet, ne_eq, not_true_eq_false,
      if_false, fsExists, World.step, hnew, Bool.false_eq_true, SCRSDK.PullContentsFile,
      CameraDevice.setDownloadPromise, herr]
    have hres := awaitDownload_resolved
      (E.PullContentsFile (E.GetContentsDetailInfo st.w.s st.cam.m_device_handle content).2
        st.cam.m_device_handle content).1.events
      ({ st.cam with m_downloadPromise := true } : CameraDevice)
    generalize CameraDevice.awaitDownload
      (E.PullContentsFile (E.GetContentsDetailInfo st.w.s st.cam.m_device_handle content).2
        st.cam.m_device_handle content).1.events
      ({ st.cam with m_downloadPromise := true } : CameraDevice) = a at hres
    obtain ⟨res, c'⟩ := a
    cases res with
    | none => rfl
    | some rr =>
      have := hres rr rfl
      cases rr <;> exact this
  · simp only [downloadContent, SCRSDK.GetContentsDetailInfo, hdet, ne_eq, not_true_eq_false,
      if_false, fsExists, World.step, hnew, Bool.false_eq_true, SCRSDK.PullContentsFile,
      CameraDevice.setDownloadPromise, herr, not_false_eq_true, if_true]

/-- What `disconnect()` leaves in the event slot: the slot as it was on a handle that is not
connected; empty when a completion event arrived during the wait; and still registered when
none did. -/
theorem disconnect_slot (E : Env σ) (c : CameraDevice) (w : World σ) :
    (c.m_connected = false → (c.disconnect E w).1.m_eventPromise = c.m_eventPromise) ∧
    (c.m_connected = true →
      (firstCompletion (E.Disconnect w.s c.m_device_handle).1).isSome = true →
      (c.disconnect E w).1.m_eventPromise = false) ∧
    (c.m_connected = true →
      firstCompletion (E.Disconnect w.s c.m_device_handle).1 = none →
      (c.disconnect E w).1.m_eventPromise = true) := by
  refine ⟨?_, ?_, ?_⟩
  · intro hc
    simp only [CameraDevice.disconnect, hc, Bool.false_eq_true, if_false]
    exact (releaseIfOpen_slots E c w).1
  · intro hc hev
    simp only [CameraDevice.disconnect, hc, if_true, SCRSDK.Disconnect]
    rw [(releaseIfOpen_slots E _ _).1]
    have hreg := awaitEvent_registered (E.Disconnect w.s c.m_device_handle).1
      (c.setEventPromise true) rfl
    obtain ⟨cb, hcb⟩ := Option.isSome_iff_exists.mp hev
    have hsome : ∃ r, ((c.setEventPromise true).awaitEvent
        (E.Disconnect w.s c.m_device_handle).1).1 = some r := by
      rw [hcb] at hreg
      cases cb with
      | OnConnected => exact ⟨_, hreg.1⟩
      | OnDisconnected e => exact ⟨_, hreg.1⟩
      | OnError e => exact ⟨_, hreg⟩
      | OnWarning wn =>
        have := List.find?_some hcb
        simp [Callback.completesEvent] at this
      | OnNotifyContentsTransfer n =>
        have := List.find?_some hcb
        simp [Callback.completesEvent] at this
      | OnOther =>
        have := List.find?_some hcb
        simp [Callback.completesEvent] at this
    obtain ⟨r, hr⟩ := hsome
    exact awaitEvent_resolved _ _ r hr
  · intro hc hev
    simp only [CameraDevice.disconnect, hc, if_true, SCRSDK.Disconnect]
    rw [(releaseIfOpen_slots E _ _).1]
    exact awaitEvent_pending _ (c.setEventPromise true) hev

/-- C23. Completion-signal registrations after the operation returned.  `connect` (when it
makes an attempt), `connectContentsTransfer` and a file pull leave their slot empty however
they end, and so does `disconnect()` when a completion event arrives during its wait.  But
when the three-second wait of `disconnect()` on a connected handle ends without a completion
event, `disconnect()` returns with `m_eventPromise` still registered (to a promise that is
gone), so that an `OnDisconnected`, `OnConnected` or `OnError` delivered afterwards resolves
it instead of being a no-op.  The last part is evaluated on the scripted camera, whose driver
delivers nothing on `Disconnect`. -/
theorem disconnect_timeout_stale_promise (E : Env σ) (apple : Bool) :
    (∀ (info : ObjInfo) (maxRetries : Int) (c : CameraDevice) (w : World σ)
      (r : Bool × CameraDevice × World σ),
      0 < maxRetries → CameraDevice.connect E apple info maxRetries c w = some r →
      r.2.1.m_eventPromise = false) ∧
    (∀ (info : ObjInfo) (c : CameraDevice) (w : World σ) (r : Bool × CameraDevice × World σ),
      CameraDevice.connectContentsTransfer E info c w = some r →
      r.2.1.m_eventPromise = false) ∧
    (∀ (dlPath camName : String) (st : DlState σ) (content : Nat),
      (E.GetContentsDetailInfo st.w.s st.cam.m_device_handle content).1.err = 0 →
      E.fsExists (E.GetContentsDetailInfo st.w.s st.cam.m_device_handle content).2
        (dlPath ++ "/" ++
          (E.GetContentsDetailInfo st.w.s st.cam.m_device_handle content).1.fileName) = false →
      (downloadContent E dlPath camName st content).cam.m_downloadPromise = false) ∧
    (∀ (c : CameraDevice) (w : World σ), c.m_connected = true →
      (firstCompletion (E.Disconnect w.s c.m_device_handle).1).isSome = true →
      (c.disconnect E w).1.m_eventPromise = false) ∧
    (∀ (c : CameraDevice) (w : World σ), c.m_connected = true →
      firstCompletion (E.Disconnect w.s c.m_device_handle).1 = none →
      (c.disconnect E w).1.m_eventPromise = true ∧
      ∀ cb : Callback, cb.completesEvent = true →
        (((c.disconnect E w).1.deliver cb).event).isSome = true) ∧
    ((connectedCam.disconnect (mockEnv emptyScript) mockStart).1.m_eventPromise = true ∧
      (connectedCam.disconnect (mockEnv emptyScript) mockStart).2.log =
        [Ev.Disconnect 1, Ev.ReleaseDevice 1] ∧
      (((connectedCam.disconnect (mockEnv emptyScript) mockStart).1.deliver
        (.OnDisconnected 0)).event) = some .value) := by
  refine ⟨?_, ?_, ?_, ?_, ?_, ⟨by decide, by decide, by decide⟩⟩
  · intro info n c w r hn h
    have := connectLoop_slot E apple info n n.toNat _ w r h
    rw [this, if_neg (by omega)]
  · intro info c w r h
    exact openOnce_slot E info .ContentsTransfer _ w r h
  · intro dlPath camName st content hdet hnew
    exact downloadContent_slot E dlPath camName st content hdet hnew
  · intro c w hc hev
    exact (disconnect_slot E c w).2.1 hc hev
  · intro c w hc hev
    have hs := (disconnect_slot E c w).2.2 hc hev
    exact ⟨hs, fun cb hcb => (deliver_event_completes _ cb hs hcb).1⟩

/-! ### jsonEscape -/

theorem hexValue_hexDigit (n : Nat) (h : n < 32) :
    hexValue (hexDigit (n / 16)) = some (n / 16) ∧
    hexValue (hexDigit (n % 16)) = some (n % 16) := by
  interval_cases n <;> exact ⟨rfl, rfl⟩

theorem hexDigit_printable (n : Nat) (h : n < 32) :
    0x20 ≤ (hexDigit (n / 16)).toNat ∧ 0x20 ≤ (hexDigit (n % 16)).toNat ∧
    hexDigit (n / 16) ≠ '"' ∧ hexDigit (n % 16) ≠ '"' ∧
    hexDigit (n / 16) ≠ '\\' ∧ hexDigit (n % 16) ≠ '\\' := by
  interval_cases n <;> decide

/-- The text `jsonEscape` appends for a character is one token, one of seven shapes. -/
theorem jsonEscapeChar_cases (c : Char) :
    (c = '"' ∧ jsonEscapeChar c = ['\\', '"']) ∨
    (c = '\\' ∧ jsonEscapeChar c = ['\\', '\\']) ∨
    (c = '\n' ∧ jsonEscapeChar c = ['\\', 'n']) ∨
    (c = '\r' ∧ jsonEscapeChar c = ['\\', 'r']) ∨
    (c = '\t' ∧ jsonEscapeChar c = ['\\', 't']) ∨
    (c.toNat < 0x20 ∧ jsonEscapeChar c =
      ['\\', 'u', '0', '0', hexDigit (c.toNat / 16), hexDigit (c.toNat % 16)]) ∨
    (c ≠ '"' ∧ c ≠ '\\' ∧ 0x20 ≤ c.toNat ∧ jsonEscapeChar c = [c]) := by
  unfold jsonEscapeChar
  by_cases h1 : c = '"'
  · exact Or.inl ⟨h1, by simp [h1]⟩
  by_cases h2 : c = '\\'
  · exact Or.inr (Or.inl ⟨h2, by simp [h2]⟩)
  by_cases h3 : c = '\n'
  · exact Or.inr (Or.inr (Or.inl ⟨h3, by simp [h3]⟩))
  by_cases h4 : c = '\r'
  · exact Or.inr (Or.inr (Or.inr (Or.inl ⟨h4, by simp [h4]⟩)))
  by_cases h5 : c = '\t'
  · exact Or.inr (Or.inr (Or.inr (Or.inr (Or.inl ⟨h5, by simp [h5]⟩))))
  by_cases h6 : c.toNat < 0x20
  · exact Or.inr (Or.inr (Or.inr (Or.inr (Or.inr (Or.inl
      ⟨h6, by simp [h1, h2, h3, h4, h5, h6]⟩)))))
  · exact Or.inr (Or.inr (Or.inr (Or.inr (Or.inr (Or.inr
      ⟨h1, h2, by omega, by simp [h1, h2, h3, h4, h5, h6]⟩)))))

/-- Decoding undoes the escape of one character. -/
theorem jsonUnescape_escapeChar (c : Char) (rest : List Char) :
    jsonUnescapeFrom .plain (jsonEscapeChar c ++ rest) =
      (jsonUnescapeFrom .plain rest).map (fun l => c :: l) := by
  rcases jsonEscapeChar_cases c with ⟨hc, he⟩ | ⟨hc, he⟩ | ⟨hc, he⟩ | ⟨hc, he⟩ | ⟨hc, he⟩ |
    ⟨hc, he⟩ | ⟨h1, h2, h3, he⟩
  · rw [he, hc]
    simp [jsonUnescapeFrom]
  · rw [he, hc]
    simp [jsonUnescapeFrom]
  · rw [he, hc]
    simp [jsonUnescapeFrom]
  · rw [he, hc]
    simp [jsonUnescapeFrom]
  · rw [he, hc]
    simp [jsonUnescapeFrom]
  · rw [he]
    obtain ⟨hu1, hu2⟩ := hexValue_hexDigit c.toNat hc
    have hof : Char.ofNat c.toNat = c := Char.ofNat_toNat c
    have h0 : hexValue '0' = some 0 := rfl
    have hsum : 16 * (c.toNat / 16) + c.toNat % 16 = c.toNat := Nat.div_add_mod _ _
    simp [jsonUnescapeFrom, hu1, hu2, h0, hsum, hof]
  · rw [he]
    have h3' : ¬ c.toNat < 0x20 := by omega
    simp [jsonUnescapeFrom, h1, h2, h3']

theorem jsonUnescape_escape (l : List Char) :
    jsonUnescape (l.flatMap jsonEscapeChar) = some l := by
  unfold jsonUnescape
  induction l with
  | nil => rfl
  | cons c rest ih =>
    rw [List.flatMap_cons, jsonUnescape_escapeChar, ih]
    rfl

theorem jsonEscape_quote_free (c : Char) (hne : c ≠ '"') : '"' ∉ jsonEscapeChar c := by
  intro hmem
  rcases jsonEscapeChar_cases c with ⟨hc, -⟩ | ⟨-, he⟩ | ⟨-, he⟩ | ⟨-, he⟩ | ⟨-, he⟩ |
    ⟨hlt, he⟩ | ⟨h1, -, -, he⟩
  · exact hne hc
  · rw [he] at hmem
    simp at hmem
  · rw [he] at hmem
    simp at hmem
  · rw [he] at hmem
    simp at hmem
  · rw [he] at hmem
    simp at hmem
  · rw [he] at hmem
    obtain ⟨-, -, q1, q2, -⟩ := hexDigit_printable c.toNat hlt
    simp only [List.mem_cons, List.mem_singleton, List.not_mem_nil, or_false] at hmem
    rcases hmem with h | h | h | h | h | h
    · exact absurd h (by decide)
    · exact absurd h (by decide)
    · exact absurd h (by decide)
    · exact absurd h (by decide)
    · exact q1 h.symm
    · exact q2 h.symm
  · rw [he] at hmem
    simp only [List.mem_singleton] at hmem
    exact h1 hmem.symm


/-- C26. `jsonEscape` produces a safe, invertible JSON string body.  For every string:
the output holds no character below 0x20; it is the tokens of the characters, in order, where
the token of '"' is `\"`, that of '\' is `\\`, and the token of any other character holds no
'"' and, after its first character, no '\'; decoding it with the standard JSON escapes
gives the string back; so `jsonEscape` is injective. -/
theorem jsonEscape_invertible :
    (∀ s : String, ∀ c ∈ (jsonEscape s).toList, 0x20 ≤ c.toNat) ∧
    (∀ s : String, (jsonEscape s).toList = s.toList.flatMap jsonEscapeChar) ∧
    jsonEscapeChar '"' = ['\\', '"'] ∧ jsonEscapeChar '\\' = ['\\', '\\'] ∧
    (∀ c : Char, c ≠ '"' → '"' ∉ jsonEscapeChar c) ∧
    (∀ c : Char, c ≠ '\\' → '\\' ∉ (jsonEscapeChar c).tail) ∧
    (∀ s : String, jsonUnescape (jsonEscape s).toList = some s.toList) ∧
    Function.Injective jsonEscape := by
  have hdec : ∀ s : String, jsonUnescape (jsonEscape s).toList = some s.toList :=
    fun s => jsonUnescape_escape s.toList
  refine ⟨?_, fun s => rfl, rfl, rfl, ?_, ?_, hdec, ?_⟩
  · intro s c hc
    have hc' : c ∈ s.toList.flatMap jsonEscapeChar := hc
    obtain ⟨x, -, hx⟩ := List.mem_flatMap.mp hc'
    rcases jsonEscapeChar_cases x with ⟨-, he⟩ | ⟨-, he⟩ | ⟨-, he⟩ | ⟨-, he⟩ | ⟨-, he⟩ |
      ⟨hlt, he⟩ | ⟨-, -, h3, he⟩
    · rw [he] at hx
      simp only [List.mem_cons, List.mem_singleton, List.not_mem_nil, or_false] at hx
      rcases hx with rfl | rfl <;> decide
    · rw [he] at hx
      simp only [List.mem_cons, List.mem_singleton, List.not_mem_nil, or_false] at hx
      rcases hx with rfl | rfl <;> decide
    · rw [he] at hx
      simp only [List.mem_cons, List.mem_singleton, List.not_mem_nil, or_false] at hx
      rcases hx with rfl | rfl <;> decide
    · rw [he] at hx
      simp only [List.mem_cons, List.mem_singleton, List.not_mem_nil, or_false] at hx
      rcases hx with rfl | rfl <;> decide
    · rw [he] at hx
      simp only [List.mem_cons, List.mem_singleton, List.not_mem_nil, or_false] at hx
      rcases hx with rfl | rfl <;> decide
    · rw [he] at hx
      obtain ⟨p1, p2, -⟩ := hexDigit_printable x.toNat hlt
      simp only [List.mem_cons, List.mem_singleton, List.not_mem_nil, or_false] at hx
      rcases hx with rfl | rfl | rfl | rfl | rfl | rfl
      · decide
      · decide
      · decide
      · decide
      · exact p1
      · exact p2
    · rw [he] at hx
      simp only [List.mem_singleton] at hx
      subst hx
      exact h3
  · exact jsonEscape_quote_free
  · intro c hne hmem
    rcases jsonEscapeChar_cases c with ⟨-, he⟩ | ⟨hc, -⟩ | ⟨-, he⟩ | ⟨-, he⟩ | ⟨-, he⟩ |
      ⟨hlt, he⟩ | ⟨-, -, -, he⟩
    · rw [he] at hmem
      simp at hmem
    · exact hne hc
    · rw [he] at hmem
      simp at hmem
    · rw [he] at hmem
      simp at hmem
    · rw [he] at hmem
      simp at hmem
    · rw [he] at hmem
      obtain ⟨-, -, -, -, q1, q2⟩ := hexDigit_printable c.toNat hlt
      simp only [List.tail_cons, List.mem_cons, List.mem_singleton, List.not_mem_nil,
        or_false] at hmem
      rcases hmem with h | h | h | h | h
      · exact absurd h (by decide)
      · exact absurd h (by decide)
      · exact absurd h (by decide)
      · exact q1 h.symm
      · exact q2 h.symm
    · rw [he] at hmem
      simp at hmem
  · intro a b hab
    have ha := hdec a
    rw [hab, hdec b] at ha
    have : b.toList = a.toList := Option.some.inj ha
    exact (String.ext this).symm

/-! ### jsonGetString -/

theorem findSubAt_none_iff (needle : List Char) :
    ∀ (l : List Char) (i : Nat), findSubAt needle l i = none ↔ ¬ needle <:+: l := by
  intro l
  induction l with
  | nil =>
    intro i
    by_cases hp : needle.isPrefixOf [] = true
    · have hpre : needle <+: [] := List.isPrefixOf_iff_prefix.mp hp
      simp only [findSubAt, hp, if_true]
      simp [hpre.isInfix]
    · simp only [findSubAt, hp, Bool.false_eq_true, if_false, true_iff]
      intro hinf
      have : needle = [] := List.eq_nil_of_infix_nil hinf
      subst this
      simp [List.isPrefixOf] at hp
  | cons c t ih =>
    intro i
    by_cases hp : needle.isPrefixOf (c :: t) = true
    · have hpre : needle <+: c :: t := List.isPrefixOf_iff_prefix.mp hp
      simp only [findSubAt, hp, if_true]
      simp [hpre.isInfix]
    · have hnpre : ¬ needle <+: c :: t := fun h => hp (List.isPrefixOf_iff_prefix.mpr h)
      simp only [findSubAt, hp, Bool.false_eq_true, if_false]
      rw [ih (i + 1), List.infix_cons_iff]
      tauto

/-- `std::string::find(needle)` is `npos` exactly when the needle does not occur. -/
theorem strFind_zero_none_iff (s needle : List Char) :
    strFind s needle 0 = none ↔ ¬ needle <:+: s := by
  unfold strFind
  simp only [Nat.not_lt_zero, if_false, List.drop_zero]
  exact findSubAt_none_iff needle s 0

/-- The search of a character, in closed form. -/
theorem findSubAt_char (c : Char) :
    ∀ (l : List Char) (i : Nat),
      findSubAt [c] l i = if c ∈ l then some (i + l.indexOf c) else none := by
  intro l
  induction l with
  | nil => intro i; simp [findSubAt, List.isPrefixOf]
  | cons x t ih =>
    intro i
    by_cases hx : c = x
    · subst hx
      simp [findSubAt, List.isPrefixOf]
    · have hx' : ¬ x = c := fun h => hx h.symm
      simp only [findSubAt, List.isPrefixOf, beq_iff_eq, hx, Bool.and_true, Bool.false_eq_true,
        if_false, ih (i + 1), List.mem_cons, false_or]
      split_ifs with hm
      · simp [List.indexOf_cons, hx']
        omega
      · rfl

/-- `std::string::find(ch, pos)` on a text split at `pos`. -/
theorem strFindChar_append (pre l : List Char) (c : Char) :
    strFindChar (pre ++ l) c pre.length =
      if c ∈ l then some (pre.length + l.indexOf c) else none := by
  unfold strFindChar strFind
  have : ¬ (pre ++ l).length < pre.length := by simp
  simp only [this, if_false, List.drop_left]
  exact findSubAt_char c l pre.length

theorem take_indexOf_eq_takeWhile (c : Char) (l : List Char) :
    l.take (l.indexOf c) = l.takeWhile (fun x => x ≠ c) := by
  induction l with
  | nil => rfl
  | cons x t ih =>
    by_cases hx : x = c
    · simp [List.indexOf_cons, hx]
    · simp [List.indexOf_cons, hx, ih]

theorem takeWhile_append_stop (c : Char) (l rest : List Char) :
    (l ++ c :: rest).takeWhile (fun x => x ≠ c) = l.takeWhile (fun x => x ≠ c) := by
  induction l with
  | nil => simp
  | cons x t ih =>
    by_cases hx : x = c
    · simp [hx]
    · simpa [List.takeWhile_cons, hx] using ih

/-- What `jsonGetString` returns for the key `path` on a body that starts with the member
`path` whose value is the text `val` between double quotes: the text up to its first
double quote. -/
theorem jsonGetString_pathBody (val : List Char) :
    jsonGetString (String.mk ("\x7b\"path\":\"".toList ++ val ++ "\"\x7d".toList)) "path" =
      String.mk (val.takeWhile (fun x => x ≠ '"')) := by
  have hb : "\x7b\"path\":\"".toList ++ val ++ "\"\x7d".toList =
      '\x7b' :: '"' :: 'p' :: 'a' :: 't' :: 'h' :: '"' :: ':' :: '"' :: (val ++ ['"', '\x7d']) :=
    rfl
  have hfind : strFind ("\x7b\"path\":\"".toList ++ val ++ "\"\x7d".toList)
      ("\"".toList ++ "path".toList ++ "\"".toList) 0 = some 1 := by
    rw [hb]
    simp [strFind, findSubAt, List.isPrefixOf]
  have hcolon : strFindChar ("\x7b\"path\":\"".toList ++ val ++ "\"\x7d".toList) ':' 7
      = some 7 := by
    rw [hb]
    have := strFindChar_append ['\x7b', '"', 'p', 'a', 't', 'h', '"']
      (':' :: '"' :: (val ++ ['"', '\x7d'])) ':'
    simpa using this
  have hq1 : strFindChar ("\x7b\"path\":\"".toList ++ val ++ "\"\x7d".toList) '"' 8
      = some 8 := by
    rw [hb]
    have := strFindChar_append ['\x7b', '"', 'p', 'a', 't', 'h', '"', ':']
      ('"' :: (val ++ ['"', '\x7d'])) '"'
    simpa using this
  have hq2 : strFindChar ("\x7b\"path\":\"".toList ++ val ++ "\"\x7d".toList) '"' 9
      = some (9 + (val ++ ['"', '\x7d']).indexOf '"') := by
    rw [hb]
    have := strFindChar_append ['\x7b', '"', 'p', 'a', 't', 'h', '"', ':', '"']
      (val ++ ['"', '\x7d']) '"'
    simpa using this
  unfold jsonGetString
  simp only [String.toList]
  have hlen : ("\"".toList ++ "path".toList ++ "\"".toList).length = 6 := rfl
  simp only [String.toList] at hfind hcolon hq1 hq2 hlen hb
  simp only [hfind, hlen, hcolon, hq1, hq2]
  congr 1
  rw [hb]
  have h9 : (9 + (val ++ ['"', '\x7d']).indexOf '"' - 8 - 1) =
      (val ++ ['"', '\x7d']).indexOf '"' := by omega
  rw [h9]
  simp only [List.drop_succ_cons, List.drop_zero]
  rw [take_indexOf_eq_takeWhile, takeWhile_append_stop]

theorem jsonEscapeChar_plain (c : Char) (h : needsEscape c = false) :
    jsonEscapeChar c = [c] := by
  simp only [needsEscape, Bool.or_eq_false_iff, decide_eq_false_iff_not] at h
  obtain ⟨⟨h1, h2⟩, h3⟩ := h
  rcases jsonEscapeChar_cases c with ⟨hc, -⟩ | ⟨hc, -⟩ | ⟨hc, -⟩ | ⟨hc, -⟩ | ⟨hc, -⟩ |
    ⟨hc, -⟩ | ⟨-, -, -, he⟩
  · exact absurd hc h1
  · exact absurd hc h2
  · subst hc; exact absurd (by decide) h3
  · subst hc; exact absurd (by decide) h3
  · subst hc; exact absurd (by decide) h3
  · exact absurd hc h3
  · exact he

theorem jsonEscapeChar_length (c : Char) :
    1 ≤ (jsonEscapeChar c).length ∧ (needsEscape c = true → 2 ≤ (jsonEscapeChar c).length) := by
  rcases jsonEscapeChar_cases c with ⟨-, he⟩ | ⟨-, he⟩ | ⟨-, he⟩ | ⟨-, he⟩ | ⟨-, he⟩ |
    ⟨-, he⟩ | ⟨h1, h2, h3, he⟩
  · rw [he]; simp
  · rw [he]; simp
  · rw [he]; simp
  · rw [he]; simp
  · rw [he]; simp
  · rw [he]; simp
  · rw [he]
    refine ⟨by simp, ?_⟩
    intro hn
    have h3' : ¬ c.toNat < 0x20 := by omega
    simp [needsEscape, h1, h2, h3'] at hn

theorem flatMap_escape_length (l : List Char) :
    l.length ≤ (l.flatMap jsonEscapeChar).length ∧
    ((∃ c ∈ l, needsEscape c = true) → l.length < (l.flatMap jsonEscapeChar).length) := by
  induction l with
  | nil => simp
  | cons x t ih =>
    obtain ⟨h1, h2⟩ := jsonEscapeChar_length x
    simp only [List.flatMap_cons, List.length_append, List.length_cons]
    refine ⟨by omega, ?_⟩
    rintro ⟨c, hc, hn⟩
    rcases List.mem_cons.mp hc with rfl | hc
    · have := h2 hn
      omega
    · have := ih.2 ⟨c, hc, hn⟩
      omega

theorem flatMap_escape_plain (l : List Char) (h : ∀ c ∈ l, needsEscape c = false) :
    l.flatMap jsonEscapeChar = l := by
  induction l with
  | nil => rfl
  | cons x t ih =>
    rw [List.flatMap_cons, jsonEscapeChar_plain x (h x (by simp)),
      ih (fun c hc => h c (List.mem_cons_of_mem _ hc))]
    rfl

theorem takeWhile_ne_of_not_mem (c : Char) (l : List Char) (h : c ∉ l) :
    l.takeWhile (fun x => x ≠ c) = l := by
  rw [List.takeWhile_eq_self_iff]
  intro x hx
  simp only [ne_eq, decide_not, Bool.not_eq_true', decide_eq_false_iff_not]
  rintro rfl
  exact h hx

theorem not_mem_takeWhile_ne (c : Char) (l : List Char) :
    c ∉ l.takeWhile (fun x => x ≠ c) := by
  intro hmem
  have := List.mem_takeWhile_imp hmem
  simp at this

/-- C30. `jsonGetString` does not undo JSON escaping.  On the body whose one member `path`
has the JSON string of `p` as value, `jsonGetString` with the key `path` returns the escaped
text up to its first double quote, and this is `p` exactly when no character of `p` is '"',
'\' or below 0x20.  On a body in which the quoted key does not occur it returns the empty
string. -/
theorem jsonGetString_keeps_escapes :
    (∀ p : String, jsonGetString (pathBody p) "path" =
      String.mk ((jsonEscape p).toList.takeWhile (fun x => x ≠ '"'))) ∧
    (∀ p : String, jsonGetString (pathBody p) "path" = p ↔
      ∀ c ∈ p.toList, c ≠ '"' ∧ c ≠ '\\' ∧ 0x20 ≤ c.toNat) ∧
    (∀ body key : String, ¬ quotedKey key <:+: body.toList → jsonGetString body key = "") := by
  have hclosed : ∀ p : String, jsonGetString (pathBody p) "path" =
      String.mk ((jsonEscape p).toList.takeWhile (fun x => x ≠ '"')) := by
    intro p
    have hbody : pathBody p =
        String.mk ("\x7b\"path\":\"".toList ++ (jsonEscape p).toList ++ "\"\x7d".toList) := rfl
    rw [hbody, jsonGetString_pathBody]
  refine ⟨hclosed, ?_, ?_⟩
  · intro p
    rw [hclosed]
    have hesc : (jsonEscape p).toList = p.toList.flatMap jsonEscapeChar := rfl
    rw [hesc]
    constructor
    · intro heq
      have hlist : (p.toList.flatMap jsonEscapeChar).takeWhile (fun x => x ≠ '"') =
          p.toList := by
        have := congrArg String.toList heq
        simpa using this
      have hq : '"' ∉ p.toList := by
        intro hmem
        rw [← hlist] at hmem
        exact not_mem_takeWhile_ne '"' _ hmem
      have hqe : '"' ∉ p.toList.flatMap jsonEscapeChar := by
        intro hmem
        obtain ⟨x, hx, hxe⟩ := List.mem_flatMap.mp hmem
        have hxq : x ≠ '"' := fun h => hq (h ▸ hx)
        exact jsonEscape_quote_free x hxq hxe
      rw [takeWhile_ne_of_not_mem '"' _ hqe] at hlist
      have hplain : ¬ ∃ c ∈ p.toList, needsEscape c = true := by
        intro hex
        have := (flatMap_escape_length p.toList).2 hex
        rw [hlist] at this
        omega
      intro c hc
      have hn : needsEscape c = false := by
        by_contra hne
        exact hplain ⟨c, hc, by simpa using hne⟩
      simp only [needsEscape, Bool.or_eq_false_iff, decide_eq_false_iff_not] at hn
      exact ⟨by simpa using hn.1.1, by simpa using hn.1.2, by omega⟩
    · intro hall
      have hplain : ∀ c ∈ p.toList, needsEscape c = false := by
        intro c hc
        obtain ⟨h1, h2, h3⟩ := hall c hc
        have h3' : ¬ c.toNat < 0x20 := by omega
        simp [needsEscape, h1, h2, h3']
      have hq : '"' ∉ p.toList := fun hmem => (hall _ hmem).1 rfl
      rw [flatMap_escape_plain _ hplain, takeWhile_ne_of_not_mem '"' _ hq]
      rfl
  · intro body key hno
    have hnone := (strFind_zero_none_iff body.toList (quotedKey key)).mpr hno
    unfold jsonGetString
    simp only []
    have hkey : "\"".toList ++ key.toList ++ "\"".toList = quotedKey key := rfl
    rw [hkey, hnone]

/-! ### Preset values -/

theorem drop_indexOf_eq_dropWhile (c : Char) (l : List Char) :
    l.drop (l.indexOf c) = l.dropWhile (fun x => x ≠ c) := by
  induction l with
  | nil => rfl
  | cons x t ih =>
    by_cases hx : x = c
    · simp [List.indexOf_cons, hx]
    · simpa [List.indexOf_cons, hx, List.dropWhile_cons] using ih

/-- `std::string::find(ch, pos)`, in closed form. -/
theorem strFindChar_closed (s : List Char) (c : Char) (k : Nat) (hk : k ≤ s.length) :
    strFindChar s c k =
      if c ∈ s.drop k then some (k + (s.drop k).indexOf c) else none := by
  unfold strFindChar strFind
  rw [if_neg (by omega)]
  exact findSubAt_char c _ k

theorem takeWhile_isDigit_nil (s : List Char) (h : startsWithDigit s = false) :
    s.takeWhile Char.isDigit = [] := by
  cases s with
  | nil => rfl
  | cons d t =>
    simp only [startsWithDigit] at h
    simp [List.takeWhile_cons, h]

/-- `strtoull` gives 0 for a text that holds no number. -/
theorem strtoull_no_number (text : List Char) (h : startsWithNumber text = false) :
    strtoull text = 0 := by
  unfold startsWithNumber at h
  unfold strtoull
  simp only []
  cases hs : text.dropWhile isspace with
  | nil => simp
  | cons d t =>
    rw [hs] at h
    by_cases hm : d = '-'
    · subst hm
      simp only at h
      simp [takeWhile_isDigit_nil t h]
    · by_cases hp : d = '+'
      · subst hp
        simp only at h
        simp [takeWhile_isDigit_nil t h]
      · have h' : startsWithDigit (d :: t) = false := by
          split at h
          · rename_i t1 heq
            exact (hm (List.cons.inj heq).1).elim
          · rename_i t1 heq
            exact (hp (List.cons.inj heq).1).elim
          · exact h
        have ht := takeWhile_isDigit_nil (d :: t) h'
        split_ifs with a b
        · revert a
          split
          · rename_i t1 heq
            exact (hm (List.cons.inj heq).1).elim
          · rename_i t1 heq
            exact (hp (List.cons.inj heq).1).elim
          · simp [ht]
        · revert a b
          split
          · rename_i t1 heq
            exact (hm (List.cons.inj heq).1).elim
          · rename_i t1 heq
            exact (hp (List.cons.inj heq).1).elim
          · simp
        · revert a b
          split
          · rename_i t1 heq
            exact (hm (List.cons.inj heq).1).elim
          · rename_i t1 heq
            exact (hp (List.cons.inj heq).1).elim
          · simp [ht]

/-- The value `loadPreset` reads for a key that occurs and is followed by a ':'. -/
theorem presetValue_text (content : List Char) (name : String) (pos : Nat)
    (hpos : firstOccurrence content (quotedKey name) pos)
    (hcol : ':' ∈ content.drop (pos + (quotedKey name).length)) :
    presetValue content name = some (strtoull (valueText content name pos)) := by
  have hfind := (strFind_zero_iff content (quotedKey name) pos).mpr hpos
  have hk : pos + (quotedKey name).length ≤ content.length := by
    by_contra hlt
    rw [List.drop_eq_nil_of_le (by omega)] at hcol
    simp at hcol
  have hc := strFindChar_closed content ':' _ hk
  rw [if_pos hcol] at hc
  have hkey : "\"".toList ++ name.toList ++ "\"".toList = quotedKey name := rfl
  unfold presetValue
  simp only [hkey, hfind, hc]
  congr 2
  unfold valueText
  congr 1
  rw [← drop_indexOf_eq_dropWhile, List.tail_drop, List.drop_drop]
  congr 1

/-- C29, as amended. Unparseable preset values become 0.  When the quoted key of a known
identifier occurs in the file and a ':' follows its first occurrence, `loadPreset` returns
the entry of the identifier with the value `strtoull` gives for the text after that ':'
(spaces and tabs skipped); this value is 0 whenever that text holds no number for `strtoull`,
that is, when after any white space (newlines included) and an optional sign it does not
start with a decimal digit, as for a quoted string or the end of the file. -/
theorem unparseable_value_zero (E : Env σ) (K : SdkCodes)
    (hinj : Function.Injective K.CrDeviceProperty) (path : String) (w : World σ)
    (content : String) (t : PropertyCode × String) (pos : Nat)
    (hfile : E.fsReadFile w.s path = some content) (ht : t ∈ presetTable)
    (hpos : firstOccurrence content.toList (quotedKey t.2) pos)
    (hcol : ':' ∈ content.toList.drop (pos + (quotedKey t.2).length)) :
    (⟨K.CrDeviceProperty t.1, strtoull (valueText content.toList t.2 pos)⟩ : PresetEntry) ∈
      (loadPreset E K path w).1 ∧
    (startsWithNumber (valueText content.toList t.2 pos) = false →
      (⟨K.CrDeviceProperty t.1, 0⟩ : PresetEntry) ∈ (loadPreset E K path w).1) ∧
    (∀ rest : List Char, startsWithNumber ('"' :: rest) = false) ∧
    startsWithNumber [] = false := by
  have hval := presetValue_text content.toList t.2 pos hpos hcol
  have hentry : loadPresetEntry K content.toList (K.CrDeviceProperty t.1) =
      some ⟨K.CrDeviceProperty t.1, strtoull (valueText content.toList t.2 pos)⟩ := by
    unfold loadPresetEntry
    rw [presetCodeName_table K hinj t ht, hval]
    rfl
  have hmem : (⟨K.CrDeviceProperty t.1, strtoull (valueText content.toList t.2 pos)⟩ :
      PresetEntry) ∈ (loadPreset E K path w).1 := by
    have hload : (loadPreset E K path w).1 =
        (kPresetCodes K).filterMap (loadPresetEntry K content.toList) := by
      simp [loadPreset, fsReadFile, hfile]
    rw [hload, List.mem_filterMap]
    exact ⟨K.CrDeviceProperty t.1,
      List.mem_map_of_mem (fun e => K.CrDeviceProperty e.1) ht, hentry⟩
  refine ⟨hmem, ?_, ?_, rfl⟩
  · intro hno
    rw [strtoull_no_number _ hno] at hmem
    exact hmem
  · intro rest
    rfl

/-- A scripted world whose preset file holds `quotedValueFile`. -/
theorem unparseable_value_zero_witness :
    Function.Injective exampleCodes.CrDeviceProperty ∧
    firstOccurrence quotedValueFile.toList (quotedKey "iso") 1 ∧
    valueText quotedValueFile.toList "iso" 1 = "\"auto\"\x7d".toList ∧
    (⟨exampleCodes.CrDeviceProperty .IsoSensitivity, 0⟩ : PresetEntry) ∈
      (loadPreset (mockEnv emptyScript) exampleCodes "fx30_preset.json"
        ⟨⟨fun _ => 0, [("fx30_preset.json", quotedValueFile)], ""⟩, []⟩).1 := by
  have hpos : firstOccurrence quotedValueFile.toList (quotedKey "iso") 1 :=
    (strFind_zero_iff _ _ _).mp (by decide)
  refine ⟨exampleCodes_injective, hpos, by decide, ?_⟩
  exact (unparseable_value_zero (mockEnv emptyScript) exampleCodes exampleCodes_injective
    "fx30_preset.json" ⟨⟨fun _ => 0, [("fx30_preset.json", quotedValueFile)], ""⟩, []⟩
    quotedValueFile (.IsoSensitivity, "iso") 1 rfl (by decide) hpos (by decide)).2.1
    (by decide)

/-- Counterexample to C29 as stated: in `nextLineValueFile` the ':' of the key `iso` is
followed by a newline, so that the text after it does not start with a decimal number, and
`loadPreset` returns the entry with the value 800 of the next line, not 0. -/
theorem unparseable_value_counterexample :
    valueText nextLineValueFile.toList "iso" 1 = "\n800\x7d".toList ∧
    startsWithDigit (valueText nextLineValueFile.toList "iso" 1) = false ∧
    (loadPreset (mockEnv emptyScript) exampleCodes "fx30_preset.json"
      ⟨⟨fun _ => 0, [("fx30_preset.json", nextLineValueFile)], ""⟩, []⟩).1 =
      [⟨exampleCodes.CrDeviceProperty .IsoSensitivity, 800⟩] ∧
    strtoull "-5".toList = 2 ^ 64 - 5 := by
  refine ⟨by decide, by decide, by decide, by decide⟩

theorem digitChar_value : ∀ k, k < 10 →
    (Nat.digitChar k).isDigit = true ∧ (Nat.digitChar k).toNat - 48 = k := by
  decide

theorem toDigitsCore_isDigit : ∀ (fuel n : Nat) (ds : List Char),
    (∀ c ∈ ds, c.isDigit = true) → ∀ c ∈ Nat.toDigitsCore 10 fuel n ds, c.isDigit = true := by
  intro fuel
  induction fuel with
  | zero => intro n ds h; simpa [Nat.toDigitsCore] using h
  | succ f ih =>
    intro n ds h
    have hd := (digitChar_value (n % 10) (Nat.mod_lt _ (by decide))).1
    have hcons : ∀ c ∈ Nat.digitChar (n % 10) :: ds, c.isDigit = true := by
      intro c hc
      rcases List.mem_cons.mp hc with rfl | hc
      · exact hd
      · exact h c hc
    simp only [Nat.toDigitsCore]
    split_ifs
    · exact hcons
    · exact ih _ _ hcons

theorem toDigitsCore_value : ∀ (fuel n : Nat) (ds : List Char), n < fuel →
    (Nat.toDigitsCore 10 fuel n ds).foldl (fun a d => 10 * a + (d.toNat - 48)) 0 =
      ds.foldl (fun a d => 10 * a + (d.toNat - 48)) n := by
  intro fuel
  induction fuel with
  | zero => intro n ds h; omega
  | succ f ih =>
    intro n ds h
    have hd := (digitChar_value (n % 10) (Nat.mod_lt _ (by decide))).2
    simp only [Nat.toDigitsCore]
    split_ifs with h0
    · simp only [List.foldl_cons, hd]
      congr 1
      omega
    · rw [ih (n / 10) _ (by omega)]
      simp only [List.foldl_cons, hd]
      congr 1
      omega

theorem toDigitsCore_ne_nil : ∀ (fuel n : Nat) (ds : List Char), ds ≠ [] →
    Nat.toDigitsCore 10 fuel n ds ≠ [] := by
  intro fuel
  induction fuel with
  | zero => intro n ds h; simpa [Nat.toDigitsCore] using h
  | succ f ih =>
    intro n ds _
    simp only [Nat.toDigitsCore]
    split_ifs
    · simp
    · exact ih _ _ (by simp)

/-- The decimal text of a number: decimal digits, at least one, whose value is the number. -/
theorem toString_digits (v : Nat) :
    ∃ d ds, (toString v).toList = d :: ds ∧ d.isDigit = true ∧
      (∀ c ∈ ds, c.isDigit = true) ∧ digitsValue (d :: ds) = v := by
  have hl : (toString v).toList = Nat.toDigitsCore 10 (v + 1) v [] := rfl
  have hne : Nat.toDigitsCore 10 (v + 1) v [] ≠ [] := by
    simp only [Nat.toDigitsCore]
    split_ifs
    · simp
    · exact toDigitsCore_ne_nil _ _ _ (by simp)
  have hall := toDigitsCore_isDigit (v + 1) v [] (by simp)
  have hval := toDigitsCore_value (v + 1) v [] (by omega)
  rw [hl]
  cases hcase : Nat.toDigitsCore 10 (v + 1) v [] with
  | nil => exact (hne hcase).elim
  | cons d ds =>
    rw [hcase] at hall hval
    refine ⟨d, ds, rfl, hall d (by simp), fun c hc => hall c (by simp [hc]), ?_⟩
    simpa [digitsValue] using hval

theorem isDigit_facts (c : Char) (h : c.isDigit = true) :
    c ≠ '"' ∧ c ≠ ':' ∧ c ≠ ' ' ∧ c ≠ '\t' ∧ c ≠ '-' ∧ c ≠ '+' ∧ isspace c = false := by
  have h' : 48 ≤ c.toNat ∧ c.toNat ≤ 57 := by
    simpa [Char.isDigit, Char.toNat] using h
  refine ⟨?_, ?_, ?_, ?_, ?_, ?_, ?_⟩
  · rintro rfl; revert h; decide
  · rintro rfl; revert h; decide
  · rintro rfl; revert h; decide
  · rintro rfl; revert h; decide
  · rintro rfl; revert h; decide
  · rintro rfl; revert h; decide
  · unfold isspace
    have hne : c ≠ ' ' := by rintro rfl; revert h; decide
    simp only [hne, false_or, decide_eq_false_iff_not, not_and, not_le]
    intro _
    omega

/-- The conversion of a text that starts with decimal digits and goes on with a character
that is no digit: the value of the digits, when it is below `2^64`. -/
theorem strtoull_digits (d : Char) (ds : List Char) (c : Char) (rest : List Char)
    (hd : d.isDigit = true) (hds : ∀ x ∈ ds, x.isDigit = true) (hc : c.isDigit = false)
    (hv : digitsValue (d :: ds) < 2 ^ 64) :
    strtoull (d :: ds ++ c :: rest) = digitsValue (d :: ds) := by
  obtain ⟨_, _, _, _, hm, hp, hsp⟩ := isDigit_facts d hd
  have htake : (d :: (ds ++ c :: rest)).takeWhile Char.isDigit = d :: ds := by
    have : (d :: ds ++ c :: rest).takeWhile Char.isDigit = d :: ds := by
      rw [List.takeWhile_append_of_pos]
      · simp [hc]
      · intro x hx
        rcases List.mem_cons.mp hx with rfl | hx
        · exact hd
        · exact hds x hx
    simpa using this
  have hdrop : (d :: ds ++ c :: rest).dropWhile isspace = d :: (ds ++ c :: rest) := by
    simp [List.dropWhile_cons, hsp]
  have hv' : ¬ 2 ^ 64 ≤ digitsValue (d :: ds) := by omega
  unfold strtoull
  simp only [hdrop]
  unfold digitsValue at hv hv' ⊢
  split_ifs with a b
  · revert a
    split
    · rename_i t1 heq
      exact (hm (List.cons.inj heq).1).elim
    · rename_i t1 heq
      exact (hp (List.cons.inj heq).1).elim
    · simp only [htake]
      intro a
      exact (hv' a).elim
  · revert a b
    split
    · rename_i t1 heq
      exact (hm (List.cons.inj heq).1).elim
    · rename_i t1 heq
      exact (hp (List.cons.inj heq).1).elim
    · simp
  · revert a b
    split
    · rename_i t1 heq
      exact (hm (List.cons.inj heq).1).elim
    · rename_i t1 heq
      exact (hp (List.cons.inj heq).1).elim
    · simp only [htake]
      intro _ _
      trivial

theorem keyFree_append (n : String) (x y s : List Char)
    (hx : keyFree n x (y ++ s)) (hy : keyFree n y s) : keyFree n (x ++ y) s := by
  intro q hq
  by_cases hlt : q < x.length
  · have := hx q hlt
    simpa [List.append_assoc] using this
  · have hq' : q - x.length < y.length := by
      simp only [List.length_append] at hq
      omega
    have := hy (q - x.length) hq'
    have hdrop : (x ++ y ++ s).drop q = (y ++ s).drop (q - x.length) := by
      rw [List.append_assoc, List.drop_append_eq_append_drop,
        List.drop_eq_nil_of_le (by omega), List.nil_append]
    rw [hdrop]
    exact this

theorem keyFree_nil (n : String) (s : List Char) : keyFree n [] s := by
  intro q hq
  simp at hq

theorem keyFree_quote_free (n : String) (x s : List Char) (hx : '"' ∉ x) :
    keyFree n x s := by
  intro q hq hpre
  have hq' : q < (x ++ s).length := by
    simp only [List.length_append]
    omega
  rw [List.drop_eq_getElem_cons hq'] at hpre
  obtain ⟨t, ht⟩ := hpre
  have hhead : '"' = (x ++ s)[q] := by
    simp only [quotedKey, String.toList, List.append_assoc] at ht
    exact (List.cons.inj ht).1
  rw [List.getElem_append_left hq] at hhead
  exact hx (hhead ▸ List.getElem_mem _)

theorem keyFree_quote_name (n : String) (m rest : List Char) (hn : '"' ∉ n.toList)
    (hm : '"' ∉ m) (hne : m ≠ n.toList) : keyFree n ['"'] (m ++ '"' :: rest) := by
  intro q hq hpre
  have hq0 : q = 0 := by simpa using hq
  subst hq0
  obtain ⟨t, ht⟩ := hpre
  have ht' : n.toList ++ '"' :: t = m ++ '"' :: rest := by
    simp only [quotedKey, String.toList, List.append_assoc, List.drop_zero] at ht
    simpa using (List.cons.inj ht).2
  have h1 := takeWhile_append_stop '"' n.toList t
  have h2 := takeWhile_append_stop '"' m rest
  rw [ht', h2, takeWhile_ne_of_not_mem _ _ hm, takeWhile_ne_of_not_mem _ _ hn] at h1
  exact hne h1

theorem keyFree_quote_colon (n : String) (rest : List Char) (hn : ':' ∉ n.toList) :
    keyFree n ['"'] (':' :: rest) := by
  intro q hq hpre
  have hq0 : q = 0 := by simpa using hq
  subst hq0
  obtain ⟨t, ht⟩ := hpre
  have ht' : n.toList ++ '"' :: t = ':' :: rest := by
    simp only [quotedKey, String.toList, List.append_assoc, List.drop_zero] at ht
    simpa using (List.cons.inj ht).2
  cases hcase : n.toList with
  | nil =>
    rw [hcase] at ht'
    have := (List.cons.inj ht').1
    revert this
    decide
  | cons c cs =>
    rw [hcase] at ht' hn
    have := (List.cons.inj ht').1
    exact hn (by simp [this])

/-- The names of the table hold neither '"' nor ':' and do not start with 'u'. -/
theorem presetTable_names : ∀ t ∈ presetTable,
    '"' ∉ t.2.toList ∧ ':' ∉ t.2.toList ∧ t.2.toList.head? ≠ some 'u' := by
  decide

/-- The names of the table are pairwise distinct. -/
theorem presetTable_names_inj : ∀ t ∈ presetTable, ∀ t' ∈ presetTable,
    t.2 = t'.2 → t.1 = t'.1 := by
  decide

/-- Every name `presetCodeName` gives is free of '"'. -/
theorem presetCodeName_quote_free (K : SdkCodes) (code : Nat) :
    '"' ∉ (presetCodeName K code).toList := by
  unfold presetCodeName
  cases hfind : presetTable.find? (fun e => K.CrDeviceProperty e.1 = code) with
  | some e =>
    exact (presetTable_names e (List.mem_of_find?_eq_some hfind)).1
  | none =>
    obtain ⟨d, ds, hl, hd, hds, _⟩ := toString_digits code
    have : ("unknown_" ++ toString code).toList = "unknown_".toList ++ (d :: ds) := by
      rw [← hl]
      rfl
    simp only [this, List.mem_append, not_or]
    refine ⟨by decide, ?_⟩
    intro hmem
    rcases List.mem_cons.mp hmem with h | h
    · exact (isDigit_facts d hd).1 h.symm
    · exact (isDigit_facts _ (hds _ h)).1 rfl

/-- Only the code of a table entry is written under the name of that entry. -/
theorem presetCodeName_eq_table (K : SdkCodes) (t : PropertyCode × String) (ht : t ∈ presetTable)
    (code : Nat) (h : presetCodeName K code = t.2) : code = K.CrDeviceProperty t.1 := by
  unfold presetCodeName at h
  cases hfind : presetTable.find? (fun e => K.CrDeviceProperty e.1 = code) with
  | some e =>
    rw [hfind] at h
    have he := List.mem_of_find?_eq_some hfind
    have hcode : K.CrDeviceProperty e.1 = code := by
      simpa using List.find?_some hfind
    rw [← hcode, presetTable_names_inj e he t ht h]
  | none =>
    rw [hfind] at h
    have h3 := (presetTable_names t ht).2.2
    rw [← h] at h3
    exact (h3 rfl).elim

/-- The name of a code of `kPresetCodes` is a name of the table. -/
theorem presetCodeName_known (K : SdkCodes) (c : Nat) (hc : c ∈ kPresetCodes K) :
    ∃ e ∈ presetTable, K.CrDeviceProperty e.1 = c ∧ presetCodeName K c = e.2 := by
  unfold presetCodeName
  cases hfind : presetTable.find? (fun e => K.CrDeviceProperty e.1 = c) with
  | some e =>
    exact ⟨e, List.mem_of_find?_eq_some hfind, by simpa using List.find?_some hfind, rfl⟩
  | none =>
    obtain ⟨e, he, hec⟩ := List.mem_map.mp hc
    have := List.find?_eq_none.mp hfind e he
    simp [hec] at this

theorem savePresetLine_toList (K : SdkCodes) (st : String × Bool) (p : DevProp) :
    (savePresetLine K st p).1.toList =
      st.1.toList ++ ((if st.2 then [] else ",\n".toList) ++ entryText K p) ∧
    (savePresetLine K st p).2 = false := by
  unfold savePresetLine entryText
  cases st.2 <;> simp [String.toList, String.data_append, List.append_assoc]

theorem foldl_savePresetLine (K : SdkCodes) : ∀ (props : List DevProp) (st : String × Bool),
    (props.foldl (savePresetLine K) st).1.toList = st.1.toList ++ entriesText K st.2 props := by
  intro props
  induction props with
  | nil => intro st; simp [entriesText]
  | cons p ps ih =>
    intro st
    rw [List.foldl_cons, ih, (savePresetLine_toList K st p).1, (savePresetLine_toList K st p).2]
    simp [entriesText, List.append_assoc]

/-- The text `savePreset` writes, as a list of characters. -/
theorem presetText_toList (K : SdkCodes) (props : List DevProp) :
    (presetText K props).toList =
      "\x7b\n".toList ++ (entriesText K true props ++ "\n\x7d\n".toList) := by
  unfold presetText
  rw [show ∀ a b : String, (a ++ b).toList = a.toList ++ b.toList from
    fun a b => String.data_append a b, foldl_savePresetLine]
  simp [List.append_assoc]

theorem entriesText_append (K : SdkCodes) : ∀ (ps qs : List DevProp) (b : Bool),
    entriesText K b (ps ++ qs) = entriesText K b ps ++ entriesText K (b && ps.isEmpty) qs := by
  intro ps
  induction ps with
  | nil => intro qs b; simp [entriesText]
  | cons p ps ih =>
    intro qs b
    simp [entriesText, ih, List.append_assoc]

/-- What follows the value of an entry starts with a character that is no digit. -/
theorem entriesText_tail (K : SdkCodes) (ps : List DevProp) :
    ∃ c rest, entriesText K false ps ++ "\n\x7d\n".toList = c :: rest ∧ c.isDigit = false := by
  cases ps with
  | nil => exact ⟨'\n', _, rfl, by decide⟩
  | cons p ps => exact ⟨',', _, rfl, by decide⟩

/-- No occurrence of the quoted key `n` starts within the text of an entry with another
name, whatever follows. -/
theorem keyFree_entry (K : SdkCodes) (n : String) (hq : '"' ∉ n.toList)
    (hcol : ':' ∉ n.toList) (sep : List Char) (hsep : '"' ∉ sep) (p : DevProp)
    (hne : presetCodeName K p.code ≠ n) (s : List Char) :
    keyFree n (sep ++ entryText K p) s := by
  obtain ⟨d, ds, hl, hd, hds, _⟩ := toString_digits p.currentValue
  have hname := presetCodeName_quote_free K p.code
  have hdig : '"' ∉ (toString p.currentValue).toList := by
    rw [hl]
    intro hmem
    rcases List.mem_cons.mp hmem with h | h
    · exact (isDigit_facts d hd).1 h.symm
    · exact (isDigit_facts _ (hds _ h)).1 rfl
  have hshape : sep ++ entryText K p =
      (sep ++ "  ".toList) ++ (['"'] ++ ((presetCodeName K p.code).toList ++
        (['"'] ++ (": ".toList ++ (toString p.currentValue).toList)))) := by
    simp [entryText, String.toList, List.append_assoc]
  rw [hshape]
  apply keyFree_append
  · apply keyFree_quote_free
    simp only [List.mem_append, not_or]
    exact ⟨hsep, by decide⟩
  apply keyFree_append
  · have := keyFree_quote_name n (presetCodeName K p.code).toList
      (": ".toList ++ (toString p.currentValue).toList ++ s) hq hname
      (fun h => hne (String.ext h))
    simpa [List.append_assoc] using this
  apply keyFree_append
  · exact keyFree_quote_free _ _ _ hname
  apply keyFree_append
  · have := keyFree_quote_colon n (' ' :: ((toString p.currentValue).toList ++ s)) hcol
    simpa [String.toList, List.append_assoc] using this
  · apply keyFree_quote_free
    simp only [List.mem_append, not_or]
    exact ⟨by decide, hdig⟩

/-- No occurrence of the quoted key `n` starts within the text of entries with other names. -/
theorem keyFree_entries (K : SdkCodes) (n : String) (hq : '"' ∉ n.toList)
    (hcol : ':' ∉ n.toList) : ∀ (ps : List DevProp) (b : Bool) (s : List Char),
    (∀ p ∈ ps, presetCodeName K p.code ≠ n) → keyFree n (entriesText K b ps) s := by
  intro ps
  induction ps with
  | nil => intro b s _; exact keyFree_nil n s
  | cons p ps ih =>
    intro b s h
    simp only [entriesText]
    apply keyFree_append
    · exact keyFree_entry K n hq hcol _ (by cases b <;> decide) p (h p (by simp)) _
    · exact ih false s (fun p' hp' => h p' (by simp [hp']))

/-- One iteration of the loop of `loadPreset` on the text `savePreset` writes: the entry of
the first property with the code, its value unchanged; none when no property has the code. -/
theorem loadPresetEntry_presetText (K : SdkCodes) (props : List DevProp)
    (hv : ∀ p ∈ props, p.currentValue < 2 ^ 64) (c : Nat) (hc : c ∈ kPresetCodes K) :
    loadPresetEntry K (presetText K props).toList c =
      (props.find? (fun p => p.code = c)).map (fun p => ⟨c, p.currentValue⟩) := by
  obtain ⟨e, he, hec, hname⟩ := presetCodeName_known K c hc
  obtain ⟨hq, hcol, _⟩ := presetTable_names e he
  have hother : ∀ p : DevProp, p.code ≠ c → presetCodeName K p.code ≠ e.2 := by
    intro p hp h
    exact hp ((presetCodeName_eq_table K e he p.code h).trans hec)
  have hbrace : ∀ s, keyFree e.2 "\x7b\n".toList s :=
    fun s => keyFree_quote_free _ _ _ (by decide)
  cases hfind : props.find? (fun p => p.code = c) with
  | none =>
    have hall : ∀ p ∈ props, presetCodeName K p.code ≠ e.2 := by
      intro p hp
      apply hother
      simpa using List.find?_eq_none.mp hfind p hp
    have hfree : keyFree e.2 (presetText K props).toList [] := by
      rw [presetText_toList]
      apply keyFree_append
      · exact hbrace _
      apply keyFree_append
      · exact keyFree_entries K e.2 hq hcol props true _ hall
      · exact keyFree_quote_free _ _ _ (by decide)
    have hno : ¬ quotedKey e.2 <:+: (presetText K props).toList := by
      rintro ⟨a, b, hab⟩
      have hlen : a.length < (presetText K props).toList.length := by
        rw [← hab]
        simp [quotedKey]
      apply hfree a.length hlen
      rw [List.append_nil, ← hab, List.append_assoc, List.drop_left]
      exact List.prefix_append _ _
    have hnone := (strFind_zero_none_iff _ _).mpr hno
    have hval : presetValue (presetText K props).toList e.2 = none := by
      unfold presetValue
      unfold quotedKey at hnone
      simp only [hnone]
    rw [loadPresetEntry, hname, hval]
    rfl
  | some p =>
    obtain ⟨hpc, as, bs, hprops, has⟩ := List.find?_eq_some.mp hfind
    have hpc' : p.code = c := by simpa using hpc
    have hpname : presetCodeName K p.code = e.2 := by rw [hpc', hname]
    obtain ⟨d, ds, hl, hd, hds, hdv⟩ := toString_digits p.currentValue
    obtain ⟨c0, rest0, hr, hc0⟩ := entriesText_tail K bs
    obtain ⟨x, hx, hcontent⟩ : ∃ x : List Char, keyFree e.2 x
        (quotedKey e.2 ++ (':' :: ' ' :: (d :: ds ++ c0 :: rest0))) ∧
        (presetText K props).toList =
          x ++ (quotedKey e.2 ++ (':' :: ' ' :: (d :: ds ++ c0 :: rest0))) := by
      refine ⟨"\x7b\n".toList ++ (entriesText K true as ++
        ((if (true && as.isEmpty) = true then [] else ",\n".toList) ++ "  ".toList)), ?_, ?_⟩
      · apply keyFree_append
        · exact hbrace _
        apply keyFree_append
        · apply keyFree_entries K e.2 hq hcol as true _
          intro a ha
          apply hother
          simpa using has a ha
        · apply keyFree_quote_free
          cases as.isEmpty <;> decide
      · rw [presetText_toList, hprops, entriesText_append]
        simp only [entriesText, entryText, hpname, hl, ← hr, quotedKey]
        simp [List.append_assoc]
    have hfirst : firstOccurrence (presetText K props).toList (quotedKey e.2) x.length := by
      refine ⟨by rw [hcontent]; simp, ?_, ?_⟩
      · rw [hcontent, List.drop_left]
        exact List.prefix_append _ _
      · intro q hq'
        rw [hcontent]
        exact hx q hq'
    have hdrop : (presetText K props).toList.drop (x.length + (quotedKey e.2).length) =
        ':' :: ' ' :: (d :: ds ++ c0 :: rest0) := by
      rw [hcontent, ← List.append_assoc]
      exact List.drop_left' (by simp)
    have hvt : valueText (presetText K props).toList e.2 x.length =
        d :: ds ++ c0 :: rest0 := by
      obtain ⟨_, _, hsp, htab, _⟩ := isDigit_facts d hd
      unfold valueText
      rw [hdrop]
      simp [List.dropWhile_cons, hsp, htab]
    have hval := presetValue_text (presetText K props).toList e.2 x.length hfirst
      (by rw [hdrop]; simp)
    have hlt : digitsValue (d :: ds) < 2 ^ 64 := by
      rw [hdv]
      exact hv p (by rw [hprops]; simp)
    rw [hvt, strtoull_digits d ds c0 rest0 hd hds hc0 hlt, hdv] at hval
    rw [loadPresetEntry, hname, hval]
    rfl

/-- C25. Preset save/load round trip.  For properties with pairwise distinct codes and
values below `2^64`, `loadPreset` of a file holding the text `savePreset` writes for them
returns the pairs whose code is one of `kPresetCodes`, values unchanged, ordered as
`kPresetCodes`: a pair is returned exactly when its code is in `kPresetCodes` and a property
has that code and that value, so that a property with any other code is dropped; and
`savePreset` writes exactly this text. -/
theorem preset_round_trip (E : Env σ) (K : SdkCodes) (props : List DevProp) (path : String)
    (w : World σ) (hnd : (props.map (fun p => p.code)).Nodup)
    (hv : ∀ p ∈ props, p.currentValue < 2 ^ 64)
    (hfile : E.fsReadFile w.s path = some (presetText K props)) :
    (loadPreset E K path w).1 = presetPairs K props ∧
    (∀ entry : PresetEntry, entry ∈ (loadPreset E K path w).1 ↔
      entry.code ∈ kPresetCodes K ∧
        ∃ p ∈ props, p.code = entry.code ∧ p.currentValue = entry.value) ∧
    (∀ p ∈ props, p.code ∉ kPresetCodes K →
      ∀ entry ∈ (loadPreset E K path w).1, entry.code ≠ p.code) ∧
    (∀ (cam : CameraDevice) (target : String) (w0 : World σ) (reply : PropReply) (s1 : σ),
      cam.m_connected = true →
      E.GetSelectDeviceProperties w0.s cam.m_device_handle (kPresetCodes K) = (reply, s1) →
      reply.list? = some props →
      ∃ opened, (savePreset E K cam target w0).2.log = w0.log ++
        [Ev.GetSelectDeviceProperties cam.m_device_handle (kPresetCodes K) reply,
         Ev.ReleaseDeviceProperties cam.m_device_handle,
         Ev.fsWriteFile target (presetText K props) opened]) := by
  have hload : (loadPreset E K path w).1 = presetPairs K props := by
    have : (loadPreset E K path w).1 =
        (kPresetCodes K).filterMap (loadPresetEntry K (presetText K props).toList) := by
      simp [loadPreset, fsReadFile, hfile]
    rw [this]
    unfold presetPairs
    apply List.filterMap_congr
    intro c hc
    exact loadPresetEntry_presetText K props hv c hc
  have hmem : ∀ entry : PresetEntry, entry ∈ (loadPreset E K path w).1 ↔
      entry.code ∈ kPresetCodes K ∧
        ∃ p ∈ props, p.code = entry.code ∧ p.currentValue = entry.value := by
    intro entry
    rw [hload]
    unfold presetPairs
    rw [List.mem_filterMap]
    constructor
    · rintro ⟨c, hc, hsome⟩
      cases hfind : props.find? (fun p => p.code = c) with
      | none => simp [hfind] at hsome
      | some p =>
        rw [hfind] at hsome
        have hentry : entry = ⟨c, p.currentValue⟩ := by simpa using hsome.symm
        have hpc : p.code = c := by simpa using List.find?_some hfind
        subst hentry
        exact ⟨hc, p, List.mem_of_find?_eq_some hfind, hpc, rfl⟩
    · rintro ⟨hc, p, hp, hpc, hpv⟩
      refine ⟨entry.code, hc, ?_⟩
      cases hfind : props.find? (fun p => p.code = entry.code) with
      | none =>
        have := List.find?_eq_none.mp hfind p hp
        simp [hpc] at this
      | some p' =>
        have hp'c : p'.code = entry.code := by simpa using List.find?_some hfind
        have hp' := List.mem_of_find?_eq_some hfind
        have heq : p' = p :=
          List.inj_on_of_nodup_map hnd hp' hp (hp'c.trans hpc.symm)
        subst heq
        cases entry
        simp_all
  refine ⟨hload, hmem, ?_, ?_⟩
  · intro p _ hnot entry hentry hcode
    exact hnot (hcode ▸ ((hmem entry).mp hentry).1)
  · intro cam target w0 reply s1 hcon hget hlist
    refine ⟨(E.fsWriteFile (E.ReleaseDeviceProperties s1 cam.m_device_handle) target
      (presetText K props)).1, ?_⟩
    simp [savePreset, hcon, SCRSDK.GetSelectDeviceProperties, hget, hlist,
      SCRSDK.ReleaseDeviceProperties, fsWriteFile]
    split_ifs <;> simp [World.step]

/-- The round trip on `exampleProps`, in a scripted world whose preset file holds the text
`savePreset` writes for them. -/
theorem preset_round_trip_witness :
    presetText exampleCodes exampleProps =
      "\x7b\n  \"iso\": 800,\n  \"unknown_4242\": 7,\n  \"frameRate\": 18446744073709551615" ++
        ",\n  \"fNumber\": 280\n\x7d\n" ∧
    (loadPreset (mockEnv emptyScript) exampleCodes "fx30_preset.json"
      ⟨⟨fun _ => 0, [("fx30_preset.json", presetText exampleCodes exampleProps)], ""⟩, []⟩).1 =
      presetPairs exampleCodes exampleProps ∧
    presetPairs exampleCodes exampleProps =
      [⟨260, 800⟩, ⟨256, 280⟩, ⟨1312, 2 ^ 64 - 1⟩] := by
  refine ⟨by decide, ?_, by decide⟩
  exact (preset_round_trip (mockEnv emptyScript) exampleCodes exampleProps "fx30_preset.json"
    ⟨⟨fun _ => 0, [("fx30_preset.json", presetText exampleCodes exampleProps)], ""⟩, []⟩
    (by decide) (by decide) rfl).1

@[simp] theorem connectsOf_append (a b : List Ev) :
    connectsOf (a ++ b) = connectsOf a ++ connectsOf b := by
  simp [connectsOf, List.filterMap_append]

theorem only_refl (p : Ev → Bool) (w : World σ) : Only p w w :=
  ⟨[], by simp, by simp⟩

theorem only_trans (p : Ev → Bool) {w1 w2 w3 : World σ} (h12 : Only p w1 w2)
    (h23 : Only p w2 w3) : Only p w1 w3 := by
  obtain ⟨t1, hl1, hp1⟩ := h12
  obtain ⟨t2, hl2, hp2⟩ := h23
  refine ⟨t1 ++ t2, by rw [hl2, hl1, List.append_assoc], ?_⟩
  intro ev hev
  rcases List.mem_append.mp hev with h | h
  · exact hp1 ev h
  · exact hp2 ev h

theorem only_step (p : Ev → Bool) (w : World σ) (s : σ) (ev : Ev) (hev : p ev = true) :
    Only p w (w.step s ev) :=
  ⟨[ev], by simp [World.step], by simpa using hev⟩

theorem only_mono (p q : Ev → Bool) (hpq : ∀ ev, p ev = true → q ev = true) {w w' : World σ}
    (h : Only p w w') : Only q w w' := by
  obtain ⟨tr, hl, hp⟩ := h
  exact ⟨tr, hl, fun ev hev => hpq ev (hp ev hev)⟩

/-- The device is one to connect exactly when the two tests of the scan loop say so. -/
theorem toConnect_iff (cams : List CameraDevice) (info : ObjInfo) :
    toConnect cams info ↔
      (isFX30Camera info = true ∧ alreadyConnected cams (getModelId info) = false) := by
  have hfx : isFX30Camera info = true ↔ "FX30".toList <:+: info.Model.toList := by
    unfold isFX30Camera
    rw [← not_iff_not, ← strFind_zero_none_iff]
    cases strFind info.Model.toList "FX30".toList 0 <;> simp
  have hac : alreadyConnected cams (getModelId info) = false ↔
      ∀ cam ∈ cams, cam.m_connected = true → cam.m_modelId ≠ getModelId info := by
    unfold alreadyConnected
    rw [List.any_eq_false]
    constructor
    · intro h cam hcam hcon hid
      exact h cam hcam (by simp [hcon, hid])
    · intro h cam hcam hboth
      simp only [decide_eq_true_eq] at hboth
      exact h cam hcam hboth.2 hboth.1
  unfold toConnect
  rw [hfx, hac]

/-- The calls of one open attempt that returns: one `Connect` call for the device in the
mode, and calls of the scan only; the identity of the handle is kept. -/
theorem openOnce_calls (E : Env σ) (info : ObjInfo) (mode : SdkControlMode)
    (c : CameraDevice) (w : World σ) (r : Bool × CameraDevice × World σ)
    (h : c.openOnce E info mode w = some r) :
    ∃ tr, r.2.2.log = w.log ++ tr ∧ (∀ ev ∈ tr, Ev.isScanCall ev = true) ∧
      connectsOf tr = [(info, mode)] ∧ r.2.1.m_modelId = c.m_modelId := by
  unfold CameraDevice.openOnce at h
  simp only [CameraDevice.setEventPromise, SCRSDK.Connect] at h
  generalize E.Connect w.s info c.m_device_handle mode = rep at h
  have hrel : ∀ (c' : CameraDevice), c'.m_modelId = c.m_modelId →
      ∃ tr, (c'.releaseIfOpen E (w.step rep.2 (Ev.Connect info mode rep.1))).2.log =
          w.log ++ tr ∧ (∀ ev ∈ tr, Ev.isScanCall ev = true) ∧
        connectsOf tr = [(info, mode)] ∧
        (c'.releaseIfOpen E (w.step rep.2 (Ev.Connect info mode rep.1))).1.m_modelId =
          c.m_modelId := by
    intro c' hc'
    obtain ⟨-, hm, hl | hl⟩ := releaseIfOpen_handle E c'
      (w.step rep.2 (Ev.Connect info mode rep.1))
    · exact ⟨[Ev.Connect info mode rep.1], by rw [hl]; simp [World.step],
        by simp [Ev.isScanCall], by simp [connectsOf], hm.trans hc'⟩
    · exact ⟨[Ev.Connect info mode rep.1, Ev.ReleaseDevice c'.m_device_handle],
        by rw [hl]; simp [World.step], by simp [Ev.isScanCall], by simp [connectsOf],
        hm.trans hc'⟩
  by_cases herr : rep.1.err = 0
  · simp only [herr, ne_eq, not_true_eq_false, if_false] at h
    have hfr := (awaitEvent_frame rep.1.events
      ({ c with m_eventPromise := true, m_device_handle := rep.1.handle } : CameraDevice)).2
    generalize CameraDevice.awaitEvent rep.1.events
      ({ c with m_eventPromise := true, m_device_handle := rep.1.handle } : CameraDevice) = a
      at h hfr
    obtain ⟨res, c'⟩ := a
    simp only at hfr
    cases res with
    | none => simp at h
    | some rr =>
      cases rr with
      | value =>
        simp only [Option.some.injEq] at h
        subst h
        exact ⟨[Ev.Connect info mode rep.1], by simp [World.step], by simp [Ev.isScanCall],
          by simp [connectsOf], hfr⟩
      | exception =>
        simp only [Option.some.injEq] at h
        subst h
        exact hrel c' hfr
  · simp only [herr, ne_eq, not_false_eq_true, if_true, Option.some.injEq] at h
    subst h
    exact hrel _ rfl

theorem retryDelay_calls (E : Env σ) (apple : Bool) (w : World σ) :
    ∃ tr, (CameraDevice.retryDelay E apple w).log = w.log ++ tr ∧
      (∀ ev ∈ tr, Ev.isScanCall ev = true) ∧ connectsOf tr = [] := by
  unfold CameraDevice.retryDelay
  split_ifs
  · exact ⟨[Ev.resetUSBDevice, Ev.sleep 4000],
      by simp [sleep_for, resetUSBDevice, World.step], by simp [Ev.isScanCall],
      by simp [connectsOf]⟩
  · exact ⟨[Ev.sleep 3000], by simp [sleep_for, World.step], by simp [Ev.isScanCall],
      by simp [connectsOf]⟩

/-- The calls of the loop of `connect` with `k` iterations left, when it returns: calls of
the scan only, among them at most `k` `Connect` calls, at least one when `k` is not 0, all
for the device in remote mode. -/
theorem connectLoop_calls (E : Env σ) (apple : Bool) (info : ObjInfo) (n : Int) :
    ∀ (k : Nat) (c : CameraDevice) (w : World σ) (r : Bool × CameraDevice × World σ),
      CameraDevice.connectLoop E apple info n k c w = some r →
      ∃ tr m, r.2.2.log = w.log ++ tr ∧ (∀ ev ∈ tr, Ev.isScanCall ev = true) ∧
        connectsOf tr = List.replicate m (info, SdkControlMode.Remote) ∧ m ≤ k ∧
        (0 < k → 0 < m) ∧ r.2.1.m_modelId = c.m_modelId := by
  intro k
  induction k with
  | zero =>
    intro c w r h
    simp only [CameraDevice.connectLoop, Option.some.injEq] at h
    subst h
    exact ⟨[], 0, by simp, by simp, by simp [connectsOf], le_refl _, fun h => h, rfl⟩
  | succ k ih =>
    intro c w r h
    cases hopen : c.openOnce E info .Remote w with
    | none => simp [CameraDevice.connectLoop, hopen] at h
    | some o =>
      obtain ⟨ok, c1, w1⟩ := o
      obtain ⟨tr1, hl1, hs1, hc1, hm1⟩ := openOnce_calls E info .Remote c w _ hopen
      simp only at hl1 hm1
      cases ok with
      | true =>
        simp only [CameraDevice.connectLoop, hopen, Option.some.injEq] at h
        subst h
        exact ⟨tr1, 1, hl1, hs1, by simpa using hc1, by omega, fun _ => by omega, hm1⟩
      | false =>
        simp only [CameraDevice.connectLoop, hopen] at h
        obtain ⟨tr2, m, hl2, hs2, hc2, hmk, -, hm2⟩ := ih c1 _ r h
        have hmid : ∃ trd, (if (n - (k : Int) < n) then CameraDevice.retryDelay E apple w1
            else w1).log = w1.log ++ trd ∧ (∀ ev ∈ trd, Ev.isScanCall ev = true) ∧
            connectsOf trd = [] := by
          split_ifs
          · exact retryDelay_calls E apple w1
          · exact ⟨[], by simp, by simp, by simp [connectsOf]⟩
        obtain ⟨trd, hld, hsd, hcd⟩ := hmid
        refine ⟨tr1 ++ trd ++ tr2, m + 1, ?_, ?_, ?_, by omega, fun _ => by omega,
          hm2.trans hm1⟩
        · rw [hl2, hld, hl1]
          simp [List.append_assoc]
        · intro ev hev
          rcases List.mem_append.mp hev with h12 | h3
          · rcases List.mem_append.mp h12 with h1 | h2
            · exact hs1 ev h1
            · exact hsd ev h2
          · exact hs2 ev h3
        · simp only [connectsOf_append, hc1, hcd, hc2, List.append_nil]
          rw [List.replicate_succ, List.singleton_append]

/-- The calls of `connect` with three attempts, when it returns: calls of the scan only,
among them one to three `Connect` calls, all for the device in remote mode; the handle has
the identity of the device. -/
theorem connect_calls (E : Env σ) (apple : Bool) (info : ObjInfo) (c : CameraDevice)
    (w : World σ) (r : Bool × CameraDevice × World σ)
    (h : CameraDevice.connect E apple info 3 c w = some r) :
    ∃ tr m, r.2.2.log = w.log ++ tr ∧ (∀ ev ∈ tr, Ev.isScanCall ev = true) ∧
      connectsOf tr = List.replicate m (info, SdkControlMode.Remote) ∧ 1 ≤ m ∧ m ≤ 3 ∧
      r.2.1.m_modelId = getModelId info := by
  unfold CameraDevice.connect at h
  obtain ⟨tr, m, hl, hs, hc, hm3, hm1, hid⟩ := connectLoop_calls E apple info 3 _ _ _ _ h
  exact ⟨tr, m, hl, hs, hc, hm1 (by decide), hm3, hid⟩

theorem stepAdded_length (st : Option (Bool × CameraDevice × World σ)) :
    (stepAdded st).length = if stepSucceeded st = true then 1 else 0 := by
  rcases st with _ | ⟨ok, cam, w⟩
  · rfl
  · cases ok <;> rfl

theorem flatMap_stepAdded_length (steps : List (Option (Bool × CameraDevice × World σ))) :
    (steps.flatMap stepAdded).length = steps.countP stepSucceeded := by
  induction steps with
  | nil => rfl
  | cons st rest ih =>
    rw [List.flatMap_cons, List.length_append, ih, stepAdded_length, List.countP_cons]
    omega

/-- The second loop of `scanAndConnect`, when it returns, has made the steps of a reconciled
scan: the registry is the prior one followed by the handles the steps append, `fx30Found`
has grown by the number of `connect` calls that returned true, and the world is the one the
last step left. -/
theorem scanLoop_reconciled (E : Env σ) (apple : Bool) (total : Nat) :
    ∀ (infos : List ObjInfo) (att found : Nat) (g : Globals) (w : World σ)
      (r : Nat × Globals × World σ),
      scanLoop E apple total infos att found g w = some r →
      ∃ steps, reconciled E apple g.g_cameras w infos steps ∧
        r.2.1.g_cameras = g.g_cameras ++ steps.flatMap stepAdded ∧
        r.1 = found + steps.countP stepSucceeded ∧
        r.2.2 = steps.foldl stepWorld w ∧
        r.2.1.g_presetPath = g.g_presetPath := by
  intro infos
  induction infos with
  | nil =>
    intro att found g w r h
    simp only [scanLoop, Option.some.injEq] at h
    subst h
    exact ⟨[], trivial, by simp, by simp, rfl, rfl⟩
  | cons info rest ih =>
    intro att found g w r h
    have hskip : ¬ toConnect g.g_cameras info →
        ∀ (att' : Nat) (g' : Globals), g'.g_cameras = g.g_cameras →
          g'.g_presetPath = g.g_presetPath →
          scanLoop E apple total rest att' found g' w = some r →
          ∃ steps, reconciled E apple g.g_cameras w (info :: rest) steps ∧
            r.2.1.g_cameras = g.g_cameras ++ steps.flatMap stepAdded ∧
            r.1 = found + steps.countP stepSucceeded ∧
            r.2.2 = steps.foldl stepWorld w ∧
            r.2.1.g_presetPath = g.g_presetPath := by
      intro hno att' g' hg' hp' h'
      obtain ⟨steps, hrec, hcams, hfound, hw, hpath⟩ := ih att' found g' w r h'
      refine ⟨none :: steps, ?_, ?_, ?_, ?_, hpath.trans hp'⟩
      · refine ⟨by simpa using hno, by simp, ?_⟩
        simpa [stepAdded, stepWorld, hg'] using hrec
      · simpa [stepAdded, hg'] using hcams
      · simpa [stepSucceeded] using hfound
      · simpa [stepWorld] using hw
    by_cases hfx : isFX30Camera info = true
    · by_cases hac : alreadyConnected g.g_cameras (getModelId info) = true
      · have hno : ¬ toConnect g.g_cameras info := by
          rw [toConnect_iff]
          simp [hac]
        simp only [scanLoop, hfx, hac, not_true_eq_false, if_false, if_true] at h
        exact hskip hno _ _ (by rfl) (by rfl) h
      · have hyes : toConnect g.g_cameras info := by
          rw [toConnect_iff]
          exact ⟨hfx, by simpa using hac⟩
        simp only [scanLoop, hfx, hac, not_true_eq_false, if_false] at h
        cases hcon : CameraDevice.connect E apple info 3 {} w with
        | none => simp [hcon] at h
        | some o =>
          obtain ⟨ok, cam, w1⟩ := o
          cases ok with
          | true =>
            simp only [hcon] at h
            obtain ⟨steps, hrec, hcams, hfound, hw, hpath⟩ := ih _ _ _ _ r h
            refine ⟨some (true, cam, w1) :: steps, ?_, ?_, ?_, ?_, hpath⟩
            · refine ⟨by simpa using hyes, ?_, ?_⟩
              · intro r' hr'
                rw [hcon, ← hr']
              · simpa [stepAdded, stepWorld] using hrec
            · simpa [stepAdded, List.append_assoc] using hcams
            · simp only [List.countP_cons, stepSucceeded, if_true]
              omega
            · simpa [stepWorld] using hw
          | false =>
            simp only [hcon] at h
            obtain ⟨steps, hrec, hcams, hfound, hw, hpath⟩ := ih _ _ _ _ r h
            refine ⟨some (false, cam, w1) :: steps, ?_, ?_, ?_, ?_, hpath⟩
            · refine ⟨by simpa using hyes, ?_, ?_⟩
              · intro r' hr'
                rw [hcon, ← hr']
              · simpa [stepAdded, stepWorld] using hrec
            · simpa [stepAdded] using hcams
            · simpa [stepSucceeded] using hfound
            · simpa [stepWorld] using hw
    · have hno : ¬ toConnect g.g_cameras info := by
        rw [toConnect_iff]
        simp [hfx]
      simp only [scanLoop, hfx, not_false_eq_true, if_true] at h
      exact hskip hno _ _ (by rfl) (by rfl) h

/-- The steps of a reconciled scan make calls of the scan only; each `connect` call among
them makes one to three `Connect` calls, for its device in remote mode, and the handle it
leaves has the identity of its device. -/
theorem reconciled_calls (E : Env σ) (apple : Bool) :
    ∀ (infos : List ObjInfo) (steps : List (Option (Bool × CameraDevice × World σ)))
      (cams : List CameraDevice) (w : World σ),
      reconciled E apple cams w infos steps →
      steps.length = infos.length ∧
      Only Ev.isScanCall w (steps.foldl stepWorld w) ∧
      (∀ cam ∈ steps.flatMap stepAdded, ∃ info ∈ infos, cam.m_modelId = getModelId info) ∧
      ∃ counts : List Nat, counts.length = infos.length ∧
        (∀ i (hi : i < counts.length) (hs : i < steps.length),
          (counts.get ⟨i, hi⟩ = 0 ↔ steps.get ⟨i, hs⟩ = none) ∧ counts.get ⟨i, hi⟩ ≤ 3) ∧
        connectsOf (steps.foldl stepWorld w).log =
          connectsOf w.log ++ scanConnects infos counts := by
  intro infos
  induction infos with
  | nil =>
    intro steps cams w h
    cases steps with
    | nil =>
      exact ⟨rfl, only_refl _ w, by simp, [], rfl, by simp, by simp [scanConnects]⟩
    | cons st rest => simp [reconciled] at h
  | cons info rest ih =>
    intro steps cams w h
    cases steps with
    | nil => simp [reconciled] at h
    | cons st more =>
      obtain ⟨hiff, hcall, hrest⟩ := h
      obtain ⟨hlen, honly, hids, counts, hclen, hcounts, hcon⟩ := ih more _ _ hrest
      have hstep : ∃ m, Only Ev.isScanCall w (stepWorld w st) ∧
          connectsOf (stepWorld w st).log = connectsOf w.log ++
            List.replicate m (info, SdkControlMode.Remote) ∧
          (m = 0 ↔ st = none) ∧ m ≤ 3 ∧
          ∀ cam ∈ stepAdded st, cam.m_modelId = getModelId info := by
        cases st with
        | none =>
          exact ⟨0, only_refl _ w, by simp [stepWorld], by simp, by omega,
            by simp [stepAdded]⟩
        | some r =>
          obtain ⟨tr, m, hl, hs, hc, hm1, hm3, hid⟩ :=
            connect_calls E apple info {} w r (hcall r rfl)
          refine ⟨m, ⟨tr, hl, hs⟩, ?_, ?_, hm3, ?_⟩
          · simp only [stepWorld]
            rw [hl, connectsOf_append, hc]
          · constructor
            · intro h0; omega
            · intro hn; cases hn
          · obtain ⟨ok, cam, w1⟩ := r
            cases ok with
            | true =>
              intro cam' hcam'
              simp only [stepAdded, List.mem_singleton] at hcam'
              subst hcam'
              exact hid
            | false => simp [stepAdded]
      obtain ⟨m, hso, hsc, hm0, hm3, hsid⟩ := hstep
      refine ⟨by simp [hlen], ?_, ?_, m :: counts, by simp [hclen], ?_, ?_⟩
      · simpa using only_trans _ hso honly
      · intro cam hcam
        rw [List.flatMap_cons, List.mem_append] at hcam
        rcases hcam with h1 | h2
        · exact ⟨info, by simp, hsid cam h1⟩
        · obtain ⟨i, hi, hid⟩ := hids cam h2
          exact ⟨i, by simp [hi], hid⟩
      · intro i hi hs
        cases i with
        | zero => simpa using ⟨hm0, hm3⟩
        | succ j =>
          have := hcounts j (by simpa using hi) (by simpa using hs)
          simpa using this
      · simp only [List.foldl_cons]
        rw [hcon, hsc]
        simp [scanConnects, List.append_assoc]

/-- Calls of a kind on which a projection of the log is silent leave the projection as it
was. -/
theorem only_filterMap {α : Type} (f : Ev → Option α) (p : Ev → Bool)
    (hp : ∀ ev, p ev = true → f ev = none) {w w' : World σ} (h : Only p w w') :
    w'.log.filterMap f = w.log.filterMap f := by
  obtain ⟨tr, hl, htr⟩ := h
  have : tr.filterMap f = [] := by
    rw [List.filterMap_eq_nil_iff]
    intro ev hev
    exact hp ev (htr ev hev)
  rw [hl, List.filterMap_append, this, List.append_nil]

theorem applyPresetEntry_only (E : Env σ) (h : Int) (st : Nat × World σ) (e : PresetEntry) :
    Only Ev.isPresetCall st.2 (applyPresetEntry E h st e).2 := by
  unfold applyPresetEntry
  have h1 : Only Ev.isPresetCall st.2 (SCRSDK.GetSelectDeviceProperties E h [e.code] st.2).2 :=
    only_step _ _ _ _ rfl
  have h2 : ∀ w : World σ, Only Ev.isPresetCall w (SCRSDK.ReleaseDeviceProperties E h w) :=
    fun w => only_step _ _ _ _ rfl
  have h3 : ∀ (p : DevProp) (w : World σ),
      Only Ev.isPresetCall w (SCRSDK.SetDeviceProperty E h p w).2 :=
    fun p w => only_step _ _ _ _ rfl
  have h4 : ∀ w : World σ, Only Ev.isPresetCall w (sleep_for E 500 w) :=
    fun w => only_step _ _ _ _ rfl
  simp only []
  split
  · split_ifs
    · exact only_trans _ h1 (h2 _)
    · exact only_trans _ h1 (only_trans _ (h2 _) (h3 _ _))
    · exact only_trans _ h1 (only_trans _ (h2 _) (only_trans _ (h3 _ _) (h4 _)))
  · exact h1

theorem applyPreset_only (E : Env σ) (cam : CameraDevice) (entries : List PresetEntry)
    (w : World σ) : Only Ev.isPresetCall w (applyPreset E cam entries w).2 := by
  unfold applyPreset
  split_ifs
  · exact only_refl _ w
  · have hfold : ∀ (es : List PresetEntry) (st : Nat × World σ),
        Only Ev.isPresetCall st.2 (es.foldl (applyPresetEntry E cam.m_device_handle) st).2 := by
      intro es
      induction es with
      | nil => intro st; exact only_refl _ _
      | cons e rest ih =>
        intro st
        exact only_trans _ (applyPresetEntry_only E _ st e) (ih _)
    exact hfold entries (0, w)

/-- The loop that applies the preset calls `applyPreset` for the connected handles of the
list, in order. -/
theorem applyPresetAll_world (E : Env σ) (preset : List PresetEntry) :
    ∀ (cams : List CameraDevice) (g : Globals) (w : World σ),
      (applyPresetAll E preset cams g w).2 =
        (cams.filter (fun cam => cam.m_connected)).foldl
          (fun w cam => (applyPreset E cam preset w).2) w := by
  intro cams
  induction cams with
  | nil => intro g w; rfl
  | cons cam rest ih =>
    intro g w
    unfold applyPresetAll
    by_cases hc : cam.m_connected = true
    · simp only [hc, not_true_eq_false, if_false, List.filter_cons_of_pos, List.foldl_cons]
      rw [ih]
    · simp [hc, ih]

theorem applyPresetAll_only (E : Env σ) (preset : List PresetEntry) :
    ∀ (cams : List CameraDevice) (g : Globals) (w : World σ),
      Only Ev.isPresetCall w (applyPresetAll E preset cams g w).2 := by
  intro cams
  induction cams with
  | nil => intro g w; exact only_refl _ w
  | cons cam rest ih =>
    intro g w
    unfold applyPresetAll
    by_cases hc : cam.m_connected = true
    · rw [if_neg (not_not.mpr hc)]
      exact only_trans _ (applyPreset_only E cam preset w) (ih _ _)
    · rw [if_pos hc]
      exact ih _ _

theorem loadPreset_only (E : Env σ) (K : SdkCodes) (path : String) (w : World σ) :
    Only Ev.isPresetCall w (loadPreset E K path w).2 := by
  have h : Only Ev.isPresetCall w (fsReadFile E path w).2 := only_step _ _ _ _ rfl
  unfold loadPreset
  simp only []
  split <;> exact h

theorem scanEpilogue_only (E : Env σ) (K : SdkCodes) (found : Nat) (g : Globals)
    (w : World σ) : Only Ev.isPresetCall w (scanEpilogue E K found g w).2 := by
  unfold scanEpilogue
  have h1 : Only Ev.isPresetCall w (SCRSDK.EnumRelease E w) := only_step _ _ _ _ rfl
  have h2 : ∀ w : World σ, Only Ev.isPresetCall w (sleep_for E 1500 w) :=
    fun w => only_step _ _ _ _ rfl
  simp only []
  split_ifs
  · exact h1
  · exact only_trans _ h1 (only_trans _ (h2 _) (loadPreset_only E K _ _))
  · exact only_trans _ h1 (only_trans _ (h2 _) (only_trans _ (loadPreset_only E K _ _)
      (applyPresetAll_only E _ _ _ _)))

/-- The beginning of `scanAndConnect`, up to and with the enumeration, makes calls of the
scan only, and no `Connect` call. -/
theorem scanStart_only (E : Env σ) (apple usbReset : Bool) (g : Globals) (w : World σ) :
    Only (fun ev => Ev.isScanCall ev && !Ev.isConnect ev) w
      (scanStart E apple usbReset g w).2 := by
  have hp : Only (fun ev => Ev.isScanCall ev && !Ev.isConnect ev) w
      (scanPrologue E apple usbReset g w).2 := by
    unfold scanPrologue
    split_ifs
    · exact only_trans _ (only_step _ _ _ Ev.resetUSBDevice rfl)
        (only_step _ _ _ (Ev.sleep 6000) rfl)
    · exact only_refl _ w
  exact only_trans _ hp (only_step _ _ _ _ rfl)

theorem connectsOf_only (p : Ev → Bool) (hp : ∀ ev, p ev = true → Ev.isConnect ev = false)
    {w w' : World σ} (h : Only p w w') : connectsOf w'.log = connectsOf w.log := by
  unfold connectsOf
  apply only_filterMap _ p _ h
  intro ev hev
  have := hp ev hev
  cases ev <;> simp_all [Ev.isConnect]

/-- The shape of `scanAndConnect` when the enumeration gave a list and the function
returns: the second loop returned, and the end of the function ran on its result. -/
theorem scanAndConnect_shape (E : Env σ) (K : SdkCodes) (apple usbReset : Bool)
    (g : Globals) (w : World σ) (r : Globals × World σ) (infos : List ObjInfo)
    (hscan : scanAndConnect E K apple usbReset g w = some r)
    (hlist : (scanStart E apple usbReset g w).1.list? = some infos) :
    ∃ (g0 : Globals) (l : Nat × Globals × World σ), g0.g_cameras = g.g_cameras ∧
      g0.g_presetPath = g.g_presetPath ∧
      scanLoop E apple (infos.countP isFX30Camera) infos 0 0 g0
        (scanStart E apple usbReset g w).2 = some l ∧
      r = scanEpilogue E K l.1 l.2.1 l.2.2 := by
  unfold scanAndConnect at hscan
  unfold scanStart at hlist ⊢
  have hpro := scanPrologue_spec E apple usbReset g w
  generalize scanPrologue E apple usbReset g w = p0 at hscan hlist hpro ⊢
  obtain ⟨g0, w0⟩ := p0
  simp only [] at hscan hlist hpro ⊢
  rw [hlist] at hscan
  simp only [] at hscan
  cases hloop : scanLoop E apple (infos.countP isFX30Camera) infos 0 0
      { g0 with g_scanStatus := "Enumerating cameras..." }
      (SCRSDK.EnumCameraObjects E w0).2 with
  | none => simp [hloop] at hscan
  | some l =>
    simp only [hloop, Option.some.injEq] at hscan
    exact ⟨{ g0 with g_scanStatus := "Enumerating cameras..." }, l, hpro.1, hpro.2.1, hloop,
      hscan.symm⟩

theorem isPresetCall_not_connect :
    ∀ ev, Ev.isPresetCall ev = true → Ev.isConnect ev = false := by
  intro ev
  cases ev <;> simp [Ev.isPresetCall, Ev.isConnect]

/-- C21. Discovery filter and reconcile.  When every open is answered `scanAndConnect`
returns; and when it returns after an enumeration that gave the devices `infos`, it has made
one step per enumerated device, in order, a step being a `connect` call exactly for a device
whose model string contains "FX30" and whose identity is not that of a handle that is
connected in the registry as the steps before left it.  The `Connect` calls of the whole
function are those of these `connect` calls (one to three each, for the device, in remote
mode), each `connect` call that returns true appends its handle at the end of the registry,
the prior registry stays as a prefix, and the length grows by the number of `connect` calls
that returned true.  When the enumeration fails, the registry is unchanged and no `Connect`
call is made. -/
theorem scan_reconciles (E : Env σ) (K : SdkCodes) (apple usbReset : Bool) (g : Globals)
    (w : World σ) :
    ((∀ s info h mode, ((E.Connect s info h mode).1).answered = true) →
      ∃ r, scanAndConnect E K apple usbReset g w = some r) ∧
    (∀ r, scanAndConnect E K apple usbReset g w = some r →
      ((scanStart E apple usbReset g w).1.list? = none →
        r.1.g_cameras = g.g_cameras ∧ connectsOf r.2.log = connectsOf w.log) ∧
      (∀ infos, (scanStart E apple usbReset g w).1.list? = some infos →
        ∃ (steps : List (Option (Bool × CameraDevice × World σ))) (counts : List Nat),
          steps.length = infos.length ∧ counts.length = infos.length ∧
          reconciled E apple g.g_cameras (scanStart E apple usbReset g w).2 infos steps ∧
          r.1.g_cameras = g.g_cameras ++ steps.flatMap stepAdded ∧
          r.1.g_cameras.length = g.g_cameras.length + steps.countP stepSucceeded ∧
          (∀ cam ∈ steps.flatMap stepAdded, ∃ info ∈ infos,
            cam.m_modelId = getModelId info) ∧
          (∀ i (hi : i < counts.length) (hs : i < steps.length),
            (counts.get ⟨i, hi⟩ = 0 ↔ steps.get ⟨i, hs⟩ = none) ∧ counts.get ⟨i, hi⟩ ≤ 3) ∧
          connectsOf r.2.log = connectsOf w.log ++ scanConnects infos counts)) := by
  have hstart : connectsOf (scanStart E apple usbReset g w).2.log = connectsOf w.log :=
    connectsOf_only _ (by intro ev; cases ev <;> simp [Ev.isConnect, Ev.isScanCall])
      (scanStart_only E apple usbReset g w)
  refine ⟨fun hans => ?_, fun r hscan => ⟨fun hnone => ?_, fun infos hlist => ?_⟩⟩
  · obtain ⟨r, hr, -⟩ := scanAndConnect_returns E K apple usbReset hans g w
    exact ⟨r, hr⟩
  · have hpro := (scanPrologue_spec E apple usbReset g w).1
    unfold scanStart at hnone hstart
    unfold scanAndConnect at hscan
    generalize scanPrologue E apple usbReset g w = p0 at hscan hnone hstart hpro
    obtain ⟨g0, w0⟩ := p0
    simp only [] at hscan hnone hstart hpro
    rw [hnone] at hscan
    simp only [Option.some.injEq] at hscan
    subst hscan
    exact ⟨hpro, hstart⟩
  · obtain ⟨g0, l, hg0, -, hloop, hr⟩ := scanAndConnect_shape E K apple usbReset g w r infos
      hscan hlist
    obtain ⟨steps, hrec, hcams, -, hworld, -⟩ := scanLoop_reconciled E apple _ infos 0 0 g0
      _ l hloop
    rw [hg0] at hrec hcams
    obtain ⟨hlen, -, hids, counts, hclen, hcounts, hcon⟩ :=
      reconciled_calls E apple infos steps _ _ hrec
    have hend : connectsOf r.2.log = connectsOf l.2.2.log := by
      rw [hr]
      exact connectsOf_only _ isPresetCall_not_connect (scanEpilogue_only E K l.1 l.2.1 l.2.2)
    have hreg : r.1.g_cameras = g.g_cameras ++ steps.flatMap stepAdded := by
      rw [hr, scanEpilogue_cameras, hcams]
    refine ⟨steps, counts, hlen, hclen, hrec, hreg, ?_, hids, hcounts, ?_⟩
    · rw [hreg, List.length_append, flatMap_stepAdded_length]
    · rw [hend, hworld, hcon, hstart]

/-- Calls of the scan proper leave the property reads, the property writes and the file
reads of the log as they were. -/
theorem scan_calls_silent {w w' : World σ} (h : Only Ev.isScanCall w w') :
    readsOf w'.log = readsOf w.log ∧ writesOf w'.log = writesOf w.log ∧
      fileReadsOf w'.log = fileReadsOf w.log := by
  refine ⟨?_, ?_, ?_⟩
  · unfold readsOf
    apply only_filterMap _ _ _ h
    intro ev
    cases ev <;> simp [Ev.isScanCall]
  · unfold writesOf
    apply only_filterMap _ _ _ h
    intro ev
    cases ev <;> simp [Ev.isScanCall]
  · unfold fileReadsOf
    apply only_filterMap _ _ _ h
    intro ev
    cases ev <;> simp [Ev.isScanCall]

/-- The property reads of `applyPreset` on a connected handle: one per entry, in order. -/
theorem applyPreset_reads (E : Env σ) (cam : CameraDevice) (preset : List PresetEntry)
    (w : World σ) (hc : cam.m_connected = true) :
    ∃ tr, (applyPreset E cam preset w).2.log = w.log ++ tr ∧
      (readsOf tr).map (fun r => (r.1, r.2.1)) =
        preset.map (fun e => (cam.m_device_handle, [e.code])) := by
  unfold applyPreset
  by_cases he : preset.isEmpty = true
  · have : preset = [] := List.isEmpty_iff.mp he
    subst this
    exact ⟨[], by simp, by simp [readsOf]⟩
  · simp only [hc, not_true_eq_false, he, false_or, if_false]
    obtain ⟨tr, hl, hr, -⟩ := applyPreset_fold_spec E cam.m_device_handle preset (0, w)
    exact ⟨tr, hl, hr⟩

theorem applyPreset_fold_reads (E : Env σ) (preset : List PresetEntry) :
    ∀ (cams : List CameraDevice) (w : World σ), (∀ cam ∈ cams, cam.m_connected = true) →
      ∃ tr, (cams.foldl (fun w cam => (applyPreset E cam preset w).2) w).log = w.log ++ tr ∧
        (readsOf tr).map (fun r => (r.1, r.2.1)) =
          cams.flatMap (fun cam => preset.map (fun e => (cam.m_device_handle, [e.code]))) := by
  intro cams
  induction cams with
  | nil => intro w _; exact ⟨[], by simp, by simp [readsOf]⟩
  | cons cam rest ih =>
    intro w hall
    obtain ⟨tr1, hl1, hr1⟩ := applyPreset_reads E cam preset w (hall cam (by simp))
    obtain ⟨tr2, hl2, hr2⟩ := ih (applyPreset E cam preset w).2
      (fun c hc => hall c (by simp [hc]))
    refine ⟨tr1 ++ tr2, ?_, ?_⟩
    · rw [List.foldl_cons, hl2, hl1, List.append_assoc]
    · rw [readsOf_append, List.map_append, hr1, hr2, List.flatMap_cons]

/-- The world the end of `scanAndConnect` leaves: after the release of the enumeration
nothing more when no camera was newly connected; else the sleep and the read of the preset
file, and then, when the preset is not empty, `applyPreset` for every connected handle of
the registry, in order. -/
theorem scanEpilogue_world (E : Env σ) (K : SdkCodes) (found : Nat) (g : Globals)
    (w : World σ) :
    (found = 0 → (scanEpilogue E K found g w).2 = SCRSDK.EnumRelease E w) ∧
    (found ≠ 0 →
      (loadPreset E K g.g_presetPath (sleep_for E 1500 (SCRSDK.EnumRelease E w))).1 = [] →
      (scanEpilogue E K found g w).2 =
        (loadPreset E K g.g_presetPath (sleep_for E 1500 (SCRSDK.EnumRelease E w))).2) ∧
    (found ≠ 0 →
      (loadPreset E K g.g_presetPath (sleep_for E 1500 (SCRSDK.EnumRelease E w))).1 ≠ [] →
      (scanEpilogue E K found g w).2 =
        (g.g_cameras.filter (fun cam => cam.m_connected)).foldl
          (fun wa cam => (applyPreset E cam
            (loadPreset E K g.g_presetPath (sleep_for E 1500 (SCRSDK.EnumRelease E w))).1 wa).2)
          (loadPreset E K g.g_presetPath (sleep_for E 1500 (SCRSDK.EnumRelease E w))).2) := by
  unfold scanEpilogue
  simp only []
  generalize loadPreset E K g.g_presetPath (sleep_for E 1500 (SCRSDK.EnumRelease E w)) = ld
  obtain ⟨preset, w2⟩ := ld
  refine ⟨fun h0 => ?_, fun h0 he => ?_, fun h0 he => ?_⟩
  · simp [h0]
  · simp only at he
    simp [h0, he]
  · simp only at he
    have hne : ¬ preset.isEmpty = true := fun h => he (List.isEmpty_iff.mp h)
    simp [h0, hne, applyPresetAll_world]

/-- C22. Preset is applied after a scan only when something new connected.  When
`scanAndConnect` returns after an enumeration that gave a list, its second loop has left a
registry that extends the prior one by `found` handles, without a property read, a property
write or a file read so far; the function then releases the enumeration and, when `found` is
0, does nothing more; else it sleeps and calls `loadPreset` on the preset path, and calls
`applyPreset` exactly when the preset is not empty, for every connected handle of the
registry, in order (handles of the prior registry included), which makes one property read
per handle and entry.  When the registry has not grown, the function makes no property read,
no property write and no read of the preset file.  In the scripted world of `iso400Start`,
whose preset file holds an ISO entry: with the first of two cameras connected beforehand
(handle 1) the second is newly connected (handle 12) and the preset is read on both; with
the one camera of the enumeration connected beforehand the calls are the enumeration and its
release. -/
theorem preset_after_scan (E : Env σ) (K : SdkCodes) (apple usbReset : Bool) (g : Globals)
    (w : World σ) :
    (∀ r infos, scanAndConnect E K apple usbReset g w = some r →
      (scanStart E apple usbReset g w).1.list? = some infos →
      ∃ (found : Nat) (w1 : World σ),
        g.g_cameras <+: r.1.g_cameras ∧
        r.1.g_cameras.length = g.g_cameras.length + found ∧
        readsOf w1.log = readsOf w.log ∧ writesOf w1.log = writesOf w.log ∧
        fileReadsOf w1.log = fileReadsOf w.log ∧
        (found = 0 → r.2 = SCRSDK.EnumRelease E w1) ∧
        (found ≠ 0 →
          (loadPreset E K g.g_presetPath (sleep_for E 1500 (SCRSDK.EnumRelease E w1))).1 = [] →
          r.2 = (loadPreset E K g.g_presetPath
            (sleep_for E 1500 (SCRSDK.EnumRelease E w1))).2) ∧
        (found ≠ 0 →
          (loadPreset E K g.g_presetPath (sleep_for E 1500 (SCRSDK.EnumRelease E w1))).1 ≠ [] →
          r.2 = (r.1.g_cameras.filter (fun cam => cam.m_connected)).foldl
            (fun wa cam => (applyPreset E cam (loadPreset E K g.g_presetPath
              (sleep_for E 1500 (SCRSDK.EnumRelease E w1))).1 wa).2)
            (loadPreset E K g.g_presetPath (sleep_for E 1500 (SCRSDK.EnumRelease E w1))).2 ∧
          ∃ tr, r.2.log = (loadPreset E K g.g_presetPath
              (sleep_for E 1500 (SCRSDK.EnumRelease E w1))).2.log ++ tr ∧
            (readsOf tr).map (fun x => (x.1, x.2.1)) = presetReads r.1.g_cameras
              (loadPreset E K g.g_presetPath
                (sleep_for E 1500 (SCRSDK.EnumRelease E w1))).1)) ∧
    (∀ r, scanAndConnect E K apple usbReset g w = some r →
      r.1.g_cameras.length = g.g_cameras.length →
      readsOf r.2.log = readsOf w.log ∧ writesOf r.2.log = writesOf w.log ∧
        fileReadsOf r.2.log = fileReadsOf w.log) ∧
    (scanAndConnect (mockEnv twoCameraScript) exampleCodes false false
      { g_cameras := [connectedCam] } iso400Start).map
        (fun r => (readsOf r.2.log).map (fun x => (x.1, x.2.1))) =
      some [(1, [260]), (12, [260])] ∧
    (scanAndConnect (mockEnv twoCameraScript) exampleCodes false false
      { g_cameras := [connectedCam] } iso400Start).map
        (fun r => r.1.g_cameras.map (fun c => (c.m_device_handle, c.m_connected))) =
      some [(1, true), (12, true)] ∧
    (scanAndConnect (mockEnv disconnectedScript) exampleCodes false false
      { g_cameras := [connectedCam] } iso400Start).map (fun r => r.2.log) =
      some [Ev.EnumCameraObjects ⟨0, some [fx30A]⟩, Ev.EnumRelease] := by
  have hstart : Only Ev.isScanCall w (scanStart E apple usbReset g w).2 :=
    only_mono _ _ (by intro ev; cases ev <;> simp [Ev.isScanCall])
      (scanStart_only E apple usbReset g w)
  have hmain : ∀ r infos, scanAndConnect E K apple usbReset g w = some r →
      (scanStart E apple usbReset g w).1.list? = some infos →
      ∃ (found : Nat) (g1 : Globals) (w1 : World σ),
        r = scanEpilogue E K found g1 w1 ∧ g1.g_presetPath = g.g_presetPath ∧
        g.g_cameras <+: g1.g_cameras ∧ g1.g_cameras.length = g.g_cameras.length + found ∧
        Only Ev.isScanCall w w1 := by
    intro r infos hscan hlist
    obtain ⟨g0, l, hg0, hp0, hloop, hr⟩ := scanAndConnect_shape E K apple usbReset g w r
      infos hscan hlist
    obtain ⟨steps, hrec, hcams, hfound, hworld, hpath⟩ := scanLoop_reconciled E apple _ infos
      0 0 g0 _ l hloop
    rw [hg0] at hrec hcams
    obtain ⟨-, honly, -⟩ := reconciled_calls E apple infos steps _ _ hrec
    refine ⟨l.1, l.2.1, l.2.2, hr, hpath.trans hp0, ?_, ?_, ?_⟩
    · rw [hcams]
      exact List.prefix_append _ _
    · rw [hcams, List.length_append, flatMap_stepAdded_length, hfound]
      omega
    · rw [hworld]
      exact only_trans _ hstart honly
  refine ⟨fun r infos hscan hlist => ?_, fun r hscan hlen => ?_, by decide, by decide,
    by decide⟩
  · obtain ⟨found, g1, w1, hr, hpath, hpre, hlen, honly⟩ := hmain r infos hscan hlist
    obtain ⟨hreads, hwrites, hfiles⟩ := scan_calls_silent honly
    obtain ⟨h0, h1, h2⟩ := scanEpilogue_world E K found g1 w1
    have hcams : r.1.g_cameras = g1.g_cameras := by rw [hr, scanEpilogue_cameras]
    rw [hpath] at h1 h2
    refine ⟨found, w1, by rw [hcams]; exact hpre, by rw [hcams]; exact hlen, hreads, hwrites,
      hfiles, fun hf => by rw [hr]; exact h0 hf, fun hf he => by rw [hr]; exact h1 hf he,
      fun hf he => ?_⟩
    have hw := h2 hf he
    rw [← hr] at hw
    rw [hcams]
    refine ⟨hw, ?_⟩
    obtain ⟨tr, hl, hrd⟩ := applyPreset_fold_reads E
      (loadPreset E K g.g_presetPath (sleep_for E 1500 (SCRSDK.EnumRelease E w1))).1
      (g1.g_cameras.filter (fun cam => cam.m_connected))
      (loadPreset E K g.g_presetPath (sleep_for E 1500 (SCRSDK.EnumRelease E w1))).2
      (fun cam hc => by simpa using (List.mem_filter.mp hc).2)
    exact ⟨tr, by rw [hw]; exact hl, hrd⟩
  · cases hlist : (scanStart E apple usbReset g w).1.list? with
    | none =>
      have hw : r.2 = (scanStart E apple usbReset g w).2 := by
        unfold scanStart at hlist ⊢
        unfold scanAndConnect at hscan
        generalize scanPrologue E apple usbReset g w = p0 at hscan hlist ⊢
        obtain ⟨g0, w0⟩ := p0
        simp only [] at hscan hlist ⊢
        rw [hlist] at hscan
        simp only [Option.some.injEq] at hscan
        rw [← hscan]
      rw [hw]
      exact scan_calls_silent hstart
    | some infos =>
      obtain ⟨found, g1, w1, hr, -, -, hlen1, honly⟩ := hmain r infos hscan hlist
      have hcams : r.1.g_cameras = g1.g_cameras := by rw [hr, scanEpilogue_cameras]
      have hf : found = 0 := by
        rw [hcams] at hlen
        omega
      have hw : r.2 = SCRSDK.EnumRelease E w1 := by
        rw [hr]
        exact (scanEpilogue_world E K found g1 w1).1 hf
      rw [hw]
      exact scan_calls_silent (only_trans _ honly (only_step _ _ _ _ rfl))

theorem connectedIds_append (a b : List CameraDevice) :
    connectedIds (a ++ b) = connectedIds a ++ connectedIds b := by
  simp [connectedIds, List.filter_append]

theorem mem_connectedIds (cams : List CameraDevice) (id : String) :
    id ∈ connectedIds cams ↔ ∃ cam ∈ cams, cam.m_connected = true ∧ cam.m_modelId = id := by
  simp [connectedIds, List.mem_filter, and_assoc]

/-- The steps of a reconciled scan keep the identities of the connected handles of the
registry pairwise distinct. -/
theorem reconciled_distinct (E : Env σ) (apple : Bool) :
    ∀ (infos : List ObjInfo) (steps : List (Option (Bool × CameraDevice × World σ)))
      (cams : List CameraDevice) (w : World σ),
      reconciled E apple cams w infos steps → (connectedIds cams).Nodup →
      (connectedIds (cams ++ steps.flatMap stepAdded)).Nodup := by
  intro infos
  induction infos with
  | nil =>
    intro steps cams w h hnd
    cases steps with
    | nil => simpa using hnd
    | cons st rest => simp [reconciled] at h
  | cons info rest ih =>
    intro steps cams w h hnd
    cases steps with
    | nil => simp [reconciled] at h
    | cons st more =>
      obtain ⟨hiff, hcall, hrest⟩ := h
      have hstep : (connectedIds (cams ++ stepAdded st)).Nodup := by
        rcases st with _ | ⟨ok, cam, w1⟩
        · simpa [stepAdded] using hnd
        · cases ok with
          | false => simpa [stepAdded] using hnd
          | true =>
            have hto : toConnect cams info := hiff.mp rfl
            obtain ⟨-, -, -, -, -, -, -, hid⟩ :=
              connect_calls E apple info {} w _ (hcall _ rfl)
            simp only at hid
            rw [connectedIds_append]
            by_cases hc : cam.m_connected = true
            · have hone : connectedIds (stepAdded (some (true, cam, w1))) =
                  [getModelId info] := by
                simp [stepAdded, connectedIds, hc, hid]
              rw [hone]
              apply List.Nodup.append hnd (List.nodup_singleton _)
              intro id h1 h2
              rw [List.mem_singleton] at h2
              subst h2
              obtain ⟨c, hcm, hcc, hcid⟩ := (mem_connectedIds cams _).mp h1
              exact hto.2 c hcm hcc hcid
            · have hnone : connectedIds (stepAdded (some (true, cam, w1))) = [] := by
                simp [stepAdded, connectedIds, hc]
              rw [hnone, List.append_nil]
              exact hnd
      have := ih more _ _ hrest hstep
      simpa [List.append_assoc] using this

/-- The steps of a reconciled scan append a handle with the identity of every enumerated
FX30 camera whose `connect` returns true and whose identity is not that of a connected handle
of the registry before the steps. -/
theorem reconciled_appends (E : Env σ) (apple : Bool) (info : ObjInfo)
    (hfx : isFX30Camera info = true)
    (hsucc : ∀ w' r', CameraDevice.connect E apple info 3 {} w' = some r' → r'.1 = true) :
    ∀ (infos : List ObjInfo) (steps : List (Option (Bool × CameraDevice × World σ)))
      (cams : List CameraDevice) (w : World σ),
      reconciled E apple cams w infos steps → info ∈ infos →
      getModelId info ∉ connectedIds cams →
      ∃ cam ∈ steps.flatMap stepAdded, cam.m_modelId = getModelId info := by
  intro infos
  induction infos with
  | nil => intro steps cams w _ hmem; simp at hmem
  | cons d rest ih =>
    intro steps cams w h hmem hnot
    cases steps with
    | nil => simp [reconciled] at h
    | cons st more =>
      obtain ⟨hiff, hcall, hrest⟩ := h
      by_cases hd : d = info
      · subst hd
        rcases st with _ | r
        · exfalso
          have hno : ¬ toConnect cams d := by
            intro hto
            have := hiff.mpr hto
            simp at this
          apply hno
          refine ⟨((toConnect_iff [] d).mpr ⟨hfx, by simp [alreadyConnected]⟩).1, ?_⟩
          intro c hc hcc hcid
          exact hnot ((mem_connectedIds cams _).mpr ⟨c, hc, hcc, hcid⟩)
        · have htrue := hsucc w r (hcall r rfl)
          obtain ⟨-, -, -, -, -, -, -, hid⟩ := connect_calls E apple d {} w r (hcall r rfl)
          obtain ⟨ok, cam, w1⟩ := r
          simp only at htrue hid
          subst htrue
          exact ⟨cam, by simp [stepAdded], hid⟩
      · have hin : info ∈ rest := by
          rcases List.mem_cons.mp hmem with h1 | h1
          · exact (hd h1.symm).elim
          · exact h1
        by_cases hnow : getModelId info ∈ connectedIds (cams ++ stepAdded st)
        · rw [connectedIds_append, List.mem_append] at hnow
          rcases hnow with h1 | h1
          · exact (hnot h1).elim
          · obtain ⟨c, hc, -, hcid⟩ := (mem_connectedIds _ _).mp h1
            exact ⟨c, by simp [hc], hcid⟩
        · obtain ⟨c, hc, hcid⟩ := ih more _ _ hrest hin hnow
          exact ⟨c, by rw [List.flatMap_cons]; exact List.mem_append_right _ hc, hcid⟩

/-- C27. Stale entries are duplicated, not replaced.  When the registry holds a handle that
is not connected, the enumeration gives an FX30 camera with the identity of that handle whose
`connect` returns true, and no connected handle of the registry has that identity, then
`scanAndConnect` appends a handle with that identity and keeps the stale one where it was,
so that the registry holds two entries with that identity.  What it preserves: when the
identities of the connected handles of the registry are pairwise distinct before, they are so
after (whether or not the enumerated identities are pairwise distinct).  In the scripted
world with two cameras and the stale handle 2 of the second one in the registry, the
registry after the scan holds the stale handle and the new handle 12 under one identity. -/
theorem stale_duplicated (E : Env σ) (K : SdkCodes) (apple usbReset : Bool) (g : Globals)
    (w : World σ) :
    (∀ r infos info stale, scanAndConnect E K apple usbReset g w = some r →
      (scanStart E apple usbReset g w).1.list? = some infos →
      info ∈ infos → isFX30Camera info = true →
      stale ∈ g.g_cameras → stale.m_connected = false → stale.m_modelId = getModelId info →
      getModelId info ∉ connectedIds g.g_cameras →
      (∀ w' r', CameraDevice.connect E apple info 3 {} w' = some r' → r'.1 = true) →
      ∃ added cam, r.1.g_cameras = g.g_cameras ++ added ∧ cam ∈ added ∧
        cam.m_modelId = stale.m_modelId ∧ stale ∈ r.1.g_cameras ∧
        2 ≤ r.1.g_cameras.countP (fun c => c.m_modelId = stale.m_modelId)) ∧
    (∀ r, scanAndConnect E K apple usbReset g w = some r →
      (connectedIds g.g_cameras).Nodup → (connectedIds r.1.g_cameras).Nodup) ∧
    (scanAndConnect (mockEnv twoCameraScript) exampleCodes false false
      { g_cameras := [lostCam] } mockStart).map
        (fun r => r.1.g_cameras.map
          (fun c => (c.m_modelId, c.m_device_handle, c.m_connected))) =
      some [("ILME-FX30 (B)", 2, false), ("ILME-FX30 (A)", 11, true),
        ("ILME-FX30 (B)", 12, true)] := by
  have hmain : ∀ r infos, scanAndConnect E K apple usbReset g w = some r →
      (scanStart E apple usbReset g w).1.list? = some infos →
      ∃ steps, reconciled E apple g.g_cameras (scanStart E apple usbReset g w).2 infos steps ∧
        r.1.g_cameras = g.g_cameras ++ steps.flatMap stepAdded := by
    intro r infos hscan hlist
    obtain ⟨g0, l, hg0, -, hloop, hr⟩ := scanAndConnect_shape E K apple usbReset g w r infos
      hscan hlist
    obtain ⟨steps, hrec, hcams, -, -, -⟩ := scanLoop_reconciled E apple _ infos 0 0 g0 _ l
      hloop
    rw [hg0] at hrec hcams
    exact ⟨steps, hrec, by rw [hr, scanEpilogue_cameras, hcams]⟩
  refine ⟨?_, ?_, by decide⟩
  · intro r infos info stale hscan hlist hin hfx hstale hsc hsid hnot hsucc
    obtain ⟨steps, hrec, hreg⟩ := hmain r infos hscan hlist
    obtain ⟨cam, hcam, hcid⟩ := reconciled_appends E apple info hfx hsucc infos steps _ _ hrec
      hin hnot
    refine ⟨steps.flatMap stepAdded, cam, hreg, hcam, hcid.trans hsid.symm, ?_, ?_⟩
    · rw [hreg]
      exact List.mem_append_left _ hstale
    · rw [hreg, List.countP_append]
      have h1 : 0 < g.g_cameras.countP (fun c => c.m_modelId = stale.m_modelId) :=
        List.countP_pos_iff.mpr ⟨stale, hstale, by simp⟩
      have h2 : 0 < (steps.flatMap stepAdded).countP
          (fun c => c.m_modelId = stale.m_modelId) :=
        List.countP_pos_iff.mpr ⟨cam, hcam, by simp [hcid, hsid]⟩
      omega
  · intro r hscan hnd
    cases hlist : (scanStart E apple usbReset g w).1.list? with
    | none =>
      have hcams : r.1.g_cameras = g.g_cameras := by
        have hpro := (scanPrologue_spec E apple usbReset g w).1
        unfold scanStart at hlist
        unfold scanAndConnect at hscan
        generalize scanPrologue E apple usbReset g w = p0 at hscan hlist hpro
        obtain ⟨g0, w0⟩ := p0
        simp only [] at hscan hlist hpro
        rw [hlist] at hscan
        simp only [Option.some.injEq] at hscan
        subst hscan
        exact hpro
      rw [hcams]
      exact hnd
    | some infos =>
      obtain ⟨steps, hrec, hreg⟩ := hmain r infos hscan hlist
      rw [hreg]
      exact reconciled_distinct E apple infos steps _ _ hrec hnd

end Proofs

end FX30
